import Mathlib

/-!
# CURRENNT data set: ingestion, reordering, the fraction builder and the request protocol

A shallow embedding of `currennt_lib/src/data_sets/DataSet.cpp`.

Conventions of the embedding.

* A C++ `int` is a Lean `Int`; arithmetic is exact (the development assumes that no
  32-bit overflow occurs), with one exception: on a window without descriptors the sizes
  of the buffers do overflow, and the section on the fraction builder with 32-bit sizes
  computes them as `int`s that wrap around (`wrapInt`).  The comparison
  `seqLength > 1.5 * truncSeqLength` between an `int` and a `double` is the integer
  comparison `2 * seqLength > 3 * truncSeqLength`.
* A `real_t` is an exact number.  The code below only copies such values, adds a noise
  draw to them, or stores the literals `0` and `1.0f`.
* A vector is a `List`, indexed by `Int` through `readAt` / `writeAt`.  An access outside
  the vector is undefined behaviour in the source; here such a read gives the default
  value and such a write is dropped.  `cellAt` is the checked read.
* `for (int j = 0; j < n; ++j)` is `forLoop n`; a `while` loop carries fuel.
* A `resize` to a negative size makes the source throw; `resize` returns `none` there,
  and so does the builder.
* Helpers and constants that live in headers outside this file are parameters, collected
  in `Externals`.
* The function-static random generators are explicit states (`RandGen`, `NoiseGen`) that
  the functions using them take and return.
* The worker thread is sequentialised: a pass of `_nextFracThreadFn` is a function on
  the state, and a caller that waits for `finished` runs that pass.  A call that throws
  or never returns yields `none`.
* The ingestion steps return `Except String`, the error being the message of the
  exception; the cache file under construction is the list of the bytes written so far.
* The constructor reads the NetCDF files and the side files from a `Disk`, and records
  the calls that reach outside the data set (opening the cache file, `nc_open`,
  `nc_close`, a new `thread_data_t`, the start of a thread) in a list of `Event`s, which
  an exception carries along with its message.  The argument `fraction` is an exact
  rational.
-/

namespace Currennt

/-! ## Vectors -/

/-- Numbers of type `real_t`. -/
abbrev real_t := Int

/-- Unchecked read `v[p]`. -/
def readAt {α : Type} [Inhabited α] (v : List α) (p : Int) : α :=
  if 0 ≤ p then v.getD p.toNat default else default

/-- Checked read: `none` outside the vector. -/
def cellAt {α : Type} (v : List α) (p : Int) : Option α :=
  if 0 ≤ p then v[p.toNat]? else none

/-- Assignment `v[p] = x`. -/
def writeAt {α : Type} (v : List α) (p : Int) (x : α) : List α :=
  if 0 ≤ p then v.set p.toNat x else v

/-- The loop `for (int j = 0; j < n; ++j) body`. -/
def forLoop {σ : Type} (n : Int) (body : Int → σ → σ) (s : σ) : σ :=
  (List.range n.toNat).foldl (fun (st : σ) (j : Nat) => body (j : Int) st) s

/-- The call `thrust::copy_n(src.begin() + srcStart, n, dst.begin() + tgtStart)`. -/
def copy_n {α : Type} [Inhabited α] (src : List α) (srcStart : Int) (n : Int)
    (dst : List α) (tgtStart : Int) : List α :=
  forLoop n (fun d out => writeAt out (tgtStart + d) (readAt src (srcStart + d))) dst

/-- The call `v.resize(n, fill)`; a negative `n` makes the source throw. -/
def resize {α : Type} (v : List α) (n : Int) (fill : α) : Option (List α) :=
  if n < 0 then none
  else some (v.take n.toNat ++ List.replicate (n.toNat - v.length) fill)

/-- The constant `std::numeric_limits<int>::min()`. -/
def INT_MIN : Int := -2147483648

/-- The constant `std::numeric_limits<int>::max()`. -/
def INT_MAX : Int := 2147483647

/-! ## Data model -/

/-- Modelled from the spec: the pattern-type tags `PATTYPE_NONE`, `PATTYPE_FIRST`,
`PATTYPE_NORMAL`, `PATTYPE_LAST` are declared in a header that is not part of this file;
the spec lists them as the four distinct markers first / normal / last / padding. -/
inductive PatType where
  | PATTYPE_NONE
  | PATTYPE_FIRST
  | PATTYPE_NORMAL
  | PATTYPE_LAST
  deriving DecidableEq

open PatType

instance : Inhabited PatType := ⟨PATTYPE_NONE⟩

/-- The record `sequence_t`: one chunk of an utterance. -/
structure sequence_t where
  originalSeqIdx : Int := 0
  length : Int := 0
  seqTag : String := ""
  beginInUtt : Int := 0
  inputsBegin : Int := 0
  targetsBegin : Int := 0
  auxDataBegin : Int := 0
  auxDataDim : Int := 0
  auxDataTyp : Int := 0
  exInputBegin : Int := 0
  exInputLength : Int := 0
  exInputDim : Int := 0
  exInputStartPos : Int := 0
  exInputEndPos : Int := 0
  exOutputBegin : Int := 0
  exOutputLength : Int := 0
  exOutputDim : Int := 0
  exOutputStartPos : Int := 0
  exOutputEndPos : Int := 0
  deriving DecidableEq

instance : Inhabited sequence_t := ⟨{}⟩

/-- The record `DataSetFraction::seq_info_t`. -/
structure seq_info_t where
  originalSeqIdx : Int := 0
  length : Int := 0
  seqTag : String := ""
  exInputLength : Int := 0
  exOutputLength : Int := 0
  deriving DecidableEq

/-- The record `DataSetFraction::reso_info`. -/
structure reso_info where
  resolution : Int := 0
  bufferPos : Int := 0
  length : Int := 0
  deriving DecidableEq

instance : Inhabited reso_info := ⟨{}⟩

/-- The class `DataSetFraction`.  The defaults are the state of a freshly constructed
fraction: empty vectors, and 0 for the scalar members the builder does not set. -/
structure DataSetFraction where
  m_inputPatternSize : Int := 0
  m_outputPatternSize : Int := 0
  m_maxSeqLength : Int := 0
  m_minSeqLength : Int := 0
  m_exInputDim : Int := 0
  m_exOutputDim : Int := 0
  m_maxExInputLength : Int := 0
  m_minExInputLength : Int := 0
  m_maxExOutputLength : Int := 0
  m_minExOutputLength : Int := 0
  m_fracTotalLength : Int := 0
  m_auxDataDim : Int := 0
  m_seqInfo : List seq_info_t := []
  m_inputs : List real_t := []
  m_outputs : List real_t := []
  m_targetClasses : List Int := []
  m_patTypes : List PatType := []
  m_exInputData : List real_t := []
  m_exOutputData : List real_t := []
  m_resolutionBuffer : List reso_info := []
  m_patTypesLowTimeRes : List PatType := []
  m_auxPattypeData : List Int := []
  m_auxRealData : List real_t := []
  m_auxIntData : List Int := []
  deriving DecidableEq

/-- The cache file as the loaders see it: `reals off j` is element `j` of the `real_t`
block that starts at byte offset `off`, and likewise for `int` and `char` blocks. -/
structure CacheFile where
  reals : Int → Nat → real_t := fun _ _ => 0
  ints : Int → Nat → Int := fun _ _ => 0
  chars : Int → Nat → Int := fun _ _ => 0

/-- The static random generator of `_addNoise`: the draws `dist(*gen)` yields, in order,
and how many of them have been consumed. -/
structure NoiseGen where
  draws : Nat → real_t := fun _ => 0
  pos : Nat := 0

/-- What `thread_data_t::taskFn` is bound to: `_makeFirstFractionTask` or
`_makeFractionTask` with its start index. -/
inductive BoundTask where
  | makeFirstFractionTask
  | makeFractionTask (firstSeqIdx : Int)
  deriving DecidableEq

/-- The record `thread_data_t` without the thread handle, the mutex and the condition
variable.  An empty `taskFn` and a null `frac` are `none`. -/
structure thread_data_t where
  terminate : Bool := false
  taskFn : Option BoundTask := none
  frac : Option DataSetFraction := none
  finished : Bool := false

/-- The members of `DataSet` the modelled functions use. -/
structure DataSet where
  m_fractionShuffling : Bool := false
  m_sequenceShuffling : Bool := false
  m_isClassificationData : Bool := false
  m_noiseDeviation : real_t := 0
  m_parallelSequences : Int := 0
  m_totalSequences : Int := 0
  m_totalTimesteps : Int := 0
  m_minSeqLength : Int := 0
  m_maxSeqLength : Int := 0
  m_inputPatternSize : Int := 0
  m_outputPatternSize : Int := 0
  m_curFirstSeqIdx : Int := -1
  m_exInputFlag : Bool := false
  m_exOutputFlag : Bool := false
  m_exInputDim : Int := 0
  m_exInputDims : List Int := []
  m_exOutputDims : List Int := []
  m_auxDirPath : String := ""
  m_auxDataDim : Int := 0
  m_auxDataTyp : Int := 0
  m_sequences : List sequence_t := []
  m_cacheFile : CacheFile := {}
  m_threadData : thread_data_t := {}
  m_auxFileExt : String := ""
  m_exInputType : Int := 0
  m_exOutputType : Int := 0
  m_exInputDir : String := ""
  m_exInputExt : String := ""
  m_exInputDirs : List String := []
  m_exInputExts : List String := []
  m_exOutputDirs : List String := []
  m_exOutputExts : List String := []

/-- The values `Configuration::instance()` hands to the modelled functions. -/
structure Configuration where
  inputLeftContext : Int := 0
  inputRightContext : Int := 0
  outputTimeLag : Int := 0
  resolutions : String := ""
  trainingMode : Bool := false
  exInputDim : Int := 0
  exInputDims : String := ""
  auxillaryDataDir : String := ""
  auxillaryDataExt : String := ""
  auxillaryDataDim : Int := 0
  auxillaryDataTyp : Int := 0
  exInputDir : String := ""
  exInputExt : String := ""
  exInputDirs : String := ""
  exInputExts : String := ""
  exOutputDirs : String := ""
  exOutputExts : String := ""
  exOutputDims : String := ""

/-- Helpers of `misFuncs` and the `AUXDATATYPE_*` constants: declared outside this file,
hence parameters of the embedding. -/
structure Externals where
  ParseIntOpt : String → List Int
  ParseStrOpt : String → String → List String
  getResoLength : Int → Int → Int
  SumCpuIntVec : List Int → Int
  AUXDATATYPE_CHAR : Int
  AUXDATATYPE_INT : Int
  AUXDATATYPE_FLOAT : Int

/-! ## Ingestion: the splitting loop of the constructor -/

/-- The length the loop gives the next chunk when `seqLength` time steps remain. -/
def chunkLength (truncSeqLength seqLength : Int) : Int :=
  if truncSeqLength > 0 ∧ 2 * seqLength > 3 * truncSeqLength then
    min truncSeqLength seqLength
  else
    seqLength

/-- The loop `while (seqLength > 0) { ... }` of the constructor.  The state is the list
`sequences`, `seqLength`, `k` and `rePosInUtt`; `none` when the fuel runs out.  The
members of `seq` the loop does not set are filled in later by the constructor and are left
at their defaults here. -/
def splitLoop (truncSeqLength : Int) (seqTag : String) :
    Nat → List sequence_t → Int → Int → Int → Option (List sequence_t)
  | 0, sequences, seqLength, _, _ => if seqLength > 0 then none else some sequences
  | fuel + 1, sequences, seqLength, k, rePosInUtt =>
    if seqLength > 0 then
      let seq : sequence_t :=
        { originalSeqIdx := k
          length := chunkLength truncSeqLength seqLength
          seqTag := seqTag
          beginInUtt := rePosInUtt }
      splitLoop truncSeqLength seqTag fuel (sequences ++ [seq])
        (seqLength - seq.length) (k + 1) (rePosInUtt + seq.length)
    else
      some sequences

/-- One pass of the body of `for (int i = 0; i < nSeq; ++i)`: the chunks appended for an
utterance of length `seqLength` with tag `seqTag`. -/
def splitUtterance (truncSeqLength : Int) (seqTag : String) (seqLength : Int)
    (sequences : List sequence_t) : Option (List sequence_t) :=
  splitLoop truncSeqLength seqTag seqLength.toNat sequences seqLength 0 0

/-- The loop `for (int i = 0; i < nSeq; ++i)` over the utterances `(seqLength, seqTag)`
read from the file; it also accumulates `m_totalTimesteps`. -/
def readSequences (truncSeqLength : Int) :
    List (Int × String) → List sequence_t × Int → Option (List sequence_t × Int)
  | [], st => some st
  | (seqLength, seqTag) :: rest, (sequences, totalTimesteps) =>
    match splitUtterance truncSeqLength seqTag seqLength sequences with
    | none => none
    | some sequences1 =>
      readSequences truncSeqLength rest (sequences1, totalTimesteps + seqLength)

/-- The chunks the `while` loop appends when it starts with `seqLength` remaining time
steps, chunk counter `k` and offset `rePosInUtt`: one constructor per way through the
loop test. -/
inductive Chunks (truncSeqLength : Int) (seqTag : String) :
    Int → Int → Int → List sequence_t → Prop where
  | done (seqLength k rePosInUtt : Int) (h : ¬ seqLength > 0) :
      Chunks truncSeqLength seqTag seqLength k rePosInUtt []
  | step (seqLength k rePosInUtt : Int) (rest : List sequence_t) (h : seqLength > 0)
      (hrest : Chunks truncSeqLength seqTag
        (seqLength - chunkLength truncSeqLength seqLength) (k + 1)
        (rePosInUtt + chunkLength truncSeqLength seqLength) rest) :
      Chunks truncSeqLength seqTag seqLength k rePosInUtt
        ({ originalSeqIdx := k
           length := chunkLength truncSeqLength seqLength
           seqTag := seqTag
           beginInUtt := rePosInUtt } :: rest)

/-- The sum of the `length` members of a list of descriptors. -/
def totalLength (l : List sequence_t) : Int := (l.map (fun s => s.length)).sum

/-! ## The cache loaders -/

/-- The number of elements a vector constructed with size `n` holds.  The loaders size
their vectors by products of lengths and pattern sizes, which are not negative for the
descriptors ingestion produces; a negative `n` is read as 0. -/
def vecSize (n : Int) : Nat := n.toNat

/-- The function `DataSet::_loadInputsFromCache`. -/
def _loadInputsFromCache (ds : DataSet) (seq : sequence_t) : List real_t :=
  (List.range (vecSize (seq.length * ds.m_inputPatternSize))).map
    (ds.m_cacheFile.reals seq.inputsBegin)

/-- The function `DataSet::_loadOutputsFromCache`. -/
def _loadOutputsFromCache (ds : DataSet) (seq : sequence_t) : List real_t :=
  (List.range (vecSize (seq.length * ds.m_outputPatternSize))).map
    (ds.m_cacheFile.reals seq.targetsBegin)

/-- The function `DataSet::_loadExInputsFromCache`. -/
def _loadExInputsFromCache (ds : DataSet) (seq : sequence_t) : List real_t :=
  (List.range (vecSize (seq.exInputLength * seq.exInputDim))).map
    (ds.m_cacheFile.reals seq.exInputBegin)

/-- The function `DataSet::_loadExOutputsFromCache`. -/
def _loadExOutputsFromCache (ds : DataSet) (seq : sequence_t) : List real_t :=
  (List.range (vecSize (seq.exOutputLength * seq.exOutputDim))).map
    (ds.m_cacheFile.reals seq.exOutputBegin)

/-- The function `DataSet::_loadTargetClassesFromCache`. -/
def _loadTargetClassesFromCache (ds : DataSet) (seq : sequence_t) : List Int :=
  (List.range (vecSize seq.length)).map (ds.m_cacheFile.ints seq.targetsBegin)

/-- The function `DataSet::_loadAuxRealDataFromCache`. -/
def _loadAuxRealDataFromCache (ds : DataSet) (seq : sequence_t) : List real_t :=
  (List.range (vecSize (seq.length * ds.m_auxDataDim))).map
    (ds.m_cacheFile.reals seq.auxDataBegin)

/-- The function `DataSet::_loadAuxPattypeDataFromCache`. -/
def _loadAuxPattypeDataFromCache (ds : DataSet) (seq : sequence_t) : List Int :=
  (List.range (vecSize (seq.length * ds.m_auxDataDim))).map
    (ds.m_cacheFile.chars seq.auxDataBegin)

/-- The function `DataSet::_loadAuxIntDataFromCache`. -/
def _loadAuxIntDataFromCache (ds : DataSet) (seq : sequence_t) : List Int :=
  (List.range (vecSize (seq.length * ds.m_auxDataDim))).map
    (ds.m_cacheFile.ints seq.auxDataBegin)

/-- The function `DataSet::_addNoise`: nothing happens when the deviation is zero,
otherwise element `i` receives the next draw of the generator. -/
def _addNoise (ds : DataSet) (v : List real_t) (gen : NoiseGen) : List real_t × NoiseGen :=
  if ds.m_noiseDeviation = 0 then (v, gen)
  else (v.mapIdx (fun i x => x + gen.draws (gen.pos + i)),
        { gen with pos := gen.pos + v.length })

/-! ## The fraction builder `DataSet::_makeFractionTask` -/

/-- The fraction after its scalar members are set, before the window is scanned. -/
def fracHeader (ds : DataSet) (ext : Externals) (cfg : Configuration) : DataSetFraction :=
  let context_length := cfg.inputLeftContext + cfg.inputRightContext + 1
  { m_inputPatternSize := ds.m_inputPatternSize * context_length
    m_outputPatternSize := ds.m_outputPatternSize
    m_maxSeqLength := INT_MIN
    m_minSeqLength := INT_MAX
    m_exInputDim :=
      if ds.m_exInputFlag then
        (if ds.m_exInputDims.length ≠ 0 then ext.SumCpuIntVec ds.m_exInputDims
         else ds.m_exInputDim)
      else 0
    m_exOutputDim := if ds.m_exOutputFlag then ext.SumCpuIntVec ds.m_exOutputDims else 0
    m_maxExInputLength := INT_MIN
    m_minExInputLength := INT_MAX
    m_maxExOutputLength := INT_MIN
    m_minExOutputLength := INT_MAX }

/-- The body of the loop that fills the fraction's sequence info. -/
def seqInfoStep (ds : DataSet) (seqIdx : Int) (frac : DataSetFraction) : DataSetFraction :=
  if seqIdx < (ds.m_sequences.length : Int) then
    let s := readAt ds.m_sequences seqIdx
    { frac with
      m_maxSeqLength := max frac.m_maxSeqLength s.length
      m_minSeqLength := min frac.m_minSeqLength s.length
      m_maxExInputLength := max frac.m_maxExInputLength s.exInputLength
      m_minExInputLength := min frac.m_minExInputLength s.exInputLength
      m_maxExOutputLength := max frac.m_maxExOutputLength s.exOutputLength
      m_minExOutputLength := min frac.m_minExOutputLength s.exOutputLength
      m_seqInfo := frac.m_seqInfo ++
        [{ originalSeqIdx := s.originalSeqIdx
           length := s.length
           seqTag := s.seqTag
           exInputLength := s.exInputLength
           exOutputLength := s.exOutputLength }] }
  else frac

/-- The loop `for (seqIdx = firstSeqIdx; seqIdx < firstSeqIdx + m_parallelSequences; ..)`. -/
def fillSeqInfo (ds : DataSet) (firstSeqIdx : Int) (frac : DataSetFraction) :
    DataSetFraction :=
  forLoop ds.m_parallelSequences (fun j fr => seqInfoStep ds (firstSeqIdx + j) fr) frac

/-- The loop that prepares the resolution information buffer; the second component is
`patTypesResoLength`. -/
def prepareResolutions (ext : Externals) (resolutionBuf : List Int)
    (frac : DataSetFraction) : DataSetFraction × Int :=
  resolutionBuf.foldl
    (fun st r =>
      let tempResoBuf : reso_info :=
        { resolution := r
          bufferPos := st.2
          length := ext.getResoLength (st.1.m_patTypes.length : Int) r }
      ({ st.1 with m_resolutionBuffer := st.1.m_resolutionBuffer ++ [tempResoBuf] },
        st.2 + tempResoBuf.length))
    (frac, 0)

/-- The allocations of the auxiliary buffers. -/
def allocAux (ds : DataSet) (ext : Externals) (frac : DataSetFraction) :
    Option DataSetFraction :=
  if ds.m_auxDirPath.length > 0 then
    let n := frac.m_maxSeqLength * ds.m_auxDataDim * ds.m_parallelSequences
    if ds.m_auxDataTyp = ext.AUXDATATYPE_CHAR then
      (resize frac.m_auxPattypeData n 0).bind fun b =>
      some { frac with m_auxPattypeData := b, m_auxRealData := [], m_auxIntData := [],
                       m_auxDataDim := ds.m_auxDataDim }
    else if ds.m_auxDataTyp = ext.AUXDATATYPE_INT then
      (resize frac.m_auxIntData n 0).bind fun b =>
      some { frac with m_auxPattypeData := [], m_auxRealData := [], m_auxIntData := b,
                       m_auxDataDim := ds.m_auxDataDim }
    else if ds.m_auxDataTyp = ext.AUXDATATYPE_FLOAT then
      (resize frac.m_auxRealData n 0).bind fun b =>
      some { frac with m_auxPattypeData := [], m_auxRealData := b, m_auxIntData := [],
                       m_auxDataDim := ds.m_auxDataDim }
    else
      some { frac with m_auxDataDim := ds.m_auxDataDim }
  else
    some { frac with m_auxPattypeData := [], m_auxRealData := [], m_auxIntData := [],
                     m_auxDataDim := -1 }

/-- The allocations of `m_inputs` and `m_patTypes`, and the reset of the running total
of non-padding cells.  The sizes are the exact products, which are those of the source
as long as they are `int`s; `allocMain32` computes them as 32-bit `int`s. -/
def allocMain (ds : DataSet) (frac : DataSetFraction) : Option DataSetFraction :=
  (resize frac.m_inputs
    (frac.m_maxSeqLength * ds.m_parallelSequences * frac.m_inputPatternSize) 0).bind
  fun inputs =>
  (resize frac.m_patTypes (frac.m_maxSeqLength * ds.m_parallelSequences) PATTYPE_NONE).bind
  fun patTypes =>
  some { frac with m_inputs := inputs, m_patTypes := patTypes, m_fracTotalLength := 0 }

/-- The allocations of the external input and output buffers. -/
def allocExternal (ds : DataSet) (frac : DataSetFraction) : Option DataSetFraction :=
  (if ds.m_exInputFlag then
    resize frac.m_exInputData
      (frac.m_maxExInputLength * ds.m_parallelSequences * frac.m_exInputDim) 0
   else some []).bind
  fun exIn =>
  (if ds.m_exOutputFlag then
    resize frac.m_exOutputData
      (frac.m_maxExOutputLength * ds.m_parallelSequences * frac.m_exOutputDim) 0
   else some []).bind
  fun exOut =>
  some { frac with m_exInputData := exIn, m_exOutputData := exOut }

/-- The block `// prepare the resolution information buffer` with the allocation of
`m_patTypesLowTimeRes`. -/
def allocResolutions (ext : Externals) (resolutionBuf : List Int) (frac : DataSetFraction) :
    Option DataSetFraction :=
  let reso := prepareResolutions ext resolutionBuf frac
  (resize reso.1.m_patTypesLowTimeRes reso.2 PATTYPE_NONE).bind
  fun lowRes =>
  some { reso.1 with m_patTypesLowTimeRes := lowRes }

/-- The allocation of the target buffer: classes (filled with -1) or outputs. -/
def allocTargets (ds : DataSet) (frac : DataSetFraction) : Option DataSetFraction :=
  if ds.m_isClassificationData then
    (resize frac.m_targetClasses (frac.m_maxSeqLength * ds.m_parallelSequences) (-1)).bind
    fun tc => some { frac with m_targetClasses := tc }
  else
    (resize frac.m_outputs
      (frac.m_maxSeqLength * ds.m_parallelSequences * ds.m_outputPatternSize) 0).bind
    fun out => some { frac with m_outputs := out }

/-- The block `// allocate memory for the fraction`, in the order of the source. -/
def allocFraction (ds : DataSet) (ext : Externals) (resolutionBuf : List Int)
    (frac0 : DataSetFraction) : Option DataSetFraction :=
  (allocMain ds frac0).bind fun frac1 =>
  (allocExternal ds frac1).bind fun frac2 =>
  (allocResolutions ext resolutionBuf frac2).bind fun frac3 =>
  (allocAux ds ext frac3).bind fun frac4 =>
  allocTargets ds frac4

/-- The source offset the context loop computes for time step `timestep` and context
position `offset_out`. -/
def contextSrcStart (ds : DataSet) (cfg : Configuration) (seq : sequence_t)
    (timestep offset_out : Int) : Int :=
  let srcStart0 := ds.m_inputPatternSize * (timestep + (offset_out - cfg.inputLeftContext))
  if srcStart0 < 0 then 0
  else if srcStart0 > ds.m_inputPatternSize * (seq.length - 1) then
    ds.m_inputPatternSize * (seq.length - 1)
  else srcStart0

/-- The loop over the context offsets of one time step. -/
def expandStep (ds : DataSet) (cfg : Configuration) (ips : Int) (i : Int)
    (seq : sequence_t) (inputs : List real_t) (timestep : Int) (buf : List real_t) :
    List real_t :=
  forLoop (cfg.inputRightContext + cfg.inputLeftContext + 1) (fun offset_out buf2 =>
    copy_n inputs (contextSrcStart ds cfg seq timestep offset_out) ds.m_inputPatternSize buf2
      (ips * (timestep * ds.m_parallelSequences + i) + offset_out * ds.m_inputPatternSize))
    buf

/-- The context-expansion loops of slot `i` on the input buffer: for every time step
and every context offset one base pattern of `inputs` is copied to its place.
`ips` is `frac->m_inputPatternSize`. -/
def expandContext (ds : DataSet) (cfg : Configuration) (ips : Int) (i : Int)
    (seq : sequence_t) (inputs : List real_t) (buf : List real_t) : List real_t :=
  forLoop seq.length (expandStep ds cfg ips i seq inputs) buf

/-- The loops under `// load inputs data`, after the load and the noise. -/
def fillInputs (ds : DataSet) (cfg : Configuration) (i : Int) (seq : sequence_t)
    (inputs : List real_t) (frac : DataSetFraction) : DataSetFraction :=
  { frac with
    m_inputs := expandContext ds cfg frac.m_inputPatternSize i seq inputs frac.m_inputs }

/-- The loop under `// target classes` on the class buffer. -/
def shiftTargetClasses (ds : DataSet) (cfg : Configuration) (i : Int) (seq : sequence_t)
    (targetClasses : List Int) (buf : List Int) : List Int :=
  let output_lag := cfg.outputTimeLag
  forLoop seq.length (fun timestep out =>
    let tgt : Int :=
      if timestep ≥ output_lag then readAt targetClasses (timestep - output_lag) else 0
    writeAt out (timestep * ds.m_parallelSequences + i) tgt) buf

/-- The branch `// target classes` of the slot loop. -/
def fillTargetClasses (ds : DataSet) (cfg : Configuration) (i : Int) (seq : sequence_t)
    (targetClasses : List Int) (frac : DataSetFraction) : DataSetFraction :=
  { frac with
    m_targetClasses := shiftTargetClasses ds cfg i seq targetClasses frac.m_targetClasses }

/-- The lag-shifted copy that the `// outputs` branch and the three auxiliary branches
share: per time step a pattern of `dim` values is copied from `src`, shifted by the
output lag, and before the lag every one of the `dim` values is `fill`. -/
def lagShiftCopy {α : Type} [Inhabited α] (ds : DataSet) (cfg : Configuration) (dim : Int)
    (i : Int) (seq : sequence_t) (src : List α) (fill : α) (buf : List α) : List α :=
  let output_lag := cfg.outputTimeLag
  forLoop seq.length (fun timestep out =>
    let tgtStart := dim * (timestep * ds.m_parallelSequences + i)
    if timestep ≥ output_lag then
      let srcStart := dim * (timestep - output_lag)
      copy_n src srcStart dim out tgtStart
    else
      forLoop dim (fun oi o => writeAt o (tgtStart + oi) fill) out) buf

/-- The branch `// outputs` of the slot loop: the default value is `1.0f`. -/
def fillOutputs (ds : DataSet) (cfg : Configuration) (i : Int) (seq : sequence_t)
    (outputs : List real_t) (frac : DataSetFraction) : DataSetFraction :=
  { frac with
    m_outputs := lagShiftCopy ds cfg ds.m_outputPatternSize i seq outputs 1 frac.m_outputs }

/-- The copy loop the external input and the external output branch share: per time
step `dim` values go from `src` to the slot's cell, without lag. -/
def copyExternal (ds : DataSet) (dim : Int) (length : Int) (i : Int) (src : List real_t)
    (buf : List real_t) : List real_t :=
  forLoop length (fun timestep out =>
    let tgtStart := dim * (timestep * ds.m_parallelSequences + i)
    let srcStart := dim * timestep
    copy_n src srcStart dim out tgtStart) buf

/-- The branch `if (m_exInputFlag)` of the slot loop. -/
def fillExInput (ds : DataSet) (i : Int) (seq : sequence_t) (exInput : List real_t)
    (frac : DataSetFraction) : DataSetFraction :=
  { frac with
    m_exInputData :=
      copyExternal ds seq.exInputDim seq.exInputLength i exInput frac.m_exInputData }

/-- The branch `if (m_exOutputFlag)` of the slot loop. -/
def fillExOutput (ds : DataSet) (i : Int) (seq : sequence_t) (exOutput : List real_t)
    (frac : DataSetFraction) : DataSetFraction :=
  { frac with
    m_exOutputData :=
      copyExternal ds seq.exOutputDim seq.exOutputLength i exOutput frac.m_exOutputData }

/-- The block `if (m_auxDirPath.size()>0) { ... }` of the slot loop: the defaults before
the lag are 0 for the char and int variants and `1.0f` for the float variant. -/
def fillAux (ds : DataSet) (ext : Externals) (cfg : Configuration) (i : Int)
    (seq : sequence_t) (frac : DataSetFraction) : DataSetFraction :=
  if ds.m_auxDirPath.length > 0 then
    if ds.m_auxDataTyp = ext.AUXDATATYPE_CHAR then
      { frac with
        m_auxPattypeData :=
          lagShiftCopy ds cfg ds.m_auxDataDim i seq (_loadAuxPattypeDataFromCache ds seq) 0
            frac.m_auxPattypeData }
    else if ds.m_auxDataTyp = ext.AUXDATATYPE_INT then
      { frac with
        m_auxIntData :=
          lagShiftCopy ds cfg ds.m_auxDataDim i seq (_loadAuxIntDataFromCache ds seq) 0
            frac.m_auxIntData }
    else if ds.m_auxDataTyp = ext.AUXDATATYPE_FLOAT then
      { frac with
        m_auxRealData :=
          lagShiftCopy ds cfg ds.m_auxDataDim i seq (_loadAuxRealDataFromCache ds seq) 1
            frac.m_auxRealData }
    else frac
  else frac

/-- The pattern type of time step `timestep` in a sequence of length `length`. -/
def patTypeOf (length timestep : Int) : PatType :=
  if timestep = 0 then PATTYPE_FIRST
  else if timestep = length - 1 then PATTYPE_LAST
  else PATTYPE_NORMAL

/-- The position `dataPos` of the reduced cell that time step `timestep` of slot `i`
contributes to, for the resolution entry `reso`. -/
def resolutionDataPos (ds : DataSet) (i : Int) (timestep : Int) (reso : reso_info) : Int :=
  let dataPos0 := Int.tdiv timestep reso.resolution
  let dataPos1 := dataPos0 * ds.m_parallelSequences + i
  dataPos1 + reso.bufferPos

/-- The merge of a contribution `patType` into a reduced cell that holds `cell`: a cell
that is FIRST stays FIRST. -/
def stickyFirst (patType cell : PatType) : PatType :=
  if cell = PATTYPE_FIRST then PATTYPE_FIRST else patType

/-- One iteration of the loop `// also fill in the resolution buffer`: the contribution
of a time step to the reduced cell of resolution entry `resoIdx`. -/
def resolutionStep (ds : DataSet) (i : Int) (timestep : Int) (patType : PatType)
    (resoIdx : Int) (fr : DataSetFraction) : DataSetFraction :=
  let dataPos := resolutionDataPos ds i timestep (readAt fr.m_resolutionBuffer resoIdx)
  { fr with
    m_patTypesLowTimeRes :=
      writeAt fr.m_patTypesLowTimeRes dataPos
        (stickyFirst patType (readAt fr.m_patTypesLowTimeRes dataPos)) }

/-- The inner loop `// also fill in the resolution buffer` for one time step. -/
def fillResolution (ds : DataSet) (i : Int) (timestep : Int) (patType : PatType)
    (frac : DataSetFraction) : DataSetFraction :=
  forLoop (frac.m_resolutionBuffer.length : Int) (resolutionStep ds i timestep patType) frac

/-- One iteration of the loop under `// pattern types`: the pattern type of the time
step is stored, the running total grows by one, and the resolution buffer is filled. -/
def patTypeStep (ds : DataSet) (i : Int) (seq : sequence_t) (timestep : Int)
    (fr : DataSetFraction) : DataSetFraction :=
  let patType := patTypeOf seq.length timestep
  let fr1 : DataSetFraction :=
    { fr with
      m_patTypes := writeAt fr.m_patTypes (timestep * ds.m_parallelSequences + i) patType
      m_fracTotalLength := fr.m_fracTotalLength + 1 }
  fillResolution ds i timestep patType fr1

/-- The loop under `// pattern types`. -/
def fillPatTypes (ds : DataSet) (i : Int) (seq : sequence_t) (frac : DataSetFraction) :
    DataSetFraction :=
  forLoop seq.length (patTypeStep ds i seq) frac

/-- The body of the slot loop for a live slot, from the context expansion to the
auxiliary data: everything before the pattern types. -/
def slotPrefix (ds : DataSet) (ext : Externals) (cfg : Configuration) (i : Int)
    (seq : sequence_t) (inputs : List real_t) (fr : DataSetFraction) : DataSetFraction :=
  let fr1 := fillInputs ds cfg i seq inputs fr
  let fr2 :=
    if ds.m_isClassificationData then
      fillTargetClasses ds cfg i seq (_loadTargetClassesFromCache ds seq) fr1
    else
      fillOutputs ds cfg i seq (_loadOutputsFromCache ds seq) fr1
  let fr3 :=
    if ds.m_exInputFlag then fillExInput ds i seq (_loadExInputsFromCache ds seq) fr2
    else fr2
  let fr4 :=
    if ds.m_exOutputFlag then fillExOutput ds i seq (_loadExOutputsFromCache ds seq) fr3
    else fr3
  fillAux ds ext cfg i seq fr4

/-- The body of `for (int i = 0; i < m_parallelSequences; ++i)`; the state is the
fraction under construction together with the noise generator. -/
def slotBody (ds : DataSet) (ext : Externals) (cfg : Configuration) (firstSeqIdx : Int)
    (i : Int) (st : DataSetFraction × NoiseGen) : DataSetFraction × NoiseGen :=
  if firstSeqIdx + i ≥ (ds.m_sequences.length : Int) then st
  else
    let seq := readAt ds.m_sequences (firstSeqIdx + i)
    let noised := _addNoise ds (_loadInputsFromCache ds seq) st.2
    (fillPatTypes ds i seq (slotPrefix ds ext cfg i seq noised.1 st.1), noised.2)

/-- The list `resolutionBuf` the builder parses from the configuration. -/
def resolutionBufOf (ext : Externals) (cfg : Configuration) : List Int :=
  if cfg.resolutions.length ≠ 0 then ext.ParseIntOpt cfg.resolutions else []

/-- The function `DataSet::_makeFractionTask`: the fraction that starts at `firstSeqIdx`
and the generator state afterwards; `none` when an allocation throws. -/
def _makeFractionTask (ds : DataSet) (ext : Externals) (cfg : Configuration)
    (gen : NoiseGen) (firstSeqIdx : Int) : Option (DataSetFraction × NoiseGen) :=
  match allocFraction ds ext (resolutionBufOf ext cfg)
      (fillSeqInfo ds firstSeqIdx (fracHeader ds ext cfg)) with
  | none => none
  | some frac =>
    some (forLoop ds.m_parallelSequences (slotBody ds ext cfg firstSeqIdx) (frac, gen))

/-! ## Index arithmetic -/

/-- Position `p` lies in cell `c` of a buffer whose cells hold `size` elements each. -/
def InCell (size c p : Int) : Prop := size * c ≤ p ∧ p < size * c + size

/-- Slot `j` of the window that starts at `first` holds a descriptor. -/
def Live (ds : DataSet) (first j : Int) : Prop :=
  0 ≤ j ∧ j < ds.m_parallelSequences ∧ first + j < (ds.m_sequences.length : Int)

/-- The facts about the fraction at the moment the slot loop starts: the pattern size,
the window's extreme lengths and the freshly allocated buffers. -/
structure Allocated (ds : DataSet) (ext : Externals) (cfg : Configuration) (first : Int)
    (fr : DataSetFraction) : Prop where
  ips : fr.m_inputPatternSize =
    ds.m_inputPatternSize * (cfg.inputLeftContext + cfg.inputRightContext + 1)
  live_le : ∀ j, Live ds first j →
    (readAt ds.m_sequences (first + j)).length ≤ fr.m_maxSeqLength ∧
      fr.m_minSeqLength ≤ (readAt ds.m_sequences (first + j)).length
  max_attained : fr.m_maxSeqLength = INT_MIN ∨
    ∃ j, Live ds first j ∧ (readAt ds.m_sequences (first + j)).length = fr.m_maxSeqLength
  min_attained : fr.m_minSeqLength = INT_MAX ∨
    ∃ j, Live ds first j ∧ (readAt ds.m_sequences (first + j)).length = fr.m_minSeqLength
  inputs_size : 0 ≤ fr.m_maxSeqLength * ds.m_parallelSequences * fr.m_inputPatternSize
  inputs : fr.m_inputs = List.replicate
    (fr.m_maxSeqLength * ds.m_parallelSequences * fr.m_inputPatternSize).toNat 0
  cells_size : 0 ≤ fr.m_maxSeqLength * ds.m_parallelSequences
  patTypes : fr.m_patTypes = List.replicate
    (fr.m_maxSeqLength * ds.m_parallelSequences).toNat PATTYPE_NONE
  targetClasses : ds.m_isClassificationData = true →
    fr.m_targetClasses = List.replicate
      (fr.m_maxSeqLength * ds.m_parallelSequences).toNat (-1)
  outputs : ds.m_isClassificationData = false →
    0 ≤ fr.m_maxSeqLength * ds.m_parallelSequences * ds.m_outputPatternSize ∧
    fr.m_outputs = List.replicate
      (fr.m_maxSeqLength * ds.m_parallelSequences * ds.m_outputPatternSize).toNat 0
  resolutions : ∃ fr2 : DataSetFraction,
    fr2.m_patTypes = List.replicate
      (fr.m_maxSeqLength * ds.m_parallelSequences).toNat PATTYPE_NONE ∧
    fr2.m_resolutionBuffer = [] ∧
    0 ≤ (prepareResolutions ext (resolutionBufOf ext cfg) fr2).2 ∧
    fr.m_resolutionBuffer =
      (prepareResolutions ext (resolutionBufOf ext cfg) fr2).1.m_resolutionBuffer ∧
    fr.m_patTypesLowTimeRes =
      List.replicate (prepareResolutions ext (resolutionBufOf ext cfg) fr2).2.toNat
        PATTYPE_NONE

/-- The value `x` clamped to the interval `[lo, hi]`. -/
def clamp (x lo hi : Int) : Int := max lo (min x hi)

/-! ## Sample data for the instances -/

/-- Sample helpers: the resolution list is `[1, 2]`, a resolution `r` gets
`ceil(n / r)` reduced cells for `n` cells, and the dimensions are summed. -/
def sampleExternals : Externals where
  ParseIntOpt := fun _ => [1, 2]
  ParseStrOpt := fun s _ => [s]
  getResoLength := fun n r => (n + r - 1) / r
  SumCpuIntVec := List.sum
  AUXDATATYPE_CHAR := 0
  AUXDATATYPE_INT := 1
  AUXDATATYPE_FLOAT := 2

/-- Sample cache: the real at element `j` of the block at offset `off` is `off + j`, the
class is `off + 10 * j`. -/
def sampleCache : CacheFile where
  reals := fun off j => off + j
  ints := fun off j => off + 10 * j
  chars := fun _ _ => 0

/-- Sample data set: regression, base pattern size 3, two outputs, two parallel
sequences, three descriptors of lengths 3, 4 and 2. -/
def sampleDataSet : DataSet where
  m_parallelSequences := 2
  m_inputPatternSize := 3
  m_outputPatternSize := 2
  m_sequences :=
    [{ length := 3, inputsBegin := 100, targetsBegin := 500 },
     { length := 4, inputsBegin := 200, targetsBegin := 600 },
     { length := 2, inputsBegin := 300, targetsBegin := 700 }]
  m_cacheFile := sampleCache

/-- The sample data set as a classification task. -/
def sampleClassDataSet : DataSet :=
  { sampleDataSet with m_isClassificationData := true }

/-- Sample configuration: one frame of left context, an output lag of one step and the
resolutions of `sampleExternals`. -/
def sampleConfiguration : Configuration where
  inputLeftContext := 1
  inputRightContext := 0
  outputTimeLag := 1
  resolutions := "1_2"

/-- The pattern-type cells of slot `i` of a fraction, one per time step of the
buffer. -/
def slotColumn (par : Int) (frac : DataSetFraction) (i : Int) : List PatType :=
  (List.range frac.m_maxSeqLength.toNat).map
    (fun t : Nat => readAt frac.m_patTypes ((t : Int) * par + i))

/-- The content of a reduced cell whose window of time steps is `[X, X + r)`, after the
time steps below `T` of a sequence of length `n` have contributed; `d` is the index of
the reduced step. -/
def reducedAfter (n X r d T : Int) : PatType :=
  if T ≤ X then PATTYPE_NONE
  else if d = 0 then PATTYPE_FIRST
  else patTypeOf n (min T (X + r) - 1)

/-- The regions of the entries of a resolution buffer lie one after the other, from
`lo` to `hi`. -/
def ConsecutiveRegions : List reso_info → Int → Int → Prop
  | [], lo, hi => lo = hi
  | e :: rest, lo, hi => e.bufferPos = lo ∧ ConsecutiveRegions rest (lo + e.length) hi

/-! ## Shuffling and sorting the sequence index -/

/-- The static generator behind `internal::rand_gen`: `draws k` is the raw value its
`k`-th use yields, `pos` counts the uses so far. -/
structure RandGen where
  draws : Nat → Nat := fun _ => 0
  pos : Nat := 0

/-- The call `rg(i)` of `internal::rand_gen`: the next draw of a uniform distribution on
`0 .. i - 1`, here the raw draw reduced to that range. -/
def rand_gen (rg : RandGen) (i : Nat) : Nat × RandGen :=
  (rg.draws rg.pos % i, { rg with pos := rg.pos + 1 })

/-- The call `std::iter_swap(v.begin() + i, v.begin() + j)`. -/
def iter_swap {α : Type} [Inhabited α] (v : List α) (i j : Nat) : List α :=
  (v.set i (v.getD j default)).set j (v.getD i default)

/-- One iteration of the loop of `std::random_shuffle`, for the iterator at distance `i`
from the start. -/
def shuffleStep {α : Type} [Inhabited α] (st : List α × RandGen) (i : Nat) :
    List α × RandGen :=
  let r := rand_gen st.2 (i + 1)
  (if i ≠ r.1 then iter_swap st.1 i r.1 else st.1, r.2)

/-- The call `std::random_shuffle(v.begin(), v.end(), rg)`.  The routine belongs to the
standard library; this is the loop of libstdc++,
`for (i = first + 1; i != last; ++i) iter_swap(i, first + rg((i - first) + 1))`. -/
def random_shuffle {α : Type} [Inhabited α] (v : List α) (rg : RandGen) :
    List α × RandGen :=
  ((List.range (v.length - 1)).map (fun k => k + 1)).foldl shuffleStep (v, rg)

/-- The function `DataSet::_shuffleSequences`. -/
def _shuffleSequences (ds : DataSet) (rg : RandGen) : DataSet × RandGen :=
  let r := random_shuffle ds.m_sequences rg
  ({ ds with m_sequences := r.1 }, r.2)

/-- The body of the first loop of `_shuffleFractions`: a new group is opened when
`i % m_parallelSequences == 0`, and `m_sequences[i]` is pushed onto the last group.
(`fractions.back()` of an empty vector is undefined in the source; it cannot occur for a
positive parallelism, and it opens a group here.) -/
def groupStep (ds : DataSet) (i : Int) (fractions : List (List sequence_t)) :
    List (List sequence_t) :=
  let opened := if i % ds.m_parallelSequences = 0 then fractions ++ [[]] else fractions
  opened.dropLast ++ [opened.getLastD [] ++ [readAt ds.m_sequences i]]

/-- The first loop of `_shuffleFractions`: the descriptors in groups. -/
def groupFractions (ds : DataSet) : List (List sequence_t) :=
  forLoop (ds.m_sequences.length : Int) (groupStep ds) []

/-- The last loops of `_shuffleFractions`: every element of every group is pushed back
onto the cleared index. -/
def flattenFractions (fractions : List (List sequence_t)) : List sequence_t :=
  fractions.foldl (fun acc f => f.foldl (fun a s => a ++ [s]) acc) []

/-- The function `DataSet::_shuffleFractions`. -/
def _shuffleFractions (ds : DataSet) (rg : RandGen) : DataSet × RandGen :=
  let r := random_shuffle (groupFractions ds) rg
  ({ ds with m_sequences := flattenFractions r.1 }, r.2)

/-- The comparison `internal::comp_seqs`. -/
def comp_seqs (a b : sequence_t) : Bool := decide (a.length < b.length)

/-- The call `std::sort(v.begin(), v.end(), comp)`.  The routine belongs to the standard
library, which leaves the order of elements that compare equal open; here it is an
insertion sort, so the result is one of the orders the library may produce. -/
def sort {α : Type} (comp : α → α → Bool) (v : List α) : List α :=
  v.insertionSort (fun a b => comp b a = false)

/-- The end of the constructor: the count of descriptors is recorded and, in training
mode, the index is sorted by length. -/
def finishConstruction (cfg : Configuration) (ds : DataSet) : DataSet :=
  let ds1 := { ds with m_totalSequences := (ds.m_sequences.length : Int) }
  if cfg.trainingMode then { ds1 with m_sequences := sort comp_seqs ds1.m_sequences }
  else ds1

/-- The function `DataSet::_makeFirstFractionTask`: the configured shuffles, then the
fraction at start index 0. -/
def _makeFirstFractionTask (ds : DataSet) (ext : Externals) (cfg : Configuration)
    (rg : RandGen) (gen : NoiseGen) :
    Option (DataSetFraction × NoiseGen) × DataSet × RandGen :=
  let s1 := if ds.m_sequenceShuffling then _shuffleSequences ds rg else (ds, rg)
  let s2 := if s1.1.m_fractionShuffling then _shuffleFractions s1.1 s1.2 else s1
  (_makeFractionTask s2.1 ext cfg gen 0, s2.1, s2.2)

/-- Run `k` of a list for parallelism `p`, in the words of the specification: the
elements `k * p .. min ((k + 1) * p, n) - 1`. -/
def run (p : Nat) (l : List sequence_t) (k : Nat) : List sequence_t :=
  (l.drop (k * p)).take p

/-- The contiguous runs of a list, the last one possibly shorter. -/
def runs (p : Nat) (l : List sequence_t) : List (List sequence_t) :=
  (List.range ((l.length + p - 1) / p)).map (run p l)

/-- Sample data set with additive input noise. -/
def noisyDataSet : DataSet := { sampleDataSet with m_noiseDeviation := 1 }

/-- Sample noise generator: the `k`-th draw is `k + 1`. -/
def sampleNoiseGen : NoiseGen := { draws := fun k => (k : Int) + 1 }

/-- The conditions under which no allocation of the builder is asked for a negative
size: at least one slot, pattern sizes and dimensions that are not negative, a helper
`getResoLength` that returns no negative length, and descriptors with lengths that are
not negative. -/
structure WellFormed (ds : DataSet) (ext : Externals) (cfg : Configuration) : Prop where
  par : 1 ≤ ds.m_parallelSequences
  ips : 0 ≤ ds.m_inputPatternSize * (cfg.inputLeftContext + cfg.inputRightContext + 1)
  ops : 0 ≤ ds.m_outputPatternSize
  exIn : 0 ≤ (fracHeader ds ext cfg).m_exInputDim
  exOut : 0 ≤ (fracHeader ds ext cfg).m_exOutputDim
  aux : 0 ≤ ds.m_auxDataDim
  reso : ∀ r ∈ resolutionBufOf ext cfg, ∀ m : Int, 0 ≤ m → 0 ≤ ext.getResoLength m r
  seqs : ∀ s ∈ ds.m_sequences, 0 ≤ s.length ∧ 0 ≤ s.exInputLength ∧ 0 ≤ s.exOutputLength

/-! ## The request protocol `getNextFraction` -/

/-- The state the protocol runs in: the data set and the two function-static generators
of the file, the one of `internal::rand_gen` and the one of `_addNoise`. -/
structure World where
  ds : DataSet
  rg : RandGen := {}
  gen : NoiseGen := {}

/-- The members of a data set that neither a reordering nor the protocol touches: the
index, the current start index and the thread data are blanked. -/
def staticPart (ds : DataSet) : DataSet :=
  { ds with m_sequences := [], m_curFirstSeqIdx := 0, m_threadData := {} }

/-- The end of a pass of the worker: `frac` holds the task's result, `finished` is raised
and `taskFn` is cleared. -/
def publish (ds : DataSet) (frac : DataSetFraction) : DataSet :=
  { ds with
    m_threadData :=
      { ds.m_threadData with frac := some frac, finished := true, taskFn := none } }

/-- One pass of the loop of `DataSet::_nextFracThreadFn`.  With `terminate` set the
thread leaves, without a task it keeps waiting; otherwise it runs the bound task and
publishes the result.  `none` when the task throws. -/
def _nextFracThreadFn (ext : Externals) (cfg : Configuration) (w : World) : Option World :=
  if w.ds.m_threadData.terminate then some w
  else
    match w.ds.m_threadData.taskFn with
    | none => some w
    | some BoundTask.makeFirstFractionTask =>
      let r := _makeFirstFractionTask w.ds ext cfg w.rg w.gen
      r.1.map fun b => { ds := publish r.2.1 b.1, rg := r.2.2, gen := b.2 }
    | some (BoundTask.makeFractionTask firstSeqIdx) =>
      (_makeFractionTask w.ds ext cfg w.gen firstSeqIdx).map fun b =>
        { w with ds := publish w.ds b.1, gen := b.2 }

/-- The block `// initial work` of `getNextFraction`. -/
def initialWork (ds : DataSet) : DataSet :=
  if ds.m_curFirstSeqIdx = -1 then
    { ds with
      m_threadData :=
        { ds.m_threadData with
          taskFn := some BoundTask.makeFirstFractionTask, finished := false }
      m_curFirstSeqIdx := 0 }
  else ds

/-- The loop `while (!m_threadData->finished) cv.wait(lock)`: the caller sleeps until the
worker has run the bound task; `none` when the worker never raises `finished`. -/
def waitFinished (ext : Externals) (cfg : Configuration) (w : World) : Option World :=
  if w.ds.m_threadData.finished then some w
  else
    (_nextFracThreadFn ext cfg w).bind fun w1 =>
      if w1.ds.m_threadData.finished then some w1 else none

/-- The block `// get the fraction` of `getNextFraction`: inside the index the published
fraction is taken, the start index advances and the next task is bound; past the end the
start index is reset and the null fraction is returned. -/
def takeFraction (ds : DataSet) : Option DataSetFraction × DataSet :=
  if ds.m_curFirstSeqIdx < (ds.m_sequences.length : Int) then
    let cur := ds.m_curFirstSeqIdx + ds.m_parallelSequences
    (ds.m_threadData.frac,
     { ds with
       m_curFirstSeqIdx := cur
       m_threadData :=
         { ds.m_threadData with
           taskFn := some
             (if cur < (ds.m_sequences.length : Int) then BoundTask.makeFractionTask cur
              else BoundTask.makeFirstFractionTask)
           finished := false } })
  else (none, { ds with m_curFirstSeqIdx := 0 })

/-- The function `DataSet::getNextFraction`: the returned pointer (`none` is the null
pointer) and the state afterwards; the outer `none` when the call does not return. -/
def getNextFraction (ext : Externals) (cfg : Configuration) (w : World) :
    Option (Option DataSetFraction × World) :=
  (waitFinished ext cfg { w with ds := initialWork w.ds }).map fun w1 =>
    ((takeFraction w1.ds).1, { w1 with ds := (takeFraction w1.ds).2 })

/-- The state after `k` successive calls of `getNextFraction`. -/
def afterCalls (ext : Externals) (cfg : Configuration) : Nat → World → Option World
  | 0, w => some w
  | k + 1, w => (afterCalls ext cfg k w).bind fun wk =>
      (getNextFraction ext cfg wk).map Prod.snd

/-- A freshly constructed data set: no call was made and no task is bound. -/
def Fresh (ds : DataSet) : Prop :=
  ds.m_curFirstSeqIdx = -1 ∧ ds.m_threadData.taskFn = none ∧
    ds.m_threadData.finished = false ∧ ds.m_threadData.terminate = false

/-- A task is bound and the worker has not finished it. -/
def Handed (ds : DataSet) (cur : Int) (task : BoundTask) : Prop :=
  ds.m_curFirstSeqIdx = cur ∧ ds.m_threadData.taskFn = some task ∧
    ds.m_threadData.finished = false ∧ ds.m_threadData.terminate = false

/-- The task `getNextFraction` binds when the start index has advanced to `cur`. -/
def nextTask (ds : DataSet) (cur : Int) : BoundTask :=
  if cur < (ds.m_sequences.length : Int) then BoundTask.makeFractionTask cur
  else BoundTask.makeFirstFractionTask

/-- The states the protocol reaches from `w0`: by the initial work of a call, by a pass
of the worker, and by a whole call.  The flag tells whether a call has begun. -/
inductive Reachable (ext : Externals) (cfg : Configuration) (w0 : World) :
    Bool → World → Prop where
  | start : Reachable ext cfg w0 false w0
  | request (c : Bool) (w : World) :
      Reachable ext cfg w0 c w → Reachable ext cfg w0 true { w with ds := initialWork w.ds }
  | worker (c : Bool) (w w1 : World) :
      Reachable ext cfg w0 c w → _nextFracThreadFn ext cfg w = some w1 →
      Reachable ext cfg w0 c w1
  | call (c : Bool) (w w1 : World) (frac : Option DataSetFraction) :
      Reachable ext cfg w0 c w → getNextFraction ext cfg w = some (frac, w1) →
      Reachable ext cfg w0 true w1

/-- The state between two calls of an epoch, after `j` calls: the start index stands at
`j * p`, the task for it is bound and not finished, the index is `seqs` and the static
members are those of `base`. -/
structure InEpoch (base : DataSet) (seqs : List sequence_t) (j : Nat) (w : World) :
    Prop where
  handed : Handed w.ds ((j : Int) * base.m_parallelSequences)
    (nextTask w.ds ((j : Int) * base.m_parallelSequences))
  index : w.ds.m_sequences = seqs
  static : staticPart w.ds = staticPart base

/-- The number of calls that return a fraction in one epoch, `ceil (n / p)`. -/
def epochLength (ds : DataSet) : Nat :=
  (((ds.m_sequences.length : Int) + ds.m_parallelSequences - 1) /
    ds.m_parallelSequences).toNat

/-- What C13 states about a state of the protocol, for an index of `n` descriptors and
parallelism `p`: the bound task, if any, is the first-fraction task or
`_makeFractionTask s` with `0 < s < n`, and once a call has begun the start index lies in
`[0, n + p - 1]`. -/
def TasksInRange (n p : Int) (called : Bool) (ds : DataSet) : Prop :=
  (ds.m_threadData.taskFn = none ∨
    ds.m_threadData.taskFn = some BoundTask.makeFirstFractionTask ∨
    ∃ s, ds.m_threadData.taskFn = some (BoundTask.makeFractionTask s) ∧ 0 < s ∧ s < n) ∧
  (called = true → 0 ≤ ds.m_curFirstSeqIdx ∧ ds.m_curFirstSeqIdx ≤ n + p - 1)

/-- Sample data set of ten descriptors with parallelism 4. -/
def tenDataSet : DataSet where
  m_parallelSequences := 4
  m_inputPatternSize := 1
  m_outputPatternSize := 1
  m_sequences :=
    (List.range 10).map (fun (k : Nat) => { length := 2, inputsBegin := 8 * (k : Int) })
  m_cacheFile := sampleCache

/-- The invariant behind C13: the bound task and the start index are in range, the index
has `n` descriptors, the parallelism is `p`, and before the first call nothing is
bound and the start index is -1. -/
structure ProtocolInv (n p : Int) (called : Bool) (ds : DataSet) : Prop where
  range : TasksInRange n p called ds
  size : (ds.m_sequences.length : Int) = n
  par : ds.m_parallelSequences = p
  idle : called = false → ds.m_curFirstSeqIdx = -1 ∧ ds.m_threadData.taskFn = none

/-! ## Ingestion: the cache file and the per-descriptor steps of the constructor -/

/-- The constant `DATASET_EXINPUT_TYPE_0`. -/
def DATASET_EXINPUT_TYPE_0 : Int := 0

/-- The constant `DATASET_EXINPUT_TYPE_1`. -/
def DATASET_EXINPUT_TYPE_1 : Int := 1

/-- The object representations the cache file stores: the bytes of a `real_t`, of an
`int` and of a `char`, with the sizes `sizeof(real_t)` and `sizeof(int)`
(`sizeof(char)` is 1).  The type `real_t` is declared outside this file, so the
representations are parameters. -/
structure Layout where
  sizeofReal : Nat
  sizeofInt : Nat
  realBytes : real_t → List Nat
  intBytes : Int → List Nat
  charBytes : Int → List Nat

/-- Every value of a type has as many bytes as `sizeof` says. -/
def Layout.Sized (lay : Layout) : Prop :=
  (∀ x, (lay.realBytes x).length = lay.sizeofReal) ∧
    (∀ x, (lay.intBytes x).length = lay.sizeofInt) ∧
    (∀ x, (lay.charBytes x).length = 1)

/-- The open NetCDF file: its variables `inputs`, `targetClasses` and `targetPatterns`
as flat arrays. -/
structure NcFile where
  inputs : Int → real_t := fun _ => 0
  targetClasses : Int → Int := fun _ => 0
  targetPatterns : Int → real_t := fun _ => 0

/-- The binary side files (auxiliary data, external input and output): the elements a
file holds when read as `char`, `int` or `real_t`; `none` when it cannot be opened. -/
structure SideFiles where
  chars : String → Option (List Int) := fun _ => none
  ints : String → Option (List Int) := fun _ => none
  reals : String → Option (List real_t) := fun _ => none

/-- The state of the ingestion loop: the data set under construction, the bytes written
to `m_cacheFile` so far, and the positions `inputsBegin` and `targetsBegin` in the
NetCDF arrays. -/
structure Ingest where
  ds : DataSet
  cache : List Nat := []
  inputsBegin : Int := 0
  targetsBegin : Int := 0

/-- The call `m_cacheFile.tellp()` while the file is only written: the number of bytes
written so far. -/
def tellp (cache : List Nat) : Int := (cache.length : Int)

/-- The bytes of the `count` elements of `data` from position `start` on. -/
def blockOf {α : Type} (bytesOf : α → List Nat) (data : List α) (start count : Int) :
    List Nat :=
  (((data.drop start.toNat).take count.toNat).map bytesOf).flatten

/-- The call `m_cacheFile.write((const char*)(data.data() + start), sizeof(T) * count)`
on the file that is only written: the bytes of `count` elements from position `start` on
are appended. -/
def cacheWrite {α : Type} (bytesOf : α → List Nat) (cache : List Nat) (data : List α)
    (start count : Int) : List Nat :=
  cache ++ blockOf bytesOf data start count

/-- The calls `m_cacheFile.seekg(pos); m_cacheFile.read(buf, count)` of the loaders: the
`count` bytes from offset `pos` on. -/
def cacheRead (cache : List Nat) (pos : Int) (count : Int) : List Nat :=
  (cache.drop pos.toNat).take count.toNat

/-- The function `internal::readNcPatternArray`: `n` patterns of `patternSize` values
from row `begin` on. -/
def readNcPatternArray (arr : Int → real_t) (begin n patternSize : Int) : List real_t :=
  (List.range (vecSize (n * patternSize))).map
    (fun (k : Nat) => arr (begin * patternSize + (k : Int)))

/-- The function `internal::readNcArray<int>`: `n` values from position `begin` on. -/
def readNcArray (arr : Int → Int) (begin n : Int) : List Int :=
  (List.range (vecSize n)).map (fun (k : Nat) => arr (begin + (k : Int)))

/-- The function `internal::readCharData`: the elements of the file and their number. -/
def readCharData (fs : SideFiles) (dataPath : String) : Except String (List Int × Int) :=
  match fs.chars dataPath with
  | none => Except.error ("Fail to open " ++ dataPath)
  | some data => Except.ok (data, (data.length : Int))

/-- The function `internal::readIntData`. -/
def readIntData (fs : SideFiles) (dataPath : String) : Except String (List Int × Int) :=
  match fs.ints dataPath with
  | none => Except.error ("Fail to open " ++ dataPath)
  | some data => Except.ok (data, (data.length : Int))

/-- The function `internal::readRealData`: the elements `startPos .. endPos - 1` of the
file (`endPos = -1` stands for the end of the file) and their number. -/
def readRealData (fs : SideFiles) (dataPath : String) (startPos endPos : Int) :
    Except String (List real_t × Int) :=
  match fs.reals dataPath with
  | none => Except.error ("Fail to open " ++ dataPath)
  | some content =>
    let numEle : Int := (content.length : Int)
    let stPos := startPos
    let etPos := if endPos = -1 then numEle else endPos
    if stPos ≥ etPos ∨ stPos < 0 ∨ etPos > numEle then
      Except.error ("Fail to read " ++ dataPath)
    else
      Except.ok ((List.range (etPos - stPos).toNat).map
        (fun (i : Nat) => readAt content (stPos + (i : Int))), etPos - stPos)

/-- The function `internal::readRealDataAndFill`: the elements `startPos .. endPos - 1`
of the file go to the columns `dataStartDim .. dataStartDim + dataDim - 1` of the rows
of `buff`, which are `bufDim` wide; the result is the buffer and the number of elements
read. -/
def readRealDataAndFill (fs : SideFiles) (dataPath : String) (buff : List real_t)
    (startPos endPos bufDim dataDim dataStartDim : Int) :
    Except String (List real_t × Int) :=
  match fs.reals dataPath with
  | none => Except.error ("Fail to open " ++ dataPath)
  | some content =>
    let numEle : Int := (content.length : Int)
    let stPos := startPos
    let etPos := if endPos = -1 then numEle else endPos
    if stPos ≥ etPos ∨ stPos < 0 ∨ etPos > numEle then
      Except.error ("Fail to read in readReadlDataAndFill " ++ dataPath)
    else
      Except.ok (forLoop (etPos - stPos) (fun i b =>
        let timeIdx := Int.tdiv i dataDim
        let dimIdx := Int.tmod i dataDim
        writeAt b (timeIdx * bufDim + dataStartDim + dimIdx) (readAt content (stPos + i)))
        buff, etPos - stPos)

/-- The transformation `thrust::transform(v.begin(), v.end(), tempVec.begin(), v.begin(),
thrust::minus<float>())` with `tempVec` filled with `v[0]`. -/
def shiftByFirst (v : List real_t) : List real_t := v.map (fun x => x - readAt v 0)

/-- Step 1 of the loop over the descriptors up to the write: the input patterns are read
from the NetCDF file and, for external input by index, turned into indices from 0. -/
def prepareInputs (nc : NcFile) (st : Ingest) (seq : sequence_t) :
    Except String (List real_t × sequence_t) :=
  let inputs := readNcPatternArray nc.inputs st.inputsBegin seq.length
    st.ds.m_inputPatternSize
  if st.ds.m_exInputType = DATASET_EXINPUT_TYPE_1 then
    if st.ds.m_inputPatternSize ≠ 1 then
      Except.error "input is not index for external input "
    else
      Except.ok (shiftByFirst inputs,
        { seq with exInputStartPos := readAt inputs 0
                   exInputEndPos := readAt inputs (seq.length - 1) + 1 })
  else
    Except.ok (inputs, { seq with exInputStartPos := -1, exInputEndPos := -1 })

/-- Step 1: `inputsBegin` records the write position and the inputs are written. -/
def ingestInputs (lay : Layout) (nc : NcFile) (st : Ingest) (seq : sequence_t) :
    Except String (sequence_t × Ingest) :=
  let seq1 := { seq with inputsBegin := tellp st.cache }
  match prepareInputs nc st seq1 with
  | Except.error e => Except.error e
  | Except.ok (inputs, seq2) =>
    Except.ok (seq2,
      { st with cache := cacheWrite lay.realBytes st.cache inputs 0 (inputs.length : Int) })

/-- Step 2 for regression data up to the write: the target patterns. -/
def prepareTargets (nc : NcFile) (st : Ingest) (seq : sequence_t) :
    Except String (List real_t × sequence_t) :=
  let targets := readNcPatternArray nc.targetPatterns st.targetsBegin seq.length
    st.ds.m_outputPatternSize
  if st.ds.m_exOutputType = DATASET_EXINPUT_TYPE_1 then
    if st.ds.m_outputPatternSize ≠ 1 then
      Except.error "output is not index for ExOutput"
    else
      Except.ok (shiftByFirst targets,
        { seq with exOutputStartPos := readAt targets 0
                   exOutputEndPos := readAt targets (seq.length - 1) + 1 })
  else
    Except.ok (targets, { seq with exOutputStartPos := -1, exOutputEndPos := -1 })

/-- Step 2: `targetsBegin` records the write position and the targets are written, as
`int` classes or as `real_t` patterns. -/
def ingestTargets (lay : Layout) (nc : NcFile) (st : Ingest) (seq : sequence_t) :
    Except String (sequence_t × Ingest) :=
  let seq1 := { seq with targetsBegin := tellp st.cache }
  if st.ds.m_isClassificationData then
    let targets := readNcArray nc.targetClasses st.targetsBegin seq1.length
    let st1 :=
      { st with cache := cacheWrite lay.intBytes st.cache targets 0 (targets.length : Int) }
    if st.ds.m_exOutputType = DATASET_EXINPUT_TYPE_1 then
      Except.error "ExOutput not for the classification task"
    else Except.ok (seq1, st1)
  else
    match prepareTargets nc st seq1 with
    | Except.error e => Except.error e
    | Except.ok (targets, seq2) =>
      Except.ok (seq2,
        { st with
          cache := cacheWrite lay.realBytes st.cache targets 0 (targets.length : Int) })

/-- The check `if (tempLength < (dataShift + dataSize)) throw ...` followed by the write
of `dataSize` elements from position `dataShift` on. -/
def writeAuxBlock {α : Type} (bytesOf : α → List Nat) (st : Ingest) (temp : List α)
    (tempLength dataShift dataSize : Int) : Except String Ingest :=
  if tempLength < dataShift + dataSize then
    Except.error "Please check auxDataOption and data"
  else
    Except.ok { st with cache := cacheWrite bytesOf st.cache temp dataShift dataSize }

/-- Step 3: the auxiliary data of the descriptor.  The conditions of the second and the
third branch are the assignments `m_auxDataTyp = AUXDATATYPE_INT` and
`m_auxDataTyp = AUXDATATYPE_FLOAT` of the source: each stores the constant in the member
and is true when the constant is not 0. -/
def ingestAux (lay : Layout) (ext : Externals) (fs : SideFiles) (st : Ingest)
    (seq : sequence_t) : Except String (sequence_t × Ingest) :=
  if st.ds.m_auxDirPath.length > 0 then
    let seq1 :=
      { seq with auxDataBegin := tellp st.cache
                 auxDataDim := st.ds.m_auxDataDim
                 auxDataTyp := st.ds.m_auxDataTyp }
    let fileName := st.ds.m_auxDirPath ++ "/" ++ seq1.seqTag ++ st.ds.m_auxFileExt
    let dataShift := seq1.beginInUtt * seq1.auxDataDim
    let dataSize := seq1.length * seq1.auxDataDim
    if st.ds.m_auxDataTyp = ext.AUXDATATYPE_CHAR then
      match readCharData fs fileName with
      | Except.error e => Except.error e
      | Except.ok (temp, tempLength) =>
        (writeAuxBlock lay.charBytes st temp tempLength dataShift dataSize).map
          fun st1 => (seq1, st1)
    else
      let st1 := { st with ds := { st.ds with m_auxDataTyp := ext.AUXDATATYPE_INT } }
      if ext.AUXDATATYPE_INT ≠ 0 then
        match readIntData fs fileName with
        | Except.error e => Except.error e
        | Except.ok (temp, tempLength) =>
          (writeAuxBlock lay.intBytes st1 temp tempLength dataShift dataSize).map
            fun st2 => (seq1, st2)
      else
        let st2 := { st1 with ds := { st1.ds with m_auxDataTyp := ext.AUXDATATYPE_FLOAT } }
        if ext.AUXDATATYPE_FLOAT ≠ 0 then
          match readRealData fs fileName 0 (-1) with
          | Except.error e => Except.error e
          | Except.ok (temp, tempLength) =>
            (writeAuxBlock lay.realBytes st2 temp tempLength dataShift dataSize).map
              fun st3 => (seq1, st3)
        else Except.error "Invalid auxDataTyp"
  else
    Except.ok ({ seq with auxDataBegin := 0, auxDataDim := 0, auxDataTyp := 0 }, st)

/-- The loop over the external directories that steps 4 and 5 share: every file fills
its columns of the buffer; the result is the buffer and the count of elements read. -/
def fillExternalBuf (fs : SideFiles) (seqTag : String) (exType : Int)
    (startPos endPos bufDim : Int) :
    List (String × String × Int) → List real_t × Int × Int →
      Except String (List real_t × Int × Int)
  | [], acc => Except.ok acc
  | (dir, fileExt, dim) :: rest, (buf, cnt, dimCnt) =>
    let fileName := dir ++ "/" ++ seqTag ++ fileExt
    let stPos := if exType = DATASET_EXINPUT_TYPE_1 then startPos * dim else 0
    let etPos := if exType = DATASET_EXINPUT_TYPE_1 then endPos * dim else -1
    match readRealDataAndFill fs fileName buf stPos etPos bufDim dim dimCnt with
    | Except.error e => Except.error e
    | Except.ok (buf1, n) =>
      fillExternalBuf fs seqTag exType startPos endPos bufDim rest
        (buf1, cnt + n, dimCnt + dim)

/-- Step 4: the external input data of the descriptor, from one file or from several. -/
def ingestExInput (lay : Layout) (ext : Externals) (cfg : Configuration) (fs : SideFiles)
    (st : Ingest) (seq : sequence_t) : Except String (sequence_t × Ingest) :=
  if st.ds.m_exInputFlag then
    if cfg.exInputDim > 0 then
      let seq1 := { seq with exInputBegin := tellp st.cache, exInputDim := st.ds.m_exInputDim }
      let fileName := st.ds.m_exInputDir ++ "/" ++ seq1.seqTag ++ st.ds.m_exInputExt
      let stPos :=
        if st.ds.m_exInputType = DATASET_EXINPUT_TYPE_1
        then seq1.exInputStartPos * seq1.exInputDim else 0
      let etPos :=
        if st.ds.m_exInputType = DATASET_EXINPUT_TYPE_1
        then seq1.exInputEndPos * seq1.exInputDim else -1
      match readRealData fs fileName stPos etPos with
      | Except.error e => Except.error e
      | Except.ok (temp, tempLength) =>
        Except.ok ({ seq1 with exInputLength := Int.tdiv tempLength seq1.exInputDim },
          { st with cache := cacheWrite lay.realBytes st.cache temp 0 tempLength })
    else if cfg.exInputDims.length > 0 then
      let seq1 :=
        { seq with exInputDim := ext.SumCpuIntVec st.ds.m_exInputDims
                   exInputLength := seq.exInputEndPos - seq.exInputStartPos }
      let exDataBuf : List real_t :=
        List.replicate
          (vecSize (seq1.exInputDim * (seq1.exInputEndPos - seq1.exInputStartPos))) 0
      match fillExternalBuf fs seq1.seqTag st.ds.m_exInputType seq1.exInputStartPos
          seq1.exInputEndPos seq1.exInputDim
          (List.zip st.ds.m_exInputDirs (List.zip st.ds.m_exInputExts st.ds.m_exInputDims))
          (exDataBuf, 0, 0) with
      | Except.error e => Except.error e
      | Except.ok (buf, cnt, _) =>
        Except.ok ({ seq1 with exInputBegin := tellp st.cache },
          { st with cache := cacheWrite lay.realBytes st.cache buf 0 cnt })
    else Except.error "Impossible bug"
  else
    Except.ok ({ seq with exInputBegin := 0, exInputLength := 0, exInputDim := 0 }, st)

/-- Step 5: the external output data of the descriptor. -/
def ingestExOutput (lay : Layout) (ext : Externals) (fs : SideFiles) (st : Ingest)
    (seq : sequence_t) : Except String (sequence_t × Ingest) :=
  if st.ds.m_exOutputFlag then
    let seq1 :=
      { seq with exOutputDim := ext.SumCpuIntVec st.ds.m_exOutputDims
                 exOutputLength := seq.exOutputEndPos - seq.exOutputStartPos }
    let exDataBuf : List real_t :=
      List.replicate
        (vecSize (seq1.exOutputDim * (seq1.exOutputEndPos - seq1.exOutputStartPos))) 0
    match fillExternalBuf fs seq1.seqTag st.ds.m_exOutputType seq1.exOutputStartPos
        seq1.exOutputEndPos seq1.exOutputDim
        (List.zip st.ds.m_exOutputDirs (List.zip st.ds.m_exOutputExts st.ds.m_exOutputDims))
        (exDataBuf, 0, 0) with
    | Except.error e => Except.error e
    | Except.ok (buf, cnt, _) =>
      Except.ok ({ seq1 with exOutputBegin := tellp st.cache },
        { st with cache := cacheWrite lay.realBytes st.cache buf 0 cnt })
  else
    Except.ok ({ seq with exOutputBegin := 0, exOutputLength := 0, exOutputDim := 0 }, st)

/-- The body of the loop `// Read in sequence data` for one descriptor: the running
extremes, the five steps, and the advance of the positions in the NetCDF arrays. -/
def ingestSequence (lay : Layout) (ext : Externals) (cfg : Configuration) (nc : NcFile)
    (fs : SideFiles) (st : Ingest) (seq : sequence_t) :
    Except String (sequence_t × Ingest) :=
  let st0 :=
    { st with
      ds := { st.ds with m_minSeqLength := min st.ds.m_minSeqLength seq.length
                         m_maxSeqLength := max st.ds.m_maxSeqLength seq.length } }
  match ingestInputs lay nc st0 seq with
  | Except.error e => Except.error e
  | Except.ok (seq1, st1) =>
  match ingestTargets lay nc st1 seq1 with
  | Except.error e => Except.error e
  | Except.ok (seq2, st2) =>
  match ingestAux lay ext fs st2 seq2 with
  | Except.error e => Except.error e
  | Except.ok (seq3, st3) =>
  match ingestExInput lay ext cfg fs st3 seq3 with
  | Except.error e => Except.error e
  | Except.ok (seq4, st4) =>
  match ingestExOutput lay ext fs st4 seq4 with
  | Except.error e => Except.error e
  | Except.ok (seq5, st5) =>
    Except.ok (seq5,
      { st5 with inputsBegin := st5.inputsBegin + seq5.length
                 targetsBegin := st5.targetsBegin + seq5.length })

/-- The loop `// Read in sequence data` over the descriptors of one NetCDF file: the
descriptors with their offsets filled in, and the state afterwards. -/
def ingestSequences (lay : Layout) (ext : Externals) (cfg : Configuration) (nc : NcFile)
    (fs : SideFiles) : Ingest → List sequence_t → Except String (List sequence_t × Ingest)
  | st, [] => Except.ok ([], st)
  | st, seq :: rest =>
    match ingestSequence lay ext cfg nc fs st seq with
    | Except.error e => Except.error e
    | Except.ok (seq1, st1) =>
      match ingestSequences lay ext cfg nc fs st1 rest with
      | Except.error e => Except.error e
      | Except.ok (out, st2) => Except.ok (seq1 :: out, st2)

/-- The number of bytes `sizeof(T) * count` of the target block the loaders read for a
descriptor: `length` classes of type `int`, or `length * m_outputPatternSize` values of
type `real_t`. -/
def targetBytes (lay : Layout) (ds : DataSet) (seq : sequence_t) : Int :=
  if ds.m_isClassificationData then (lay.sizeofInt : Int) * (vecSize seq.length : Int)
  else (lay.sizeofReal : Int) * (vecSize (seq.length * ds.m_outputPatternSize) : Int)

/-- The size of one auxiliary element as step 3 writes it for the type tag `typ`. -/
def auxElemSize (lay : Layout) (ext : Externals) (typ : Int) : Nat :=
  if typ = ext.AUXDATATYPE_CHAR then 1
  else if ext.AUXDATATYPE_INT ≠ 0 then lay.sizeofInt
  else lay.sizeofReal

/-- The members of the data set that fix the sizes of the blocks: no step of the
ingestion loop changes them. -/
def ingestKey (ds : DataSet) : Int × Int × Bool × String × Int :=
  (ds.m_inputPatternSize, ds.m_outputPatternSize, ds.m_isClassificationData,
    ds.m_auxDirPath, ds.m_auxDataDim)

/-- Sample layout: four bytes, least significant first, for `real_t` and `int`, one byte
for `char`. -/
def sampleLayout : Layout where
  sizeofReal := 4
  sizeofInt := 4
  realBytes := fun x =>
    [(x % 256).toNat, (x / 256 % 256).toNat, (x / 65536 % 256).toNat,
     (x / 16777216 % 256).toNat]
  intBytes := fun x =>
    [(x % 256).toNat, (x / 256 % 256).toNat, (x / 65536 % 256).toNat,
     (x / 16777216 % 256).toNat]
  charBytes := fun x => [(x % 256).toNat]

/-- Sample NetCDF file: input `k` is `k + 1`, target pattern `k` is `10 * k`. -/
def sampleNc : NcFile where
  inputs := fun k => k + 1
  targetPatterns := fun k => 10 * k

/-- Sample side files: the auxiliary file of utterance `utt` holds the ints 1 .. 6. -/
def sampleSideFiles : SideFiles where
  ints := fun path => if path = "aux/utt.bin" then some [1, 2, 3, 4, 5, 6] else none

/-- Sample state at the start of the ingestion loop: regression data with two inputs and
one output per time step, and auxiliary data of dimension 1 whose configured type tag 7
is none of the three constants of `sampleExternals`. -/
def sampleIngest : Ingest where
  ds :=
    { m_inputPatternSize := 2
      m_outputPatternSize := 1
      m_auxDirPath := "aux"
      m_auxFileExt := ".bin"
      m_auxDataDim := 1
      m_auxDataTyp := 7 }

/-- Sample descriptors: the two chunks, of lengths 3 and 2, of the utterance `utt`. -/
def sampleChunks : List sequence_t :=
  [{ length := 3, seqTag := "utt", beginInUtt := 0 },
   { originalSeqIdx := 1, length := 2, seqTag := "utt", beginInUtt := 3 }]

/-- The descriptors and the state the ingestion loop leaves on the sample. -/
def sampleIngested : List sequence_t × Ingest :=
  match ingestSequences sampleLayout sampleExternals {} sampleNc sampleSideFiles
      sampleIngest sampleChunks with
  | Except.ok r => r
  | Except.error _ => ([], sampleIngest)

/-- Steps 1 to 3 of the ingestion of descriptor `s` in state `st` succeed and append the
blocks `bIn`, `bTg` and `bAux`, one after the other. -/
def WroteBlocks (lay : Layout) (ext : Externals) (nc : NcFile) (fs : SideFiles)
    (st : Ingest) (s : sequence_t) (bIn bTg bAux : List Nat) : Prop :=
  ∃ seq1 st1 seq2 st2 seq3 st3,
    ingestInputs lay nc
      { st with
        ds := { st.ds with m_minSeqLength := min st.ds.m_minSeqLength s.length
                           m_maxSeqLength := max st.ds.m_maxSeqLength s.length } } s
      = Except.ok (seq1, st1) ∧ st1.cache = st.cache ++ bIn ∧
    ingestTargets lay nc st1 seq1 = Except.ok (seq2, st2) ∧ st2.cache = st1.cache ++ bTg ∧
    ingestAux lay ext fs st2 seq2 = Except.ok (seq3, st3) ∧ st3.cache = st2.cache ++ bAux

/-- A NetCDF file whose input index is not increasing: the values 3, 1, 2. -/
def indexNc : NcFile where
  inputs := fun k => if k = 0 then 3 else if k = 1 then 1 else 2

/-- A state of the ingestion loop with external input by index: the input pattern has
one value, the position. -/
def indexIngest : Ingest where
  ds :=
    { m_inputPatternSize := 1
      m_outputPatternSize := 1
      m_exInputType := DATASET_EXINPUT_TYPE_1 }

/-! ## The constructor `DataSet::DataSet` -/

/-- A NetCDF file as the constructor reads it: the lengths of its dimensions (`none` for
a dimension the file does not have), the arrays `seqLengths` and `seqTags` (the tag read
with a given `maxSeqTagLength`), and the variables the ingestion loop reads. -/
structure NcSource where
  dims : String → Option Int := fun _ => none
  seqLengths : Int → Int := fun _ => 0
  seqTags : Int → Int → String := fun _ _ => ""
  vars : NcFile := {}

/-- What the constructor finds outside the program: the NetCDF files by name (`none` when
`nc_open` fails), whether the cache file can be opened, the results of
`boost::filesystem::temp_directory_path()` and `unique_path()`, and the side files. -/
structure Disk where
  nc : String → Option NcSource := fun _ => none
  cacheGood : Bool := true
  temp_directory_path : String := "/tmp"
  unique_path : String := "cache"
  side : SideFiles := {}

/-- The calls of the constructor that reach outside the data set, in the order they are
made: `m_cacheFile.open`, `nc_open`, `nc_close`, `m_threadData.reset(new thread_data_t)`
and the construction of the `boost::thread` that runs `_nextFracThreadFn`. -/
inductive Event where
  | cacheOpen (name : String)
  | ncOpen (name : String)
  | ncClose
  | newThreadData
  | startThread
  deriving DecidableEq

/-- The state of a construction: the data set, the bytes written to the cache file and
the calls made so far. -/
structure Construction where
  ds : DataSet
  cache : List Nat := []
  events : List Event := []

/-- The function `internal::readNcDimension`; the text of `nc_strerror` is left out of
the message. -/
def readNcDimension (nc : NcSource) (dimName : String) : Except String Int :=
  match nc.dims dimName with
  | some x => Except.ok x
  | none => Except.error ("Cannot get dimension '" ++ dimName ++ "': ")

/-- The function `internal::hasNcDimension`. -/
def hasNcDimension (nc : NcSource) (dimName : String) : Bool :=
  match readNcDimension nc dimName with
  | Except.ok _ => true
  | Except.error _ => false

/-- The branch `if (first_file) { ... }` of the block `// Check input and output size`:
the first file fixes the kind of the data and the pattern sizes. -/
def fixSizes (nc : NcSource) (ds : DataSet) : Except String DataSet :=
  let ds1 := { ds with m_isClassificationData := hasNcDimension nc "numLabels" }
  match readNcDimension nc "inputPattSize" with
  | Except.error e => Except.error e
  | Except.ok inputPattSize =>
    let ds2 := { ds1 with m_inputPatternSize := inputPattSize }
    if ds2.m_isClassificationData then
      match readNcDimension nc "numLabels" with
      | Except.error e => Except.error e
      | Except.ok numLabels =>
        Except.ok { ds2 with m_outputPatternSize := if numLabels = 2 then 1 else numLabels }
    else
      match readNcDimension nc "targetPattSize" with
      | Except.error e => Except.error e
      | Except.ok targetPattSize =>
        Except.ok { ds2 with m_outputPatternSize := targetPattSize }

/-- The first test of the branch `else { ... }` of the block: the output size of a later
file against the one the first file fixed. -/
def checkOutputSize (nc : NcSource) (ds : DataSet) : Except String Unit :=
  if ds.m_isClassificationData then
    if ¬ hasNcDimension nc "numLabels" then
      Except.error "Cannot classification with regression NC"
    else
      match readNcDimension nc "numLabels" with
      | Except.error e => Except.error e
      | Except.ok numLabels =>
        if ds.m_outputPatternSize ≠ (if numLabels = 2 then 1 else numLabels) then
          Except.error "Number of classes mismatch in NC files"
        else Except.ok ()
  else
    match readNcDimension nc "targetPattSize" with
    | Except.error e => Except.error e
    | Except.ok targetPattSize =>
      if ds.m_outputPatternSize ≠ targetPattSize then
        Except.error "Number of targets mismatch in NC files"
      else Except.ok ()

/-- The branch `else { ... }` of the block: a later file is tested against the sizes the
first file fixed. -/
def checkSizes (nc : NcSource) (ds : DataSet) : Except String Unit :=
  match checkOutputSize nc ds with
  | Except.error e => Except.error e
  | Except.ok _ =>
    match readNcDimension nc "inputPattSize" with
    | Except.error e => Except.error e
    | Except.ok inputPattSize =>
      if ds.m_inputPatternSize ≠ inputPattSize then
        Except.error "Number of inputs mismatch in NC files"
      else Except.ok ()

/-- The block `// Check input and output size`. -/
def checkInputOutputSize (nc : NcSource) (first_file : Bool) (ds : DataSet) :
    Except String DataSet :=
  if first_file then fixSizes nc ds
  else
    match checkSizes nc ds with
    | Except.error e => Except.error e
    | Except.ok _ => Except.ok ds

/-- The conversion `(int)((real_t)nSeq * fraction)` with exact numbers: the product
`nSeq * fraction` cut off towards zero, computed from the numerator and the denominator
of `fraction`. -/
def scaleNumSeqs (nSeq : Int) (fraction : ℚ) : Int :=
  Int.tdiv (nSeq * fraction.num) (fraction.den : Int)

/-- The utterances `(seqLength, seqTag)` the loop `for (int i = 0; i < nSeq; ++i)` reads
with `readNcIntArray` and `readNcStringArray`. -/
def readUtterances (nc : NcSource) (nSeq maxSeqTagLength : Int) : List (Int × String) :=
  (List.range nSeq.toNat).map
    (fun (i : Nat) => (nc.seqLengths (i : Int), nc.seqTags (i : Int) maxSeqTagLength))

/-- The body of the `try` block for one NetCDF file up to the start of the thread: the
sizes are fixed or tested, the utterances are split into descriptors, and the data of
the descriptors is written to the cache.  The result is the list `sequences` of the
file, the data set and the cache; `none` stands for a splitting loop that does not end.
The output means and deviations the first file may carry are read by no modelled
function and are left out. -/
def readNcFile (lay : Layout) (ext : Externals) (cfg : Configuration) (side : SideFiles)
    (fraction : ℚ) (truncSeqLength : Int) (nc : NcSource) (first_file : Bool)
    (ds : DataSet) (cache : List Nat) :
    Option (Except String (List sequence_t × DataSet × List Nat)) :=
  match readNcDimension nc "maxSeqTagLength" with
  | Except.error e => some (Except.error e)
  | Except.ok maxSeqTagLength =>
  match checkInputOutputSize nc first_file ds with
  | Except.error e => some (Except.error e)
  | Except.ok ds1 =>
  match readNcDimension nc "numSeqs" with
  | Except.error e => some (Except.error e)
  | Except.ok numSeqs =>
    let nSeq := max (scaleNumSeqs numSeqs fraction) 1
    match readSequences truncSeqLength (readUtterances nc nSeq maxSeqTagLength)
        ([], ds1.m_totalTimesteps) with
    | none => none
    | some (sequences, totalTimesteps) =>
      match ingestSequences lay ext cfg nc.vars side
          { ds := { ds1 with m_totalTimesteps := totalTimesteps }, cache := cache }
          sequences with
      | Except.error e => some (Except.error e)
      | Except.ok (sequences1, st) => some (Except.ok (sequences1, st.ds, st.cache))

/-- The loop `for (nc_itr = ncfiles.begin(); nc_itr != ncfiles.end(); ++nc_itr)`.  For
every file: `nc_open`, the `try` block, at whose end a new `thread_data_t` replaces the
one `m_threadData` holds and a thread is started, `nc_close` (also when the block
throws), and the descriptors of the file are appended to `m_sequences`. -/
def readNcFiles (lay : Layout) (ext : Externals) (cfg : Configuration) (disk : Disk)
    (fraction : ℚ) (truncSeqLength : Int) :
    List String → Bool → Construction → Option (Except (String × List Event) Construction)
  | [], _, c => some (Except.ok c)
  | name :: rest, first_file, c =>
    match disk.nc name with
    | none =>
      some (Except.error ("Could not open '" ++ name ++ "': ",
        c.events ++ [Event.ncOpen name]))
    | some nc =>
      match readNcFile lay ext cfg disk.side fraction truncSeqLength nc first_file c.ds
          c.cache with
      | none => none
      | some (Except.error e) =>
        some (Except.error (e, c.events ++ [Event.ncOpen name, Event.ncClose]))
      | some (Except.ok (sequences, ds1, cache1)) =>
        let ds2 := { ds1 with m_threadData := { finished := false, terminate := false } }
        readNcFiles lay ext cfg disk fraction truncSeqLength rest false
          { ds := { ds2 with m_sequences := ds2.m_sequences ++ sequences }
            cache := cache1
            events := c.events ++
              [Event.ncOpen name, Event.newThreadData, Event.startThread, Event.ncClose] }

/-- The preparation of the auxiliary data. -/
def prepareAux (cfg : Configuration) (ds : DataSet) : DataSet :=
  { ds with m_auxDirPath := cfg.auxillaryDataDir
            m_auxFileExt := cfg.auxillaryDataExt
            m_auxDataDim := cfg.auxillaryDataDim
            m_auxDataTyp := cfg.auxillaryDataTyp }

/-- The preparation of the external input data. -/
def prepareExInput (ext : Externals) (cfg : Configuration) (ds : DataSet) :
    Except String DataSet :=
  if cfg.exInputDir.length ≠ 0 ∨ cfg.exInputDirs.length ≠ 0 then
    if cfg.exInputDim > 0 then
      Except.ok { ds with m_exInputDir := cfg.exInputDir
                          m_exInputExt := cfg.exInputExt
                          m_exInputDim := cfg.exInputDim
                          m_exInputFlag := true
                          m_exInputType := DATASET_EXINPUT_TYPE_1
                          m_exInputDirs := []
                          m_exInputExts := []
                          m_exInputDims := [] }
    else if cfg.exInputDims.length > 0 then
      let ds1 := { ds with m_exInputDirs := ext.ParseStrOpt cfg.exInputDirs ","
                           m_exInputExts := ext.ParseStrOpt cfg.exInputExts ","
                           m_exInputDims := ext.ParseIntOpt cfg.exInputDims }
      if ds1.m_exInputDirs.length ≠ ds1.m_exInputExts.length ∨
          ds1.m_exInputDirs.length ≠ ds1.m_exInputDims.length then
        Except.error "ExtInput options unequal length"
      else
        Except.ok { ds1 with m_exInputFlag := true
                             m_exInputType := DATASET_EXINPUT_TYPE_1
                             m_exInputDir := ""
                             m_exInputExt := ""
                             m_exInputDim := 0 }
    else Except.error "ExtInputDim(s) is not configured"
  else
    Except.ok { ds with m_exInputDir := ""
                        m_exInputExt := ""
                        m_exInputDim := 0
                        m_exInputFlag := false
                        m_exInputType := DATASET_EXINPUT_TYPE_0
                        m_exInputDirs := []
                        m_exInputExts := []
                        m_exInputDims := [] }

/-- The preparation of the external output data. -/
def prepareExOutput (ext : Externals) (cfg : Configuration) (ds : DataSet) :
    Except String DataSet :=
  if cfg.exOutputDirs.length ≠ 0 then
    let ds1 := { ds with m_exOutputDirs := ext.ParseStrOpt cfg.exOutputDirs ","
                         m_exOutputExts := ext.ParseStrOpt cfg.exOutputExts ","
                         m_exOutputDims := ext.ParseIntOpt cfg.exOutputDims }
    if ds1.m_exOutputDirs.length ≠ ds1.m_exOutputExts.length ∨
        ds1.m_exOutputDirs.length ≠ ds1.m_exOutputDims.length then
      Except.error "ExOutput options unequal length"
    else
      Except.ok { ds1 with m_exOutputFlag := true, m_exOutputType := DATASET_EXINPUT_TYPE_1 }
  else
    Except.ok { ds with m_exOutputFlag := false
                        m_exOutputType := DATASET_EXINPUT_TYPE_0
                        m_exOutputDirs := []
                        m_exOutputExts := []
                        m_exOutputDims := [] }

/-- The constructor after the test of `fraction`: the preparation, the opening of the
cache file, the loop over the NetCDF files and the end of the constructor. -/
def constructChecked (lay : Layout) (ext : Externals) (cfg : Configuration) (disk : Disk)
    (ncfiles : List String) (fraction : ℚ) (truncSeqLength : Int) (cachePath : String)
    (ds : DataSet) : Option (Except (String × List Event) Construction) :=
  match prepareExInput ext cfg (prepareAux cfg ds) with
  | Except.error e => some (Except.error (e, []))
  | Except.ok ds1 =>
  match prepareExOutput ext cfg ds1 with
  | Except.error e => some (Except.error (e, []))
  | Except.ok ds2 =>
    let tmpFileName :=
      if cachePath = "" then disk.temp_directory_path ++ "/" ++ disk.unique_path
      else cachePath ++ "/" ++ disk.unique_path
    if ¬ disk.cacheGood then
      some (Except.error ("Cannot open temporary file '" ++ tmpFileName ++ "'",
        [Event.cacheOpen tmpFileName]))
    else
      match readNcFiles lay ext cfg disk fraction truncSeqLength ncfiles true
          { ds := ds2, cache := [], events := [Event.cacheOpen tmpFileName] } with
      | none => none
      | some (Except.error e) => some (Except.error e)
      | some (Except.ok c) => some (Except.ok { c with ds := finishConstruction cfg c.ds })

/-- The constructor `DataSet::DataSet(ncfiles, parSeq, fraction, truncSeqLength, fracShuf,
seqShuf, noiseDev, cachePath)`.  The result is the data set with the cache file and the
calls made, or the message of the exception thrown with the calls made until then;
`none` stands for a constructor that does not return. -/
def constructDataSet (lay : Layout) (ext : Externals) (cfg : Configuration) (disk : Disk)
    (ncfiles : List String) (parSeq : Int) (fraction : ℚ) (truncSeqLength : Int)
    (fracShuf seqShuf : Bool) (noiseDev : real_t) (cachePath : String) :
    Option (Except (String × List Event) Construction) :=
  let ds : DataSet :=
    { m_fractionShuffling := fracShuf
      m_sequenceShuffling := seqShuf
      m_noiseDeviation := noiseDev
      m_parallelSequences := parSeq
      m_totalTimesteps := 0
      m_minSeqLength := INT_MAX
      m_maxSeqLength := INT_MIN
      m_curFirstSeqIdx := -1 }
  if fraction ≤ 0 ∨ fraction > 1 then some (Except.error ("Invalid fraction", []))
  else constructChecked lay ext cfg disk ncfiles fraction truncSeqLength cachePath ds

/-- A regression file: two inputs and one target per time step, two utterances `utt` and
`two` of the lengths 5 and 2. -/
def sampleSource : NcSource where
  dims := fun d =>
    if d = "maxSeqTagLength" then some 8
    else if d = "inputPattSize" then some 2
    else if d = "targetPattSize" then some 1
    else if d = "numSeqs" then some 2
    else none
  seqLengths := fun i => if i = 0 then 5 else 2
  seqTags := fun i _ => if i = 0 then "utt" else "two"
  vars := sampleNc

/-- A second regression file of the same sizes with one utterance `three` of length 4. -/
def secondSource : NcSource where
  dims := fun d =>
    if d = "maxSeqTagLength" then some 8
    else if d = "inputPattSize" then some 2
    else if d = "targetPattSize" then some 1
    else if d = "numSeqs" then some 1
    else none
  seqLengths := fun _ => 4
  seqTags := fun _ _ => "three"
  vars := sampleNc

/-- A file that carries the dimension `numLabels` of classification data next to the
dimensions of `secondSource`. -/
def labelledSource : NcSource :=
  { secondSource with
    dims := fun d => if d = "numLabels" then some 3 else secondSource.dims d }

/-- A regression file with three inputs per time step instead of two. -/
def wideSource : NcSource :=
  { secondSource with
    dims := fun d => if d = "inputPattSize" then some 3 else secondSource.dims d }

/-- The files `a.nc`, `b.nc`, `c.nc` and `d.nc` hold `sampleSource`, `secondSource`,
`labelledSource` and `wideSource`. -/
def sampleDisk : Disk where
  nc := fun name =>
    if name = "a.nc" then some sampleSource
    else if name = "b.nc" then some secondSource
    else if name = "c.nc" then some labelledSource
    else if name = "d.nc" then some wideSource
    else none
  side := sampleSideFiles

/-- What identifies a chunk: the tag of its utterance, its number in the utterance, its
length and its offset in the utterance. -/
def chunkKey (s : sequence_t) : String × Int × Int × Int :=
  (s.seqTag, s.originalSeqIdx, s.length, s.beginInUtt)

/-- The data set without the three members the ingestion loop assigns: the running
extremes of the lengths and `m_auxDataTyp`. -/
def ingestFrame (ds : DataSet) : DataSet :=
  { ds with m_minSeqLength := 0, m_maxSeqLength := 0, m_auxDataTyp := 0 }

/-- The sizes of the file `nc` agree with the ones the data set holds.  For
classification data the file has the dimension `numLabels` and the output size derived
from it (1 for two labels) is the one of the data set; for regression data the file has
the dimension `targetPattSize` with the output size of the data set.  In both cases the
file has the dimension `inputPattSize` with the input size of the data set. -/
def SizesAgree (ds : DataSet) (nc : NcSource) : Prop :=
  (if ds.m_isClassificationData then
      ∃ numLabels, nc.dims "numLabels" = some numLabels ∧
        ds.m_outputPatternSize = (if numLabels = 2 then 1 else numLabels)
    else nc.dims "targetPattSize" = some ds.m_outputPatternSize) ∧
    nc.dims "inputPattSize" = some ds.m_inputPatternSize

/-- The messages of the exceptions the test of a later file throws. -/
def sizeMessages : List String :=
  ["Cannot classification with regression NC", "Number of classes mismatch in NC files",
   "Number of targets mismatch in NC files", "Number of inputs mismatch in NC files",
   "Cannot get dimension 'targetPattSize': ", "Cannot get dimension 'inputPattSize': "]

/-- The kind of the data and the two pattern sizes. -/
def sizesOf (ds : DataSet) : Bool × Int × Int :=
  (ds.m_isClassificationData, ds.m_inputPatternSize, ds.m_outputPatternSize)

/-- The keys of the descriptors of the files `names` in ingestion order: file after file
in the order of the list, within a file utterance after utterance (the first `nSeq` of
the file), within an utterance chunk after chunk as the splitting loop makes them. -/
inductive InFileOrder (disk : Disk) (fraction : ℚ) (T : Int) :
    List String → List (String × Int × Int × Int) → Prop where
  | nil : InFileOrder disk fraction T [] []
  | cons (name : String) (rest : List String) (nc : NcSource) (m n : Int)
      (parts : List (List sequence_t)) (more : List (String × Int × Int × Int))
      (hnc : disk.nc name = some nc) (hm : nc.dims "maxSeqTagLength" = some m)
      (hn : nc.dims "numSeqs" = some n)
      (hparts : List.Forall₂ (fun u chunks => Chunks T u.2 u.1 0 0 chunks)
        (readUtterances nc (max (scaleNumSeqs n fraction) 1) m) parts)
      (hrest : InFileOrder disk fraction T rest more) :
      InFileOrder disk fraction T (name :: rest) (parts.flatten.map chunkKey ++ more)

/-- The construction from the sample files `a.nc` and `b.nc` in training mode, with two
parallel sequences, the whole of every file and the truncation length 3. -/
def sampleConstruction : Construction :=
  match constructDataSet sampleLayout sampleExternals { trainingMode := true } sampleDisk
      ["a.nc", "b.nc"] 2 1 3 false false 0 "" with
  | some (Except.ok c) => c
  | _ => { ds := {} }

/-- A configuration with auxiliary data of dimension 1 in the directory `aux`, with the
type tag `AUXDATATYPE_FLOAT` of `sampleExternals`. -/
def auxConfiguration : Configuration where
  auxillaryDataDir := "aux"
  auxillaryDataExt := ".bin"
  auxillaryDataDim := 1
  auxillaryDataTyp := 2

/-- The file `a.nc` with the auxiliary files of its two utterances, which hold the
floats 1 .. 6 and 1 .. 3; read as `int` the files yield the bit patterns of the floats. -/
def auxDisk : Disk where
  nc := fun name => if name = "a.nc" then some sampleSource else none
  side :=
    { reals := fun path =>
        if path = "aux/utt.bin" then some [1, 2, 3, 4, 5, 6]
        else if path = "aux/two.bin" then some [1, 2, 3]
        else none
      ints := fun path =>
        if path = "aux/utt.bin" then
          some [1065353216, 1073741824, 1077936128, 1082130432, 1084227584, 1086324736]
        else if path = "aux/two.bin" then some [1065353216, 1073741824, 1077936128]
        else none }

/-- The sum of the dimensions of the streams `(directory, extension, dimension)`: the
width of a row of the assembled buffer. -/
def sumDims (streams : List (String × String × Int)) : Int :=
  (streams.map (fun s => s.2.2)).sum

/-- Two external streams of the dimensions 2 and 1. -/
def exStreams : List (String × String × Int) := [("ex", ".a", 2), ("ey", ".b", 1)]

/-- The files of the two streams for the utterance `utt`: eight and four reals. -/
def exFiles : SideFiles where
  reals := fun path =>
    if path = "ex/utt.a" then some [10, 11, 12, 13, 14, 15, 16, 17]
    else if path = "ey/utt.b" then some [20, 21, 22, 23]
    else none

/-- The target offset `tgtStart` the context loop computes for slot `i`, time step
`timestep` and context position `offset_out`; `ips` is `frac->m_inputPatternSize`. -/
def contextTgtStart (ds : DataSet) (ips i timestep offset_out : Int) : Int :=
  ips * (timestep * ds.m_parallelSequences + i) + offset_out * ds.m_inputPatternSize

/-- The state the call that returns the null fraction leaves: the start index is back at
0, no task is bound, and the worker has finished and published a fraction. -/
def Rewound (ds : DataSet) : Prop :=
  ds.m_curFirstSeqIdx = 0 ∧ ds.m_threadData.taskFn = none ∧
    ds.m_threadData.finished = true ∧ ds.m_threadData.terminate = false ∧
    ∃ fr, ds.m_threadData.frac = some fr

/-- The state between two calls, `j` calls into an epoch of the protocol started from
`w0`: at `j = 0` the data set is fresh or rewound, later the start index stands at `j * p`
and the task for it is bound; the index is a rearrangement of the one of `w0`. -/
structure Phase (w0 : World) (j : Nat) (w : World) : Prop where
  static : staticPart w.ds = staticPart w0.ds
  perm : w.ds.m_sequences.Perm w0.ds.m_sequences
  start : j = 0 → Fresh w.ds ∨ Rewound w.ds
  handed : 1 ≤ j → Handed w.ds ((j : Int) * w0.ds.m_parallelSequences)
    (nextTask w.ds ((j : Int) * w0.ds.m_parallelSequences))

/-! ## The fraction builder with 32-bit sizes

The sizes the builder asks `resize` for are products of `int`s.  The definitions above
compute them exactly, which is what the source computes as long as no product leaves the
range of `int`.  On a window without descriptors `m_maxSeqLength` is still `INT_MIN` and
the products do leave it; the definitions of this section compute every size as a 32-bit
`int` that wraps around. -/

/-- The value a 32-bit `int` holds when the exact result of its arithmetic is `x`: the
number of `[-2^31, 2^31)` that differs from `x` by a multiple of `2^32`. -/
def wrapInt (x : Int) : Int := (x + 2147483648) % 4294967296 - 2147483648

/-- The exact number `x` is an `int`. -/
def FitsInt (x : Int) : Prop := INT_MIN ≤ x ∧ x ≤ INT_MAX

/-- The header of the fraction, with the product `m_inputPatternSize * context_length`
computed as an `int`. -/
def fracHeader32 (ds : DataSet) (ext : Externals) (cfg : Configuration) : DataSetFraction :=
  { fracHeader ds ext cfg with
    m_inputPatternSize :=
      wrapInt (ds.m_inputPatternSize * (cfg.inputLeftContext + cfg.inputRightContext + 1)) }

/-- The loop that prepares the resolution information buffer, with the sum
`patTypesResoLength += tempResoBuf.length` computed as an `int`. -/
def prepareResolutions32 (ext : Externals) (resolutionBuf : List Int)
    (frac : DataSetFraction) : DataSetFraction × Int :=
  resolutionBuf.foldl
    (fun st r =>
      let tempResoBuf : reso_info :=
        { resolution := r
          bufferPos := st.2
          length := ext.getResoLength (st.1.m_patTypes.length : Int) r }
      ({ st.1 with m_resolutionBuffer := st.1.m_resolutionBuffer ++ [tempResoBuf] },
        wrapInt (st.2 + tempResoBuf.length)))
    (frac, 0)

/-- The allocations of the auxiliary buffers, the size computed as an `int`. -/
def allocAux32 (ds : DataSet) (ext : Externals) (frac : DataSetFraction) :
    Option DataSetFraction :=
  if ds.m_auxDirPath.length > 0 then
    let n := wrapInt (frac.m_maxSeqLength * ds.m_auxDataDim * ds.m_parallelSequences)
    if ds.m_auxDataTyp = ext.AUXDATATYPE_CHAR then
      (resize frac.m_auxPattypeData n 0).bind fun b =>
      some { frac with m_auxPattypeData := b, m_auxRealData := [], m_auxIntData := [],
                       m_auxDataDim := ds.m_auxDataDim }
    else if ds.m_auxDataTyp = ext.AUXDATATYPE_INT then
      (resize frac.m_auxIntData n 0).bind fun b =>
      some { frac with m_auxPattypeData := [], m_auxRealData := [], m_auxIntData := b,
                       m_auxDataDim := ds.m_auxDataDim }
    else if ds.m_auxDataTyp = ext.AUXDATATYPE_FLOAT then
      (resize frac.m_auxRealData n 0).bind fun b =>
      some { frac with m_auxPattypeData := [], m_auxRealData := b, m_auxIntData := [],
                       m_auxDataDim := ds.m_auxDataDim }
    else
      some { frac with m_auxDataDim := ds.m_auxDataDim }
  else
    some { frac with m_auxPattypeData := [], m_auxRealData := [], m_auxIntData := [],
                     m_auxDataDim := -1 }

/-- The allocations of `m_inputs` and `m_patTypes`, the sizes computed as `int`s, and the
reset of the running total of non-padding cells. -/
def allocMain32 (ds : DataSet) (frac : DataSetFraction) : Option DataSetFraction :=
  (resize frac.m_inputs
    (wrapInt (frac.m_maxSeqLength * ds.m_parallelSequences * frac.m_inputPatternSize))
    0).bind
  fun inputs =>
  (resize frac.m_patTypes (wrapInt (frac.m_maxSeqLength * ds.m_parallelSequences))
    PATTYPE_NONE).bind
  fun patTypes =>
  some { frac with m_inputs := inputs, m_patTypes := patTypes, m_fracTotalLength := 0 }

/-- The allocations of the external input and output buffers, the sizes computed as
`int`s. -/
def allocExternal32 (ds : DataSet) (frac : DataSetFraction) : Option DataSetFraction :=
  (if ds.m_exInputFlag then
    resize frac.m_exInputData
      (wrapInt (frac.m_maxExInputLength * ds.m_parallelSequences * frac.m_exInputDim)) 0
   else some []).bind
  fun exIn =>
  (if ds.m_exOutputFlag then
    resize frac.m_exOutputData
      (wrapInt (frac.m_maxExOutputLength * ds.m_parallelSequences * frac.m_exOutputDim)) 0
   else some []).bind
  fun exOut =>
  some { frac with m_exInputData := exIn, m_exOutputData := exOut }

/-- The block `// prepare the resolution information buffer` with the allocation of
`m_patTypesLowTimeRes`, the sums computed as `int`s. -/
def allocResolutions32 (ext : Externals) (resolutionBuf : List Int)
    (frac : DataSetFraction) : Option DataSetFraction :=
  let reso := prepareResolutions32 ext resolutionBuf frac
  (resize reso.1.m_patTypesLowTimeRes reso.2 PATTYPE_NONE).bind
  fun lowRes =>
  some { reso.1 with m_patTypesLowTimeRes := lowRes }

/-- The allocation of the target buffer, the size computed as an `int`. -/
def allocTargets32 (ds : DataSet) (frac : DataSetFraction) : Option DataSetFraction :=
  if ds.m_isClassificationData then
    (resize frac.m_targetClasses (wrapInt (frac.m_maxSeqLength * ds.m_parallelSequences))
      (-1)).bind
    fun tc => some { frac with m_targetClasses := tc }
  else
    (resize frac.m_outputs
      (wrapInt (frac.m_maxSeqLength * ds.m_parallelSequences * ds.m_outputPatternSize))
      0).bind
    fun out => some { frac with m_outputs := out }

/-- The block `// allocate memory for the fraction`, in the order of the source, every
size computed as an `int`. -/
def allocFraction32 (ds : DataSet) (ext : Externals) (resolutionBuf : List Int)
    (frac0 : DataSetFraction) : Option DataSetFraction :=
  (allocMain32 ds frac0).bind fun frac1 =>
  (allocExternal32 ds frac1).bind fun frac2 =>
  (allocResolutions32 ext resolutionBuf frac2).bind fun frac3 =>
  (allocAux32 ds ext frac3).bind fun frac4 =>
  allocTargets32 ds frac4

/-- The function `DataSet::_makeFractionTask` with the sizes of the buffers computed as
32-bit `int`s; `none` when an allocation throws.  The scan of the window and the slot
loop are those of `_makeFractionTask`. -/
def _makeFractionTask32 (ds : DataSet) (ext : Externals) (cfg : Configuration)
    (gen : NoiseGen) (firstSeqIdx : Int) : Option (DataSetFraction × NoiseGen) :=
  match allocFraction32 ds ext (resolutionBufOf ext cfg)
      (fillSeqInfo ds firstSeqIdx (fracHeader32 ds ext cfg)) with
  | none => none
  | some frac =>
    some (forLoop ds.m_parallelSequences (slotBody ds ext cfg firstSeqIdx) (frac, gen))

/-- The sample data set with three parallel sequences. -/
def sampleOddDataSet : DataSet :=
  { sampleDataSet with m_parallelSequences := 3 }

/-! # Theorems

## The splitting loop: what it produces -/

theorem chunkLength_pos (T L : Int) (h : 0 < L) : 0 < chunkLength T L := by
  unfold chunkLength
  split_ifs with h1
  · exact lt_min h1.1 h
  · exact h

theorem chunkLength_le (T L : Int) : chunkLength T L ≤ L := by
  unfold chunkLength
  split_ifs with h1
  · exact min_le_right _ _
  · exact le_refl _

/-- With at least `seqLength` units of fuel the loop ends, and what it appends is
described by `Chunks`. -/
theorem splitLoop_chunks (T : Int) (tag : String) :
    ∀ (fuel : Nat) (acc : List sequence_t) (L k pos : Int), L.toNat ≤ fuel →
      ∃ chunks, splitLoop T tag fuel acc L k pos = some (acc ++ chunks) ∧
        Chunks T tag L k pos chunks := by
  intro fuel
  induction fuel with
  | zero =>
    intro acc L k pos hf
    have hL : ¬ L > 0 := by omega
    exact ⟨[], by simp [splitLoop, hL], Chunks.done L k pos hL⟩
  | succ n ih =>
    intro acc L k pos hf
    by_cases hL : L > 0
    · have hpos := chunkLength_pos T L hL
      have hfuel : (L - chunkLength T L).toNat ≤ n := by omega
      obtain ⟨rest, hrun, hch⟩ :=
        ih (acc ++ [{ originalSeqIdx := k, length := chunkLength T L, seqTag := tag,
                      beginInUtt := pos }])
          (L - chunkLength T L) (k + 1) (pos + chunkLength T L) hfuel
      refine ⟨_ :: rest, ?_, Chunks.step L k pos rest hL hch⟩
      simp only [splitLoop, hL, if_true]
      rw [hrun]
      simp
    · exact ⟨[], by simp [splitLoop, hL], Chunks.done L k pos hL⟩

/-- The body of the utterance loop always ends and appends the chunks of the
utterance. -/
theorem splitUtterance_chunks (T : Int) (tag : String) (L : Int) (acc : List sequence_t) :
    ∃ chunks, splitUtterance T tag L acc = some (acc ++ chunks) ∧
      Chunks T tag L 0 0 chunks :=
  splitLoop_chunks T tag L.toNat acc L 0 0 (le_refl _)

theorem Chunks.totalLength_eq {T : Int} {tag : String} {L k pos : Int}
    {chunks : List sequence_t} (h : Chunks T tag L k pos chunks) :
    totalLength chunks = max L 0 := by
  induction h with
  | done L k pos hL => simp [totalLength]; omega
  | step L k pos rest hL _ ih =>
    have h1 := chunkLength_pos T L hL
    have h2 := chunkLength_le T L
    simp only [totalLength, List.map_cons, List.sum_cons] at ih ⊢
    rw [ih]
    omega

theorem Chunks.length_pos {T : Int} {tag : String} {L k pos : Int}
    {chunks : List sequence_t} (h : Chunks T tag L k pos chunks) :
    ∀ c ∈ chunks, 0 < c.length := by
  induction h with
  | done L k pos hL => simp
  | step L k pos rest hL _ ih =>
    intro c hc
    rcases List.mem_cons.mp hc with rfl | hc
    · exact chunkLength_pos T L hL
    · exact ih c hc

theorem Chunks.fields {T : Int} {tag : String} {L k pos : Int}
    {chunks : List sequence_t} (h : Chunks T tag L k pos chunks) :
    ∀ (j : Nat) (c : sequence_t), chunks[j]? = some c →
      c.seqTag = tag ∧ c.originalSeqIdx = k + j ∧
        c.beginInUtt = pos + totalLength (chunks.take j) := by
  induction h with
  | done L k pos hL => simp
  | step L k pos rest hL _ ih =>
    intro j c hj
    cases j with
    | zero =>
      simp only [List.getElem?_cons_zero, Option.some.injEq] at hj
      subst hj
      simp [totalLength]
    | succ j =>
      simp only [List.getElem?_cons_succ] at hj
      obtain ⟨h1, h2, h3⟩ := ih j c hj
      refine ⟨h1, ?_, ?_⟩
      · rw [h2]; push_cast; ring
      · rw [h3]
        simp only [totalLength, List.take_succ_cons, List.map_cons, List.sum_cons]
        ring

theorem Chunks.bounded {T : Int} {tag : String} {L k pos : Int}
    {chunks : List sequence_t} (h : Chunks T tag L k pos chunks) (hT : 0 < T) :
    (∀ c ∈ chunks, 2 * c.length ≤ 3 * T) ∧
      ∀ (j : Nat) (c : sequence_t), j + 1 < chunks.length → chunks[j]? = some c →
        c.length = T := by
  induction h with
  | done L k pos hL => simp
  | step L k pos rest hL hrest ih =>
    obtain ⟨ih1, ih2⟩ := ih
    constructor
    · intro c hc
      rcases List.mem_cons.mp hc with rfl | hc
      · show 2 * chunkLength T L ≤ 3 * T
        unfold chunkLength
        split_ifs with h1
        · have := min_le_left T L
          omega
        · omega
      · exact ih1 c hc
    · intro j c hj hc
      cases j with
      | zero =>
        simp only [List.getElem?_cons_zero, Option.some.injEq] at hc
        subst hc
        show chunkLength T L = T
        unfold chunkLength
        split_ifs with h1
        · exact min_eq_left (by omega)
        · exfalso
          cases hrest with
          | done _ _ _ h0 => simp at hj
          | step _ _ _ _ h0 _ =>
            have : chunkLength T L = L := by
              unfold chunkLength; rw [if_neg h1]
            omega
      | succ j =>
        simp only [List.getElem?_cons_succ] at hc
        exact ih2 j c (by simpa using hj) hc

/-- Every utterance of the file is split, and every descriptor the loop creates has a
positive length, at most one and a half truncation lengths when truncation is on. -/
theorem readSequences_lengths (T : Int) :
    ∀ (utts : List (Int × String)) (acc : List sequence_t) (tot : Int),
      (∀ s ∈ acc, 0 < s.length ∧ (0 < T → 2 * s.length ≤ 3 * T)) →
      ∃ seqs tot1, readSequences T utts (acc, tot) = some (seqs, tot1) ∧
        ∀ s ∈ seqs, 0 < s.length ∧ (0 < T → 2 * s.length ≤ 3 * T) := by
  intro utts
  induction utts with
  | nil => intro acc tot h; exact ⟨acc, tot, rfl, h⟩
  | cons u rest ih =>
    intro acc tot h
    obtain ⟨L, tag⟩ := u
    obtain ⟨chunks, hrun, hch⟩ := splitUtterance_chunks T tag L acc
    have hacc : ∀ s ∈ acc ++ chunks, 0 < s.length ∧ (0 < T → 2 * s.length ≤ 3 * T) := by
      intro s hs
      rcases List.mem_append.mp hs with hs | hs
      · exact h s hs
      · exact ⟨hch.length_pos s hs, fun hT => (hch.bounded hT).1 s hs⟩
    obtain ⟨seqs, tot1, hrest, hall⟩ := ih (acc ++ chunks) (tot + L) hacc
    refine ⟨seqs, tot1, ?_, hall⟩
    simp only [readSequences, hrun]
    exact hrest

/-! ## Claims about ingestion -/

/-- C2: splitting is length-preserving.  For an utterance of length `L > 0` and any
truncation length `T` (positive, zero or negative) the splitting loop ends, and the
lengths of the descriptors it appends for the utterance sum to exactly `L`. -/
theorem split_length_preserving (T : Int) (tag : String) (L : Int)
    (sequences : List sequence_t) (hL : 0 < L) :
    ∃ chunks, splitUtterance T tag L sequences = some (sequences ++ chunks) ∧
      totalLength chunks = L := by
  obtain ⟨chunks, hrun, hch⟩ := splitUtterance_chunks T tag L sequences
  refine ⟨chunks, hrun, ?_⟩
  rw [hch.totalLength_eq]
  omega

theorem split_length_preserving_witness :
    (0 : Int) < 12 ∧
      ∃ chunks, splitUtterance 5 "utt" 12 [] = some ([] ++ chunks) ∧
        totalLength chunks = 12 :=
  ⟨by decide, split_length_preserving 5 "utt" 12 [] (by decide)⟩

/-- C3 as stated fails: with truncation length 5 an utterance of length 12 is split
(5 > 0 and 12 > 7.5), and one of its chunks has a length above the truncation length
(the second one, of length 7). -/
theorem split_chunk_exceeds_truncation :
    ∃ chunks, splitUtterance 5 "utt" 12 [] = some chunks ∧
      ((0 : Int) < 5 ∧ 3 * (5 : Int) < 2 * 12) ∧
      ∃ c ∈ chunks, ¬ c.length ≤ 5 :=
  ⟨[{ originalSeqIdx := 0, length := 5, seqTag := "utt", beginInUtt := 0 },
    { originalSeqIdx := 1, length := 7, seqTag := "utt", beginInUtt := 5 }],
    by decide, by decide,
    ⟨{ originalSeqIdx := 1, length := 7, seqTag := "utt", beginInUtt := 5 },
      by decide, by decide⟩⟩

/-- C3, amended: every descriptor ingestion produces has `length > 0`; and when splitting
applies to an utterance (`T > 0` and `L > 1.5 T`), every chunk of it except the last has
length exactly `T` and every chunk, the last included, has length at most `1.5 T`. -/
theorem split_chunk_bounds (T : Int) (utts : List (Int × String)) :
    (∃ seqs tot, readSequences T utts ([], 0) = some (seqs, tot) ∧
        ∀ s ∈ seqs, 0 < s.length) ∧
      ∀ (tag : String) (L : Int) (sequences : List sequence_t), 0 < T → 3 * T < 2 * L →
        ∃ chunks, splitUtterance T tag L sequences = some (sequences ++ chunks) ∧
          (∀ c ∈ chunks, 0 < c.length ∧ 2 * c.length ≤ 3 * T) ∧
          ∀ (j : Nat) (c : sequence_t), j + 1 < chunks.length → chunks[j]? = some c →
            c.length = T := by
  constructor
  · obtain ⟨seqs, tot, hrun, hall⟩ := readSequences_lengths T utts [] 0 (by simp)
    exact ⟨seqs, tot, hrun, fun s hs => (hall s hs).1⟩
  · intro tag L sequences hT _
    obtain ⟨chunks, hrun, hch⟩ := splitUtterance_chunks T tag L sequences
    exact ⟨chunks, hrun,
      fun c hc => ⟨hch.length_pos c hc, (hch.bounded hT).1 c hc⟩, (hch.bounded hT).2⟩

theorem split_chunk_bounds_witness :
    (0 : Int) < 5 ∧ 3 * (5 : Int) < 2 * 12 ∧
      ∃ chunks, splitUtterance 5 "utt" 12 [] = some ([] ++ chunks) ∧
        (∀ c ∈ chunks, 0 < c.length ∧ 2 * c.length ≤ 3 * 5) ∧
        ∀ (j : Nat) (c : sequence_t), j + 1 < chunks.length → chunks[j]? = some c →
          c.length = 5 :=
  ⟨by decide, by decide,
    (split_chunk_bounds 5 [(12, "utt")]).2 "utt" 12 [] (by decide) (by decide)⟩

/-- C4 as stated fails: truncation length 5 on one utterance of length 12 does not
yield three descriptors of lengths 5, 5, 2 at offsets 0, 5, 10. -/
theorem split_scenario_not_three_chunks :
    ¬ ∃ chunks, splitUtterance 5 "utt" 12 [] = some chunks ∧
        chunks.map (fun s => (s.length, s.beginInUtt)) = [(5, 0), (5, 5), (2, 10)] := by
  rintro ⟨chunks, hrun, hmap⟩
  have h : splitUtterance 5 "utt" 12 [] =
      some [{ originalSeqIdx := 0, length := 5, seqTag := "utt", beginInUtt := 0 },
            { originalSeqIdx := 1, length := 7, seqTag := "utt", beginInUtt := 5 }] := by
    decide
  rw [h] at hrun
  cases hrun
  simp at hmap

/-- C4, amended: truncation length 5 on one utterance of length 12 yields exactly two
descriptors, of lengths 5 and 7, with `beginInUtt` 0 and 5 (the remainder 7 does not
exceed 7.5 and is kept whole). -/
theorem split_scenario_two_chunks :
    ∃ chunks, splitUtterance 5 "utt" 12 [] = some chunks ∧ chunks.length = 2 ∧
      chunks.map (fun s => (s.length, s.beginInUtt)) = [(5, 0), (7, 5)] :=
  ⟨[{ originalSeqIdx := 0, length := 5, seqTag := "utt", beginInUtt := 0 },
    { originalSeqIdx := 1, length := 7, seqTag := "utt", beginInUtt := 5 }],
    by decide, by decide, by decide⟩

/-- C5: the chunks the splitting loop appends for an utterance all carry the utterance's
tag, chunk number `j` (from 0) has `originalSeqIdx = j`, and its `beginInUtt` is the sum of
the lengths of chunks `0 .. j-1`; so the first chunk starts at 0 and the offsets strictly
increase. -/
theorem split_chunk_fields (T : Int) (tag : String) (L : Int)
    (sequences : List sequence_t) :
    ∃ chunks, splitUtterance T tag L sequences = some (sequences ++ chunks) ∧
      (0 < L → chunks ≠ []) ∧
      (∀ (j : Nat) (c : sequence_t), chunks[j]? = some c →
        c.seqTag = tag ∧ c.originalSeqIdx = j ∧
          c.beginInUtt = totalLength (chunks.take j)) ∧
      (∀ c, chunks[0]? = some c → c.beginInUtt = 0) ∧
      ∀ (j : Nat) (c d : sequence_t), chunks[j]? = some c → chunks[j + 1]? = some d →
        c.beginInUtt < d.beginInUtt := by
  obtain ⟨chunks, hrun, hch⟩ := splitUtterance_chunks T tag L sequences
  have hf := hch.fields
  refine ⟨chunks, hrun, ?_, ?_, ?_, ?_⟩
  · intro hL hnil
    have := hch.totalLength_eq
    rw [hnil] at this
    simp [totalLength] at this
    omega
  · intro j c hj
    obtain ⟨h1, h2, h3⟩ := hf j c hj
    exact ⟨h1, by simpa using h2, by simpa using h3⟩
  · intro c hc
    obtain ⟨_, _, h3⟩ := hf 0 c hc
    simpa [totalLength] using h3
  · intro j c d hc hd
    obtain ⟨_, _, h3⟩ := hf j c hc
    obtain ⟨_, _, h4⟩ := hf (j + 1) d hd
    have hpos := hch.length_pos c (List.getElem?_mem hc)
    have htake : totalLength (chunks.take (j + 1)) = totalLength (chunks.take j) + c.length := by
      have hlt : j < chunks.length := by
        by_contra hge
        rw [List.getElem?_eq_none (by omega)] at hc
        cases hc
      have hcj : chunks[j] = c := by
        rw [List.getElem?_eq_getElem hlt] at hc
        exact Option.some.inj hc
      simp only [totalLength]
      rw [List.take_succ, List.getElem?_eq_getElem hlt, hcj]
      simp
    rw [h3, h4, htake]
    omega

/-! ## Loops and cells -/

/-- The loop rule: an invariant that holds before the loop and is carried by every
iteration holds afterwards, at the final value of the counter. -/
theorem forLoop_inv {σ : Type} (n : Int) (body : Int → σ → σ) (I : Int → σ → Prop) (s : σ)
    (h0 : I 0 s)
    (hstep : ∀ j st, 0 ≤ j → j < n → I j st → I (j + 1) (body j st)) :
    I (max n 0) (forLoop n body s) := by
  unfold forLoop
  have key : ∀ m : Nat, m ≤ n.toNat →
      I (m : Int) ((List.range m).foldl (fun (st : σ) (j : Nat) => body (j : Int) st) s) := by
    intro m
    induction m with
    | zero => intro _; simpa using h0
    | succ m ih =>
      intro hm
      rw [List.range_succ, List.foldl_append]
      simp only [List.foldl_cons, List.foldl_nil]
      have h := hstep m _ (by omega) (by omega) (ih (by omega))
      have e : ((m + 1 : Nat) : Int) = (m : Int) + 1 := by push_cast; rfl
      rw [e]
      exact h
  have h := key n.toNat le_rfl
  have e : ((n.toNat : Nat) : Int) = max n 0 := by omega
  rwa [e] at h

/-- An observation that no iteration changes is unchanged by the loop; `P` is a
property every iteration keeps. -/
theorem forLoop_frame {σ β : Type} (n : Int) (body : Int → σ → σ) (rd : σ → β)
    (P : σ → Prop) (s : σ) (hP : P s)
    (hkeep : ∀ j st, 0 ≤ j → j < n → P st → P (body j st))
    (h : ∀ j st, 0 ≤ j → j < n → P st → rd (body j st) = rd st) :
    rd (forLoop n body s) = rd s ∧ P (forLoop n body s) := by
  have := forLoop_inv n body (fun _ st => rd st = rd s ∧ P st) s ⟨rfl, hP⟩
    (fun j st h0 h1 hI => ⟨(h j st h0 h1 hI.2).trans hI.1, hkeep j st h0 h1 hI.2⟩)
  exact this

/-- An observation that only iteration `j0` changes, by applying `F`, is changed by the
loop by applying `F` once. -/
theorem forLoop_cell {σ β : Type} (n : Int) (body : Int → σ → σ) (rd : σ → β)
    (P : σ → Prop) (j0 : Int) (F : β → β) (s : σ) (hP : P s) (h0 : 0 ≤ j0) (h1 : j0 < n)
    (hkeep : ∀ j st, 0 ≤ j → j < n → P st → P (body j st))
    (hframe : ∀ j st, 0 ≤ j → j < n → j ≠ j0 → P st → rd (body j st) = rd st)
    (hact : ∀ st, P st → rd (body j0 st) = F (rd st)) :
    rd (forLoop n body s) = F (rd s) ∧ P (forLoop n body s) := by
  have := forLoop_inv n body
    (fun j st => rd st = (if j0 < j then F (rd s) else rd s) ∧ P st) s
    ⟨by simp [not_lt.mpr h0], hP⟩
    (fun j st hj0 hj1 hI => by
      refine ⟨?_, hkeep j st hj0 hj1 hI.2⟩
      by_cases e : j = j0
      · subst e
        rw [hact st hI.2, hI.1]
        simp
      · rw [hframe j st hj0 hj1 e hI.2, hI.1]
        by_cases c : j0 < j
        · simp [c, show j0 < j + 1 by omega]
        · simp [c, show ¬ j0 < j + 1 by omega])
  refine ⟨?_, this.2⟩
  rw [this.1]
  simp [show j0 < max n 0 by omega]

theorem length_writeAt {α : Type} (v : List α) (p : Int) (x : α) :
    (writeAt v p x).length = v.length := by
  unfold writeAt
  split_ifs <;> simp

theorem cellAt_writeAt_ne {α : Type} (v : List α) (p q : Int) (x : α) (h : p ≠ q) :
    cellAt (writeAt v q x) p = cellAt v p := by
  unfold cellAt writeAt
  by_cases hp : 0 ≤ p <;> by_cases hq : 0 ≤ q <;> simp [hp, hq]
  rw [List.getElem?_set_ne]
  omega

theorem cellAt_writeAt_self {α : Type} (v : List α) (p : Int) (x : α) :
    cellAt (writeAt v p x) p = (cellAt v p).map (fun _ => x) := by
  unfold cellAt writeAt
  by_cases hp : 0 ≤ p <;> simp [hp]
  rw [List.getElem?_set_self']
  rfl

theorem cellAt_replicate {α : Type} (n : Nat) (x : α) (p : Int) (h0 : 0 ≤ p)
    (h1 : p < n) : cellAt (List.replicate n x) p = some x := by
  unfold cellAt
  rw [if_pos h0, List.getElem?_replicate]
  simp
  omega

theorem cellAt_lt_length {α : Type} (v : List α) (p : Int) (h0 : 0 ≤ p)
    (h1 : p < v.length) : ∃ x, cellAt v p = some x := by
  unfold cellAt
  rw [if_pos h0]
  have h : p.toNat < v.length := by omega
  exact ⟨v[p.toNat], List.getElem?_eq_getElem h⟩

/-- What a loop of single writes at `lo + j`, `0 ≤ j < n`, does to the cell at `p`. -/
theorem cellAt_writeLoop {α : Type} (n lo : Int) (val : Int → α) (v : List α) (p : Int) :
    cellAt (forLoop n (fun j out => writeAt out (lo + j) (val j)) v) p =
      if lo ≤ p ∧ p < lo + n then (cellAt v p).map (fun _ => val (p - lo))
      else cellAt v p := by
  by_cases hin : lo ≤ p ∧ p < lo + n
  · rw [if_pos hin]
    have := forLoop_cell n (fun j out => writeAt out (lo + j) (val j))
      (fun out => cellAt out p) (fun _ => True) (p - lo) (fun c => c.map (fun _ => val (p - lo)))
      v trivial (by omega) (by omega) (fun _ _ _ _ _ => trivial)
      (fun j st _ _ hne _ => cellAt_writeAt_ne st p (lo + j) _ (by omega))
      (fun st _ => by
        have e : lo + (p - lo) = p := by omega
        show cellAt (writeAt st (lo + (p - lo)) (val (p - lo))) p = _
        rw [e]
        exact cellAt_writeAt_self st p _)
    exact this.1
  · rw [if_neg hin]
    have := forLoop_frame n (fun j out => writeAt out (lo + j) (val j))
      (fun out => cellAt out p) (fun _ => True) v trivial (fun _ _ _ _ _ => trivial)
      (fun j st hj0 hj1 _ => cellAt_writeAt_ne st p (lo + j) _ (by omega))
    exact this.1

/-- What `copy_n` does to the cell at `p`. -/
theorem cellAt_copy_n {α : Type} [Inhabited α] (src : List α) (srcStart n : Int)
    (dst : List α) (tgtStart p : Int) :
    cellAt (copy_n src srcStart n dst tgtStart) p =
      if tgtStart ≤ p ∧ p < tgtStart + n then
        (cellAt dst p).map (fun _ => readAt src (srcStart + (p - tgtStart)))
      else cellAt dst p :=
  cellAt_writeLoop n tgtStart (fun d => readAt src (srcStart + d)) dst p

theorem InCell.unique {size c c' p : Int} (h : InCell size c p) (h' : InCell size c' p) :
    c = c' := by
  obtain ⟨h1, h2⟩ := h
  obtain ⟨h3, h4⟩ := h'
  have hs : 0 < size := by omega
  rcases lt_trichotomy c c' with hlt | heq | hgt
  · exfalso
    have : size * (c + 1) ≤ size * c' := Int.mul_le_mul_of_nonneg_left (by omega) (by omega)
    rw [mul_add, mul_one] at this
    omega
  · exact heq
  · exfalso
    have : size * (c' + 1) ≤ size * c := Int.mul_le_mul_of_nonneg_left (by omega) (by omega)
    rw [mul_add, mul_one] at this
    omega

/-- A cell index `t * par + i` with `0 ≤ i < par` determines the time step and the
slot. -/
theorem cell_index_unique {par t i t' i' : Int} (hi : 0 ≤ i) (hi' : i < par)
    (hj : 0 ≤ i') (hj' : i' < par) (h : t * par + i = t' * par + i') : t = t' ∧ i = i' := by
  have e : InCell par t (t * par + i) := ⟨by rw [mul_comm]; omega, by rw [mul_comm]; omega⟩
  have e' : InCell par t' (t * par + i) := by
    rw [h]
    exact ⟨by rw [mul_comm]; omega, by rw [mul_comm]; omega⟩
  have := e.unique e'
  subst this
  exact ⟨rfl, by omega⟩

/-- The offset `k * P + d` of element `d` of context slice `k` lies inside a cell of
`C * P` elements. -/
theorem slice_offset_lt {C P k d : Int} (hk0 : 0 ≤ k) (hk : k < C) (hd0 : 0 ≤ d)
    (hd : d < P) : 0 ≤ k * P + d ∧ k * P + d < C * P := by
  have h1 : 0 ≤ k * P := Int.mul_nonneg hk0 (by omega)
  have h2 : (k + 1) * P ≤ C * P := Int.mul_le_mul_of_nonneg_right (by omega) (by omega)
  rw [add_mul, one_mul] at h2
  omega

theorem slice_offset_unique {P k d k' d' : Int} (hd0 : 0 ≤ d) (hd : d < P) (hd0' : 0 ≤ d')
    (hd' : d' < P) (h : k * P + d = k' * P + d') : k = k' ∧ d = d' := by
  have e : InCell P k (k * P + d) := ⟨by rw [mul_comm]; omega, by rw [mul_comm]; omega⟩
  have e' : InCell P k' (k * P + d) := by
    rw [h]
    exact ⟨by rw [mul_comm]; omega, by rw [mul_comm]; omega⟩
  have := e.unique e'
  subst this
  exact ⟨rfl, by omega⟩

/-! ## Context expansion -/

theorem expandContext_eq (ds : DataSet) (cfg : Configuration) (ips i : Int)
    (seq : sequence_t) (inputs buf : List real_t) :
    expandContext ds cfg ips i seq inputs buf =
      forLoop seq.length (expandStep ds cfg ips i seq inputs) buf := rfl

theorem expandStep_frame (ds : DataSet) (cfg : Configuration) (ips i : Int)
    (seq : sequence_t) (inputs : List real_t) (t : Int) (buf : List real_t) (p : Int)
    (hips : ips = (cfg.inputRightContext + cfg.inputLeftContext + 1) * ds.m_inputPatternSize)
    (hp : ¬ InCell ips (t * ds.m_parallelSequences + i) p) :
    cellAt (expandStep ds cfg ips i seq inputs t buf) p = cellAt buf p := by
  unfold expandStep
  refine (forLoop_frame _ _ (fun b => cellAt b p) (fun _ => True) buf trivial
    (fun _ _ _ _ _ => trivial) ?_).1
  intro k st hk0 hk _
  show cellAt (copy_n _ _ _ _ _) p = _
  rw [cellAt_copy_n, if_neg]
  rintro ⟨h1, h2⟩
  apply hp
  have hP : 0 < ds.m_inputPatternSize := by omega
  have := slice_offset_lt hk0 hk (le_refl 0) hP
  unfold InCell
  rw [hips] at h1 h2 ⊢
  have h3 : (k + 1) * ds.m_inputPatternSize ≤
      (cfg.inputRightContext + cfg.inputLeftContext + 1) * ds.m_inputPatternSize :=
    Int.mul_le_mul_of_nonneg_right (by omega) (by omega)
  rw [add_mul, one_mul] at h3
  have h4 : 0 ≤ k * ds.m_inputPatternSize := Int.mul_nonneg hk0 (by omega)
  constructor <;> omega

theorem expandStep_cell (ds : DataSet) (cfg : Configuration) (ips i : Int)
    (seq : sequence_t) (inputs : List real_t) (t : Int) (buf : List real_t) (k d : Int)
    (hk0 : 0 ≤ k) (hk : k < cfg.inputRightContext + cfg.inputLeftContext + 1)
    (hd0 : 0 ≤ d) (hd : d < ds.m_inputPatternSize) :
    cellAt (expandStep ds cfg ips i seq inputs t buf)
        (ips * (t * ds.m_parallelSequences + i) + k * ds.m_inputPatternSize + d) =
      (cellAt buf (ips * (t * ds.m_parallelSequences + i) + k * ds.m_inputPatternSize + d)).map
        (fun _ => readAt inputs (contextSrcStart ds cfg seq t k + d)) := by
  unfold expandStep
  refine (forLoop_cell _ _ (fun b => cellAt b _) (fun _ => True) k _ buf trivial hk0 hk
    (fun _ _ _ _ _ => trivial) ?_ ?_).1
  · intro k' st hk0' hk' hne _
    show cellAt (copy_n _ _ _ _ _) _ = _
    rw [cellAt_copy_n, if_neg]
    rintro ⟨h1, h2⟩
    apply hne
    have hd' : 0 ≤ ips * (t * ds.m_parallelSequences + i) + k * ds.m_inputPatternSize + d -
        (ips * (t * ds.m_parallelSequences + i) + k' * ds.m_inputPatternSize) := by omega
    have := slice_offset_unique hd0 hd hd' (by omega)
      (show k * ds.m_inputPatternSize + d = k' * ds.m_inputPatternSize + _ by ring)
    exact this.1.symm
  · intro st _
    show cellAt (copy_n _ _ _ _ _) _ = _
    rw [cellAt_copy_n, if_pos (by constructor <;> omega)]
    congr 1
    funext _
    congr 1
    omega

theorem expandContext_frame (ds : DataSet) (cfg : Configuration) (ips i : Int)
    (seq : sequence_t) (inputs buf : List real_t) (p : Int)
    (hips : ips = (cfg.inputRightContext + cfg.inputLeftContext + 1) * ds.m_inputPatternSize)
    (hp : ∀ t, 0 ≤ t → t < seq.length → ¬ InCell ips (t * ds.m_parallelSequences + i) p) :
    cellAt (expandContext ds cfg ips i seq inputs buf) p = cellAt buf p := by
  rw [expandContext_eq]
  exact (forLoop_frame _ _ (fun b => cellAt b p) (fun _ => True) buf trivial
    (fun _ _ _ _ _ => trivial)
    (fun t st ht0 ht _ => expandStep_frame ds cfg ips i seq inputs t st p hips (hp t ht0 ht))).1

theorem expandContext_cell (ds : DataSet) (cfg : Configuration) (ips i : Int)
    (seq : sequence_t) (inputs buf : List real_t) (t k d : Int)
    (hips : ips = (cfg.inputRightContext + cfg.inputLeftContext + 1) * ds.m_inputPatternSize)
    (hi0 : 0 ≤ i) (hi : i < ds.m_parallelSequences)
    (ht0 : 0 ≤ t) (ht : t < seq.length)
    (hk0 : 0 ≤ k) (hk : k < cfg.inputRightContext + cfg.inputLeftContext + 1)
    (hd0 : 0 ≤ d) (hd : d < ds.m_inputPatternSize) :
    cellAt (expandContext ds cfg ips i seq inputs buf)
        (ips * (t * ds.m_parallelSequences + i) + k * ds.m_inputPatternSize + d) =
      (cellAt buf (ips * (t * ds.m_parallelSequences + i) + k * ds.m_inputPatternSize + d)).map
        (fun _ => readAt inputs (contextSrcStart ds cfg seq t k + d)) := by
  rw [expandContext_eq]
  refine (forLoop_cell _ _ (fun b => cellAt b _) (fun _ => True) t _ buf trivial ht0 ht
    (fun _ _ _ _ _ => trivial) ?_ ?_).1
  · intro t' st _ _ hne _
    apply expandStep_frame ds cfg ips i seq inputs t' st _ hips
    intro hin
    apply hne
    have hoff := slice_offset_lt hk0 hk hd0 hd
    have hin2 : InCell ips (t * ds.m_parallelSequences + i)
        (ips * (t * ds.m_parallelSequences + i) + k * ds.m_inputPatternSize + d) := by
      unfold InCell
      rw [← hips] at hoff
      constructor <;> omega
    have := hin.unique hin2
    exact (cell_index_unique hi0 hi hi0 hi this).1
  · intro st _
    exact expandStep_cell ds cfg ips i seq inputs t st k d hk0 hk hd0 hd

/-! ## Which members each part of the slot loop touches -/

theorem fillResolution_shape (ds : DataSet) (i t : Int) (pt : PatType)
    (fr : DataSetFraction) :
    ∃ b, fillResolution ds i t pt fr = { fr with m_patTypesLowTimeRes := b } := by
  unfold fillResolution
  exact forLoop_inv (fr.m_resolutionBuffer.length : Int) (resolutionStep ds i t pt)
    (fun _ st => ∃ b, st = { fr with m_patTypesLowTimeRes := b }) fr
    ⟨fr.m_patTypesLowTimeRes, rfl⟩
    (fun j st _ _ hI => by
      obtain ⟨b, rfl⟩ := hI
      exact ⟨_, rfl⟩)

theorem patTypeStep_shape (ds : DataSet) (i : Int) (seq : sequence_t) (t : Int)
    (fr : DataSetFraction) :
    ∃ b, patTypeStep ds i seq t fr =
      { fr with
        m_patTypes :=
          writeAt fr.m_patTypes (t * ds.m_parallelSequences + i) (patTypeOf seq.length t)
        m_fracTotalLength := fr.m_fracTotalLength + 1
        m_patTypesLowTimeRes := b } := by
  unfold patTypeStep
  obtain ⟨b, hb⟩ := fillResolution_shape ds i t (patTypeOf seq.length t)
    { fr with
      m_patTypes :=
        writeAt fr.m_patTypes (t * ds.m_parallelSequences + i) (patTypeOf seq.length t)
      m_fracTotalLength := fr.m_fracTotalLength + 1 }
  exact ⟨b, hb⟩

theorem fillPatTypes_shape (ds : DataSet) (i : Int) (seq : sequence_t)
    (fr : DataSetFraction) :
    ∃ a n b, fillPatTypes ds i seq fr =
      { fr with m_patTypes := a, m_fracTotalLength := n, m_patTypesLowTimeRes := b } := by
  unfold fillPatTypes
  exact forLoop_inv seq.length (patTypeStep ds i seq)
    (fun _ st => ∃ a n b, st =
      { fr with m_patTypes := a, m_fracTotalLength := n, m_patTypesLowTimeRes := b }) fr
    ⟨fr.m_patTypes, fr.m_fracTotalLength, fr.m_patTypesLowTimeRes, rfl⟩
    (fun j st _ _ hI => by
      obtain ⟨a, n, b, rfl⟩ := hI
      obtain ⟨b', hb⟩ := patTypeStep_shape ds i seq j
        { fr with m_patTypes := a, m_fracTotalLength := n, m_patTypesLowTimeRes := b }
      exact ⟨_, _, b', hb⟩)

theorem fillAux_shape (ds : DataSet) (ext : Externals) (cfg : Configuration) (i : Int)
    (seq : sequence_t) (fr : DataSetFraction) :
    ∃ a b c, fillAux ds ext cfg i seq fr =
      { fr with m_auxPattypeData := a, m_auxIntData := b, m_auxRealData := c } := by
  unfold fillAux
  split_ifs
  · exact ⟨_, fr.m_auxIntData, fr.m_auxRealData, rfl⟩
  · exact ⟨fr.m_auxPattypeData, _, fr.m_auxRealData, rfl⟩
  · exact ⟨fr.m_auxPattypeData, fr.m_auxIntData, _, rfl⟩
  · exact ⟨fr.m_auxPattypeData, fr.m_auxIntData, fr.m_auxRealData, rfl⟩
  · exact ⟨fr.m_auxPattypeData, fr.m_auxIntData, fr.m_auxRealData, rfl⟩

theorem fillPatTypes_rest (ds : DataSet) (i : Int) (seq : sequence_t)
    (fr : DataSetFraction) :
    (fillPatTypes ds i seq fr).m_inputs = fr.m_inputs ∧
      (fillPatTypes ds i seq fr).m_inputPatternSize = fr.m_inputPatternSize ∧
      (fillPatTypes ds i seq fr).m_outputs = fr.m_outputs ∧
      (fillPatTypes ds i seq fr).m_targetClasses = fr.m_targetClasses ∧
      (fillPatTypes ds i seq fr).m_resolutionBuffer = fr.m_resolutionBuffer ∧
      (fillPatTypes ds i seq fr).m_maxSeqLength = fr.m_maxSeqLength ∧
      (fillPatTypes ds i seq fr).m_minSeqLength = fr.m_minSeqLength := by
  obtain ⟨a, n, b, h⟩ := fillPatTypes_shape ds i seq fr
  rw [h]
  exact ⟨rfl, rfl, rfl, rfl, rfl, rfl, rfl⟩

theorem fillAux_rest (ds : DataSet) (ext : Externals) (cfg : Configuration) (i : Int)
    (seq : sequence_t) (fr : DataSetFraction) :
    (fillAux ds ext cfg i seq fr).m_inputs = fr.m_inputs ∧
      (fillAux ds ext cfg i seq fr).m_inputPatternSize = fr.m_inputPatternSize ∧
      (fillAux ds ext cfg i seq fr).m_outputs = fr.m_outputs ∧
      (fillAux ds ext cfg i seq fr).m_targetClasses = fr.m_targetClasses ∧
      (fillAux ds ext cfg i seq fr).m_resolutionBuffer = fr.m_resolutionBuffer ∧
      (fillAux ds ext cfg i seq fr).m_patTypes = fr.m_patTypes ∧
      (fillAux ds ext cfg i seq fr).m_patTypesLowTimeRes = fr.m_patTypesLowTimeRes ∧
      (fillAux ds ext cfg i seq fr).m_maxSeqLength = fr.m_maxSeqLength ∧
      (fillAux ds ext cfg i seq fr).m_minSeqLength = fr.m_minSeqLength := by
  obtain ⟨a, b, c, h⟩ := fillAux_shape ds ext cfg i seq fr
  rw [h]
  exact ⟨rfl, rfl, rfl, rfl, rfl, rfl, rfl, rfl, rfl⟩

theorem slotBody_live (ds : DataSet) (ext : Externals) (cfg : Configuration)
    (first i : Int) (st : DataSetFraction × NoiseGen)
    (hlive : ¬ first + i ≥ (ds.m_sequences.length : Int)) :
    (slotBody ds ext cfg first i st).1 =
      fillPatTypes ds i (readAt ds.m_sequences (first + i))
        (slotPrefix ds ext cfg i (readAt ds.m_sequences (first + i))
          (_addNoise ds (_loadInputsFromCache ds (readAt ds.m_sequences (first + i)))
            st.2).1 st.1) := by
  unfold slotBody
  rw [if_neg hlive]

theorem slotBody_dead (ds : DataSet) (ext : Externals) (cfg : Configuration)
    (first i : Int) (st : DataSetFraction × NoiseGen)
    (hdead : first + i ≥ (ds.m_sequences.length : Int)) :
    slotBody ds ext cfg first i st = st := by
  unfold slotBody
  rw [if_pos hdead]

theorem slotPrefix_fields (ds : DataSet) (ext : Externals) (cfg : Configuration) (i : Int)
    (seq : sequence_t) (inputs : List real_t) (fr : DataSetFraction) :
    (slotPrefix ds ext cfg i seq inputs fr).m_inputs =
        expandContext ds cfg fr.m_inputPatternSize i seq inputs fr.m_inputs ∧
      (slotPrefix ds ext cfg i seq inputs fr).m_inputPatternSize = fr.m_inputPatternSize ∧
      (slotPrefix ds ext cfg i seq inputs fr).m_outputs =
        (if ds.m_isClassificationData then fr.m_outputs
         else lagShiftCopy ds cfg ds.m_outputPatternSize i seq (_loadOutputsFromCache ds seq)
            1 fr.m_outputs) ∧
      (slotPrefix ds ext cfg i seq inputs fr).m_targetClasses =
        (if ds.m_isClassificationData then
          shiftTargetClasses ds cfg i seq (_loadTargetClassesFromCache ds seq)
            fr.m_targetClasses
         else fr.m_targetClasses) ∧
      (slotPrefix ds ext cfg i seq inputs fr).m_resolutionBuffer = fr.m_resolutionBuffer ∧
      (slotPrefix ds ext cfg i seq inputs fr).m_patTypes = fr.m_patTypes ∧
      (slotPrefix ds ext cfg i seq inputs fr).m_patTypesLowTimeRes =
        fr.m_patTypesLowTimeRes ∧
      (slotPrefix ds ext cfg i seq inputs fr).m_maxSeqLength = fr.m_maxSeqLength ∧
      (slotPrefix ds ext cfg i seq inputs fr).m_minSeqLength = fr.m_minSeqLength := by
  unfold slotPrefix
  simp only []
  obtain ⟨h1, h2, h3, h4, h5, h6, h7, h8, h9⟩ := fillAux_rest ds ext cfg i seq
    (if ds.m_exOutputFlag then
      fillExOutput ds i seq (_loadExOutputsFromCache ds seq)
        (if ds.m_exInputFlag then
          fillExInput ds i seq (_loadExInputsFromCache ds seq)
            (if ds.m_isClassificationData then
              fillTargetClasses ds cfg i seq (_loadTargetClassesFromCache ds seq)
                (fillInputs ds cfg i seq inputs fr)
            else fillOutputs ds cfg i seq (_loadOutputsFromCache ds seq)
                (fillInputs ds cfg i seq inputs fr))
        else
          (if ds.m_isClassificationData then
              fillTargetClasses ds cfg i seq (_loadTargetClassesFromCache ds seq)
                (fillInputs ds cfg i seq inputs fr)
            else fillOutputs ds cfg i seq (_loadOutputsFromCache ds seq)
                (fillInputs ds cfg i seq inputs fr)))
    else
      (if ds.m_exInputFlag then
          fillExInput ds i seq (_loadExInputsFromCache ds seq)
            (if ds.m_isClassificationData then
              fillTargetClasses ds cfg i seq (_loadTargetClassesFromCache ds seq)
                (fillInputs ds cfg i seq inputs fr)
            else fillOutputs ds cfg i seq (_loadOutputsFromCache ds seq)
                (fillInputs ds cfg i seq inputs fr))
        else
          (if ds.m_isClassificationData then
              fillTargetClasses ds cfg i seq (_loadTargetClassesFromCache ds seq)
                (fillInputs ds cfg i seq inputs fr)
            else fillOutputs ds cfg i seq (_loadOutputsFromCache ds seq)
                (fillInputs ds cfg i seq inputs fr))))
  rw [h1, h2, h3, h4, h5, h6, h7, h8, h9]
  cases ds.m_exOutputFlag <;> cases ds.m_exInputFlag <;>
    cases ds.m_isClassificationData <;>
    simp [fillExOutput, fillExInput, fillTargetClasses, fillOutputs, fillInputs]

/-! ## The window scan and the allocations -/

theorem resize_nil {α : Type} (n : Int) (fill : α) (b : List α)
    (h : resize ([] : List α) n fill = some b) :
    0 ≤ n ∧ b = List.replicate n.toNat fill := by
  unfold resize at h
  split_ifs at h with hn
  simp only [List.take_nil, List.nil_append, List.length_nil, Nat.sub_zero,
    Option.some.injEq] at h
  exact ⟨by omega, h.symm⟩

/-- What the window scan leaves in the fraction: the buffers and the pattern sizes are
those of the header, every live slot's length lies between the minimum and the maximum,
and both extremes are the initial value or attained by a live slot. -/
theorem fillSeqInfo_spec (ds : DataSet) (first : Int) (fr0 : DataSetFraction) :
    let fr := fillSeqInfo ds first fr0
    (∃ a b c d e f g,
      fr = { fr0 with m_maxSeqLength := a, m_minSeqLength := b, m_maxExInputLength := c,
                      m_minExInputLength := d, m_maxExOutputLength := e,
                      m_minExOutputLength := f, m_seqInfo := g }) ∧
    (∀ j, Live ds first j →
      (readAt ds.m_sequences (first + j)).length ≤ fr.m_maxSeqLength ∧
        fr.m_minSeqLength ≤ (readAt ds.m_sequences (first + j)).length) ∧
    (fr.m_maxSeqLength = fr0.m_maxSeqLength ∨
      ∃ j, Live ds first j ∧ (readAt ds.m_sequences (first + j)).length = fr.m_maxSeqLength) ∧
    (fr.m_minSeqLength = fr0.m_minSeqLength ∨
      ∃ j, Live ds first j ∧ (readAt ds.m_sequences (first + j)).length = fr.m_minSeqLength) ∧
    fr0.m_maxSeqLength ≤ fr.m_maxSeqLength ∧ fr.m_minSeqLength ≤ fr0.m_minSeqLength := by
  intro fr
  have := forLoop_inv ds.m_parallelSequences (fun j fr => seqInfoStep ds (first + j) fr)
    (fun n fr =>
      (∃ a b c d e f g,
        fr = { fr0 with m_maxSeqLength := a, m_minSeqLength := b, m_maxExInputLength := c,
                        m_minExInputLength := d, m_maxExOutputLength := e,
                        m_minExOutputLength := f, m_seqInfo := g }) ∧
      (∀ j, Live ds first j → j < n →
        (readAt ds.m_sequences (first + j)).length ≤ fr.m_maxSeqLength ∧
          fr.m_minSeqLength ≤ (readAt ds.m_sequences (first + j)).length) ∧
      (fr.m_maxSeqLength = fr0.m_maxSeqLength ∨
        ∃ j, Live ds first j ∧
          (readAt ds.m_sequences (first + j)).length = fr.m_maxSeqLength) ∧
      (fr.m_minSeqLength = fr0.m_minSeqLength ∨
        ∃ j, Live ds first j ∧
          (readAt ds.m_sequences (first + j)).length = fr.m_minSeqLength) ∧
      fr0.m_maxSeqLength ≤ fr.m_maxSeqLength ∧ fr.m_minSeqLength ≤ fr0.m_minSeqLength)
    fr0
    ⟨⟨_, _, _, _, _, _, _, rfl⟩, fun j hj hlt => absurd hj.1 (by omega), Or.inl rfl,
      Or.inl rfl, le_refl _, le_refl _⟩
    (fun n st hn0 hn hI => by
      obtain ⟨⟨a, b, c, d, e, f, g, rfl⟩, hbnd, hmax, hmin, hle1, hle2⟩ := hI
      by_cases hlive : first + n < (ds.m_sequences.length : Int)
      · simp only [seqInfoStep, if_pos hlive] at hbnd hmax hmin hle1 hle2 ⊢
        refine ⟨⟨_, _, _, _, _, _, _, rfl⟩, ?_, ?_, ?_, ?_, ?_⟩
        · intro j hj hlt
          by_cases e : j = n
          · subst e
            exact ⟨le_max_right _ _, min_le_right _ _⟩
          · have := hbnd j hj (by omega)
            exact ⟨le_trans this.1 (le_max_left _ _), le_trans (min_le_left _ _) this.2⟩
        · rcases le_total a (readAt ds.m_sequences (first + n)).length with h | h
          · right
            exact ⟨n, ⟨hn0, hn, hlive⟩, (max_eq_right h).symm⟩
          · rw [max_eq_left h]
            exact hmax
        · rcases le_total b (readAt ds.m_sequences (first + n)).length with h | h
          · rw [min_eq_left h]
            exact hmin
          · right
            exact ⟨n, ⟨hn0, hn, hlive⟩, (min_eq_right h).symm⟩
        · exact le_trans hle1 (le_max_left _ _)
        · exact le_trans (min_le_left _ _) hle2
      · simp only [seqInfoStep, if_neg hlive]
        refine ⟨⟨_, _, _, _, _, _, _, rfl⟩, ?_, hmax, hmin, hle1, hle2⟩
        intro j hj hlt
        by_cases e : j = n
        · subst e
          exact absurd hj.2.2 hlive
        · exact hbnd j hj (by omega))
  obtain ⟨h1, h2, h3, h4, h5, h6⟩ := this
  refine ⟨h1, fun j hj => h2 j hj ?_, h3, h4, h5, h6⟩
  have := hj.2.1
  omega

theorem prepareResolutions_shape (ext : Externals) (rb : List Int) (fr : DataSetFraction) :
    ∃ b, (prepareResolutions ext rb fr).1 = { fr with m_resolutionBuffer := b } := by
  unfold prepareResolutions
  have : ∀ (l : List Int) (st : DataSetFraction × Int),
      (∃ b, st.1 = { fr with m_resolutionBuffer := b }) →
      ∃ b, (l.foldl
        (fun (st : DataSetFraction × Int) r =>
          ({ st.1 with
              m_resolutionBuffer := st.1.m_resolutionBuffer ++
                [{ resolution := r, bufferPos := st.2,
                   length := ext.getResoLength (st.1.m_patTypes.length : Int) r }] },
            st.2 + ext.getResoLength (st.1.m_patTypes.length : Int) r)) st).1 =
        { fr with m_resolutionBuffer := b } := by
    intro l
    induction l with
    | nil => intro st h; exact h
    | cons r l ih =>
      intro st h
      obtain ⟨st1, n⟩ := st
      obtain ⟨b, hb⟩ := h
      simp only at hb
      subst hb
      rw [List.foldl_cons]
      exact ih _ ⟨_, rfl⟩
  exact this rb (fr, 0) ⟨_, rfl⟩

theorem allocAux_shape (ds : DataSet) (ext : Externals) (fr fr1 : DataSetFraction)
    (h : allocAux ds ext fr = some fr1) :
    ∃ a b c n, fr1 =
      { fr with m_auxPattypeData := a, m_auxIntData := b, m_auxRealData := c,
                m_auxDataDim := n } := by
  unfold allocAux at h
  split_ifs at h
  all_goals simp only [Option.bind_eq_some, Option.some.injEq] at h
  · obtain ⟨b, _, rfl⟩ := h
    exact ⟨_, _, _, _, rfl⟩
  · obtain ⟨b, _, rfl⟩ := h
    exact ⟨_, _, _, _, rfl⟩
  · obtain ⟨b, _, rfl⟩ := h
    exact ⟨_, _, _, _, rfl⟩
  · subst h
    exact ⟨_, _, _, _, rfl⟩
  · subst h
    exact ⟨_, _, _, _, rfl⟩

theorem allocMain_spec (ds : DataSet) (fr0 fr : DataSetFraction) (hin : fr0.m_inputs = [])
    (hpt : fr0.m_patTypes = []) (h : allocMain ds fr0 = some fr) :
    0 ≤ fr0.m_maxSeqLength * ds.m_parallelSequences * fr0.m_inputPatternSize ∧
      0 ≤ fr0.m_maxSeqLength * ds.m_parallelSequences ∧
      fr = { fr0 with
        m_inputs := List.replicate
          (fr0.m_maxSeqLength * ds.m_parallelSequences * fr0.m_inputPatternSize).toNat 0
        m_patTypes := List.replicate
          (fr0.m_maxSeqLength * ds.m_parallelSequences).toNat PATTYPE_NONE
        m_fracTotalLength := 0 } := by
  unfold allocMain at h
  simp only [Option.bind_eq_some, Option.some.injEq] at h
  obtain ⟨inputs, hinputs, patTypes, hpatTypes, rfl⟩ := h
  rw [hin] at hinputs
  rw [hpt] at hpatTypes
  obtain ⟨hn1, rfl⟩ := resize_nil _ _ _ hinputs
  obtain ⟨hn2, rfl⟩ := resize_nil _ _ _ hpatTypes
  exact ⟨hn1, hn2, rfl⟩

theorem allocExternal_shape (ds : DataSet) (fr0 fr : DataSetFraction)
    (h : allocExternal ds fr0 = some fr) :
    ∃ a b, fr = { fr0 with m_exInputData := a, m_exOutputData := b } := by
  unfold allocExternal at h
  simp only [Option.bind_eq_some, Option.some.injEq] at h
  obtain ⟨a, _, b, _, rfl⟩ := h
  exact ⟨a, b, rfl⟩

theorem allocResolutions_spec (ext : Externals) (rb : List Int) (fr0 fr : DataSetFraction)
    (h : allocResolutions ext rb fr0 = some fr) (hlo : fr0.m_patTypesLowTimeRes = []) :
    0 ≤ (prepareResolutions ext rb fr0).2 ∧
      fr = { fr0 with
        m_resolutionBuffer := (prepareResolutions ext rb fr0).1.m_resolutionBuffer
        m_patTypesLowTimeRes :=
          List.replicate (prepareResolutions ext rb fr0).2.toNat PATTYPE_NONE } := by
  unfold allocResolutions at h
  simp only [Option.bind_eq_some, Option.some.injEq] at h
  obtain ⟨lowRes, hlow, rfl⟩ := h
  obtain ⟨b, hb⟩ := prepareResolutions_shape ext rb fr0
  rw [hb] at hlow ⊢
  simp only [hlo] at hlow
  obtain ⟨hn, rfl⟩ := resize_nil _ _ _ hlow
  exact ⟨hn, rfl⟩

theorem allocTargets_spec (ds : DataSet) (fr0 fr : DataSetFraction)
    (h : allocTargets ds fr0 = some fr)
    (htc : fr0.m_targetClasses = []) (hout : fr0.m_outputs = []) :
    (ds.m_isClassificationData = true ∧
        fr = { fr0 with
          m_targetClasses := List.replicate
            (fr0.m_maxSeqLength * ds.m_parallelSequences).toNat (-1) }) ∨
      (ds.m_isClassificationData = false ∧
        0 ≤ fr0.m_maxSeqLength * ds.m_parallelSequences * ds.m_outputPatternSize ∧
        fr = { fr0 with
          m_outputs := List.replicate
            (fr0.m_maxSeqLength * ds.m_parallelSequences * ds.m_outputPatternSize).toNat
            0 }) := by
  unfold allocTargets at h
  cases hc : ds.m_isClassificationData
  · right
    simp only [hc, Bool.false_eq_true, if_false, Option.bind_eq_some, Option.some.injEq] at h
    obtain ⟨out, hout1, rfl⟩ := h
    rw [hout] at hout1
    obtain ⟨hn3, rfl⟩ := resize_nil _ _ _ hout1
    exact ⟨rfl, hn3, rfl⟩
  · left
    simp only [hc, if_true, Option.bind_eq_some, Option.some.injEq] at h
    obtain ⟨tc, htc1, rfl⟩ := h
    rw [htc] at htc1
    obtain ⟨_, rfl⟩ := resize_nil _ _ _ htc1
    exact ⟨rfl, rfl⟩

/-- What the allocation block leaves in a fraction whose buffers were empty. -/
theorem allocFraction_spec (ds : DataSet) (ext : Externals) (rb : List Int)
    (fr0 fr : DataSetFraction) (hin : fr0.m_inputs = []) (hpt : fr0.m_patTypes = [])
    (htc : fr0.m_targetClasses = []) (hout : fr0.m_outputs = [])
    (hlo : fr0.m_patTypesLowTimeRes = [])
    (h : allocFraction ds ext rb fr0 = some fr) :
    fr.m_inputPatternSize = fr0.m_inputPatternSize ∧
      fr.m_maxSeqLength = fr0.m_maxSeqLength ∧
      fr.m_minSeqLength = fr0.m_minSeqLength ∧
      0 ≤ fr0.m_maxSeqLength * ds.m_parallelSequences * fr0.m_inputPatternSize ∧
      fr.m_inputs = List.replicate
        (fr0.m_maxSeqLength * ds.m_parallelSequences * fr0.m_inputPatternSize).toNat 0 ∧
      0 ≤ fr0.m_maxSeqLength * ds.m_parallelSequences ∧
      fr.m_patTypes = List.replicate
        (fr0.m_maxSeqLength * ds.m_parallelSequences).toNat PATTYPE_NONE ∧
      (ds.m_isClassificationData = true →
        fr.m_targetClasses = List.replicate
          (fr0.m_maxSeqLength * ds.m_parallelSequences).toNat (-1)) ∧
      (ds.m_isClassificationData = false →
        0 ≤ fr0.m_maxSeqLength * ds.m_parallelSequences * ds.m_outputPatternSize ∧
        fr.m_outputs = List.replicate
          (fr0.m_maxSeqLength * ds.m_parallelSequences * ds.m_outputPatternSize).toNat 0) ∧
      (∃ fr2 : DataSetFraction,
        fr2.m_patTypes = List.replicate
          (fr0.m_maxSeqLength * ds.m_parallelSequences).toNat PATTYPE_NONE ∧
        fr2.m_resolutionBuffer = fr0.m_resolutionBuffer ∧
        0 ≤ (prepareResolutions ext rb fr2).2 ∧
        fr.m_resolutionBuffer = (prepareResolutions ext rb fr2).1.m_resolutionBuffer ∧
        fr.m_patTypesLowTimeRes =
          List.replicate (prepareResolutions ext rb fr2).2.toNat PATTYPE_NONE) := by
  unfold allocFraction at h
  simp only [Option.bind_eq_some] at h
  obtain ⟨fr1, h1, fr2, h2, fr3, h3, fr4, h4, h5⟩ := h
  obtain ⟨hn1, hn2, hfr1⟩ := allocMain_spec ds fr0 fr1 hin hpt h1
  obtain ⟨xa, xb, hfr2⟩ := allocExternal_shape ds fr1 fr2 h2
  have e2 : fr2.m_patTypes = List.replicate
      (fr0.m_maxSeqLength * ds.m_parallelSequences).toNat PATTYPE_NONE ∧
      fr2.m_resolutionBuffer = fr0.m_resolutionBuffer ∧
      fr2.m_patTypesLowTimeRes = [] ∧ fr2.m_targetClasses = [] ∧ fr2.m_outputs = [] ∧
      fr2.m_inputPatternSize = fr0.m_inputPatternSize ∧
      fr2.m_maxSeqLength = fr0.m_maxSeqLength ∧ fr2.m_minSeqLength = fr0.m_minSeqLength ∧
      fr2.m_inputs = List.replicate
        (fr0.m_maxSeqLength * ds.m_parallelSequences * fr0.m_inputPatternSize).toNat 0 := by
    rw [hfr2, hfr1]
    exact ⟨rfl, rfl, hlo, htc, hout, rfl, rfl, rfl, rfl⟩
  obtain ⟨e2a, e2b, e2c, e2d, e2e, e2f, e2g, e2h, e2i⟩ := e2
  obtain ⟨hn3, hfr3⟩ := allocResolutions_spec ext rb fr2 fr3 h3 e2c
  obtain ⟨a1, a2, a3, a4, hfr4⟩ := allocAux_shape ds ext fr3 fr4 h4
  have e4 : fr4.m_patTypes = fr2.m_patTypes ∧
      fr4.m_resolutionBuffer = (prepareResolutions ext rb fr2).1.m_resolutionBuffer ∧
      fr4.m_patTypesLowTimeRes =
        List.replicate (prepareResolutions ext rb fr2).2.toNat PATTYPE_NONE ∧
      fr4.m_targetClasses = fr2.m_targetClasses ∧ fr4.m_outputs = fr2.m_outputs ∧
      fr4.m_inputPatternSize = fr2.m_inputPatternSize ∧
      fr4.m_maxSeqLength = fr2.m_maxSeqLength ∧ fr4.m_minSeqLength = fr2.m_minSeqLength ∧
      fr4.m_inputs = fr2.m_inputs := by
    rw [hfr4, hfr3]
    exact ⟨rfl, rfl, rfl, rfl, rfl, rfl, rfl, rfl, rfl⟩
  obtain ⟨e4a, e4b, e4c, e4d, e4e, e4f, e4g, e4h, e4i⟩ := e4
  rcases allocTargets_spec ds fr4 fr h5 (e4d.trans e2d) (e4e.trans e2e) with
    ⟨hc, hfr⟩ | ⟨hc, hn4, hfr⟩
  · rw [hfr]
    simp only []
    rw [e4f, e4g, e4h, e4i, e4a, e4b, e4c, e4e, e2a, e2e, e2f, e2g, e2h, e2i]
    refine ⟨rfl, rfl, rfl, hn1, rfl, hn2, rfl, fun _ => rfl, fun hf => ?_, ?_⟩
    · rw [hc] at hf; cases hf
    · exact ⟨fr2, e2a, e2b, hn3, rfl, rfl⟩
  · rw [hfr]
    simp only []
    rw [e4f, e4g, e4h, e4i, e4a, e4b, e4c, e4d, e2a, e2d, e2f, e2g, e2h, e2i]
    rw [e4g, e2g] at hn4
    refine ⟨rfl, rfl, rfl, hn1, rfl, hn2, rfl, fun hf => ?_, fun _ => ⟨hn4, rfl⟩, ?_⟩
    · rw [hc] at hf; cases hf
    · exact ⟨fr2, e2a, e2b, hn3, rfl, rfl⟩

/-- A fraction the builder returns is the result of the slot loop on a freshly
allocated fraction. -/
theorem makeFractionTask_some (ds : DataSet) (ext : Externals) (cfg : Configuration)
    (gen : NoiseGen) (first : Int) (res : DataSetFraction × NoiseGen)
    (h : _makeFractionTask ds ext cfg gen first = some res) :
    ∃ fr0, Allocated ds ext cfg first fr0 ∧
      res = forLoop ds.m_parallelSequences (slotBody ds ext cfg first) (fr0, gen) := by
  unfold _makeFractionTask at h
  split at h
  · cases h
  · rename_i fr0 halloc
    simp only [Option.some.injEq] at h
    refine ⟨fr0, ?_, h.symm⟩
    obtain ⟨⟨a, b, c, d, e, f, g, hshape⟩, hle, hmax, hmin, _, _⟩ :=
      fillSeqInfo_spec ds first (fracHeader ds ext cfg)
    have hfields : (fillSeqInfo ds first (fracHeader ds ext cfg)).m_inputs = [] ∧
        (fillSeqInfo ds first (fracHeader ds ext cfg)).m_patTypes = [] ∧
        (fillSeqInfo ds first (fracHeader ds ext cfg)).m_targetClasses = [] ∧
        (fillSeqInfo ds first (fracHeader ds ext cfg)).m_outputs = [] ∧
        (fillSeqInfo ds first (fracHeader ds ext cfg)).m_patTypesLowTimeRes = [] ∧
        (fillSeqInfo ds first (fracHeader ds ext cfg)).m_resolutionBuffer = [] ∧
        (fillSeqInfo ds first (fracHeader ds ext cfg)).m_inputPatternSize =
          ds.m_inputPatternSize * (cfg.inputLeftContext + cfg.inputRightContext + 1) := by
      rw [hshape]
      exact ⟨rfl, rfl, rfl, rfl, rfl, rfl, rfl⟩
    obtain ⟨f1, f2, f3, f4, f5, f6, f7⟩ := hfields
    obtain ⟨g1, g2, g3, g4, g5, g6, g7, g8, g9, fr2, g10, g11, g12, g13, g14⟩ :=
      allocFraction_spec ds ext _ _ fr0 f1 f2 f3 f4 f5 halloc
    rw [← g2, ← g1] at g4 g5
    rw [← g2] at g6 g7 g8 g9 g10
    exact
      { ips := g1.trans f7
        live_le := fun j hj => by rw [g2, g3]; exact hle j hj
        max_attained := by rw [g2]; exact hmax
        min_attained := by rw [g3]; exact hmin
        inputs_size := g4
        inputs := g5
        cells_size := g6
        patTypes := g7
        targetClasses := g8
        outputs := g9
        resolutions := ⟨fr2, g10, g11.trans f6, g12, g13, g14⟩ }

/-- The builder returns a fraction exactly when no allocation throws: the loops of the
builder always end. -/
theorem makeFractionTask_isSome (ds : DataSet) (ext : Externals) (cfg : Configuration)
    (gen : NoiseGen) (first : Int) :
    (_makeFractionTask ds ext cfg gen first).isSome =
      (allocFraction ds ext (resolutionBufOf ext cfg)
        (fillSeqInfo ds first (fracHeader ds ext cfg))).isSome := by
  unfold _makeFractionTask
  cases allocFraction ds ext (resolutionBufOf ext cfg)
    (fillSeqInfo ds first (fracHeader ds ext cfg)) <;> rfl

/-! ## The slot loop and the input buffer -/

theorem slotBody_keeps (ds : DataSet) (ext : Externals) (cfg : Configuration)
    (first i : Int) (st : DataSetFraction × NoiseGen) :
    (slotBody ds ext cfg first i st).1.m_inputPatternSize = st.1.m_inputPatternSize ∧
      (slotBody ds ext cfg first i st).1.m_resolutionBuffer = st.1.m_resolutionBuffer ∧
      (slotBody ds ext cfg first i st).1.m_maxSeqLength = st.1.m_maxSeqLength ∧
      (slotBody ds ext cfg first i st).1.m_minSeqLength = st.1.m_minSeqLength := by
  by_cases hdead : first + i ≥ (ds.m_sequences.length : Int)
  · rw [slotBody_dead ds ext cfg first i st hdead]
    exact ⟨rfl, rfl, rfl, rfl⟩
  · rw [slotBody_live ds ext cfg first i st hdead]
    obtain ⟨_, h2, _, _, h5, h6, h7⟩ := fillPatTypes_rest ds i (readAt ds.m_sequences (first + i))
      (slotPrefix ds ext cfg i (readAt ds.m_sequences (first + i))
        (_addNoise ds (_loadInputsFromCache ds (readAt ds.m_sequences (first + i))) st.2).1
        st.1)
    obtain ⟨_, k2, _, _, k5, _, _, k8, k9⟩ := slotPrefix_fields ds ext cfg i
      (readAt ds.m_sequences (first + i))
      (_addNoise ds (_loadInputsFromCache ds (readAt ds.m_sequences (first + i))) st.2).1 st.1
    exact ⟨h2.trans k2, h5.trans k5, h6.trans k8, h7.trans k9⟩

theorem slotBody_inputs (ds : DataSet) (ext : Externals) (cfg : Configuration)
    (first i : Int) (st : DataSetFraction × NoiseGen)
    (hlive : ¬ first + i ≥ (ds.m_sequences.length : Int)) :
    (slotBody ds ext cfg first i st).1.m_inputs =
      expandContext ds cfg st.1.m_inputPatternSize i (readAt ds.m_sequences (first + i))
        (_addNoise ds (_loadInputsFromCache ds (readAt ds.m_sequences (first + i))) st.2).1
        st.1.m_inputs := by
  rw [slotBody_live ds ext cfg first i st hlive]
  exact (fillPatTypes_rest ds i _ _).1.trans (slotPrefix_fields ds ext cfg i _ _ st.1).1

/-- A position outside every cell of a live slot keeps its value through the slot
loop, whatever the noise. -/
theorem slotLoop_inputs_frame (ds : DataSet) (ext : Externals) (cfg : Configuration)
    (first : Int) (fr0 : DataSetFraction) (gen : NoiseGen) (p : Int)
    (hips : fr0.m_inputPatternSize =
      (cfg.inputRightContext + cfg.inputLeftContext + 1) * ds.m_inputPatternSize)
    (hp : ∀ j, Live ds first j → ∀ t, 0 ≤ t →
      t < (readAt ds.m_sequences (first + j)).length →
      ¬ InCell fr0.m_inputPatternSize (t * ds.m_parallelSequences + j) p) :
    cellAt (forLoop ds.m_parallelSequences (slotBody ds ext cfg first) (fr0, gen)).1.m_inputs
      p = cellAt fr0.m_inputs p := by
  refine (forLoop_frame _ _ (fun st => cellAt st.1.m_inputs p)
    (fun st => st.1.m_inputPatternSize = fr0.m_inputPatternSize) (fr0, gen) rfl
    (fun j st _ _ hP => (slotBody_keeps ds ext cfg first j st).1.trans hP) ?_).1
  intro j st hj0 hj hP
  by_cases hdead : first + j ≥ (ds.m_sequences.length : Int)
  · rw [slotBody_dead ds ext cfg first j st hdead]
  · show cellAt (slotBody ds ext cfg first j st).1.m_inputs p = _
    rw [slotBody_inputs ds ext cfg first j st hdead, hP]
    exact expandContext_frame ds cfg _ j _ _ _ p hips
      (fun t ht0 ht => hp j ⟨hj0, hj, by omega⟩ t ht0 ht)

/-- Without noise, the element `d` of context slice `k` of the cell `(t, i)` of a live
slot is written once, with the value the context loop reads from the cached block. -/
theorem slotLoop_inputs_cell (ds : DataSet) (ext : Externals) (cfg : Configuration)
    (first : Int) (fr0 : DataSetFraction) (gen : NoiseGen) (i t k d : Int)
    (hnoise : ds.m_noiseDeviation = 0)
    (hips : fr0.m_inputPatternSize =
      (cfg.inputRightContext + cfg.inputLeftContext + 1) * ds.m_inputPatternSize)
    (hi : Live ds first i) (ht0 : 0 ≤ t) (ht : t < (readAt ds.m_sequences (first + i)).length)
    (hk0 : 0 ≤ k) (hk : k < cfg.inputRightContext + cfg.inputLeftContext + 1)
    (hd0 : 0 ≤ d) (hd : d < ds.m_inputPatternSize) :
    cellAt (forLoop ds.m_parallelSequences (slotBody ds ext cfg first) (fr0, gen)).1.m_inputs
        (fr0.m_inputPatternSize * (t * ds.m_parallelSequences + i) +
          k * ds.m_inputPatternSize + d) =
      (cellAt fr0.m_inputs
        (fr0.m_inputPatternSize * (t * ds.m_parallelSequences + i) +
          k * ds.m_inputPatternSize + d)).map
        (fun _ => readAt (_loadInputsFromCache ds (readAt ds.m_sequences (first + i)))
          (contextSrcStart ds cfg (readAt ds.m_sequences (first + i)) t k + d)) := by
  obtain ⟨hi0, hi1, hi2⟩ := hi
  have hoff := slice_offset_lt hk0 hk hd0 hd
  have hin : InCell fr0.m_inputPatternSize (t * ds.m_parallelSequences + i)
      (fr0.m_inputPatternSize * (t * ds.m_parallelSequences + i) +
        k * ds.m_inputPatternSize + d) := by
    unfold InCell
    rw [← hips] at hoff
    constructor <;> omega
  refine (forLoop_cell _ _ (fun st => cellAt st.1.m_inputs _)
    (fun st => st.1.m_inputPatternSize = fr0.m_inputPatternSize) i _ (fr0, gen) rfl hi0 hi1
    (fun j st _ _ hP => (slotBody_keeps ds ext cfg first j st).1.trans hP) ?_ ?_).1
  · intro j st hj0 hj hne hP
    by_cases hdead : first + j ≥ (ds.m_sequences.length : Int)
    · rw [slotBody_dead ds ext cfg first j st hdead]
    · show cellAt (slotBody ds ext cfg first j st).1.m_inputs _ = _
      rw [slotBody_inputs ds ext cfg first j st hdead, hP]
      apply expandContext_frame ds cfg _ j _ _ _ _ hips
      intro t' _ _ hin'
      exact hne (cell_index_unique hj0 hj hi0 hi1 (hin'.unique hin)).2
  · intro st hP
    show cellAt (slotBody ds ext cfg first i st).1.m_inputs _ = _
    rw [slotBody_inputs ds ext cfg first i st (by omega), hP]
    have hno : (_addNoise ds (_loadInputsFromCache ds (readAt ds.m_sequences (first + i)))
        st.2).1 = _loadInputsFromCache ds (readAt ds.m_sequences (first + i)) := by
      unfold _addNoise
      rw [if_pos hnoise]
    rw [hno]
    exact expandContext_cell ds cfg _ i _ _ _ t k d hips hi0 hi1 ht0 ht hk0 hk hd0 hd

theorem slotLoop_keeps (ds : DataSet) (ext : Externals) (cfg : Configuration)
    (first : Int) (fr0 : DataSetFraction) (gen : NoiseGen) :
    (forLoop ds.m_parallelSequences (slotBody ds ext cfg first) (fr0, gen)).1.m_inputPatternSize
        = fr0.m_inputPatternSize ∧
      (forLoop ds.m_parallelSequences (slotBody ds ext cfg first)
        (fr0, gen)).1.m_resolutionBuffer = fr0.m_resolutionBuffer ∧
      (forLoop ds.m_parallelSequences (slotBody ds ext cfg first) (fr0, gen)).1.m_maxSeqLength
        = fr0.m_maxSeqLength ∧
      (forLoop ds.m_parallelSequences (slotBody ds ext cfg first) (fr0, gen)).1.m_minSeqLength
        = fr0.m_minSeqLength := by
  have := forLoop_frame ds.m_parallelSequences (slotBody ds ext cfg first)
    (fun st => (st.1.m_inputPatternSize, st.1.m_resolutionBuffer, st.1.m_maxSeqLength,
      st.1.m_minSeqLength)) (fun _ => True) (fr0, gen) trivial (fun _ _ _ _ _ => trivial)
    (fun j st _ _ _ => by
      obtain ⟨h1, h2, h3, h4⟩ := slotBody_keeps ds ext cfg first j st
      simp only [h1, h2, h3, h4])
  simp only [Prod.mk.injEq] at this
  exact ⟨this.1.1, this.1.2.1, this.1.2.2.1, this.1.2.2.2⟩

theorem InCell.bounds {size c K p : Int} (h : InCell size c p) (hc0 : 0 ≤ c) (hc : c < K) :
    0 ≤ p ∧ p < K * size := by
  obtain ⟨h1, h2⟩ := h
  have hs : 0 < size := by omega
  have h3 : 0 ≤ size * c := Int.mul_nonneg (by omega) hc0
  have h4 : (c + 1) * size ≤ K * size := Int.mul_le_mul_of_nonneg_right (by omega) (by omega)
  rw [add_mul, one_mul, mul_comm c size] at h4
  constructor <;> omega

theorem InCell.of_offset {size c x : Int} (hx0 : 0 ≤ x) (hx : x < size) :
    InCell size c (size * c + x) := by
  unfold InCell
  constructor <;> omega

theorem readAt_of_cellAt {α : Type} [Inhabited α] (v : List α) (p : Int) (x : α)
    (h : cellAt v p = some x) : readAt v p = x := by
  unfold cellAt at h
  unfold readAt
  split_ifs at h ⊢ with hp
  simp [List.getD, h]

/-- A block the loaders read: element `p` of a block of `n` values. -/
theorem cellAt_block (n : Int) (f : Nat → Int) (p : Int) (h0 : 0 ≤ p) (h1 : p < n) :
    cellAt ((List.range (vecSize n)).map f) p = some (f p.toNat) := by
  unfold cellAt vecSize
  rw [if_pos h0]
  rw [List.getElem?_map, List.getElem?_range (by omega)]
  rfl

/-- For a positive pattern size the source offset of the context loop is the pattern
size times the clamped time step. -/
theorem contextSrcStart_eq (ds : DataSet) (cfg : Configuration) (seq : sequence_t)
    (t k : Int) (hP : 0 < ds.m_inputPatternSize) (hn : 1 ≤ seq.length) :
    contextSrcStart ds cfg seq t k =
      ds.m_inputPatternSize * clamp (t + k - cfg.inputLeftContext) 0 (seq.length - 1) := by
  unfold contextSrcStart clamp
  simp only []
  have e : t + (k - cfg.inputLeftContext) = t + k - cfg.inputLeftContext := by ring
  rw [e]
  generalize t + k - cfg.inputLeftContext = x
  by_cases h1 : x < 0
  · have : ds.m_inputPatternSize * x < 0 := Int.mul_neg_of_pos_of_neg hP h1
    rw [if_pos this]
    have : max 0 (min x (seq.length - 1)) = 0 := by omega
    rw [this, mul_zero]
  · have h2 : ¬ ds.m_inputPatternSize * x < 0 := by
      have := Int.mul_nonneg (le_of_lt hP) (not_lt.mp h1)
      omega
    rw [if_neg h2]
    by_cases h3 : x > seq.length - 1
    · have : ds.m_inputPatternSize * x > ds.m_inputPatternSize * (seq.length - 1) :=
        Int.mul_lt_mul_of_pos_left h3 hP
      rw [if_pos this]
      have : max 0 (min x (seq.length - 1)) = seq.length - 1 := by omega
      rw [this]
    · have : ¬ ds.m_inputPatternSize * x > ds.m_inputPatternSize * (seq.length - 1) := by
        have := Int.mul_le_mul_of_nonneg_left (not_lt.mp h3) (le_of_lt hP)
        omega
      rw [if_neg this]
      have : max 0 (min x (seq.length - 1)) = x := by omega
      rw [this]

theorem clamp_bounds (x lo hi : Int) (h : lo ≤ hi) : lo ≤ clamp x lo hi ∧ clamp x lo hi ≤ hi := by
  unfold clamp
  omega

/-! ## Claims about the fraction builder -/

/-- C1: context expansion in `_makeFractionTask` (noise deviation 0).  In a built
fraction, for every live slot `i` whose descriptor has length `n`, every time step
`0 ≤ t < n`, every context position `0 ≤ k ≤ left + right` and every `0 ≤ d < P`, the
input buffer holds at `(left+right+1) * P * (t * par + i) + k * P + d` the element
`P * clamp (t + k - left) 0 (n-1) + d` of the slot's cached block; the expanded pattern
size is `(left+right+1) * P`; at `t = 0` every slice up to the centre is frame 0 and at
`t = n-1` every slice from the centre on is frame `n-1`. -/
theorem context_expansion (ds : DataSet) (ext : Externals) (cfg : Configuration)
    (gen : NoiseGen) (first : Int) (res : DataSetFraction × NoiseGen) (i t k d : Int)
    (hbuilt : _makeFractionTask ds ext cfg gen first = some res)
    (hnoise : ds.m_noiseDeviation = 0)
    (hi : Live ds first i)
    (ht0 : 0 ≤ t) (ht : t < (readAt ds.m_sequences (first + i)).length)
    (hk0 : 0 ≤ k) (hk : k ≤ cfg.inputLeftContext + cfg.inputRightContext)
    (hd0 : 0 ≤ d) (hd : d < ds.m_inputPatternSize) :
    res.1.m_inputPatternSize =
        (cfg.inputLeftContext + cfg.inputRightContext + 1) * ds.m_inputPatternSize ∧
      (∃ x,
        cellAt (_loadInputsFromCache ds (readAt ds.m_sequences (first + i)))
            (ds.m_inputPatternSize *
              clamp (t + k - cfg.inputLeftContext) 0
                ((readAt ds.m_sequences (first + i)).length - 1) + d) = some x ∧
        cellAt res.1.m_inputs
            ((cfg.inputLeftContext + cfg.inputRightContext + 1) * ds.m_inputPatternSize *
              (t * ds.m_parallelSequences + i) + k * ds.m_inputPatternSize + d) = some x) ∧
      (t = 0 → k ≤ cfg.inputLeftContext →
        ∃ x,
          cellAt (_loadInputsFromCache ds (readAt ds.m_sequences (first + i)))
            (ds.m_inputPatternSize * 0 + d) = some x ∧
          cellAt res.1.m_inputs
            ((cfg.inputLeftContext + cfg.inputRightContext + 1) * ds.m_inputPatternSize *
              (t * ds.m_parallelSequences + i) + k * ds.m_inputPatternSize + d) = some x) ∧
      (t = (readAt ds.m_sequences (first + i)).length - 1 → cfg.inputLeftContext ≤ k →
        ∃ x,
          cellAt (_loadInputsFromCache ds (readAt ds.m_sequences (first + i)))
            (ds.m_inputPatternSize * ((readAt ds.m_sequences (first + i)).length - 1) + d)
              = some x ∧
          cellAt res.1.m_inputs
            ((cfg.inputLeftContext + cfg.inputRightContext + 1) * ds.m_inputPatternSize *
              (t * ds.m_parallelSequences + i) + k * ds.m_inputPatternSize + d) = some x) := by
  obtain ⟨fr0, hal, rfl⟩ := makeFractionTask_some ds ext cfg gen first res hbuilt
  obtain ⟨k1, _, k3, _⟩ := slotLoop_keeps ds ext cfg first fr0 gen
  have hips : fr0.m_inputPatternSize =
      (cfg.inputRightContext + cfg.inputLeftContext + 1) * ds.m_inputPatternSize := by
    rw [hal.ips]; ring
  have hips' : (cfg.inputLeftContext + cfg.inputRightContext + 1) * ds.m_inputPatternSize =
      fr0.m_inputPatternSize := by rw [hal.ips]; ring
  generalize hseq : readAt ds.m_sequences (first + i) = seq at ht ⊢
  have hn : 1 ≤ seq.length := by omega
  have hP : 0 < ds.m_inputPatternSize := by omega
  have main : ∃ x,
      cellAt (_loadInputsFromCache ds seq)
          (ds.m_inputPatternSize * clamp (t + k - cfg.inputLeftContext) 0 (seq.length - 1) + d)
        = some x ∧
      cellAt (forLoop ds.m_parallelSequences (slotBody ds ext cfg first) (fr0, gen)).1.m_inputs
          ((cfg.inputLeftContext + cfg.inputRightContext + 1) * ds.m_inputPatternSize *
            (t * ds.m_parallelSequences + i) + k * ds.m_inputPatternSize + d) = some x := by
    -- the source element exists
    have hcl := clamp_bounds (t + k - cfg.inputLeftContext) 0 (seq.length - 1) (by omega)
    have hsrc := slice_offset_lt (C := seq.length) (P := ds.m_inputPatternSize) hcl.1
      (by omega) hd0 hd
    rw [mul_comm] at hsrc
    have hx := cellAt_block (seq.length * ds.m_inputPatternSize)
      (ds.m_cacheFile.reals seq.inputsBegin)
      (ds.m_inputPatternSize * clamp (t + k - cfg.inputLeftContext) 0 (seq.length - 1) + d)
      hsrc.1 hsrc.2
    refine ⟨_, hx, ?_⟩
    rw [hips']
    have hcell := slotLoop_inputs_cell ds ext cfg first fr0 gen i t k d hnoise hips hi ht0
      (by rw [hseq]; exact ht) hk0 (by omega) hd0 hd
    rw [hcell, hseq, contextSrcStart_eq ds cfg seq t k hP hn]
    have hr := readAt_of_cellAt _ _ _ hx
    unfold _loadInputsFromCache
    rw [hr]
    -- the target cell exists in the allocated buffer
    have hle := (hal.live_le i hi).1
    rw [hseq] at hle
    have hc := slice_offset_lt (C := fr0.m_maxSeqLength) (P := ds.m_parallelSequences)
      ht0 (by omega) hi.1 hi.2.1
    have hoff := slice_offset_lt hk0 (show k < cfg.inputRightContext + cfg.inputLeftContext + 1
      by omega) hd0 hd
    rw [← hips] at hoff
    have hin : InCell fr0.m_inputPatternSize (t * ds.m_parallelSequences + i)
        (fr0.m_inputPatternSize * (t * ds.m_parallelSequences + i) +
          k * ds.m_inputPatternSize + d) := by
      unfold InCell
      constructor <;> omega
    have hb := hin.bounds hc.1 hc.2
    rw [hal.inputs, cellAt_replicate _ _ _ hb.1 (by
      have := hal.inputs_size
      omega)]
    rfl
  refine ⟨by rw [k1, hips'], main, ?_, ?_⟩
  · intro h0 hk'
    have e : clamp (t + k - cfg.inputLeftContext) 0 (seq.length - 1) = 0 := by
      unfold clamp
      omega
    rw [e] at main
    exact main
  · intro h0 hk'
    have e : clamp (t + k - cfg.inputLeftContext) 0 (seq.length - 1) = seq.length - 1 := by
      unfold clamp
      omega
    rw [e] at main
    exact main

/-- The scenario of C1 on the sample data: left context 1, right context 0, base
pattern size 3, slot 0 of length 3 (frames 100.., 103.., 106..). -/
theorem context_expansion_witness :
    ∃ res, _makeFractionTask sampleDataSet sampleExternals sampleConfiguration {} 0 =
        some res ∧
      res.1.m_inputPatternSize = (1 + 0 + 1) * 3 ∧
      (∃ x,
        cellAt (_loadInputsFromCache sampleDataSet (readAt sampleDataSet.m_sequences (0 + 0)))
            (3 * clamp (1 + 0 - 1) 0 (3 - 1) + 2) = some x ∧
        cellAt res.1.m_inputs ((1 + 0 + 1) * 3 * (1 * 2 + 0) + 0 * 3 + 2) = some x) ∧
      res.1.m_inputPatternSize = 6 ∧
      (res.1.m_inputs.drop (6 * (0 * 2 + 0))).take 6 = [100, 101, 102, 100, 101, 102] ∧
      (res.1.m_inputs.drop (6 * (1 * 2 + 0))).take 6 = [100, 101, 102, 103, 104, 105] :=
  ⟨_, rfl,
    (context_expansion sampleDataSet sampleExternals sampleConfiguration {} 0 _ 0 1 0 2 rfl
      rfl ⟨by decide, by decide, by decide⟩ (by decide) (by decide) (by decide) (by decide)
      (by decide) (by decide)).1,
    (context_expansion sampleDataSet sampleExternals sampleConfiguration {} 0 _ 0 1 0 2 rfl
      rfl ⟨by decide, by decide, by decide⟩ (by decide) (by decide) (by decide) (by decide)
      (by decide) (by decide)).2.1,
    by decide, by decide, by decide⟩

/-- C8: padding fill.  In a built fraction every input-buffer element of a cell
`(t, i)` inside the buffer (`0 ≤ t < maxSeqLength`, `0 ≤ i < par`) that no live
descriptor covers (the slot is beyond the live descriptors, or `t` is at or beyond the
slot's own length) is 0: the builder writes only into cells `(t < length, live slot)`.
This holds for every noise deviation. -/
theorem padding_fill (ds : DataSet) (ext : Externals) (cfg : Configuration)
    (gen : NoiseGen) (first : Int) (res : DataSetFraction × NoiseGen) (i t x : Int)
    (hbuilt : _makeFractionTask ds ext cfg gen first = some res)
    (ht0 : 0 ≤ t) (ht : t < res.1.m_maxSeqLength)
    (hi0 : 0 ≤ i) (hi : i < ds.m_parallelSequences)
    (hx0 : 0 ≤ x) (hx : x < res.1.m_inputPatternSize)
    (hpad : first + i ≥ (ds.m_sequences.length : Int) ∨
      (readAt ds.m_sequences (first + i)).length ≤ t) :
    cellAt res.1.m_inputs
      (res.1.m_inputPatternSize * (t * ds.m_parallelSequences + i) + x) = some 0 := by
  obtain ⟨fr0, hal, rfl⟩ := makeFractionTask_some ds ext cfg gen first res hbuilt
  obtain ⟨k1, _, k3, _⟩ := slotLoop_keeps ds ext cfg first fr0 gen
  rw [k1] at hx ⊢
  rw [k3] at ht
  have hips : fr0.m_inputPatternSize =
      (cfg.inputRightContext + cfg.inputLeftContext + 1) * ds.m_inputPatternSize := by
    rw [hal.ips]; ring
  have hin : InCell fr0.m_inputPatternSize (t * ds.m_parallelSequences + i)
      (fr0.m_inputPatternSize * (t * ds.m_parallelSequences + i) + x) :=
    InCell.of_offset hx0 hx
  rw [slotLoop_inputs_frame ds ext cfg first fr0 gen _ hips]
  · have hc := slice_offset_lt (C := fr0.m_maxSeqLength) (P := ds.m_parallelSequences)
      ht0 ht hi0 hi
    have hb := hin.bounds hc.1 hc.2
    rw [hal.inputs, cellAt_replicate _ _ _ hb.1 (by
      have := hal.inputs_size
      omega)]
  · intro j hj t' ht0' ht' hin'
    obtain ⟨e1, e2⟩ := cell_index_unique hj.1 hj.2.1 hi0 hi (hin'.unique hin)
    subst e1 e2
    rcases hpad with h | h
    · have := hj.2.2
      omega
    · omega

theorem padding_fill_witness :
    ∃ res, _makeFractionTask sampleDataSet sampleExternals sampleConfiguration {} 1 =
        some res ∧
      ((0 : Int) ≤ 3 ∧ (3 : Int) < res.1.m_maxSeqLength ∧ (0 : Int) ≤ 4 ∧
        (4 : Int) < res.1.m_inputPatternSize ∧
        (readAt sampleDataSet.m_sequences (1 + 1)).length ≤ 3) ∧
      cellAt res.1.m_inputs (res.1.m_inputPatternSize * (3 * 2 + 1) + 4) = some 0 :=
  ⟨_, rfl, ⟨by decide, by decide, by decide, by decide, by decide⟩,
    padding_fill sampleDataSet sampleExternals sampleConfiguration {} 1 _ 1 3 4 rfl
      (by decide) (by decide) (by decide) (by decide) (by decide) (by decide)
      (Or.inr (by decide))⟩

/-! ## The slot loop and the target buffers -/

/-- One step of the lag-shifted copy writes the span of its cell, nothing else. -/
theorem cellAt_lagStep {α : Type} [Inhabited α] (dim c lag t : Int) (src : List α)
    (fill : α) (out : List α) (p : Int) :
    cellAt
        (if t ≥ lag then copy_n src (dim * (t - lag)) dim out (dim * c)
         else forLoop dim (fun oi o => writeAt o (dim * c + oi) fill) out) p =
      if dim * c ≤ p ∧ p < dim * c + dim then
        (cellAt out p).map
          (fun _ => if t ≥ lag then readAt src (dim * (t - lag) + (p - dim * c)) else fill)
      else cellAt out p := by
  by_cases h : t ≥ lag
  · simp only [if_pos h]
    exact cellAt_copy_n src _ dim out _ p
  · simp only [if_neg h]
    exact cellAt_writeLoop dim _ (fun _ => fill) out p

theorem lagShiftCopy_frame {α : Type} [Inhabited α] (ds : DataSet) (cfg : Configuration)
    (dim i : Int) (seq : sequence_t) (src : List α) (fill : α) (buf : List α) (p : Int)
    (hp : ∀ t, 0 ≤ t → t < seq.length → ¬ InCell dim (t * ds.m_parallelSequences + i) p) :
    cellAt (lagShiftCopy ds cfg dim i seq src fill buf) p = cellAt buf p := by
  unfold lagShiftCopy
  refine (forLoop_frame _ _ (fun b => cellAt b p) (fun _ => True) buf trivial
    (fun _ _ _ _ _ => trivial) ?_).1
  intro t st ht0 ht _
  show cellAt (if t ≥ cfg.outputTimeLag then _ else _) p = _
  have h' := hp t ht0 ht
  unfold InCell at h'
  rw [cellAt_lagStep, if_neg h']

theorem lagShiftCopy_cell {α : Type} [Inhabited α] (ds : DataSet) (cfg : Configuration)
    (dim i : Int) (seq : sequence_t) (src : List α) (fill : α) (buf : List α) (t o : Int)
    (hi0 : 0 ≤ i) (hi : i < ds.m_parallelSequences) (ht0 : 0 ≤ t) (ht : t < seq.length)
    (ho0 : 0 ≤ o) (ho : o < dim) :
    cellAt (lagShiftCopy ds cfg dim i seq src fill buf)
        (dim * (t * ds.m_parallelSequences + i) + o) =
      (cellAt buf (dim * (t * ds.m_parallelSequences + i) + o)).map
        (fun _ => if t ≥ cfg.outputTimeLag then
          readAt src (dim * (t - cfg.outputTimeLag) + o) else fill) := by
  have hin : InCell dim (t * ds.m_parallelSequences + i)
      (dim * (t * ds.m_parallelSequences + i) + o) := InCell.of_offset ho0 ho
  unfold lagShiftCopy
  refine (forLoop_cell _ _ (fun b => cellAt b _) (fun _ => True) t _ buf trivial ht0 ht
    (fun _ _ _ _ _ => trivial) ?_ ?_).1
  · intro t' st _ _ hne _
    show cellAt (if t' ≥ cfg.outputTimeLag then _ else _) _ = _
    rw [cellAt_lagStep, if_neg]
    intro hin'
    have hin'' : InCell dim (t' * ds.m_parallelSequences + i)
        (dim * (t * ds.m_parallelSequences + i) + o) := hin'
    exact hne (cell_index_unique hi0 hi hi0 hi (InCell.unique hin'' hin)).1
  · intro st _
    show cellAt (if t ≥ cfg.outputTimeLag then _ else _) _ = _
    have hin' := hin
    unfold InCell at hin'
    rw [cellAt_lagStep, if_pos hin']
    congr 1
    funext _
    congr 2
    omega

theorem shiftTargetClasses_frame (ds : DataSet) (cfg : Configuration) (i : Int)
    (seq : sequence_t) (targetClasses buf : List Int) (p : Int)
    (hp : ∀ t, 0 ≤ t → t < seq.length → p ≠ t * ds.m_parallelSequences + i) :
    cellAt (shiftTargetClasses ds cfg i seq targetClasses buf) p = cellAt buf p := by
  unfold shiftTargetClasses
  exact (forLoop_frame _ _ (fun b => cellAt b p) (fun _ => True) buf trivial
    (fun _ _ _ _ _ => trivial)
    (fun t st ht0 ht _ => cellAt_writeAt_ne st p _ _ (hp t ht0 ht))).1

theorem shiftTargetClasses_cell (ds : DataSet) (cfg : Configuration) (i : Int)
    (seq : sequence_t) (targetClasses buf : List Int) (t : Int)
    (hi0 : 0 ≤ i) (hi : i < ds.m_parallelSequences) (ht0 : 0 ≤ t) (ht : t < seq.length) :
    cellAt (shiftTargetClasses ds cfg i seq targetClasses buf)
        (t * ds.m_parallelSequences + i) =
      (cellAt buf (t * ds.m_parallelSequences + i)).map
        (fun _ => if t ≥ cfg.outputTimeLag then
          readAt targetClasses (t - cfg.outputTimeLag) else 0) := by
  unfold shiftTargetClasses
  refine (forLoop_cell _ _ (fun b => cellAt b _) (fun _ => True) t _ buf trivial ht0 ht
    (fun _ _ _ _ _ => trivial) ?_ ?_).1
  · intro t' st _ _ hne _
    apply cellAt_writeAt_ne
    intro e
    exact hne (cell_index_unique hi0 hi hi0 hi e).1.symm
  · intro st _
    exact cellAt_writeAt_self st _ _

theorem slotBody_targets (ds : DataSet) (ext : Externals) (cfg : Configuration)
    (first i : Int) (st : DataSetFraction × NoiseGen)
    (hlive : ¬ first + i ≥ (ds.m_sequences.length : Int)) :
    (slotBody ds ext cfg first i st).1.m_outputs =
        (if ds.m_isClassificationData then st.1.m_outputs
         else lagShiftCopy ds cfg ds.m_outputPatternSize i (readAt ds.m_sequences (first + i))
            (_loadOutputsFromCache ds (readAt ds.m_sequences (first + i))) 1 st.1.m_outputs) ∧
      (slotBody ds ext cfg first i st).1.m_targetClasses =
        (if ds.m_isClassificationData then
          shiftTargetClasses ds cfg i (readAt ds.m_sequences (first + i))
            (_loadTargetClassesFromCache ds (readAt ds.m_sequences (first + i)))
            st.1.m_targetClasses
         else st.1.m_targetClasses) := by
  rw [slotBody_live ds ext cfg first i st hlive]
  obtain ⟨_, _, h3, h4, _⟩ := fillPatTypes_rest ds i (readAt ds.m_sequences (first + i))
    (slotPrefix ds ext cfg i (readAt ds.m_sequences (first + i))
      (_addNoise ds (_loadInputsFromCache ds (readAt ds.m_sequences (first + i))) st.2).1
      st.1)
  obtain ⟨_, _, k3, k4, _⟩ := slotPrefix_fields ds ext cfg i
    (readAt ds.m_sequences (first + i))
    (_addNoise ds (_loadInputsFromCache ds (readAt ds.m_sequences (first + i))) st.2).1 st.1
  exact ⟨h3.trans k3, h4.trans k4⟩

/-- The class cell `(t, i)` of a live slot after the slot loop. -/
theorem slotLoop_targetClasses_cell (ds : DataSet) (ext : Externals) (cfg : Configuration)
    (first : Int) (fr0 : DataSetFraction) (gen : NoiseGen) (i t : Int)
    (hclass : ds.m_isClassificationData = true)
    (hi : Live ds first i) (ht0 : 0 ≤ t)
    (ht : t < (readAt ds.m_sequences (first + i)).length) :
    cellAt (forLoop ds.m_parallelSequences (slotBody ds ext cfg first)
        (fr0, gen)).1.m_targetClasses (t * ds.m_parallelSequences + i) =
      (cellAt fr0.m_targetClasses (t * ds.m_parallelSequences + i)).map
        (fun _ => if t ≥ cfg.outputTimeLag then
          readAt (_loadTargetClassesFromCache ds (readAt ds.m_sequences (first + i)))
            (t - cfg.outputTimeLag) else 0) := by
  obtain ⟨hi0, hi1, hi2⟩ := hi
  refine (forLoop_cell _ _ (fun st => cellAt st.1.m_targetClasses _) (fun _ => True) i _
    (fr0, gen) trivial hi0 hi1 (fun _ _ _ _ _ => trivial) ?_ ?_).1
  · intro j st hj0 hj hne _
    by_cases hdead : first + j ≥ (ds.m_sequences.length : Int)
    · rw [slotBody_dead ds ext cfg first j st hdead]
    · show cellAt (slotBody ds ext cfg first j st).1.m_targetClasses _ = _
      rw [(slotBody_targets ds ext cfg first j st hdead).2, if_pos hclass]
      apply shiftTargetClasses_frame
      intro t' _ _ e
      exact hne (cell_index_unique hi0 hi1 hj0 hj e).2.symm
  · intro st _
    show cellAt (slotBody ds ext cfg first i st).1.m_targetClasses _ = _
    rw [(slotBody_targets ds ext cfg first i st (by omega)).2, if_pos hclass]
    exact shiftTargetClasses_cell ds cfg i _ _ _ t hi0 hi1 ht0 ht

/-- The output element `o` of the cell `(t, i)` of a live slot after the slot loop. -/
theorem slotLoop_outputs_cell (ds : DataSet) (ext : Externals) (cfg : Configuration)
    (first : Int) (fr0 : DataSetFraction) (gen : NoiseGen) (i t o : Int)
    (hclass : ds.m_isClassificationData = false)
    (hi : Live ds first i) (ht0 : 0 ≤ t)
    (ht : t < (readAt ds.m_sequences (first + i)).length)
    (ho0 : 0 ≤ o) (ho : o < ds.m_outputPatternSize) :
    cellAt (forLoop ds.m_parallelSequences (slotBody ds ext cfg first)
        (fr0, gen)).1.m_outputs
        (ds.m_outputPatternSize * (t * ds.m_parallelSequences + i) + o) =
      (cellAt fr0.m_outputs
        (ds.m_outputPatternSize * (t * ds.m_parallelSequences + i) + o)).map
        (fun _ => if t ≥ cfg.outputTimeLag then
          readAt (_loadOutputsFromCache ds (readAt ds.m_sequences (first + i)))
            (ds.m_outputPatternSize * (t - cfg.outputTimeLag) + o) else 1) := by
  obtain ⟨hi0, hi1, hi2⟩ := hi
  have hin : InCell ds.m_outputPatternSize (t * ds.m_parallelSequences + i)
      (ds.m_outputPatternSize * (t * ds.m_parallelSequences + i) + o) :=
    InCell.of_offset ho0 ho
  have hne' : ¬ (false = true) := by decide
  refine (forLoop_cell _ _ (fun st => cellAt st.1.m_outputs _) (fun _ => True) i _
    (fr0, gen) trivial hi0 hi1 (fun _ _ _ _ _ => trivial) ?_ ?_).1
  · intro j st hj0 hj hne _
    by_cases hdead : first + j ≥ (ds.m_sequences.length : Int)
    · rw [slotBody_dead ds ext cfg first j st hdead]
    · show cellAt (slotBody ds ext cfg first j st).1.m_outputs _ = _
      rw [(slotBody_targets ds ext cfg first j st hdead).1, hclass, if_neg hne']
      apply lagShiftCopy_frame
      intro t' _ _ hin'
      exact hne (cell_index_unique hj0 hj hi0 hi1 (hin'.unique hin)).2
  · intro st _
    show cellAt (slotBody ds ext cfg first i st).1.m_outputs _ = _
    rw [(slotBody_targets ds ext cfg first i st (by omega)).1, hclass, if_neg hne']
    exact lagShiftCopy_cell ds cfg _ i _ _ _ _ t o hi0 hi1 ht0 ht ho0 ho

/-- C9: output time lag in the fraction builder, for a lag `≥ 0`.  In a built fraction,
for every live slot `i` of length `n` and every `0 ≤ t < n`, the target cell `t * par + i`
holds the default when `t < lag` (class 0 for classification; 1.0 in each of the
`outputPatternSize` dimensions for regression) and otherwise the cached target of time
step `t - lag` (`targetClasses[t - lag]`, respectively the values at
`outputPatternSize * (t - lag) + o`). -/
theorem output_time_lag (ds : DataSet) (ext : Externals) (cfg : Configuration)
    (gen : NoiseGen) (first : Int) (res : DataSetFraction × NoiseGen) (i t : Int)
    (hbuilt : _makeFractionTask ds ext cfg gen first = some res)
    (hlag : 0 ≤ cfg.outputTimeLag)
    (hi : Live ds first i)
    (ht0 : 0 ≤ t) (ht : t < (readAt ds.m_sequences (first + i)).length) :
    (ds.m_isClassificationData = true →
      (t < cfg.outputTimeLag →
        cellAt res.1.m_targetClasses (t * ds.m_parallelSequences + i) = some 0) ∧
      (cfg.outputTimeLag ≤ t →
        ∃ x,
          cellAt (_loadTargetClassesFromCache ds (readAt ds.m_sequences (first + i)))
            (t - cfg.outputTimeLag) = some x ∧
          cellAt res.1.m_targetClasses (t * ds.m_parallelSequences + i) = some x)) ∧
    (ds.m_isClassificationData = false → ∀ o, 0 ≤ o → o < ds.m_outputPatternSize →
      (t < cfg.outputTimeLag →
        cellAt res.1.m_outputs
          (ds.m_outputPatternSize * (t * ds.m_parallelSequences + i) + o) = some 1) ∧
      (cfg.outputTimeLag ≤ t →
        ∃ x,
          cellAt (_loadOutputsFromCache ds (readAt ds.m_sequences (first + i)))
            (ds.m_outputPatternSize * (t - cfg.outputTimeLag) + o) = some x ∧
          cellAt res.1.m_outputs
            (ds.m_outputPatternSize * (t * ds.m_parallelSequences + i) + o) = some x)) := by
  obtain ⟨fr0, hal, rfl⟩ := makeFractionTask_some ds ext cfg gen first res hbuilt
  have hle := (hal.live_le i hi).1
  have hc := slice_offset_lt (C := fr0.m_maxSeqLength) (P := ds.m_parallelSequences)
    ht0 (by omega) hi.1 hi.2.1
  constructor
  · intro hclass
    have hcell := slotLoop_targetClasses_cell ds ext cfg first fr0 gen i t hclass hi ht0 ht
    have hinit : cellAt fr0.m_targetClasses (t * ds.m_parallelSequences + i) = some (-1) := by
      rw [hal.targetClasses hclass]
      exact cellAt_replicate _ _ _ hc.1 (by
        have := hal.cells_size
        omega)
    rw [hinit] at hcell
    constructor
    · intro hlt
      rw [hcell, if_neg (by omega)]
      rfl
    · intro hge
      have hx := cellAt_block (readAt ds.m_sequences (first + i)).length
        (ds.m_cacheFile.ints (readAt ds.m_sequences (first + i)).targetsBegin)
        (t - cfg.outputTimeLag) (by omega) (by omega)
      refine ⟨_, hx, ?_⟩
      rw [hcell, if_pos (by omega)]
      have hr := readAt_of_cellAt _ _ _ hx
      unfold _loadTargetClassesFromCache
      rw [hr]
      rfl
  · intro hclass o ho0 ho
    have hcell := slotLoop_outputs_cell ds ext cfg first fr0 gen i t o hclass hi ht0 ht ho0 ho
    have hin : InCell ds.m_outputPatternSize (t * ds.m_parallelSequences + i)
        (ds.m_outputPatternSize * (t * ds.m_parallelSequences + i) + o) :=
      InCell.of_offset ho0 ho
    have hb := hin.bounds hc.1 hc.2
    have hinit : cellAt fr0.m_outputs
        (ds.m_outputPatternSize * (t * ds.m_parallelSequences + i) + o) = some 0 := by
      rw [(hal.outputs hclass).2]
      exact cellAt_replicate _ _ _ hb.1 (by
        have := (hal.outputs hclass).1
        omega)
    rw [hinit] at hcell
    constructor
    · intro hlt
      rw [hcell, if_neg (by omega)]
      rfl
    · intro hge
      have hsrc := slice_offset_lt (C := (readAt ds.m_sequences (first + i)).length)
        (P := ds.m_outputPatternSize) (k := t - cfg.outputTimeLag) (by omega) (by omega)
        ho0 ho
      rw [mul_comm (t - cfg.outputTimeLag)] at hsrc
      have hx := cellAt_block
        ((readAt ds.m_sequences (first + i)).length * ds.m_outputPatternSize)
        (ds.m_cacheFile.reals (readAt ds.m_sequences (first + i)).targetsBegin)
        (ds.m_outputPatternSize * (t - cfg.outputTimeLag) + o) hsrc.1 hsrc.2
      refine ⟨_, hx, ?_⟩
      rw [hcell, if_pos (by omega)]
      have hr := readAt_of_cellAt _ _ _ hx
      unfold _loadOutputsFromCache
      rw [hr]
      rfl

theorem output_time_lag_witness :
    (∃ res, _makeFractionTask sampleClassDataSet sampleExternals sampleConfiguration {} 1 =
        some res ∧
      cellAt res.1.m_targetClasses (0 * 2 + 0) = some 0 ∧
      ∃ x,
        cellAt (_loadTargetClassesFromCache sampleClassDataSet
          (readAt sampleClassDataSet.m_sequences (1 + 0))) (2 - 1) = some x ∧
        cellAt res.1.m_targetClasses (2 * 2 + 0) = some x) ∧
    (∃ res, _makeFractionTask sampleDataSet sampleExternals sampleConfiguration {} 1 =
        some res ∧
      cellAt res.1.m_outputs (2 * (0 * 2 + 1) + 1) = some 1 ∧
      ∃ x,
        cellAt (_loadOutputsFromCache sampleDataSet
          (readAt sampleDataSet.m_sequences (1 + 1))) (2 * (1 - 1) + 1) = some x ∧
        cellAt res.1.m_outputs (2 * (1 * 2 + 1) + 1) = some x) :=
  ⟨⟨_, rfl,
      ((output_time_lag sampleClassDataSet sampleExternals sampleConfiguration {} 1 _ 0 0 rfl
        (by decide) ⟨by decide, by decide, by decide⟩ (by decide) (by decide)).1 rfl).1
        (by decide),
      ((output_time_lag sampleClassDataSet sampleExternals sampleConfiguration {} 1 _ 0 2 rfl
        (by decide) ⟨by decide, by decide, by decide⟩ (by decide) (by decide)).1 rfl).2
        (by decide)⟩,
    ⟨_, rfl,
      ((output_time_lag sampleDataSet sampleExternals sampleConfiguration {} 1 _ 1 0 rfl
        (by decide) ⟨by decide, by decide, by decide⟩ (by decide) (by decide)).2 rfl 1
        (by decide) (by decide)).1 (by decide),
      ((output_time_lag sampleDataSet sampleExternals sampleConfiguration {} 1 _ 1 1 rfl
        (by decide) ⟨by decide, by decide, by decide⟩ (by decide) (by decide)).2 rfl 1
        (by decide) (by decide)).2 (by decide)⟩⟩

/-! ## The slot loop and the pattern types -/

theorem patTypeStep_patTypes (ds : DataSet) (i : Int) (seq : sequence_t) (t : Int)
    (fr : DataSetFraction) :
    (patTypeStep ds i seq t fr).m_patTypes =
      writeAt fr.m_patTypes (t * ds.m_parallelSequences + i) (patTypeOf seq.length t) := by
  obtain ⟨b, hb⟩ := patTypeStep_shape ds i seq t fr
  rw [hb]

theorem fillPatTypes_frame (ds : DataSet) (i : Int) (seq : sequence_t)
    (fr : DataSetFraction) (p : Int)
    (hp : ∀ t, 0 ≤ t → t < seq.length → p ≠ t * ds.m_parallelSequences + i) :
    cellAt (fillPatTypes ds i seq fr).m_patTypes p = cellAt fr.m_patTypes p := by
  unfold fillPatTypes
  refine (forLoop_frame seq.length (patTypeStep ds i seq)
    (fun st => cellAt st.m_patTypes p) (fun _ => True) fr trivial
    (fun _ _ _ _ _ => trivial) ?_).1
  intro t st ht0 ht _
  show cellAt (patTypeStep ds i seq t st).m_patTypes p = cellAt st.m_patTypes p
  rw [patTypeStep_patTypes]
  exact cellAt_writeAt_ne _ _ _ _ (hp t ht0 ht)

theorem fillPatTypes_cell (ds : DataSet) (i : Int) (seq : sequence_t)
    (fr : DataSetFraction) (t : Int) (hi0 : 0 ≤ i) (hi : i < ds.m_parallelSequences)
    (ht0 : 0 ≤ t) (ht : t < seq.length) :
    cellAt (fillPatTypes ds i seq fr).m_patTypes (t * ds.m_parallelSequences + i) =
      (cellAt fr.m_patTypes (t * ds.m_parallelSequences + i)).map
        (fun _ => patTypeOf seq.length t) := by
  unfold fillPatTypes
  refine (forLoop_cell seq.length (patTypeStep ds i seq)
    (fun st => cellAt st.m_patTypes (t * ds.m_parallelSequences + i)) (fun _ => True) t
    (fun c => c.map (fun _ => patTypeOf seq.length t)) fr trivial
    ht0 ht (fun _ _ _ _ _ => trivial) ?_ ?_).1
  · intro t' st _ _ hne _
    show cellAt (patTypeStep ds i seq t' st).m_patTypes _ = cellAt st.m_patTypes _
    rw [patTypeStep_patTypes]
    apply cellAt_writeAt_ne
    intro e
    exact hne (cell_index_unique hi0 hi hi0 hi e).1.symm
  · intro st _
    show cellAt (patTypeStep ds i seq t st).m_patTypes _ = (cellAt st.m_patTypes _).map _
    rw [patTypeStep_patTypes]
    exact cellAt_writeAt_self _ _ _

theorem slotBody_patTypes (ds : DataSet) (ext : Externals) (cfg : Configuration)
    (first i : Int) (st : DataSetFraction × NoiseGen)
    (hlive : ¬ first + i ≥ (ds.m_sequences.length : Int)) :
    ∃ fr : DataSetFraction, fr.m_patTypes = st.1.m_patTypes ∧
      fr.m_patTypesLowTimeRes = st.1.m_patTypesLowTimeRes ∧
      fr.m_resolutionBuffer = st.1.m_resolutionBuffer ∧
      (slotBody ds ext cfg first i st).1 =
        fillPatTypes ds i (readAt ds.m_sequences (first + i)) fr := by
  obtain ⟨_, _, _, _, k5, k6, k7, _⟩ := slotPrefix_fields ds ext cfg i
    (readAt ds.m_sequences (first + i))
    (_addNoise ds (_loadInputsFromCache ds (readAt ds.m_sequences (first + i))) st.2).1 st.1
  exact ⟨_, k6, k7, k5, slotBody_live ds ext cfg first i st hlive⟩

/-- A pattern-type cell outside the cells of the live slots keeps its value. -/
theorem slotLoop_patTypes_frame (ds : DataSet) (ext : Externals) (cfg : Configuration)
    (first : Int) (fr0 : DataSetFraction) (gen : NoiseGen) (p : Int)
    (hp : ∀ j, Live ds first j → ∀ t, 0 ≤ t →
      t < (readAt ds.m_sequences (first + j)).length →
      p ≠ t * ds.m_parallelSequences + j) :
    cellAt (forLoop ds.m_parallelSequences (slotBody ds ext cfg first)
        (fr0, gen)).1.m_patTypes p = cellAt fr0.m_patTypes p := by
  refine (forLoop_frame _ _ (fun st => cellAt st.1.m_patTypes p) (fun _ => True) (fr0, gen)
    trivial (fun _ _ _ _ _ => trivial) ?_).1
  intro j st hj0 hj _
  by_cases hdead : first + j ≥ (ds.m_sequences.length : Int)
  · rw [slotBody_dead ds ext cfg first j st hdead]
  · obtain ⟨fr, e1, _, _, e4⟩ := slotBody_patTypes ds ext cfg first j st hdead
    show cellAt (slotBody ds ext cfg first j st).1.m_patTypes p = cellAt st.1.m_patTypes p
    rw [e4, ← e1]
    exact fillPatTypes_frame ds j _ fr p (fun t ht0 ht => hp j ⟨hj0, hj, by omega⟩ t ht0 ht)

/-- The pattern-type cell `(t, i)` of a live slot after the slot loop. -/
theorem slotLoop_patTypes_cell (ds : DataSet) (ext : Externals) (cfg : Configuration)
    (first : Int) (fr0 : DataSetFraction) (gen : NoiseGen) (i t : Int)
    (hi : Live ds first i) (ht0 : 0 ≤ t)
    (ht : t < (readAt ds.m_sequences (first + i)).length) :
    cellAt (forLoop ds.m_parallelSequences (slotBody ds ext cfg first)
        (fr0, gen)).1.m_patTypes (t * ds.m_parallelSequences + i) =
      (cellAt fr0.m_patTypes (t * ds.m_parallelSequences + i)).map
        (fun _ => patTypeOf (readAt ds.m_sequences (first + i)).length t) := by
  obtain ⟨hi0, hi1, hi2⟩ := hi
  refine (forLoop_cell _ _ (fun st => cellAt st.1.m_patTypes _) (fun _ => True) i _
    (fr0, gen) trivial hi0 hi1 (fun _ _ _ _ _ => trivial) ?_ ?_).1
  · intro j st hj0 hj hne _
    by_cases hdead : first + j ≥ (ds.m_sequences.length : Int)
    · rw [slotBody_dead ds ext cfg first j st hdead]
    · obtain ⟨fr, e1, _, _, e4⟩ := slotBody_patTypes ds ext cfg first j st hdead
      show cellAt (slotBody ds ext cfg first j st).1.m_patTypes _ =
        cellAt st.1.m_patTypes _
      rw [e4, ← e1]
      apply fillPatTypes_frame
      intro t' _ _ e
      exact hne (cell_index_unique hi0 hi1 hj0 hj e).2.symm
  · intro st _
    obtain ⟨fr, e1, _, _, e4⟩ := slotBody_patTypes ds ext cfg first i st (by omega)
    show cellAt (slotBody ds ext cfg first i st).1.m_patTypes _ =
      (cellAt st.1.m_patTypes _).map _
    rw [e4, ← e1]
    exact fillPatTypes_cell ds i _ fr t hi0 hi1 ht0 ht

/-- Counting in a column: a value taken at exactly one index occurs once. -/
theorem count_map_range_one {β : Type} [DecidableEq β] (f : Nat → β) (a : β) (t0 : Nat) :
    ∀ m : Nat, (∀ t, t < m → (f t = a ↔ t = t0)) →
      ((List.range m).map f).count a = if t0 < m then 1 else 0 := by
  intro m
  induction m with
  | zero => intro _; simp
  | succ m ih =>
    intro h
    rw [List.range_succ, List.map_append, List.count_append,
      ih (fun t ht => h t (by omega))]
    simp only [List.map_cons, List.map_nil]
    by_cases e : m = t0
    · subst e
      have := (h m (by omega)).mpr rfl
      simp [this]
    · have hne : f m ≠ a := fun hfa => e ((h m (by omega)).mp hfa)
      rw [List.count_cons_of_ne (Ne.symm hne)]
      simp only [List.count_nil, add_zero]
      by_cases c : t0 < m
      · simp [c, show t0 < m + 1 by omega]
      · simp [c, show ¬ t0 < m + 1 by omega]

theorem count_map_range_zero {β : Type} [DecidableEq β] (f : Nat → β) (a : β) (m : Nat)
    (h : ∀ t, t < m → f t ≠ a) : ((List.range m).map f).count a = 0 := by
  rw [List.count_eq_zero]
  intro hmem
  obtain ⟨t, ht, e⟩ := List.mem_map.mp hmem
  exact h t (List.mem_range.mp ht) e

/-- C6: pattern types in a built fraction.  For a slot `i` of the buffer, the cell
`(t, i)` of a live slot with descriptor length `n` is FIRST at `t = 0`, LAST at
`t = n - 1` when `t > 0`, NORMAL for `0 < t < n - 1`; every cell with `t ≥ n` and every
cell of a slot beyond the live descriptors is NONE.  Hence a live slot with `n ≥ 2` has
exactly one FIRST and exactly one LAST cell, and for `n = 1` the single cell is FIRST
(and no cell is LAST). -/
theorem pattern_types (ds : DataSet) (ext : Externals) (cfg : Configuration)
    (gen : NoiseGen) (first : Int) (res : DataSetFraction × NoiseGen) (i : Int)
    (hbuilt : _makeFractionTask ds ext cfg gen first = some res)
    (hi0 : 0 ≤ i) (hi : i < ds.m_parallelSequences) :
    (∀ t, 0 ≤ t → t < res.1.m_maxSeqLength →
      cellAt res.1.m_patTypes (t * ds.m_parallelSequences + i) =
        some (if first + i < (ds.m_sequences.length : Int) ∧
                t < (readAt ds.m_sequences (first + i)).length then
              (if t = 0 then PATTYPE_FIRST
               else if t = (readAt ds.m_sequences (first + i)).length - 1 then PATTYPE_LAST
               else PATTYPE_NORMAL)
            else PATTYPE_NONE)) ∧
    (first + i < (ds.m_sequences.length : Int) →
      2 ≤ (readAt ds.m_sequences (first + i)).length →
      (slotColumn ds.m_parallelSequences res.1 i).count PATTYPE_FIRST = 1 ∧
        (slotColumn ds.m_parallelSequences res.1 i).count PATTYPE_LAST = 1) ∧
    (first + i < (ds.m_sequences.length : Int) →
      (readAt ds.m_sequences (first + i)).length = 1 →
      (slotColumn ds.m_parallelSequences res.1 i).count PATTYPE_FIRST = 1 ∧
        (slotColumn ds.m_parallelSequences res.1 i).count PATTYPE_LAST = 0) := by
  obtain ⟨fr0, hal, rfl⟩ := makeFractionTask_some ds ext cfg gen first res hbuilt
  obtain ⟨_, _, k3, _⟩ := slotLoop_keeps ds ext cfg first fr0 gen
  generalize hn : (readAt ds.m_sequences (first + i)).length = n
  have hcells : ∀ t, 0 ≤ t → t < fr0.m_maxSeqLength →
      cellAt (forLoop ds.m_parallelSequences (slotBody ds ext cfg first)
        (fr0, gen)).1.m_patTypes (t * ds.m_parallelSequences + i) =
        some (if first + i < (ds.m_sequences.length : Int) ∧ t < n then
              (if t = 0 then PATTYPE_FIRST
               else if t = n - 1 then PATTYPE_LAST
               else PATTYPE_NORMAL)
            else PATTYPE_NONE) := by
    intro t ht0 ht
    have hc := slice_offset_lt (C := fr0.m_maxSeqLength) (P := ds.m_parallelSequences)
      ht0 ht hi0 hi
    have hinit : cellAt fr0.m_patTypes (t * ds.m_parallelSequences + i) =
        some PATTYPE_NONE := by
      rw [hal.patTypes]
      exact cellAt_replicate _ _ _ hc.1 (by
        have := hal.cells_size
        omega)
    by_cases hlive : first + i < (ds.m_sequences.length : Int) ∧ t < n
    · rw [if_pos hlive]
      rw [slotLoop_patTypes_cell ds ext cfg first fr0 gen i t ⟨hi0, hi, hlive.1⟩ ht0
        (by rw [hn]; exact hlive.2), hinit, hn]
      rfl
    · rw [if_neg hlive]
      rw [slotLoop_patTypes_frame ds ext cfg first fr0 gen _ ?_, hinit]
      intro j hj t' ht0' ht' e
      obtain ⟨e1, e2⟩ := cell_index_unique hi0 hi hj.1 hj.2.1 e
      subst e1 e2
      exact hlive ⟨hj.2.2, by rw [← hn]; exact ht'⟩
  rw [k3]
  refine ⟨hcells, ?_, ?_⟩
  · intro hlive hn2
    have hle := (hal.live_le i ⟨hi0, hi, hlive⟩).1
    rw [hn] at hle
    unfold slotColumn
    rw [k3]
    constructor
    · rw [count_map_range_one _ _ 0 _ (fun t ht => ?_), if_pos (by omega)]
      rw [readAt_of_cellAt _ _ _ (hcells t (by omega) (by omega))]
      constructor
      · intro h
        split_ifs at h
        omega
      · intro h
        subst h
        rw [if_pos ⟨hlive, by omega⟩]
        simp
    · rw [count_map_range_one _ _ (n - 1).toNat _ (fun t ht => ?_), if_pos (by omega)]
      rw [readAt_of_cellAt _ _ _ (hcells t (by omega) (by omega))]
      constructor
      · intro h
        split_ifs at h
        omega
      · intro h
        subst h
        rw [if_pos ⟨hlive, by omega⟩, if_neg (by omega), if_pos (by omega)]
  · intro hlive hn1
    have hle := (hal.live_le i ⟨hi0, hi, hlive⟩).1
    rw [hn] at hle
    unfold slotColumn
    rw [k3]
    constructor
    · rw [count_map_range_one _ _ 0 _ (fun t ht => ?_), if_pos (by omega)]
      rw [readAt_of_cellAt _ _ _ (hcells t (by omega) (by omega))]
      constructor
      · intro h
        split_ifs at h
        omega
      · intro h
        subst h
        rw [if_pos ⟨hlive, by omega⟩]
        simp
    · apply count_map_range_zero
      intro t ht
      rw [readAt_of_cellAt _ _ _ (hcells t (by omega) (by omega))]
      intro h
      split_ifs at h
      omega

theorem pattern_types_witness :
    ∃ res, _makeFractionTask sampleDataSet sampleExternals sampleConfiguration {} 1 =
        some res ∧
      ((0 : Int) ≤ 1 ∧ (1 : Int) < sampleDataSet.m_parallelSequences) ∧
      res.1.m_patTypes =
        [PATTYPE_FIRST, PATTYPE_FIRST, PATTYPE_NORMAL, PATTYPE_LAST,
         PATTYPE_NORMAL, PATTYPE_NONE, PATTYPE_LAST, PATTYPE_NONE] ∧
      (∀ t, 0 ≤ t → t < res.1.m_maxSeqLength →
        cellAt res.1.m_patTypes (t * sampleDataSet.m_parallelSequences + 1) =
          some (if 1 + 1 < (sampleDataSet.m_sequences.length : Int) ∧
                  t < (readAt sampleDataSet.m_sequences (1 + 1)).length then
                (if t = 0 then PATTYPE_FIRST
                 else if t = (readAt sampleDataSet.m_sequences (1 + 1)).length - 1 then
                   PATTYPE_LAST
                 else PATTYPE_NORMAL)
              else PATTYPE_NONE)) ∧
      (slotColumn sampleDataSet.m_parallelSequences res.1 1).count PATTYPE_FIRST = 1 ∧
      (slotColumn sampleDataSet.m_parallelSequences res.1 1).count PATTYPE_LAST = 1 :=
  ⟨_, rfl, ⟨by decide, by decide⟩, by decide,
    (pattern_types sampleDataSet sampleExternals sampleConfiguration {} 1 _ 1 rfl
      (by decide) (by decide)).1,
    (pattern_types sampleDataSet sampleExternals sampleConfiguration {} 1 _ 1 rfl
      (by decide) (by decide)).2.1 (by decide) (by decide)⟩

/-! ## Buffer sizes -/

theorem length_forLoop_writes {α : Type} (n : Int) (pos : Int → Int) (val : Int → List α → α)
    (v : List α) :
    (forLoop n (fun j out => writeAt out (pos j) (val j out)) v).length = v.length :=
  (forLoop_frame n _ (fun out => out.length) (fun _ => True) v trivial
    (fun _ _ _ _ _ => trivial) (fun _ st _ _ _ => length_writeAt st _ _)).1

theorem length_copy_n {α : Type} [Inhabited α] (src : List α) (srcStart n : Int)
    (dst : List α) (tgtStart : Int) :
    (copy_n src srcStart n dst tgtStart).length = dst.length :=
  length_forLoop_writes n (fun d => tgtStart + d) (fun d _ => readAt src (srcStart + d)) dst

theorem length_expandContext (ds : DataSet) (cfg : Configuration) (ips i : Int)
    (seq : sequence_t) (inputs buf : List real_t) :
    (expandContext ds cfg ips i seq inputs buf).length = buf.length := by
  unfold expandContext
  refine (forLoop_frame _ _ (fun out => out.length) (fun _ => True) buf trivial
    (fun _ _ _ _ _ => trivial) (fun t st _ _ _ => ?_)).1
  unfold expandStep
  exact (forLoop_frame _ _ (fun out => out.length) (fun _ => True) st trivial
    (fun _ _ _ _ _ => trivial) (fun k st2 _ _ _ => length_copy_n _ _ _ st2 _)).1

theorem length_lagShiftCopy {α : Type} [Inhabited α] (ds : DataSet) (cfg : Configuration)
    (dim i : Int) (seq : sequence_t) (src : List α) (fill : α) (buf : List α) :
    (lagShiftCopy ds cfg dim i seq src fill buf).length = buf.length := by
  unfold lagShiftCopy
  refine (forLoop_frame _ _ (fun out => out.length) (fun _ => True) buf trivial
    (fun _ _ _ _ _ => trivial) (fun t st _ _ _ => ?_)).1
  show (if t ≥ cfg.outputTimeLag then _ else _ : List α).length = _
  split_ifs
  · exact length_copy_n _ _ _ st _
  · exact length_forLoop_writes dim _ (fun _ _ => fill) st

theorem length_shiftTargetClasses (ds : DataSet) (cfg : Configuration) (i : Int)
    (seq : sequence_t) (targetClasses buf : List Int) :
    (shiftTargetClasses ds cfg i seq targetClasses buf).length = buf.length := by
  unfold shiftTargetClasses
  exact (forLoop_frame _ _ (fun out => out.length) (fun _ => True) buf trivial
    (fun _ _ _ _ _ => trivial) (fun t st _ _ _ => length_writeAt st _ _)).1

theorem length_fillPatTypes (ds : DataSet) (i : Int) (seq : sequence_t)
    (fr : DataSetFraction) :
    (fillPatTypes ds i seq fr).m_patTypes.length = fr.m_patTypes.length := by
  unfold fillPatTypes
  refine (forLoop_frame seq.length (patTypeStep ds i seq)
    (fun st => st.m_patTypes.length) (fun _ => True) fr trivial
    (fun _ _ _ _ _ => trivial) (fun t st _ _ _ => ?_)).1
  show (patTypeStep ds i seq t st).m_patTypes.length = st.m_patTypes.length
  rw [patTypeStep_patTypes]
  exact length_writeAt _ _ _

/-- The slot loop keeps the sizes of the input, pattern-type and target buffers. -/
theorem slotLoop_lengths (ds : DataSet) (ext : Externals) (cfg : Configuration)
    (first : Int) (fr0 : DataSetFraction) (gen : NoiseGen) :
    (forLoop ds.m_parallelSequences (slotBody ds ext cfg first) (fr0, gen)).1.m_inputs.length
        = fr0.m_inputs.length ∧
      (forLoop ds.m_parallelSequences (slotBody ds ext cfg first)
        (fr0, gen)).1.m_patTypes.length = fr0.m_patTypes.length ∧
      (forLoop ds.m_parallelSequences (slotBody ds ext cfg first)
        (fr0, gen)).1.m_targetClasses.length = fr0.m_targetClasses.length ∧
      (forLoop ds.m_parallelSequences (slotBody ds ext cfg first)
        (fr0, gen)).1.m_outputs.length = fr0.m_outputs.length := by
  have := forLoop_frame ds.m_parallelSequences (slotBody ds ext cfg first)
    (fun st => (st.1.m_inputs.length, st.1.m_patTypes.length, st.1.m_targetClasses.length,
      st.1.m_outputs.length)) (fun _ => True) (fr0, gen) trivial (fun _ _ _ _ _ => trivial)
    (fun j st _ _ _ => by
      by_cases hdead : first + j ≥ (ds.m_sequences.length : Int)
      · rw [slotBody_dead ds ext cfg first j st hdead]
      · obtain ⟨fr, e1, _, _, e4⟩ := slotBody_patTypes ds ext cfg first j st hdead
        have h1 := slotBody_inputs ds ext cfg first j st hdead
        obtain ⟨h3, h4⟩ := slotBody_targets ds ext cfg first j st hdead
        have h2 : (slotBody ds ext cfg first j st).1.m_patTypes.length =
            st.1.m_patTypes.length := by
          rw [e4, length_fillPatTypes, e1]
        simp only [h1, h2, h3, h4, length_expandContext]
        split_ifs <;> simp [length_lagShiftCopy, length_shiftTargetClasses])
  simp only [Prod.mk.injEq] at this
  exact ⟨this.1.1, this.1.2.1, this.1.2.2.1, this.1.2.2.2⟩

theorem readAt_mem {α : Type} [Inhabited α] (v : List α) (p : Int) (h0 : 0 ≤ p)
    (h1 : p < v.length) : readAt v p ∈ v := by
  obtain ⟨x, hx⟩ := cellAt_lt_length v p h0 h1
  rw [readAt_of_cellAt v p x hx]
  unfold cellAt at hx
  rw [if_pos h0] at hx
  exact List.getElem?_mem hx

/-- C7: buffer sizes of a fraction built from a non-empty window (`0 ≤ first < number of
descriptors`, `par ≥ 1`, lengths representable as `int`).  `m_maxSeqLength` and
`m_minSeqLength` are the maximum and the minimum of `length` over the descriptors at the
indices `first .. min(first + par, total) - 1` only; the input buffer holds
`maxSeqLength * par * ((left+right+1) * inputPatternSize)` elements, the pattern-type
buffer `maxSeqLength * par`, and the target buffer `maxSeqLength * par` (classification)
or `maxSeqLength * par * outputPatternSize` (regression). -/
theorem buffer_sizes (ds : DataSet) (ext : Externals) (cfg : Configuration)
    (gen : NoiseGen) (first : Int) (res : DataSetFraction × NoiseGen)
    (hbuilt : _makeFractionTask ds ext cfg gen first = some res)
    (hfirst0 : 0 ≤ first) (hfirst : first < (ds.m_sequences.length : Int))
    (hpar : 1 ≤ ds.m_parallelSequences)
    (hrange : ∀ s ∈ ds.m_sequences, INT_MIN ≤ s.length ∧ s.length ≤ INT_MAX) :
    (∀ idx, first ≤ idx → idx < first + ds.m_parallelSequences →
        idx < (ds.m_sequences.length : Int) →
        (readAt ds.m_sequences idx).length ≤ res.1.m_maxSeqLength ∧
          res.1.m_minSeqLength ≤ (readAt ds.m_sequences idx).length) ∧
      (∃ idx, first ≤ idx ∧ idx < first + ds.m_parallelSequences ∧
        idx < (ds.m_sequences.length : Int) ∧
        (readAt ds.m_sequences idx).length = res.1.m_maxSeqLength) ∧
      (∃ idx, first ≤ idx ∧ idx < first + ds.m_parallelSequences ∧
        idx < (ds.m_sequences.length : Int) ∧
        (readAt ds.m_sequences idx).length = res.1.m_minSeqLength) ∧
      (res.1.m_inputs.length : Int) =
        res.1.m_maxSeqLength * ds.m_parallelSequences *
          ((cfg.inputLeftContext + cfg.inputRightContext + 1) * ds.m_inputPatternSize) ∧
      (res.1.m_patTypes.length : Int) = res.1.m_maxSeqLength * ds.m_parallelSequences ∧
      (ds.m_isClassificationData = true →
        (res.1.m_targetClasses.length : Int) =
          res.1.m_maxSeqLength * ds.m_parallelSequences) ∧
      (ds.m_isClassificationData = false →
        (res.1.m_outputs.length : Int) =
          res.1.m_maxSeqLength * ds.m_parallelSequences * ds.m_outputPatternSize) := by
  obtain ⟨fr0, hal, rfl⟩ := makeFractionTask_some ds ext cfg gen first res hbuilt
  obtain ⟨_, _, k3, k4⟩ := slotLoop_keeps ds ext cfg first fr0 gen
  obtain ⟨l1, l2, l3, l4⟩ := slotLoop_lengths ds ext cfg first fr0 gen
  rw [k3, k4, l1, l2, l3, l4]
  have hlive0 : Live ds first 0 := ⟨le_refl 0, by omega, by omega⟩
  have hmem : readAt ds.m_sequences (first + 0) ∈ ds.m_sequences :=
    readAt_mem _ _ (by omega) (by omega)
  have hr := hrange _ hmem
  have hb := hal.live_le 0 hlive0
  refine ⟨?_, ?_, ?_, ?_, ?_, ?_, ?_⟩
  · intro idx h1 h2 h3
    have := hal.live_le (idx - first) ⟨by omega, by omega, by omega⟩
    rw [show first + (idx - first) = idx by ring] at this
    exact this
  · rcases hal.max_attained with h | ⟨j, hj, e⟩
    · exact ⟨first + 0, by omega, by omega, by omega, by omega⟩
    · exact ⟨first + j, by have := hj.1; omega, by have := hj.2.1; omega, hj.2.2, e⟩
  · rcases hal.min_attained with h | ⟨j, hj, e⟩
    · exact ⟨first + 0, by omega, by omega, by omega, by omega⟩
    · exact ⟨first + j, by have := hj.1; omega, by have := hj.2.1; omega, hj.2.2, e⟩
  · rw [hal.inputs, List.length_replicate, Int.toNat_of_nonneg hal.inputs_size, hal.ips]
    ring
  · rw [hal.patTypes, List.length_replicate, Int.toNat_of_nonneg hal.cells_size]
  · intro hc
    rw [hal.targetClasses hc, List.length_replicate, Int.toNat_of_nonneg hal.cells_size]
  · intro hc
    rw [(hal.outputs hc).2, List.length_replicate, Int.toNat_of_nonneg (hal.outputs hc).1]

theorem buffer_sizes_witness :
    ∃ res, _makeFractionTask sampleDataSet sampleExternals sampleConfiguration {} 1 =
        some res ∧
      ((0 : Int) ≤ 1 ∧ (1 : Int) < (sampleDataSet.m_sequences.length : Int) ∧
        1 ≤ sampleDataSet.m_parallelSequences) ∧
      res.1.m_maxSeqLength = 4 ∧ res.1.m_minSeqLength = 2 ∧
      (res.1.m_inputs.length : Int) = res.1.m_maxSeqLength * 2 * ((1 + 0 + 1) * 3) ∧
      (res.1.m_patTypes.length : Int) = res.1.m_maxSeqLength * 2 ∧
      (res.1.m_outputs.length : Int) = res.1.m_maxSeqLength * 2 * 2 :=
  ⟨_, rfl, ⟨by decide, by decide, by decide⟩, by decide, by decide,
    (buffer_sizes sampleDataSet sampleExternals sampleConfiguration {} 1 _ rfl (by decide)
      (by decide) (by decide) (by decide)).2.2.2.1,
    (buffer_sizes sampleDataSet sampleExternals sampleConfiguration {} 1 _ rfl (by decide)
      (by decide) (by decide) (by decide)).2.2.2.2.1,
    (buffer_sizes sampleDataSet sampleExternals sampleConfiguration {} 1 _ rfl (by decide)
      (by decide) (by decide) (by decide)).2.2.2.2.2.2 rfl⟩

/-! ## The multi-resolution buffer -/

theorem tdiv_eq_iff (t r d : Int) (ht : 0 ≤ t) (hr : 1 ≤ r) :
    Int.tdiv t r = d ↔ d * r ≤ t ∧ t < (d + 1) * r := by
  rw [Int.tdiv_eq_ediv ht (by omega)]
  have hr0 : 0 < r := by omega
  constructor
  · intro h
    subst h
    have h1 := Int.ediv_mul_le t (show r ≠ 0 by omega)
    have h2 := Int.lt_mul_ediv_self_add (x := t) hr0
    rw [add_mul, one_mul, mul_comm (t / r) r]
    rw [mul_comm (t / r) r] at h1
    exact ⟨h1, h2⟩
  · rintro ⟨h1, h2⟩
    have h3 : d ≤ t / r := (Int.le_ediv_iff_mul_le hr0).mpr h1
    have h4 : t / r < d + 1 := (Int.ediv_lt_iff_lt_mul hr0).mpr h2
    omega

theorem cellAt_stickyWrite (v : List PatType) (q p : Int) (pt : PatType) :
    cellAt (writeAt v q (stickyFirst pt (readAt v q))) p =
      if p = q then (cellAt v p).map (stickyFirst pt) else cellAt v p := by
  by_cases h : p = q
  · subst h
    rw [if_pos rfl, cellAt_writeAt_self]
    cases hc : cellAt v p with
    | none => rfl
    | some c => rw [readAt_of_cellAt v p c hc]; rfl
  · rw [if_neg h, cellAt_writeAt_ne _ _ _ _ h]

theorem fillResolution_resolutionBuffer (ds : DataSet) (i t : Int) (pt : PatType)
    (fr : DataSetFraction) :
    (fillResolution ds i t pt fr).m_resolutionBuffer = fr.m_resolutionBuffer ∧
      (fillResolution ds i t pt fr).m_patTypes = fr.m_patTypes := by
  obtain ⟨b, hb⟩ := fillResolution_shape ds i t pt fr
  rw [hb]
  exact ⟨rfl, rfl⟩

theorem resolutionStep_cell (ds : DataSet) (i t : Int) (pt : PatType) (j : Int)
    (st : DataSetFraction) (p : Int) :
    cellAt (resolutionStep ds i t pt j st).m_patTypesLowTimeRes p =
      if p = resolutionDataPos ds i t (readAt st.m_resolutionBuffer j) then
        (cellAt st.m_patTypesLowTimeRes p).map (stickyFirst pt)
      else cellAt st.m_patTypesLowTimeRes p := by
  unfold resolutionStep
  exact cellAt_stickyWrite _ _ _ _

theorem resolutionStep_resolutionBuffer (ds : DataSet) (i t : Int) (pt : PatType) (j : Int)
    (st : DataSetFraction) :
    (resolutionStep ds i t pt j st).m_resolutionBuffer = st.m_resolutionBuffer := rfl

/-- One time step leaves a reduced cell alone when no resolution entry maps the step to
it. -/
theorem fillResolution_lowRes_frame (ds : DataSet) (i t : Int) (pt : PatType)
    (fr : DataSetFraction) (p : Int)
    (hp : ∀ j, 0 ≤ j → j < (fr.m_resolutionBuffer.length : Int) →
      resolutionDataPos ds i t (readAt fr.m_resolutionBuffer j) ≠ p) :
    cellAt (fillResolution ds i t pt fr).m_patTypesLowTimeRes p =
      cellAt fr.m_patTypesLowTimeRes p := by
  unfold fillResolution
  refine (forLoop_frame (fr.m_resolutionBuffer.length : Int) (resolutionStep ds i t pt)
    (fun st => cellAt st.m_patTypesLowTimeRes p)
    (fun st => st.m_resolutionBuffer = fr.m_resolutionBuffer) fr rfl
    (fun j st _ _ hP => (resolutionStep_resolutionBuffer ds i t pt j st).trans hP) ?_).1
  intro j st hj0 hj hP
  show cellAt (resolutionStep ds i t pt j st).m_patTypesLowTimeRes p =
    cellAt st.m_patTypesLowTimeRes p
  rw [resolutionStep_cell, if_neg]
  rw [hP]
  exact fun e => hp j hj0 hj e.symm

/-- One time step merges its pattern type into the reduced cell that exactly one
resolution entry maps it to. -/
theorem fillResolution_lowRes_cell (ds : DataSet) (i t : Int) (pt : PatType)
    (fr : DataSetFraction) (p j0 : Int)
    (h0 : 0 ≤ j0) (h1 : j0 < (fr.m_resolutionBuffer.length : Int))
    (hpos : resolutionDataPos ds i t (readAt fr.m_resolutionBuffer j0) = p)
    (hp : ∀ j, 0 ≤ j → j < (fr.m_resolutionBuffer.length : Int) → j ≠ j0 →
      resolutionDataPos ds i t (readAt fr.m_resolutionBuffer j) ≠ p) :
    cellAt (fillResolution ds i t pt fr).m_patTypesLowTimeRes p =
      (cellAt fr.m_patTypesLowTimeRes p).map (stickyFirst pt) := by
  unfold fillResolution
  refine (forLoop_cell (fr.m_resolutionBuffer.length : Int) (resolutionStep ds i t pt)
    (fun st => cellAt st.m_patTypesLowTimeRes p)
    (fun st => st.m_resolutionBuffer = fr.m_resolutionBuffer) j0
    (fun c => c.map (stickyFirst pt)) fr rfl h0 h1
    (fun j st _ _ hP => (resolutionStep_resolutionBuffer ds i t pt j st).trans hP) ?_ ?_).1
  · intro j st hj0 hj hne hP
    show cellAt (resolutionStep ds i t pt j st).m_patTypesLowTimeRes p =
      cellAt st.m_patTypesLowTimeRes p
    rw [resolutionStep_cell, if_neg]
    rw [hP]
    exact fun e => hp j hj0 hj hne e.symm
  · intro st hP
    show cellAt (resolutionStep ds i t pt j0 st).m_patTypesLowTimeRes p =
      (cellAt st.m_patTypesLowTimeRes p).map (stickyFirst pt)
    rw [resolutionStep_cell, if_pos]
    rw [hP]
    exact hpos.symm

/-- No contribution of a time step changes a reduced cell that is already FIRST. -/
theorem fillResolution_keeps_first (ds : DataSet) (i t : Int) (pt : PatType)
    (fr : DataSetFraction) (p : Int)
    (h : cellAt fr.m_patTypesLowTimeRes p = some PATTYPE_FIRST) :
    cellAt (fillResolution ds i t pt fr).m_patTypesLowTimeRes p = some PATTYPE_FIRST := by
  unfold fillResolution
  exact forLoop_inv (fr.m_resolutionBuffer.length : Int) (resolutionStep ds i t pt)
    (fun _ st => cellAt st.m_patTypesLowTimeRes p = some PATTYPE_FIRST) fr h
    (fun j st _ _ hI => by
      show cellAt (resolutionStep ds i t pt j st).m_patTypesLowTimeRes p = some PATTYPE_FIRST
      have hI' : cellAt st.m_patTypesLowTimeRes p = some PATTYPE_FIRST := hI
      rw [resolutionStep_cell]
      split_ifs
      · rw [hI']; rfl
      · exact hI')

theorem patTypeStep_lowRes (ds : DataSet) (i : Int) (seq : sequence_t) (t : Int)
    (fr : DataSetFraction) :
    ∃ fr1 : DataSetFraction, fr1.m_patTypesLowTimeRes = fr.m_patTypesLowTimeRes ∧
      fr1.m_resolutionBuffer = fr.m_resolutionBuffer ∧
      patTypeStep ds i seq t fr = fillResolution ds i t (patTypeOf seq.length t) fr1 :=
  ⟨{ fr with
      m_patTypes :=
        writeAt fr.m_patTypes (t * ds.m_parallelSequences + i) (patTypeOf seq.length t)
      m_fracTotalLength := fr.m_fracTotalLength + 1 }, rfl, rfl, rfl⟩

theorem patTypeStep_resolutionBuffer (ds : DataSet) (i : Int) (seq : sequence_t) (t : Int)
    (fr : DataSetFraction) :
    (patTypeStep ds i seq t fr).m_resolutionBuffer = fr.m_resolutionBuffer := by
  obtain ⟨b, hb⟩ := patTypeStep_shape ds i seq t fr
  rw [hb]

/-- The time-step loop of a slot keeps a reduced cell that is already FIRST. -/
theorem fillPatTypes_keeps_first (ds : DataSet) (i : Int) (seq : sequence_t)
    (fr : DataSetFraction) (p : Int)
    (h : cellAt fr.m_patTypesLowTimeRes p = some PATTYPE_FIRST) :
    cellAt (fillPatTypes ds i seq fr).m_patTypesLowTimeRes p = some PATTYPE_FIRST := by
  unfold fillPatTypes
  exact forLoop_inv seq.length (patTypeStep ds i seq)
    (fun _ st => cellAt st.m_patTypesLowTimeRes p = some PATTYPE_FIRST) fr h
    (fun j st _ _ hI => by
      obtain ⟨fr1, e1, _, e3⟩ := patTypeStep_lowRes ds i seq j st
      show cellAt (patTypeStep ds i seq j st).m_patTypesLowTimeRes p = some PATTYPE_FIRST
      have hI' : cellAt st.m_patTypesLowTimeRes p = some PATTYPE_FIRST := hI
      rw [e3]
      rw [← e1] at hI'
      exact fillResolution_keeps_first ds i j _ fr1 p hI')

theorem fillPatTypes_resolutionBuffer (ds : DataSet) (i : Int) (seq : sequence_t)
    (fr : DataSetFraction) :
    (fillPatTypes ds i seq fr).m_resolutionBuffer = fr.m_resolutionBuffer :=
  (fillPatTypes_rest ds i seq fr).2.2.2.2.1

/-- The time-step loop of a slot leaves a reduced cell alone when no time step of the
slot is mapped to it. -/
theorem fillPatTypes_lowRes_frame (ds : DataSet) (i : Int) (seq : sequence_t)
    (fr : DataSetFraction) (p : Int)
    (hp : ∀ t, 0 ≤ t → t < seq.length →
      ∀ j, 0 ≤ j → j < (fr.m_resolutionBuffer.length : Int) →
        resolutionDataPos ds i t (readAt fr.m_resolutionBuffer j) ≠ p) :
    cellAt (fillPatTypes ds i seq fr).m_patTypesLowTimeRes p =
      cellAt fr.m_patTypesLowTimeRes p := by
  unfold fillPatTypes
  refine (forLoop_frame seq.length (patTypeStep ds i seq)
    (fun st => cellAt st.m_patTypesLowTimeRes p)
    (fun st => st.m_resolutionBuffer = fr.m_resolutionBuffer) fr rfl
    (fun t st _ _ hP => (patTypeStep_resolutionBuffer ds i seq t st).trans hP) ?_).1
  intro t st ht0 ht hP
  obtain ⟨fr1, e1, e2, e3⟩ := patTypeStep_lowRes ds i seq t st
  show cellAt (patTypeStep ds i seq t st).m_patTypesLowTimeRes p =
    cellAt st.m_patTypesLowTimeRes p
  rw [e3, ← e1]
  apply fillResolution_lowRes_frame
  rw [e2, hP]
  exact hp t ht0 ht


theorem patTypeOf_ne_first (n t : Int) (h : t ≠ 0) : patTypeOf n t ≠ PATTYPE_FIRST := by
  unfold patTypeOf
  rw [if_neg h]
  split_ifs <;> simp

theorem reducedAfter_contribute (n X r d t : Int) (hX0 : d = 0 → X = 0)
    (hX1 : d ≠ 0 → 1 ≤ X) (ht0 : 0 ≤ t) (hin : X ≤ t ∧ t < X + r) :
    stickyFirst (patTypeOf n t) (reducedAfter n X r d t) = reducedAfter n X r d (t + 1) := by
  have hnew : reducedAfter n X r d (t + 1) =
      if d = 0 then PATTYPE_FIRST else patTypeOf n t := by
    unfold reducedAfter
    rw [if_neg (show ¬ (t + 1 ≤ X) by omega)]
    have e : min (t + 1) (X + r) - 1 = t := by omega
    rw [e]
  rw [hnew]
  by_cases hd : d = 0
  · have hx := hX0 hd
    rw [if_pos hd]
    by_cases ht : t = 0
    · subst ht
      unfold stickyFirst patTypeOf
      simp
    · have : reducedAfter n X r d t = PATTYPE_FIRST := by
        unfold reducedAfter
        rw [if_neg (show ¬ (t ≤ X) by omega), if_pos hd]
      rw [this]
      rfl
  · have hx := hX1 hd
    rw [if_neg hd]
    have : reducedAfter n X r d t ≠ PATTYPE_FIRST := by
      unfold reducedAfter
      by_cases ht : t ≤ X
      · rw [if_pos ht]; simp
      · rw [if_neg ht, if_neg hd]
        exact patTypeOf_ne_first _ _ (by omega)
    unfold stickyFirst
    rw [if_neg this]

theorem reducedAfter_skip (n X r d t : Int) (hr : 1 ≤ r)
    (hin : ¬ (X ≤ t ∧ t < X + r)) :
    reducedAfter n X r d t = reducedAfter n X r d (t + 1) := by
  unfold reducedAfter
  by_cases ht : t < X
  · rw [if_pos (show t ≤ X by omega), if_pos (show t + 1 ≤ X by omega)]
  · rw [if_neg (show ¬ (t ≤ X) by omega), if_neg (show ¬ (t + 1 ≤ X) by omega)]
    have e1 : min (t + 1) (X + r) = X + r := by omega
    have e2 : min t (X + r) = X + r := by omega
    rw [e1, e2]

theorem reducedAfter_final (n X r d : Int) (hX1 : d ≠ 0 → 1 ≤ X) (hr : 1 ≤ r) (hd : X < n) :
    reducedAfter n X r d n =
      if d = 0 then PATTYPE_FIRST
      else if n - 1 < X + r then PATTYPE_LAST
      else PATTYPE_NORMAL := by
  unfold reducedAfter
  rw [if_neg (show ¬ (n ≤ X) by omega)]
  by_cases hd' : d = 0
  · rw [if_pos hd', if_pos hd']
  · have := hX1 hd'
    rw [if_neg hd', if_neg hd']
    unfold patTypeOf
    by_cases hl : n - 1 < X + r
    · rw [if_pos hl, if_neg (show ¬ (min n (X + r) - 1 = 0) by omega),
        if_pos (show min n (X + r) - 1 = n - 1 by omega)]
    · rw [if_neg hl, if_neg (show ¬ (min n (X + r) - 1 = 0) by omega),
        if_neg (show ¬ (min n (X + r) - 1 = n - 1) by omega)]

/-- The reduced cell of step `d` of a live slot after the slot's time-step loop, when
the cell was NONE before and only the resolution entry `j0` maps time steps to it. -/
theorem fillPatTypes_lowRes_cell (ds : DataSet) (i : Int) (seq : sequence_t)
    (fr : DataSetFraction) (j0 d : Int)
    (hi0 : 0 ≤ i) (hi : i < ds.m_parallelSequences)
    (h0 : 0 ≤ j0) (h1 : j0 < (fr.m_resolutionBuffer.length : Int))
    (hr : 1 ≤ (readAt fr.m_resolutionBuffer j0).resolution)
    (hd0 : 0 ≤ d) (hd : d * (readAt fr.m_resolutionBuffer j0).resolution < seq.length)
    (hothers : ∀ t, 0 ≤ t → t < seq.length →
      ∀ j, 0 ≤ j → j < (fr.m_resolutionBuffer.length : Int) → j ≠ j0 →
        resolutionDataPos ds i t (readAt fr.m_resolutionBuffer j) ≠
          d * ds.m_parallelSequences + i + (readAt fr.m_resolutionBuffer j0).bufferPos)
    (hinit : cellAt fr.m_patTypesLowTimeRes
      (d * ds.m_parallelSequences + i + (readAt fr.m_resolutionBuffer j0).bufferPos) =
        some PATTYPE_NONE) :
    cellAt (fillPatTypes ds i seq fr).m_patTypesLowTimeRes
        (d * ds.m_parallelSequences + i + (readAt fr.m_resolutionBuffer j0).bufferPos) =
      some (if d = 0 then PATTYPE_FIRST
            else if seq.length - 1 < (d + 1) * (readAt fr.m_resolutionBuffer j0).resolution
              then PATTYPE_LAST
            else PATTYPE_NORMAL) := by
  generalize hp : d * ds.m_parallelSequences + i + (readAt fr.m_resolutionBuffer j0).bufferPos
    = p at hothers hinit ⊢
  generalize hre : (readAt fr.m_resolutionBuffer j0).resolution = r at hr hd ⊢
  generalize hX : d * r = X at hd
  have hY : (d + 1) * r = X + r := by rw [add_mul, one_mul, hX]
  rw [hY]
  have hX0 : d = 0 → X = 0 := by
    intro h; rw [← hX, h, zero_mul]
  have hX1 : d ≠ 0 → 1 ≤ X := by
    intro h
    have : 1 * r ≤ d * r := Int.mul_le_mul_of_nonneg_right (by omega) (by omega)
    omega
  have hwin : ∀ t, 0 ≤ t → (Int.tdiv t r = d ↔ X ≤ t ∧ t < X + r) := by
    intro t ht
    rw [tdiv_eq_iff t r d ht hr, hX, hY]
  unfold fillPatTypes
  have hinv := forLoop_inv seq.length (patTypeStep ds i seq)
    (fun T st => st.m_resolutionBuffer = fr.m_resolutionBuffer ∧
      cellAt st.m_patTypesLowTimeRes p = some (reducedAfter seq.length X r d T)) fr
    ⟨rfl, by
      rw [hinit]
      unfold reducedAfter
      rw [if_pos (show (0 : Int) ≤ X by omega)]⟩
    (fun t st ht0 ht hI => by
      obtain ⟨hRB, hcell⟩ := hI
      refine ⟨(patTypeStep_resolutionBuffer ds i seq t st).trans hRB, ?_⟩
      obtain ⟨fr1, e1, e2, e3⟩ := patTypeStep_lowRes ds i seq t st
      rw [e3]
      by_cases hin : X ≤ t ∧ t < X + r
      · -- the time step contributes to the cell
        have hpos : resolutionDataPos ds i t (readAt fr1.m_resolutionBuffer j0) = p := by
          rw [e2, hRB]
          unfold resolutionDataPos
          simp only []
          rw [hre, (hwin t ht0).mpr hin, hp]
        rw [fillResolution_lowRes_cell ds i t _ fr1 p j0 h0 (by rw [e2, hRB]; exact h1) hpos
          (by
            intro j hj0 hj hne
            rw [e2, hRB] at hj ⊢
            exact hothers t ht0 ht j hj0 hj hne), e1, hcell]
        simp only [Option.map_some', Option.some.injEq]
        exact reducedAfter_contribute seq.length X r d t hX0 hX1 ht0 hin
      · -- the time step belongs to another window
        rw [fillResolution_lowRes_frame ds i t _ fr1 p (by
          intro j hj0 hj
          rw [e2, hRB] at hj ⊢
          by_cases hj' : j = j0
          · subst hj'
            unfold resolutionDataPos
            simp only []
            rw [hre, ← hp]
            intro e
            have e' : Int.tdiv t r * ds.m_parallelSequences + i =
                d * ds.m_parallelSequences + i := by omega
            exact hin ((hwin t ht0).mp (cell_index_unique hi0 hi hi0 hi e').1)
          · exact hothers t ht0 ht j hj0 hj hj'), e1, hcell]
        rw [reducedAfter_skip seq.length X r d t hr hin])
  have hfin := hinv.2
  rw [show max seq.length 0 = seq.length by omega] at hfin
  rw [hfin, reducedAfter_final seq.length X r d hX1 hr hd]

/-- The loop that prepares the resolution buffer appends one entry per configured
resolution, and the regions of the entries are consecutive. -/
theorem prepareResolutions_regions (ext : Externals) :
    ∀ (rb : List Int) (st : DataSetFraction × Int),
      ∃ L, (rb.foldl
          (fun (st : DataSetFraction × Int) r =>
            ({ st.1 with
                m_resolutionBuffer := st.1.m_resolutionBuffer ++
                  [{ resolution := r, bufferPos := st.2,
                     length := ext.getResoLength (st.1.m_patTypes.length : Int) r }] },
              st.2 + ext.getResoLength (st.1.m_patTypes.length : Int) r)) st).1.m_resolutionBuffer
            = st.1.m_resolutionBuffer ++ L ∧
        ConsecutiveRegions L st.2
          (rb.foldl
            (fun (st : DataSetFraction × Int) r =>
              ({ st.1 with
                  m_resolutionBuffer := st.1.m_resolutionBuffer ++
                    [{ resolution := r, bufferPos := st.2,
                       length := ext.getResoLength (st.1.m_patTypes.length : Int) r }] },
                st.2 + ext.getResoLength (st.1.m_patTypes.length : Int) r)) st).2 ∧
        L.map (fun e => e.resolution) = rb := by
  intro rb
  induction rb with
  | nil => intro st; exact ⟨[], by simp, rfl, rfl⟩
  | cons r rest ih =>
    intro st
    obtain ⟨L, h1, h2, h3⟩ := ih
      ({ st.1 with
          m_resolutionBuffer := st.1.m_resolutionBuffer ++
            [{ resolution := r, bufferPos := st.2,
               length := ext.getResoLength (st.1.m_patTypes.length : Int) r }] },
        st.2 + ext.getResoLength (st.1.m_patTypes.length : Int) r)
    refine ⟨{ resolution := r, bufferPos := st.2,
              length := ext.getResoLength (st.1.m_patTypes.length : Int) r } :: L, ?_, ?_, ?_⟩
    · rw [List.foldl_cons, h1]
      simp
    · rw [List.foldl_cons]
      exact ⟨rfl, h2⟩
    · simp [h3]

theorem ConsecutiveRegions.sep :
    ∀ (L : List reso_info) (lo hi : Int), ConsecutiveRegions L lo hi →
      (∀ e ∈ L, 0 ≤ e.length) →
      lo ≤ hi ∧
      ∀ (j : Nat) (e : reso_info), L[j]? = some e →
        lo ≤ e.bufferPos ∧ e.bufferPos + e.length ≤ hi ∧
        ∀ (j' : Nat) (e' : reso_info), j < j' → L[j']? = some e' →
          e.bufferPos + e.length ≤ e'.bufferPos := by
  intro L
  induction L with
  | nil =>
    intro lo hi h _
    exact ⟨le_of_eq h, by simp⟩
  | cons a rest ih =>
    intro lo hi h hnn
    obtain ⟨ha, hrest⟩ := h
    have ha0 := hnn a (List.mem_cons_self _ _)
    obtain ⟨hle, hall⟩ := ih (lo + a.length) hi hrest
      (fun e he => hnn e (List.mem_cons_of_mem _ he))
    refine ⟨by omega, ?_⟩
    intro j e hj
    cases j with
    | zero =>
      simp only [List.getElem?_cons_zero, Option.some.injEq] at hj
      subst hj
      refine ⟨by omega, by omega, ?_⟩
      intro j' e' hlt hj'
      cases j' with
      | zero => omega
      | succ j' =>
        simp only [List.getElem?_cons_succ] at hj'
        have := (hall j' e' hj').1
        omega
    | succ j =>
      simp only [List.getElem?_cons_succ] at hj
      obtain ⟨h1, h2, h3⟩ := hall j e hj
      refine ⟨by omega, h2, ?_⟩
      intro j' e' hlt hj'
      cases j' with
      | zero => omega
      | succ j' =>
        simp only [List.getElem?_cons_succ] at hj'
        exact h3 j' e' (by omega) hj'

/-- The reduced position of a time step below `M` of a slot lies in the first
`(floor((M-1)/r) + 1) * par` cells of the region. -/
theorem reduced_offset_bounds (par M r t i : Int) (hr : 1 ≤ r) (ht0 : 0 ≤ t) (ht : t < M)
    (hi0 : 0 ≤ i) (hi : i < par) :
    0 ≤ Int.tdiv t r * par + i ∧ Int.tdiv t r * par + i < ((M - 1) / r + 1) * par := by
  rw [Int.tdiv_eq_ediv ht0 (by omega)]
  have h1 : 0 ≤ t / r := Int.ediv_nonneg ht0 (by omega)
  have h2 : t / r ≤ (M - 1) / r := Int.ediv_le_ediv (by omega) (by omega)
  exact slice_offset_lt h1 (by omega) hi0 hi

theorem cellAt_eq_getElem? {α : Type} (v : List α) (p : Int) (h : 0 ≤ p) :
    cellAt v p = v[p.toNat]? := by
  unfold cellAt
  rw [if_pos h]

theorem cellAt_readAt {α : Type} [Inhabited α] (v : List α) (p : Int) (h0 : 0 ≤ p)
    (h1 : p < v.length) : cellAt v p = some (readAt v p) := by
  obtain ⟨x, hx⟩ := cellAt_lt_length v p h0 h1
  rw [readAt_of_cellAt v p x hx, hx]

theorem slotBody_lowRes (ds : DataSet) (ext : Externals) (cfg : Configuration)
    (first i : Int) (st : DataSetFraction × NoiseGen)
    (hlive : ¬ first + i ≥ (ds.m_sequences.length : Int)) :
    ∃ fr : DataSetFraction,
      fr.m_patTypesLowTimeRes = st.1.m_patTypesLowTimeRes ∧
      fr.m_resolutionBuffer = st.1.m_resolutionBuffer ∧
      (slotBody ds ext cfg first i st).1.m_patTypesLowTimeRes =
        (fillPatTypes ds i (readAt ds.m_sequences (first + i)) fr).m_patTypesLowTimeRes := by
  obtain ⟨fr, _, e2, e3, e4⟩ := slotBody_patTypes ds ext cfg first i st hlive
  exact ⟨fr, e2, e3, by rw [e4]⟩

/-- The reduced cell of step `d` of resolution entry `j0` for the live slot `i` after
the slot loop, when the other slots and the other entries write elsewhere. -/
theorem slotLoop_lowRes_cell (ds : DataSet) (ext : Externals) (cfg : Configuration)
    (first : Int) (fr0 : DataSetFraction) (gen : NoiseGen) (i j0 d : Int)
    (hi : Live ds first i)
    (h0 : 0 ≤ j0) (h1 : j0 < (fr0.m_resolutionBuffer.length : Int))
    (hr : 1 ≤ (readAt fr0.m_resolutionBuffer j0).resolution)
    (hd0 : 0 ≤ d)
    (hd : d * (readAt fr0.m_resolutionBuffer j0).resolution <
      (readAt ds.m_sequences (first + i)).length)
    (hsep : ∀ i', Live ds first i' → ∀ t, 0 ≤ t →
      t < (readAt ds.m_sequences (first + i')).length →
      ∀ j, 0 ≤ j → j < (fr0.m_resolutionBuffer.length : Int) → (j ≠ j0 ∨ i' ≠ i) →
        resolutionDataPos ds i' t (readAt fr0.m_resolutionBuffer j) ≠
          d * ds.m_parallelSequences + i + (readAt fr0.m_resolutionBuffer j0).bufferPos)
    (hinit : cellAt fr0.m_patTypesLowTimeRes
      (d * ds.m_parallelSequences + i + (readAt fr0.m_resolutionBuffer j0).bufferPos) =
        some PATTYPE_NONE) :
    cellAt (forLoop ds.m_parallelSequences (slotBody ds ext cfg first)
        (fr0, gen)).1.m_patTypesLowTimeRes
        (d * ds.m_parallelSequences + i + (readAt fr0.m_resolutionBuffer j0).bufferPos) =
      some (if d = 0 then PATTYPE_FIRST
            else if (readAt ds.m_sequences (first + i)).length - 1 <
                (d + 1) * (readAt fr0.m_resolutionBuffer j0).resolution then PATTYPE_LAST
            else PATTYPE_NORMAL) := by
  obtain ⟨hi0, hi1, hi2⟩ := hi
  have hinv := forLoop_inv ds.m_parallelSequences (slotBody ds ext cfg first)
    (fun j st => st.1.m_resolutionBuffer = fr0.m_resolutionBuffer ∧
      cellAt st.1.m_patTypesLowTimeRes
          (d * ds.m_parallelSequences + i + (readAt fr0.m_resolutionBuffer j0).bufferPos) =
        some (if i < j then
            (if d = 0 then PATTYPE_FIRST
             else if (readAt ds.m_sequences (first + i)).length - 1 <
                 (d + 1) * (readAt fr0.m_resolutionBuffer j0).resolution then PATTYPE_LAST
             else PATTYPE_NORMAL)
          else PATTYPE_NONE)) (fr0, gen)
    ⟨rfl, by rw [hinit, if_neg (show ¬ (i < 0) by omega)]⟩
    (fun j st hj0 hj hI => by
      obtain ⟨hRB, hcell⟩ := hI
      refine ⟨(slotBody_keeps ds ext cfg first j st).2.1.trans hRB, ?_⟩
      by_cases hdead : first + j ≥ (ds.m_sequences.length : Int)
      · rw [slotBody_dead ds ext cfg first j st hdead, hcell]
        have hne : j ≠ i := by
          intro e; subst e; omega
        by_cases c : i < j
        · rw [if_pos c, if_pos (show i < j + 1 by omega)]
        · rw [if_neg c, if_neg (show ¬ (i < j + 1) by omega)]
      · obtain ⟨fr, e1, e2, e3⟩ := slotBody_lowRes ds ext cfg first j st hdead
        rw [e3]
        by_cases hji : j = i
        · subst hji
          have := fillPatTypes_lowRes_cell ds j (readAt ds.m_sequences (first + j)) fr j0 d
            hj0 hj h0 (by rw [e2, hRB]; exact h1) (by rw [e2, hRB]; exact hr) hd0
            (by rw [e2, hRB]; exact hd)
            (by
              intro t ht0 ht j' hj0' hj' hne
              rw [e2, hRB] at hj' ⊢
              exact hsep j ⟨hj0, hj, by omega⟩ t ht0 ht j' hj0' hj' (Or.inl hne))
            (by
              rw [e2, hRB, e1, hcell, if_neg (show ¬ (j < j) by omega)])
          rw [e2, hRB] at this
          rw [this, if_pos (show j < j + 1 by omega)]
        · rw [fillPatTypes_lowRes_frame ds j _ fr _ (by
            intro t ht0 ht j' hj0' hj'
            rw [e2, hRB] at hj' ⊢
            exact hsep j ⟨hj0, hj, by omega⟩ t ht0 ht j' hj0' hj' (Or.inr hji)), e1, hcell]
          by_cases c : i < j
          · rw [if_pos c, if_pos (show i < j + 1 by omega)]
          · rw [if_neg c, if_neg (show ¬ (i < j + 1) by omega)])
  have hfin := hinv.2
  rw [hfin, if_pos (show i < max ds.m_parallelSequences 0 by omega)]

/-- C10: multi-resolution sticky FIRST.  In a built fraction whose resolution entries
all have a resolution `r ≥ 1` and a region of at least
`(floor((maxSeqLength - 1) / r) + 1) * par` cells: the entries are the configured
resolutions, in order; for the entry number `j` (resolution `r`), every live slot `i` of
length `n` and every reduced step `d ≥ 0` with `d * r < n`, the reduced cell at
`bufferPos + d * par + i` is FIRST when `d = 0` and otherwise the type of the last
contributing time step: LAST if `n - 1 < (d + 1) * r`, else NORMAL.  Moreover no
contribution changes a reduced cell that is already FIRST. -/
theorem sticky_first_resolution (ds : DataSet) (ext : Externals) (cfg : Configuration)
    (gen : NoiseGen) (first : Int) (res : DataSetFraction × NoiseGen) (j i d : Int)
    (hbuilt : _makeFractionTask ds ext cfg gen first = some res)
    (hreso : ∀ e ∈ res.1.m_resolutionBuffer, 1 ≤ e.resolution ∧
      ((res.1.m_maxSeqLength - 1) / e.resolution + 1) * ds.m_parallelSequences ≤ e.length)
    (hj0 : 0 ≤ j) (hj : j < (res.1.m_resolutionBuffer.length : Int))
    (hi : Live ds first i) (hd0 : 0 ≤ d)
    (hd : d * (readAt res.1.m_resolutionBuffer j).resolution <
      (readAt ds.m_sequences (first + i)).length) :
    res.1.m_resolutionBuffer.map (fun e => e.resolution) = resolutionBufOf ext cfg ∧
      cellAt res.1.m_patTypesLowTimeRes
          ((readAt res.1.m_resolutionBuffer j).bufferPos + d * ds.m_parallelSequences + i) =
        some (if d = 0 then PATTYPE_FIRST
              else if (readAt ds.m_sequences (first + i)).length - 1 <
                  (d + 1) * (readAt res.1.m_resolutionBuffer j).resolution then PATTYPE_LAST
              else PATTYPE_NORMAL) ∧
      (∀ (fr : DataSetFraction) (i' t : Int) (pt : PatType) (p : Int),
        cellAt fr.m_patTypesLowTimeRes p = some PATTYPE_FIRST →
        cellAt (fillResolution ds i' t pt fr).m_patTypesLowTimeRes p =
          some PATTYPE_FIRST) := by
  obtain ⟨fr0, hal, rfl⟩ := makeFractionTask_some ds ext cfg gen first res hbuilt
  obtain ⟨_, k2, k3, _⟩ := slotLoop_keeps ds ext cfg first fr0 gen
  rw [k2] at hreso hj hd ⊢
  rw [k3] at hreso
  obtain ⟨fr2, _, hrb2, htot, hRB, hlow⟩ := hal.resolutions
  obtain ⟨L, hL1, hL2, hL3⟩ := prepareResolutions_regions ext (resolutionBufOf ext cfg) (fr2, 0)
  have hRBL : fr0.m_resolutionBuffer = L := by
    rw [hRB]
    unfold prepareResolutions
    rw [hL1, hrb2, List.nil_append]
  generalize htotal : (prepareResolutions ext (resolutionBufOf ext cfg) fr2).2 = total
    at htot hlow
  have hL2' : ConsecutiveRegions L 0 total := by
    rw [← htotal]
    exact hL2
  rw [hRBL] at hreso hj hd ⊢
  obtain ⟨hi0, hi1, hi2⟩ := hi
  -- the window is not empty and the parallelism is positive
  have hle := (hal.live_le i ⟨hi0, hi1, hi2⟩).1
  have hej := cellAt_readAt L j hj0 hj
  have hmem : readAt L j ∈ L := readAt_mem L j hj0 hj
  obtain ⟨hr, hlen⟩ := hreso _ hmem
  have hdr : 0 ≤ d * (readAt L j).resolution := Int.mul_nonneg hd0 (by omega)
  have hM : 1 ≤ fr0.m_maxSeqLength := by omega
  have hnn : ∀ e ∈ L, 0 ≤ e.length := by
    intro e he
    obtain ⟨h1, h2⟩ := hreso e he
    have h3 : 0 ≤ (fr0.m_maxSeqLength - 1) / e.resolution :=
      Int.ediv_nonneg (by omega) (by omega)
    have h4 : 0 ≤ ((fr0.m_maxSeqLength - 1) / e.resolution + 1) * ds.m_parallelSequences :=
      Int.mul_nonneg (by omega) (by omega)
    omega
  obtain ⟨_, hsepL⟩ := ConsecutiveRegions.sep L 0 total hL2' hnn
  rw [cellAt_eq_getElem? L j hj0] at hej
  obtain ⟨hb0, hbhi, hafter⟩ := hsepL j.toNat _ hej
  -- the offset of the cell inside its region
  have hdle : d ≤ (fr0.m_maxSeqLength - 1) / (readAt L j).resolution :=
    (Int.le_ediv_iff_mul_le (by omega)).mpr (by omega)
  have hoff := slice_offset_lt (C := (fr0.m_maxSeqLength - 1) / (readAt L j).resolution + 1)
    (P := ds.m_parallelSequences) hd0 (by omega) hi0 hi1
  have epos : (readAt L j).bufferPos + d * ds.m_parallelSequences + i =
      d * ds.m_parallelSequences + i + (readAt L j).bufferPos := by ring
  refine ⟨hL3, ?_, fun fr i' t pt p h => fillResolution_keeps_first ds i' t pt fr p h⟩
  rw [epos]
  have hcell := slotLoop_lowRes_cell ds ext cfg first fr0 gen i j d ⟨hi0, hi1, hi2⟩ hj0
    (by rw [hRBL]; exact hj) (by rw [hRBL]; exact hr) hd0 (by rw [hRBL]; exact hd)
    (by
      rw [hRBL]
      intro i' hi' t ht0 ht j' hj0' hj' hne
      have hle' := (hal.live_le i' hi').1
      have hej' := cellAt_readAt L j' hj0' hj'
      have hmem' : readAt L j' ∈ L := readAt_mem L j' hj0' hj'
      obtain ⟨hr', hlen'⟩ := hreso _ hmem'
      rw [cellAt_eq_getElem? L j' hj0'] at hej'
      obtain ⟨hb0', hbhi', hafter'⟩ := hsepL j'.toNat _ hej'
      have hoff' := reduced_offset_bounds ds.m_parallelSequences fr0.m_maxSeqLength
        (readAt L j').resolution t i' hr' ht0 (by omega) hi'.1 hi'.2.1
      unfold resolutionDataPos
      simp only []
      by_cases hjj : j' = j
      · subst hjj
        rcases hne with h | h
        · exact absurd rfl h
        · intro e
          have e' : Int.tdiv t (readAt L j').resolution * ds.m_parallelSequences + i' =
              d * ds.m_parallelSequences + i := by omega
          exact h (cell_index_unique hi'.1 hi'.2.1 hi0 hi1 e').2
      · rcases lt_or_gt_of_ne hjj with hlt | hgt
        · have := hafter' j.toNat _ (by omega) hej
          omega
        · have := hafter j'.toNat _ (by omega) hej'
          omega)
    (by
      rw [hRBL, hlow]
      exact cellAt_replicate _ _ _ (by omega) (by omega))
  rw [hRBL] at hcell
  exact hcell

theorem sticky_first_resolution_witness :
    ∃ res, _makeFractionTask sampleDataSet sampleExternals sampleConfiguration {} 1 =
        some res ∧
      (∀ e ∈ res.1.m_resolutionBuffer, 1 ≤ e.resolution ∧
        ((res.1.m_maxSeqLength - 1) / e.resolution + 1) * sampleDataSet.m_parallelSequences ≤
          e.length) ∧
      (1 : Int) * (readAt res.1.m_resolutionBuffer 1).resolution <
        (readAt sampleDataSet.m_sequences (1 + 0)).length ∧
      res.1.m_resolutionBuffer.map (fun e => e.resolution) = [1, 2] ∧
      cellAt res.1.m_patTypesLowTimeRes
          ((readAt res.1.m_resolutionBuffer 1).bufferPos + 1 * 2 + 0) = some PATTYPE_LAST ∧
      cellAt res.1.m_patTypesLowTimeRes
          ((readAt res.1.m_resolutionBuffer 1).bufferPos + 0 * 2 + 0) = some PATTYPE_FIRST :=
  ⟨_, rfl, by decide, by decide,
    (sticky_first_resolution sampleDataSet sampleExternals sampleConfiguration {} 1 _ 1 0 1
      rfl (by decide) (by decide) (by decide) ⟨by decide, by decide, by decide⟩ (by decide)
      (by decide)).1,
    (sticky_first_resolution sampleDataSet sampleExternals sampleConfiguration {} 1 _ 1 0 1
      rfl (by decide) (by decide) (by decide) ⟨by decide, by decide, by decide⟩ (by decide)
      (by decide)).2.1,
    (sticky_first_resolution sampleDataSet sampleExternals sampleConfiguration {} 1 _ 1 0 0
      rfl (by decide) (by decide) (by decide) ⟨by decide, by decide, by decide⟩ (by decide)
      (by decide)).2.1⟩

/-! ## Shuffles and the sort are permutations -/

theorem cons_set_perm {α : Type} (x d : α) :
    ∀ (t : List α) (j : Nat), j < t.length → (t.getD j d :: t.set j x).Perm (x :: t)
  | [], j, h => by simp at h
  | y :: t, 0, _ => by
    simpa using List.Perm.swap x y t
  | y :: t, j + 1, h => by
    have ih := cons_set_perm x d t j (by simpa using h)
    simp only [List.getD_cons_succ, List.set_cons_succ]
    exact (List.Perm.swap _ _ _).trans ((ih.cons y).trans (List.Perm.swap _ _ _))

theorem set_set_perm {α : Type} (d : α) :
    ∀ (l : List α) (i j : Nat), i < j → j < l.length →
      ((l.set i (l.getD j d)).set j (l.getD i d)).Perm l
  | [], _, _, _, h => by simp at h
  | x :: t, 0, 0, h, _ => by omega
  | x :: t, 0, j + 1, _, h => by
    simpa using cons_set_perm x d t j (by simpa using h)
  | x :: t, i + 1, 0, h, _ => by omega
  | x :: t, i + 1, j + 1, hij, h => by
    have ih := set_set_perm d t i j (by omega) (by simpa using h)
    simpa using ih.cons x

theorem iter_swap_perm {α : Type} [Inhabited α] (v : List α) (i j : Nat) (hij : i ≠ j)
    (hi : i < v.length) (hj : j < v.length) : (iter_swap v i j).Perm v := by
  unfold iter_swap
  rcases Nat.lt_or_gt_of_ne hij with h | h
  · exact set_set_perm default v i j h hj
  · rw [List.set_comm _ _ _ hij]
    exact set_set_perm default v j i h hi

theorem shuffleStep_perm {α : Type} [Inhabited α] (st : List α × RandGen) (i : Nat)
    (hi : i < st.1.length) : (shuffleStep st i).1.Perm st.1 := by
  unfold shuffleStep
  simp only
  split_ifs with h
  · refine iter_swap_perm _ _ _ h hi ?_
    have : (rand_gen st.2 (i + 1)).1 < i + 1 := Nat.mod_lt _ (Nat.succ_pos i)
    omega
  · exact List.Perm.refl _

theorem foldl_shuffleStep_perm {α : Type} [Inhabited α] (v : List α) :
    ∀ (idx : List Nat) (st : List α × RandGen), (∀ i ∈ idx, i < v.length) → st.1.Perm v →
      (idx.foldl shuffleStep st).1.Perm v
  | [], st, _, h => h
  | i :: idx, st, hidx, h => by
    rw [List.foldl_cons]
    refine foldl_shuffleStep_perm v idx _ (fun k hk => hidx k (List.mem_cons_of_mem _ hk)) ?_
    have hi : i < st.1.length := by
      rw [h.length_eq]
      exact hidx i (List.mem_cons_self _ _)
    exact (shuffleStep_perm st i hi).trans h

/-- The result of `std::random_shuffle` is a permutation of its argument. -/
theorem random_shuffle_perm {α : Type} [Inhabited α] (v : List α) (rg : RandGen) :
    (random_shuffle v rg).1.Perm v := by
  unfold random_shuffle
  refine foldl_shuffleStep_perm v _ _ ?_ (List.Perm.refl _)
  intro i hi
  simp only [List.mem_map, List.mem_range] at hi
  obtain ⟨k, hk, rfl⟩ := hi
  omega

theorem foldl_push_back {α : Type} (f acc : List α) :
    f.foldl (fun a s => a ++ [s]) acc = acc ++ f := by
  induction f generalizing acc with
  | nil => simp
  | cons x f ih => simp [List.foldl_cons, ih]

theorem flattenFractions_eq (fractions : List (List sequence_t)) :
    flattenFractions fractions = fractions.flatten := by
  unfold flattenFractions
  have key : ∀ (fr : List (List sequence_t)) (acc : List sequence_t),
      fr.foldl (fun acc f => f.foldl (fun a s => a ++ [s]) acc) acc = acc ++ fr.flatten := by
    intro fr
    induction fr with
    | nil => intro acc; simp
    | cons f fr ih =>
      intro acc
      rw [List.foldl_cons, foldl_push_back, ih]
      simp
  simpa using key fractions []

/-! ## The grouping loop of `_shuffleFractions` -/

theorem run_append_of_le (p : Nat) (a : List sequence_t) (x : sequence_t) (k : Nat)
    (h : k * p + p ≤ a.length) : run p (a ++ [x]) k = run p a k := by
  unfold run
  rw [List.drop_append_of_le_length (by omega), List.take_append_of_le_length]
  rw [List.length_drop]
  omega

theorem map_run_append (p : Nat) (a : List sequence_t) (x : sequence_t) (q : Nat)
    (h : q * p ≤ a.length) :
    (List.range q).map (run p (a ++ [x])) = (List.range q).map (run p a) := by
  apply List.map_congr_left
  intro k hk
  rw [List.mem_range] at hk
  apply run_append_of_le
  have : (k + 1) * p ≤ q * p := Nat.mul_le_mul_right p hk
  have e : (k + 1) * p = k * p + p := by ring
  omega

theorem runs_decomp (p : Nat) (hp : 0 < p) (a : List sequence_t) (q r : Nat)
    (hlen : a.length = q * p + r) (hr : r < p) :
    runs p a = (List.range q).map (run p a) ++ (if r = 0 then [] else [a.drop (q * p)]) := by
  unfold runs
  by_cases h0 : r = 0
  · subst h0
    have e : (a.length + p - 1) / p = q := by
      rw [hlen]
      have : q * p + 0 + p - 1 = (p - 1) + p * q := by
        rw [Nat.mul_comm]; omega
      rw [this, Nat.add_mul_div_left _ _ hp, Nat.div_eq_of_lt (by omega)]
      omega
    simp [e]
  · have e : (a.length + p - 1) / p = q + 1 := by
      rw [hlen]
      have : q * p + r + p - 1 = (r - 1) + p * (q + 1) := by
        rw [Nat.mul_comm, Nat.mul_add]; omega
      rw [this, Nat.add_mul_div_left _ _ hp, Nat.div_eq_of_lt (by omega)]
      omega
    rw [e, List.range_succ, List.map_append, if_neg h0]
    congr 1
    simp only [List.map_cons, List.map_nil, run]
    rw [List.take_of_length_le]
    rw [List.length_drop]
    omega

/-- Appending one element to a list opens a new run when the length is a multiple of
`p`, and extends the last run otherwise. -/
theorem runs_concat (p : Nat) (hp : 0 < p) (a : List sequence_t) (x : sequence_t) :
    runs p (a ++ [x]) =
      if a.length % p = 0 then runs p a ++ [[x]]
      else (runs p a).dropLast ++ [(runs p a).getLastD [] ++ [x]] := by
  have hdm := Nat.div_add_mod a.length p
  have hr := Nat.mod_lt a.length hp
  generalize hq : a.length / p = q at hdm
  generalize hrr : a.length % p = r at hdm hr
  have hlen : a.length = q * p + r := by rw [Nat.mul_comm]; omega
  have hqp : q * p ≤ a.length := by omega
  have hdrop : (a ++ [x]).drop (q * p) = a.drop (q * p) ++ [x] :=
    List.drop_append_of_le_length hqp
  rw [runs_decomp p hp a q r hlen hr]
  by_cases h0 : r = 0
  · subst h0
    simp only [if_true, List.append_nil]
    have hdropx : a.drop (q * p) = [] := List.drop_eq_nil_of_le (by omega)
    by_cases h1 : p = 1
    · rw [runs_decomp p hp (a ++ [x]) (q + 1) 0 (by simp [hlen]; subst h1; ring) hp]
      simp only [if_true, List.append_nil]
      rw [List.range_succ, List.map_append, map_run_append p a x q hqp]
      simp only [List.map_cons, List.map_nil, run, hdrop, hdropx]
      subst h1
      simp
    · rw [runs_decomp p hp (a ++ [x]) q 1 (by simp [hlen]) (by omega)]
      rw [map_run_append p a x q hqp, if_neg (by omega), hdrop, hdropx]
      simp
  · rw [if_neg h0, if_neg h0]
    simp only [List.dropLast_concat, List.getLastD_concat]
    by_cases h1 : r + 1 = p
    · rw [runs_decomp p hp (a ++ [x]) (q + 1) 0
        (by simp only [List.length_append, List.length_singleton, hlen]; rw [← h1]; ring) hp]
      simp only [if_true, List.append_nil]
      rw [List.range_succ, List.map_append, map_run_append p a x q hqp]
      simp only [List.map_cons, List.map_nil, run, hdrop]
      rw [List.take_of_length_le]
      simp only [List.length_append, List.length_drop, List.length_singleton]
      omega
    · rw [runs_decomp p hp (a ++ [x]) q (r + 1)
        (by simp only [List.length_append, List.length_singleton, hlen]; ring) (by omega)]
      rw [map_run_append p a x q hqp, if_neg (by omega), hdrop]

theorem runs_nil (p : Nat) : runs p [] = [] := by
  unfold runs
  rcases Nat.eq_zero_or_pos p with h | h
  · subst h; simp
  · rw [show ([] : List sequence_t).length + p - 1 = p - 1 by simp, Nat.div_eq_of_lt (by omega)]
    rfl

/-- The grouping loop of `_shuffleFractions` builds the contiguous runs of the index. -/
theorem groupFractions_eq (ds : DataSet) (hp : 1 ≤ ds.m_parallelSequences) :
    groupFractions ds = runs ds.m_parallelSequences.toNat ds.m_sequences := by
  unfold groupFractions
  have hP : 0 < ds.m_parallelSequences.toNat := by omega
  have hcast : (ds.m_parallelSequences.toNat : Int) = ds.m_parallelSequences := by omega
  have key := forLoop_inv (ds.m_sequences.length : Int) (groupStep ds)
    (fun j st => st = runs ds.m_parallelSequences.toNat (ds.m_sequences.take j.toNat)) []
    (by simp [runs_nil])
    (fun j st h0 h1 hI => by
      obtain ⟨m, rfl⟩ := Int.eq_ofNat_of_zero_le h0
      have hm : m < ds.m_sequences.length := by omega
      have e1 : ((m : Int) + 1).toNat = m + 1 := by omega
      have e2 : ((m : Int)).toNat = m := by omega
      rw [e1]
      rw [e2] at hI
      rw [List.take_succ, List.getElem?_eq_getElem hm]
      simp only [Option.toList_some]
      rw [runs_concat _ hP, List.length_take, Nat.min_eq_left (le_of_lt hm)]
      have hx : readAt ds.m_sequences (m : Int) = ds.m_sequences[m] := by
        unfold readAt
        rw [if_pos h0, e2, List.getD_eq_getElem _ _ hm]
      have hmod : ((m : Int) % ds.m_parallelSequences = 0) ↔
          m % ds.m_parallelSequences.toNat = 0 := by
        rw [← hcast]
        norm_cast
      unfold groupStep
      simp only [hx, hI]
      by_cases c : m % ds.m_parallelSequences.toNat = 0
      · rw [if_pos (hmod.mpr c), if_pos c]
        simp
      · rw [if_neg (fun h => c (hmod.mp h)), if_neg c])
  simp only at key
  rw [key]
  congr 1
  have : (max (ds.m_sequences.length : Int) 0).toNat = ds.m_sequences.length := by omega
  rw [this, List.take_length]

theorem flatten_extend_last {α : Type} (L : List (List α)) (x : α) :
    (L.dropLast ++ [L.getLastD [] ++ [x]]).flatten = L.flatten ++ [x] := by
  rcases List.eq_nil_or_concat L with h | ⟨L0, b, h⟩
  · subst h; simp
  · subst h
    simp

/-- The runs of a list, one after the other, give the list back. -/
theorem flatten_runs (p : Nat) (hp : 0 < p) (l : List sequence_t) :
    (runs p l).flatten = l := by
  induction l using List.reverseRecOn with
  | nil => simp [runs_nil]
  | append_singleton a x ih =>
    rw [runs_concat p hp]
    split_ifs
    · simp [ih]
    · rw [flatten_extend_last, ih]

theorem shuffleFractions_sequences (ds : DataSet) (rg : RandGen) :
    (_shuffleFractions ds rg).1.m_sequences =
      (random_shuffle (groupFractions ds) rg).1.flatten := by
  unfold _shuffleFractions
  exact flattenFractions_eq _

theorem sort_perm {α : Type} (comp : α → α → Bool) (v : List α) : (sort comp v).Perm v :=
  List.perm_insertionSort _ v

/-- The regrouped and concatenated index is a permutation of the index. -/
theorem shuffleFractions_perm (ds : DataSet) (rg : RandGen)
    (hp : 1 ≤ ds.m_parallelSequences) :
    (_shuffleFractions ds rg).1.m_sequences.Perm ds.m_sequences := by
  rw [shuffleFractions_sequences]
  have h := (random_shuffle_perm (groupFractions ds) rg).flatten
  have e : (groupFractions ds).flatten = ds.m_sequences := by
    rw [groupFractions_eq ds hp, flatten_runs _ (by omega)]
  rw [e] at h
  exact h

/-! ## Claims about the reordering operations -/

/-- C14: `_shuffleFractions` with parallelism `p ≥ 1` leaves the index as the
concatenation, in some permuted order, of the contiguous runs of the original index (run
`k` holds the original elements `k * p .. min ((k + 1) * p, n) - 1`); every run appears
intact, so the relative order inside a run is unchanged. -/
theorem shuffle_fractions_permutes_runs (ds : DataSet) (rg : RandGen)
    (hp : 1 ≤ ds.m_parallelSequences) :
    ∃ order : List (List sequence_t),
      order.Perm (runs ds.m_parallelSequences.toNat ds.m_sequences) ∧
      (_shuffleFractions ds rg).1.m_sequences = order.flatten := by
  refine ⟨(random_shuffle (groupFractions ds) rg).1, ?_, shuffleFractions_sequences ds rg⟩
  rw [← groupFractions_eq ds hp]
  exact random_shuffle_perm _ rg

/-- C16: each reordering of the index (`_shuffleSequences`, `_shuffleFractions` with
parallelism at least 1, and the sort by length at the end of the constructor) yields a
permutation of the list of descriptors it started from; the descriptors themselves are
moved, never modified. -/
theorem reorderings_are_permutations (ds : DataSet) (cfg : Configuration) (rg : RandGen)
    (hp : 1 ≤ ds.m_parallelSequences) :
    (_shuffleSequences ds rg).1.m_sequences.Perm ds.m_sequences ∧
      (_shuffleFractions ds rg).1.m_sequences.Perm ds.m_sequences ∧
      (finishConstruction cfg ds).m_sequences.Perm ds.m_sequences := by
  refine ⟨random_shuffle_perm _ rg, shuffleFractions_perm ds rg hp, ?_⟩
  · unfold finishConstruction
    simp only
    split_ifs
    · exact sort_perm _ _
    · exact List.Perm.refl _

/-- Instance of C14: the sample index of three descriptors with parallelism 2. -/
theorem shuffle_fractions_permutes_runs_witness :
    1 ≤ sampleDataSet.m_parallelSequences ∧
    ∃ order : List (List sequence_t),
      order.Perm (runs sampleDataSet.m_parallelSequences.toNat sampleDataSet.m_sequences) ∧
      (_shuffleFractions sampleDataSet {}).1.m_sequences = order.flatten :=
  ⟨by decide, shuffle_fractions_permutes_runs sampleDataSet {} (by decide)⟩

/-- Instance of C16 on the sample data set. -/
theorem reorderings_are_permutations_witness :
    1 ≤ sampleDataSet.m_parallelSequences ∧
    (_shuffleSequences sampleDataSet {}).1.m_sequences.Perm sampleDataSet.m_sequences ∧
      (_shuffleFractions sampleDataSet {}).1.m_sequences.Perm sampleDataSet.m_sequences ∧
      (finishConstruction { trainingMode := true } sampleDataSet).m_sequences.Perm
        sampleDataSet.m_sequences :=
  ⟨by decide, reorderings_are_permutations sampleDataSet { trainingMode := true } {}
    (by decide)⟩

/-- C15: the sample index of three descriptors `[a, b, c]` with parallelism 2 has the
runs `[a, b]` and `[c]`.  When the generator makes `std::random_shuffle` exchange the two
runs, `_shuffleFractions` leaves the index `[c, a, b]`: the window of two descriptors at
start index 0 is `[c, a]` and the window at start index 2 is `[b]`, and neither is a run
of the index before the shuffle. -/
theorem shuffle_fractions_batch_straddles_runs :
    (_shuffleFractions sampleDataSet {}).1.m_sequences =
        [readAt sampleDataSet.m_sequences 2, readAt sampleDataSet.m_sequences 0,
         readAt sampleDataSet.m_sequences 1] ∧
      run 2 (_shuffleFractions sampleDataSet {}).1.m_sequences 0 ∉
        runs 2 sampleDataSet.m_sequences ∧
      run 2 (_shuffleFractions sampleDataSet {}).1.m_sequences 1 ∉
        runs 2 sampleDataSet.m_sequences := by
  decide

/-! ## The empty window -/

theorem random_shuffle_nil {α : Type} [Inhabited α] (rg : RandGen) :
    (random_shuffle ([] : List α) rg).1 = [] := by
  have h := (random_shuffle_perm ([] : List α) rg)
  exact List.Perm.eq_nil h

/-- The first-fraction task leaves the data set with a permuted index and every other
member as it was, and builds the fraction at start index 0 on it. -/
theorem makeFirstFractionTask_spec (ds : DataSet) (ext : Externals)
    (cfg : Configuration) (rg : RandGen) (gen : NoiseGen)
    (hp : 1 ≤ ds.m_parallelSequences) :
    ∃ seqs : List sequence_t, seqs.Perm ds.m_sequences ∧
      (_makeFirstFractionTask ds ext cfg rg gen).2.1 = { ds with m_sequences := seqs } ∧
      (_makeFirstFractionTask ds ext cfg rg gen).1 =
        _makeFractionTask { ds with m_sequences := seqs } ext cfg gen 0 := by
  unfold _makeFirstFractionTask
  by_cases h1 : ds.m_sequenceShuffling = true <;> by_cases h2 : ds.m_fractionShuffling = true
  · have e : (_shuffleSequences ds rg).1.m_fractionShuffling = true := h2
    simp only [if_pos h1, if_pos e]
    have hp2 : 1 ≤ (_shuffleSequences ds rg).1.m_parallelSequences := hp
    exact ⟨(_shuffleFractions (_shuffleSequences ds rg).1 (_shuffleSequences ds rg).2).1.m_sequences,
      (shuffleFractions_perm (_shuffleSequences ds rg).1 (_shuffleSequences ds rg).2 hp2).trans
        (random_shuffle_perm ds.m_sequences rg), rfl, rfl⟩
  · have e : ¬ (_shuffleSequences ds rg).1.m_fractionShuffling = true := h2
    simp only [if_pos h1, if_neg e]
    exact ⟨(_shuffleSequences ds rg).1.m_sequences, random_shuffle_perm _ rg, rfl, rfl⟩
  · simp only [if_neg h1, if_pos h2]
    exact ⟨(_shuffleFractions ds rg).1.m_sequences, shuffleFractions_perm ds rg hp, rfl, rfl⟩
  · simp only [if_neg h1, if_neg h2]
    exact ⟨ds.m_sequences, List.Perm.refl _, rfl, rfl⟩

/-! ## The empty window with 32-bit sizes -/

theorem wrapInt_of_fits (x : Int) (h : FitsInt x) : wrapInt x = x := by
  unfold FitsInt INT_MIN INT_MAX at h
  unfold wrapInt
  omega

/-- As long as the two products are `int`s, the allocation with 32-bit sizes is the
allocation with exact sizes. -/
theorem allocMain32_eq_allocMain (ds : DataSet) (frac : DataSetFraction)
    (h1 : FitsInt (frac.m_maxSeqLength * ds.m_parallelSequences * frac.m_inputPatternSize))
    (h2 : FitsInt (frac.m_maxSeqLength * ds.m_parallelSequences)) :
    allocMain32 ds frac = allocMain ds frac := by
  unfold allocMain32 allocMain
  rw [wrapInt_of_fits _ h1, wrapInt_of_fits _ h2]

/-- The sample index of three descriptors, two parallel sequences, start index 3: the
builder returns a fraction, with no sequence info, empty data buffers, the extreme
lengths `INT_MIN` and `INT_MAX`, and the two regions of the two resolutions. -/
theorem makeFractionTask32_sample_even :
    ∃ frac, _makeFractionTask32 sampleDataSet sampleExternals sampleConfiguration {} 3 =
        some (frac, {}) ∧
      frac.m_seqInfo = [] ∧ frac.m_inputs = [] ∧ frac.m_patTypes = [] ∧
      frac.m_outputs = [] ∧ frac.m_patTypesLowTimeRes = [] ∧
      frac.m_maxSeqLength = -2147483648 ∧ frac.m_minSeqLength = 2147483647 ∧
      frac.m_resolutionBuffer =
        [{ resolution := 1, bufferPos := 0, length := 0 },
         { resolution := 2, bufferPos := 0, length := 0 }] :=
  ⟨_, rfl, rfl, rfl, rfl, rfl, rfl, rfl, rfl, rfl⟩

/-- The same index with three parallel sequences: the allocation of the pattern types is
asked for `INT_MIN` elements and the builder returns no fraction. -/
theorem makeFractionTask32_sample_odd :
    _makeFractionTask32 sampleOddDataSet sampleExternals sampleConfiguration {} 3 = none :=
  rfl

/-- Without noise the slot body neither reads nor advances the generator. -/
theorem slotBody_noiseless (ds : DataSet) (ext : Externals) (cfg : Configuration)
    (first i : Int) (st : DataSetFraction × NoiseGen) (gen : NoiseGen)
    (h0 : ds.m_noiseDeviation = 0) :
    slotBody ds ext cfg first i st = ((slotBody ds ext cfg first i (st.1, gen)).1, st.2) := by
  unfold slotBody _addNoise
  simp only [h0, if_true]
  split_ifs <;> rfl

theorem slotLoop_noiseless (ds : DataSet) (ext : Externals) (cfg : Configuration)
    (first : Int) (fr0 : DataSetFraction) (gen gen2 : NoiseGen)
    (h0 : ds.m_noiseDeviation = 0) :
    forLoop ds.m_parallelSequences (slotBody ds ext cfg first) (fr0, gen) =
      ((forLoop ds.m_parallelSequences (slotBody ds ext cfg first) (fr0, gen2)).1, gen) := by
  unfold forLoop
  generalize List.range ds.m_parallelSequences.toNat = idx
  induction idx using List.reverseRecOn with
  | nil => rfl
  | append_singleton idx j ih =>
    rw [List.foldl_append, List.foldl_append]
    simp only [List.foldl_cons, List.foldl_nil]
    rw [ih, slotBody_noiseless ds ext cfg first _ _ gen2 h0]
    congr 1
    rw [slotBody_noiseless ds ext cfg first j (List.foldl _ _ _) gen2 h0]

/-- C18 fails as stated: with a noise deviation configured, two successive runs of the
builder at the same start index, on the same index, cache and configuration, return
different fractions, and the first run advances the generator of `_addNoise`. -/
theorem builder_consumes_randomness :
    ∃ r1 r2 : DataSetFraction × NoiseGen,
      _makeFractionTask noisyDataSet sampleExternals sampleConfiguration sampleNoiseGen 0
        = some r1 ∧
      _makeFractionTask noisyDataSet sampleExternals sampleConfiguration r1.2 0 = some r2 ∧
      r1.1 ≠ r2.1 ∧ r1.2.pos ≠ sampleNoiseGen.pos :=
  ⟨_, _, rfl, rfl, by decide, by decide⟩

/-- C18, amended: when the noise deviation is 0 the builder is deterministic and consumes
no randomness: whatever the state of the generator, it returns the same fraction (or
fails alike) and hands the generator back unchanged. -/
theorem builder_deterministic_without_noise (ds : DataSet) (ext : Externals)
    (cfg : Configuration) (gen gen2 : NoiseGen) (first : Int)
    (h0 : ds.m_noiseDeviation = 0) :
    _makeFractionTask ds ext cfg gen first =
      (_makeFractionTask ds ext cfg gen2 first).map (fun r => (r.1, gen)) := by
  unfold _makeFractionTask
  cases allocFraction ds ext (resolutionBufOf ext cfg)
    (fillSeqInfo ds first (fracHeader ds ext cfg)) with
  | none => rfl
  | some fr =>
    simp only [Option.map_some']
    rw [slotLoop_noiseless ds ext cfg first fr gen gen2 h0]

/-- Instance of the amended C18 on the sample data set, whose noise deviation is 0. -/
theorem builder_deterministic_without_noise_witness :
    sampleDataSet.m_noiseDeviation = 0 ∧
    _makeFractionTask sampleDataSet sampleExternals sampleConfiguration {} 0 =
      (_makeFractionTask sampleDataSet sampleExternals sampleConfiguration sampleNoiseGen
        0).map (fun r => (r.1, {})) :=
  ⟨rfl, builder_deterministic_without_noise sampleDataSet sampleExternals
    sampleConfiguration {} sampleNoiseGen 0 rfl⟩

/-! ## The builder returns on well-formed data -/

theorem resize_returns {α : Type} (v : List α) (n : Int) (fill : α) (h : 0 ≤ n) :
    ∃ b, resize v n fill = some b := by
  unfold resize
  rw [if_neg (by omega)]
  exact ⟨_, rfl⟩

theorem allocMain_returns (ds : DataSet) (fr : DataSetFraction)
    (h1 : 0 ≤ fr.m_maxSeqLength * ds.m_parallelSequences * fr.m_inputPatternSize)
    (h2 : 0 ≤ fr.m_maxSeqLength * ds.m_parallelSequences) :
    ∃ a b, allocMain ds fr =
      some { fr with m_inputs := a, m_patTypes := b, m_fracTotalLength := 0 } := by
  obtain ⟨a, ha⟩ := resize_returns fr.m_inputs _ 0 h1
  obtain ⟨b, hb⟩ := resize_returns fr.m_patTypes _ PATTYPE_NONE h2
  unfold allocMain
  rw [ha, hb]
  exact ⟨a, b, rfl⟩

theorem allocExternal_returns (ds : DataSet) (fr : DataSetFraction)
    (h1 : 0 ≤ fr.m_maxExInputLength * ds.m_parallelSequences * fr.m_exInputDim)
    (h2 : 0 ≤ fr.m_maxExOutputLength * ds.m_parallelSequences * fr.m_exOutputDim) :
    ∃ a b, allocExternal ds fr = some { fr with m_exInputData := a, m_exOutputData := b } := by
  obtain ⟨a, ha⟩ := resize_returns fr.m_exInputData _ 0 h1
  obtain ⟨b, hb⟩ := resize_returns fr.m_exOutputData _ 0 h2
  unfold allocExternal
  cases ds.m_exInputFlag <;> cases ds.m_exOutputFlag
  · exact ⟨[], [], rfl⟩
  · refine ⟨[], b, ?_⟩
    simp [hb]
  · refine ⟨a, [], ?_⟩
    simp [ha]
  · refine ⟨a, b, ?_⟩
    simp [ha, hb]

theorem prepareResolutions_nonneg (ext : Externals) (rb : List Int) (fr : DataSetFraction)
    (h : ∀ r ∈ rb, ∀ m : Int, 0 ≤ m → 0 ≤ ext.getResoLength m r) :
    0 ≤ (prepareResolutions ext rb fr).2 := by
  unfold prepareResolutions
  have key : ∀ (l : List Int) (st : DataSetFraction × Int),
      (∀ r ∈ l, ∀ m : Int, 0 ≤ m → 0 ≤ ext.getResoLength m r) → 0 ≤ st.2 →
      0 ≤ (l.foldl
        (fun (st : DataSetFraction × Int) r =>
          ({ st.1 with
              m_resolutionBuffer := st.1.m_resolutionBuffer ++
                [{ resolution := r, bufferPos := st.2,
                   length := ext.getResoLength (st.1.m_patTypes.length : Int) r }] },
            st.2 + ext.getResoLength (st.1.m_patTypes.length : Int) r)) st).2 := by
    intro l
    induction l with
    | nil => intro st _ h0; exact h0
    | cons r l ih =>
      intro st hl h0
      rw [List.foldl_cons]
      apply ih _ (fun r hr => hl r (List.mem_cons_of_mem _ hr))
      have := hl r (List.mem_cons_self _ _) (st.1.m_patTypes.length : Int) (by omega)
      simp only
      omega
  exact key rb (fr, 0) h (le_refl 0)

theorem allocResolutions_returns (ext : Externals) (rb : List Int) (fr : DataSetFraction)
    (h : ∀ r ∈ rb, ∀ m : Int, 0 ≤ m → 0 ≤ ext.getResoLength m r) :
    ∃ a b, allocResolutions ext rb fr =
      some { fr with m_resolutionBuffer := a, m_patTypesLowTimeRes := b } := by
  obtain ⟨a, ha⟩ := prepareResolutions_shape ext rb fr
  obtain ⟨b, hb⟩ := resize_returns (prepareResolutions ext rb fr).1.m_patTypesLowTimeRes _
    PATTYPE_NONE (prepareResolutions_nonneg ext rb fr h)
  unfold allocResolutions
  simp only [hb, Option.some_bind]
  rw [ha]
  exact ⟨a, b, rfl⟩

theorem allocAux_returns (ds : DataSet) (ext : Externals) (fr : DataSetFraction)
    (h : 0 ≤ fr.m_maxSeqLength * ds.m_auxDataDim * ds.m_parallelSequences) :
    ∃ a b c n, allocAux ds ext fr =
      some { fr with m_auxPattypeData := a, m_auxIntData := b, m_auxRealData := c,
                     m_auxDataDim := n } := by
  obtain ⟨a, ha⟩ := resize_returns fr.m_auxPattypeData _ 0 h
  obtain ⟨b, hb⟩ := resize_returns fr.m_auxIntData _ 0 h
  obtain ⟨c, hc⟩ := resize_returns fr.m_auxRealData _ 0 h
  unfold allocAux
  simp only
  split_ifs
  · rw [ha]; exact ⟨_, _, _, _, rfl⟩
  · rw [hb]; exact ⟨_, _, _, _, rfl⟩
  · rw [hc]; exact ⟨_, _, _, _, rfl⟩
  · exact ⟨_, _, _, _, rfl⟩
  · exact ⟨_, _, _, _, rfl⟩

theorem allocTargets_returns (ds : DataSet) (fr : DataSetFraction)
    (h1 : 0 ≤ fr.m_maxSeqLength * ds.m_parallelSequences)
    (h2 : 0 ≤ fr.m_maxSeqLength * ds.m_parallelSequences * ds.m_outputPatternSize) :
    ∃ a b, allocTargets ds fr = some { fr with m_targetClasses := a, m_outputs := b } := by
  obtain ⟨a, ha⟩ := resize_returns fr.m_targetClasses _ (-1) h1
  obtain ⟨b, hb⟩ := resize_returns fr.m_outputs _ 0 h2
  unfold allocTargets
  split_ifs
  · rw [ha]; exact ⟨_, _, rfl⟩
  · rw [hb]; exact ⟨_, _, rfl⟩

/-- The allocation block returns when the sizes it asks for are not negative, and it
keeps the sequence info. -/
theorem allocFraction_returns (ds : DataSet) (ext : Externals) (rb : List Int)
    (fr : DataSetFraction) (hpar : 0 ≤ ds.m_parallelSequences)
    (hmax : 0 ≤ fr.m_maxSeqLength) (hips : 0 ≤ fr.m_inputPatternSize)
    (hexIn : 0 ≤ fr.m_maxExInputLength) (hexInDim : 0 ≤ fr.m_exInputDim)
    (hexOut : 0 ≤ fr.m_maxExOutputLength) (hexOutDim : 0 ≤ fr.m_exOutputDim)
    (haux : 0 ≤ ds.m_auxDataDim) (hops : 0 ≤ ds.m_outputPatternSize)
    (hreso : ∀ r ∈ rb, ∀ m : Int, 0 ≤ m → 0 ≤ ext.getResoLength m r) :
    ∃ fr1, allocFraction ds ext rb fr = some fr1 ∧ fr1.m_seqInfo = fr.m_seqInfo := by
  have hcells : 0 ≤ fr.m_maxSeqLength * ds.m_parallelSequences := Int.mul_nonneg hmax hpar
  obtain ⟨a1, b1, e1⟩ := allocMain_returns ds fr (Int.mul_nonneg hcells hips) hcells
  obtain ⟨a2, b2, e2⟩ := allocExternal_returns ds
    { fr with m_inputs := a1, m_patTypes := b1, m_fracTotalLength := 0 }
    (Int.mul_nonneg (Int.mul_nonneg hexIn hpar) hexInDim)
    (Int.mul_nonneg (Int.mul_nonneg hexOut hpar) hexOutDim)
  obtain ⟨a3, b3, e3⟩ := allocResolutions_returns ext rb
    { fr with m_inputs := a1, m_patTypes := b1, m_fracTotalLength := 0,
              m_exInputData := a2, m_exOutputData := b2 } hreso
  obtain ⟨a4, b4, c4, n4, e4⟩ := allocAux_returns ds ext
    { fr with m_inputs := a1, m_patTypes := b1, m_fracTotalLength := 0,
              m_exInputData := a2, m_exOutputData := b2,
              m_resolutionBuffer := a3, m_patTypesLowTimeRes := b3 }
    (Int.mul_nonneg (Int.mul_nonneg hmax haux) hpar)
  obtain ⟨a5, b5, e5⟩ := allocTargets_returns ds
    { fr with m_inputs := a1, m_patTypes := b1, m_fracTotalLength := 0,
              m_exInputData := a2, m_exOutputData := b2,
              m_resolutionBuffer := a3, m_patTypesLowTimeRes := b3,
              m_auxPattypeData := a4, m_auxIntData := b4, m_auxRealData := c4,
              m_auxDataDim := n4 }
    hcells (Int.mul_nonneg hcells hops)
  unfold allocFraction
  rw [e1, Option.some_bind, e2, Option.some_bind, e3, Option.some_bind, e4,
    Option.some_bind, e5]
  exact ⟨_, rfl, rfl⟩

/-- The window scan on a window whose first slot is live: the running maxima are not
negative afterwards, and one sequence-info entry is pushed per live slot. -/
theorem fillSeqInfo_window (ds : DataSet) (first : Int) (fr0 : DataSetFraction)
    (h0 : 0 ≤ first) (h1 : first < (ds.m_sequences.length : Int))
    (hp : 1 ≤ ds.m_parallelSequences)
    (hseqs : ∀ s ∈ ds.m_sequences, 0 ≤ s.length ∧ 0 ≤ s.exInputLength ∧ 0 ≤ s.exOutputLength) :
    0 ≤ (fillSeqInfo ds first fr0).m_maxSeqLength ∧
      0 ≤ (fillSeqInfo ds first fr0).m_maxExInputLength ∧
      0 ≤ (fillSeqInfo ds first fr0).m_maxExOutputLength ∧
      ((fillSeqInfo ds first fr0).m_seqInfo.length : Int) =
        fr0.m_seqInfo.length +
          min ds.m_parallelSequences ((ds.m_sequences.length : Int) - first) := by
  have key := forLoop_inv ds.m_parallelSequences (fun j fr => seqInfoStep ds (first + j) fr)
    (fun j fr =>
      (0 < j → 0 ≤ fr.m_maxSeqLength ∧ 0 ≤ fr.m_maxExInputLength ∧
        0 ≤ fr.m_maxExOutputLength) ∧
      (fr.m_seqInfo.length : Int) =
        fr0.m_seqInfo.length + min j ((ds.m_sequences.length : Int) - first)) fr0
    ⟨fun h => absurd h (lt_irrefl 0), by omega⟩
    (fun j st hj0 hj1 hI => by
      obtain ⟨hI1, hI2⟩ := hI
      by_cases hlive : first + j < (ds.m_sequences.length : Int)
      · have hmem := hseqs _ (readAt_mem ds.m_sequences (first + j) (by omega) hlive)
        simp only [seqInfoStep, if_pos hlive, List.length_append, List.length_singleton]
        refine ⟨fun _ => ⟨?_, ?_, ?_⟩, ?_⟩
        · exact le_trans hmem.1 (le_max_right _ _)
        · exact le_trans hmem.2.1 (le_max_right _ _)
        · exact le_trans hmem.2.2 (le_max_right _ _)
        · push_cast
          omega
      · simp only [seqInfoStep, if_neg hlive]
        refine ⟨fun _ => hI1 (by omega), ?_⟩
        omega)
  have e : max ds.m_parallelSequences 0 = ds.m_parallelSequences := by omega
  rw [e] at key
  obtain ⟨k1, k2⟩ := key
  obtain ⟨a, b, c⟩ := k1 (by omega)
  exact ⟨a, b, c, k2⟩

theorem fillAux_seqInfo (ds : DataSet) (ext : Externals) (cfg : Configuration) (i : Int)
    (seq : sequence_t) (fr : DataSetFraction) :
    (fillAux ds ext cfg i seq fr).m_seqInfo = fr.m_seqInfo := by
  obtain ⟨a, b, c, h⟩ := fillAux_shape ds ext cfg i seq fr
  rw [h]

theorem slotPrefix_seqInfo (ds : DataSet) (ext : Externals) (cfg : Configuration) (i : Int)
    (seq : sequence_t) (inputs : List real_t) (fr : DataSetFraction) :
    (slotPrefix ds ext cfg i seq inputs fr).m_seqInfo = fr.m_seqInfo := by
  unfold slotPrefix
  simp only []
  rw [fillAux_seqInfo]
  cases ds.m_exOutputFlag <;> cases ds.m_exInputFlag <;>
    cases ds.m_isClassificationData <;> rfl

theorem slotBody_seqInfo (ds : DataSet) (ext : Externals) (cfg : Configuration)
    (first i : Int) (st : DataSetFraction × NoiseGen) :
    (slotBody ds ext cfg first i st).1.m_seqInfo = st.1.m_seqInfo := by
  by_cases hdead : first + i ≥ (ds.m_sequences.length : Int)
  · rw [slotBody_dead ds ext cfg first i st hdead]
  · rw [slotBody_live ds ext cfg first i st hdead]
    obtain ⟨a, n, b, h⟩ := fillPatTypes_shape ds i (readAt ds.m_sequences (first + i))
      (slotPrefix ds ext cfg i (readAt ds.m_sequences (first + i))
        (_addNoise ds (_loadInputsFromCache ds (readAt ds.m_sequences (first + i))) st.2).1
        st.1)
    rw [h]
    exact slotPrefix_seqInfo ds ext cfg i _ _ st.1

theorem slotLoop_seqInfo (ds : DataSet) (ext : Externals) (cfg : Configuration)
    (first : Int) (fr0 : DataSetFraction) (gen : NoiseGen) :
    (forLoop ds.m_parallelSequences (slotBody ds ext cfg first) (fr0, gen)).1.m_seqInfo =
      fr0.m_seqInfo :=
  (forLoop_frame ds.m_parallelSequences (slotBody ds ext cfg first)
    (fun st => st.1.m_seqInfo) (fun _ => True) (fr0, gen) trivial
    (fun _ _ _ _ _ => trivial)
    (fun j st _ _ _ => slotBody_seqInfo ds ext cfg first j st)).1

/-- On well-formed data the builder returns a fraction at every start index inside the
index, and the fraction has one sequence-info entry per live slot of its window. -/
theorem makeFractionTask_returns (ds : DataSet) (ext : Externals) (cfg : Configuration)
    (gen : NoiseGen) (first : Int) (hwf : WellFormed ds ext cfg) (h0 : 0 ≤ first)
    (h1 : first < (ds.m_sequences.length : Int)) :
    ∃ res, _makeFractionTask ds ext cfg gen first = some res ∧
      (res.1.m_seqInfo.length : Int) =
        min ds.m_parallelSequences ((ds.m_sequences.length : Int) - first) := by
  obtain ⟨w1, w2, w3, w4⟩ := fillSeqInfo_window ds first (fracHeader ds ext cfg) h0 h1
    hwf.par hwf.seqs
  obtain ⟨⟨a, b, c, d, e, f, g, hshape⟩, _⟩ :=
    fillSeqInfo_spec ds first (fracHeader ds ext cfg)
  have hips : (fillSeqInfo ds first (fracHeader ds ext cfg)).m_inputPatternSize =
      ds.m_inputPatternSize * (cfg.inputLeftContext + cfg.inputRightContext + 1) := by
    rw [hshape]; rfl
  have hxi : (fillSeqInfo ds first (fracHeader ds ext cfg)).m_exInputDim =
      (fracHeader ds ext cfg).m_exInputDim := by
    rw [hshape]
  have hxo : (fillSeqInfo ds first (fracHeader ds ext cfg)).m_exOutputDim =
      (fracHeader ds ext cfg).m_exOutputDim := by
    rw [hshape]
  obtain ⟨fr1, hfr1, hinfo⟩ := allocFraction_returns ds ext (resolutionBufOf ext cfg)
    (fillSeqInfo ds first (fracHeader ds ext cfg)) (by have := hwf.par; omega) w1
    (by rw [hips]; exact hwf.ips) w2 (by rw [hxi]; exact hwf.exIn) w3
    (by rw [hxo]; exact hwf.exOut) hwf.aux hwf.ops hwf.reso
  refine ⟨forLoop ds.m_parallelSequences (slotBody ds ext cfg first) (fr1, gen), ?_, ?_⟩
  · unfold _makeFractionTask
    rw [hfr1]
  · rw [slotLoop_seqInfo, hinfo, w4]
    show (((fracHeader ds ext cfg).m_seqInfo.length : Nat) : Int) + _ = _
    simp [fracHeader]

/-! ## The request protocol -/

theorem staticPart_parallel {a b : DataSet} (h : staticPart a = staticPart b) :
    a.m_parallelSequences = b.m_parallelSequences := by
  have e := congrArg DataSet.m_parallelSequences h
  exact e

/-- Well-formedness only looks at the static members and at the descriptors as a set. -/
theorem WellFormed.transfer {a b : DataSet} {ext : Externals} {cfg : Configuration}
    (h : WellFormed a ext cfg) (hs : staticPart b = staticPart a)
    (hm : ∀ s ∈ b.m_sequences, s ∈ a.m_sequences) : WellFormed b ext cfg := by
  have e1 : b.m_parallelSequences = a.m_parallelSequences := by
    have e := congrArg DataSet.m_parallelSequences hs
    exact e
  have e2 : b.m_inputPatternSize = a.m_inputPatternSize := by
    have e := congrArg DataSet.m_inputPatternSize hs
    exact e
  have e3 : b.m_outputPatternSize = a.m_outputPatternSize := by
    have e := congrArg DataSet.m_outputPatternSize hs
    exact e
  have e4 : b.m_auxDataDim = a.m_auxDataDim := by
    have e := congrArg DataSet.m_auxDataDim hs
    exact e
  have e5 : fracHeader b ext cfg = fracHeader a ext cfg := by
    have e := congrArg (fun d => fracHeader d ext cfg) hs
    exact e
  exact
    { par := by rw [e1]; exact h.par
      ips := by rw [e2]; exact h.ips
      ops := by rw [e3]; exact h.ops
      exIn := by rw [e5]; exact h.exIn
      exOut := by rw [e5]; exact h.exOut
      aux := by rw [e4]; exact h.aux
      reso := h.reso
      seqs := fun s hs' => h.seqs s (hm s hs') }

/-- The pass of the worker on a bound first-fraction task: the index is permuted, the
fraction at start index 0 of the permuted index is built and published. -/
theorem nextFracThreadFn_first (ext : Externals) (cfg : Configuration) (w : World)
    (cur : Int) (hh : Handed w.ds cur BoundTask.makeFirstFractionTask)
    (hwf : WellFormed w.ds ext cfg) (hn : 1 ≤ w.ds.m_sequences.length) :
    ∃ (b : DataSetFraction × NoiseGen) (seqs : List sequence_t) (rg1 : RandGen),
      _makeFirstFractionTask w.ds ext cfg w.rg w.gen =
        (some b, { w.ds with m_sequences := seqs }, rg1) ∧
      seqs.Perm w.ds.m_sequences ∧
      _makeFractionTask { w.ds with m_sequences := seqs } ext cfg w.gen 0 = some b ∧
      (b.1.m_seqInfo.length : Int) =
        min w.ds.m_parallelSequences (w.ds.m_sequences.length : Int) ∧
      _nextFracThreadFn ext cfg w =
        some { ds := publish { w.ds with m_sequences := seqs } b.1, rg := rg1, gen := b.2 } := by
  obtain ⟨seqs, hperm, h2, h1⟩ := makeFirstFractionTask_spec w.ds ext cfg w.rg w.gen hwf.par
  have hwf2 : WellFormed { w.ds with m_sequences := seqs } ext cfg :=
    hwf.transfer rfl (fun s hs => hperm.subset hs)
  have hlen : seqs.length = w.ds.m_sequences.length := hperm.length_eq
  obtain ⟨b, hb, hinfo⟩ := makeFractionTask_returns { w.ds with m_sequences := seqs } ext cfg
    w.gen 0 hwf2 (le_refl 0) (by show (0 : Int) < (seqs.length : Int); omega)
  have hinfo2 : (b.1.m_seqInfo.length : Int) =
      min w.ds.m_parallelSequences (w.ds.m_sequences.length : Int) := by
    rw [hinfo]
    show min w.ds.m_parallelSequences ((seqs.length : Int) - 0) = _
    rw [hlen]; simp
  rw [hb] at h1
  have hr : _makeFirstFractionTask w.ds ext cfg w.rg w.gen =
      (some b, { w.ds with m_sequences := seqs },
        (_makeFirstFractionTask w.ds ext cfg w.rg w.gen).2.2) := by
    rw [← h1, ← h2]
  refine ⟨b, seqs, _, hr, hperm, hb, hinfo2, ?_⟩
  obtain ⟨_, ht, _, hterm⟩ := hh
  unfold _nextFracThreadFn
  rw [hterm, ht]
  simp only [Bool.false_eq_true, if_false]
  rw [hr]
  rfl

/-- The pass of the worker on a bound `_makeFractionTask`. -/
theorem nextFracThreadFn_task (ext : Externals) (cfg : Configuration) (w : World)
    (cur s : Int) (hh : Handed w.ds cur (BoundTask.makeFractionTask s))
    (b : DataSetFraction × NoiseGen) (hb : _makeFractionTask w.ds ext cfg w.gen s = some b) :
    _nextFracThreadFn ext cfg w = some { w with ds := publish w.ds b.1, gen := b.2 } := by
  obtain ⟨_, ht, _, hterm⟩ := hh
  unfold _nextFracThreadFn
  rw [hterm, ht]
  simp only [Bool.false_eq_true, if_false]
  rw [hb]
  rfl

theorem initialWork_of_started (ds : DataSet) (h : ds.m_curFirstSeqIdx ≠ -1) :
    initialWork ds = ds := by
  unfold initialWork
  rw [if_neg h]

/-- Inside the index `takeFraction` hands out the published fraction, advances the start
index by the parallelism and binds the next task. -/
theorem takeFraction_inside (ds : DataSet)
    (h : ds.m_curFirstSeqIdx < (ds.m_sequences.length : Int))
    (hterm : ds.m_threadData.terminate = false) :
    (takeFraction ds).1 = ds.m_threadData.frac ∧
      Handed (takeFraction ds).2 (ds.m_curFirstSeqIdx + ds.m_parallelSequences)
        (nextTask ds (ds.m_curFirstSeqIdx + ds.m_parallelSequences)) ∧
      (takeFraction ds).2.m_sequences = ds.m_sequences ∧
      staticPart (takeFraction ds).2 = staticPart ds := by
  unfold takeFraction
  rw [if_pos h]
  exact ⟨rfl, ⟨rfl, rfl, rfl, hterm⟩, rfl, rfl⟩

/-- Past the end of the index `takeFraction` returns the null fraction and resets the
start index; nothing else changes. -/
theorem takeFraction_outside (ds : DataSet)
    (h : (ds.m_sequences.length : Int) ≤ ds.m_curFirstSeqIdx) :
    takeFraction ds = (none, { ds with m_curFirstSeqIdx := 0 }) := by
  unfold takeFraction
  rw [if_neg (by omega)]

/-- A call that finds a bound `_makeFractionTask` waits for the worker and returns the
fraction the task builds. -/
theorem getNextFraction_task (ext : Externals) (cfg : Configuration) (w : World)
    (c : Int) (hh : Handed w.ds c (BoundTask.makeFractionTask c)) (hc0 : 0 ≤ c)
    (hc : c < (w.ds.m_sequences.length : Int))
    (b : DataSetFraction × NoiseGen) (hb : _makeFractionTask w.ds ext cfg w.gen c = some b) :
    ∃ w1, getNextFraction ext cfg w = some (some b.1, w1) ∧
      Handed w1.ds (c + w.ds.m_parallelSequences)
        (nextTask w.ds (c + w.ds.m_parallelSequences)) ∧
      w1.ds.m_sequences = w.ds.m_sequences ∧ staticPart w1.ds = staticPart w.ds ∧
      w1.rg = w.rg ∧ w1.gen = b.2 := by
  have hw := nextFracThreadFn_task ext cfg w c c hh b hb
  obtain ⟨hcur, ht, hfin, hterm⟩ := hh
  have hinit : initialWork w.ds = w.ds := initialWork_of_started w.ds (by omega)
  have hwait : waitFinished ext cfg { w with ds := initialWork w.ds } =
      some { w with ds := publish w.ds b.1, gen := b.2 } := by
    rw [hinit]
    unfold waitFinished
    show (if w.ds.m_threadData.finished = true then _ else _) = _
    rw [hfin]
    simp only [Bool.false_eq_true, if_false]
    show (_nextFracThreadFn ext cfg w).bind _ = _
    rw [hw]
    rfl
  obtain ⟨t1, t2, t3, t4⟩ := takeFraction_inside (publish w.ds b.1)
    (by show w.ds.m_curFirstSeqIdx < _; rw [hcur]; exact hc) hterm
  refine ⟨{ ds := (takeFraction (publish w.ds b.1)).2, rg := w.rg, gen := b.2 }, ?_, ?_, t3, t4,
    rfl, rfl⟩
  · unfold getNextFraction
    rw [hwait]
    simp only [Option.map_some']
    rw [t1]
    rfl
  · have e : (publish w.ds b.1).m_curFirstSeqIdx = c := hcur
    rw [e] at t2
    exact t2

/-- A call that finds a published fraction and a start index inside the index returns
that fraction without waiting. -/
theorem getNextFraction_published (ext : Externals) (cfg : Configuration) (w : World)
    (c : Int) (hc0 : 0 ≤ c) (hc : c < (w.ds.m_sequences.length : Int))
    (hcur : w.ds.m_curFirstSeqIdx = c) (hfin : w.ds.m_threadData.finished = true)
    (hterm : w.ds.m_threadData.terminate = false) :
    ∃ w1, getNextFraction ext cfg w = some (w.ds.m_threadData.frac, w1) ∧
      Handed w1.ds (c + w.ds.m_parallelSequences)
        (nextTask w.ds (c + w.ds.m_parallelSequences)) ∧
      w1.ds.m_sequences = w.ds.m_sequences ∧ staticPart w1.ds = staticPart w.ds ∧
      w1.rg = w.rg ∧ w1.gen = w.gen := by
  have hinit : initialWork w.ds = w.ds := initialWork_of_started w.ds (by omega)
  have hwait : waitFinished ext cfg { w with ds := initialWork w.ds } = some w := by
    rw [hinit]
    unfold waitFinished
    show (if w.ds.m_threadData.finished = true then _ else _) = _
    rw [if_pos hfin]
  obtain ⟨t1, t2, t3, t4⟩ := takeFraction_inside w.ds (by rw [hcur]; exact hc) hterm
  refine ⟨{ w with ds := (takeFraction w.ds).2 }, ?_, ?_, t3, t4, rfl, rfl⟩
  · unfold getNextFraction
    rw [hwait]
    simp only [Option.map_some']
    rw [t1]
  · rw [hcur] at t2
    exact t2

/-- A call that finds a bound first-fraction task and a start index past the end of the
index waits for the worker, returns the null fraction and resets the start index; the
fraction the task built stays published. -/
theorem getNextFraction_exhausted (ext : Externals) (cfg : Configuration) (w : World)
    (c : Int) (hh : Handed w.ds c BoundTask.makeFirstFractionTask)
    (hc : (w.ds.m_sequences.length : Int) ≤ c) (hwf : WellFormed w.ds ext cfg)
    (hn : 1 ≤ w.ds.m_sequences.length) :
    ∃ (b : DataSetFraction × NoiseGen) (w1 : World),
      (_makeFirstFractionTask w.ds ext cfg w.rg w.gen).1 = some b ∧
      getNextFraction ext cfg w = some (none, w1) ∧
      w1.ds.m_curFirstSeqIdx = 0 ∧ w1.ds.m_threadData.finished = true ∧
      w1.ds.m_threadData.terminate = false ∧ w1.ds.m_threadData.frac = some b.1 ∧
      w1.ds.m_sequences.Perm w.ds.m_sequences ∧ staticPart w1.ds = staticPart w.ds := by
  obtain ⟨b, seqs, rg1, hr, hperm, hb, hinfo, hw⟩ := nextFracThreadFn_first ext cfg w c hh hwf hn
  obtain ⟨hcur, ht, hfin, hterm⟩ := hh
  have hinit : initialWork w.ds = w.ds := initialWork_of_started w.ds (by omega)
  have hwait : waitFinished ext cfg { w with ds := initialWork w.ds } =
      some { ds := publish { w.ds with m_sequences := seqs } b.1, rg := rg1, gen := b.2 } := by
    rw [hinit]
    unfold waitFinished
    show (if w.ds.m_threadData.finished = true then _ else _) = _
    rw [hfin]
    simp only [Bool.false_eq_true, if_false]
    show (_nextFracThreadFn ext cfg w).bind _ = _
    rw [hw]
    rfl
  have hout := takeFraction_outside (publish { w.ds with m_sequences := seqs } b.1)
    (by show (seqs.length : Int) ≤ w.ds.m_curFirstSeqIdx
        rw [hperm.length_eq, hcur]; exact hc)
  refine ⟨b, World.mk (takeFraction (publish { w.ds with m_sequences := seqs } b.1)).2 rg1 b.2,
    by rw [hr], ?_, ?_, ?_, ?_, ?_, ?_, ?_⟩
  · unfold getNextFraction
    rw [hwait]
    simp only [Option.map_some']
    rw [hout]
  · rw [hout]
  · rw [hout]; rfl
  · rw [hout]; exact hterm
  · rw [hout]; rfl
  · rw [hout]; exact hperm
  · rw [hout]; rfl

theorem nextTask_congr (a b : DataSet) (c : Int)
    (h : a.m_sequences.length = b.m_sequences.length) : nextTask a c = nextTask b c := by
  unfold nextTask
  rw [h]

/-- The first call on a fresh data set binds the first-fraction task, waits for it and
returns the fraction it builds. -/
theorem getNextFraction_fresh (ext : Externals) (cfg : Configuration) (w : World)
    (hfresh : Fresh w.ds) (hwf : WellFormed w.ds ext cfg)
    (hn : 1 ≤ w.ds.m_sequences.length) :
    ∃ (b : DataSetFraction × NoiseGen) (dsb : DataSet) (w1 : World),
      staticPart dsb = staticPart w.ds ∧ dsb.m_sequences.Perm w.ds.m_sequences ∧
      _makeFractionTask dsb ext cfg w.gen 0 = some b ∧
      (b.1.m_seqInfo.length : Int) =
        min w.ds.m_parallelSequences (w.ds.m_sequences.length : Int) ∧
      getNextFraction ext cfg w = some (some b.1, w1) ∧
      Handed w1.ds w.ds.m_parallelSequences (nextTask w.ds w.ds.m_parallelSequences) ∧
      w1.ds.m_sequences = dsb.m_sequences ∧ staticPart w1.ds = staticPart w.ds := by
  obtain ⟨hcur, ht, hfin, hterm⟩ := hfresh
  have hinit : initialWork w.ds =
      { w.ds with
        m_threadData :=
          { w.ds.m_threadData with
            taskFn := some BoundTask.makeFirstFractionTask, finished := false }
        m_curFirstSeqIdx := 0 } := by
    unfold initialWork
    rw [if_pos hcur]
  have hh : Handed (initialWork w.ds) 0 BoundTask.makeFirstFractionTask := by
    rw [hinit]
    exact ⟨rfl, rfl, rfl, hterm⟩
  have hst : staticPart (initialWork w.ds) = staticPart w.ds := by rw [hinit]; rfl
  have hsq : (initialWork w.ds).m_sequences = w.ds.m_sequences := by rw [hinit]
  have hwf1 : WellFormed (initialWork w.ds) ext cfg :=
    hwf.transfer hst (fun s hs => by rw [hsq] at hs; exact hs)
  obtain ⟨b, seqs, rg1, hr, hperm, hb, hinfo, hw⟩ := nextFracThreadFn_first ext cfg
    { w with ds := initialWork w.ds } 0 hh hwf1 (by show 1 ≤ (initialWork w.ds).m_sequences.length; rw [hsq]; exact hn)
  have hperm2 : seqs.Perm w.ds.m_sequences := by
    have := hperm
    simp only at this
    rw [hsq] at this
    exact this
  have hwait : waitFinished ext cfg { w with ds := initialWork w.ds } =
      some { ds := publish { (initialWork w.ds) with m_sequences := seqs } b.1, rg := rg1,
             gen := b.2 } := by
    unfold waitFinished
    have e : (initialWork w.ds).m_threadData.finished = false := hh.2.2.1
    show (if (initialWork w.ds).m_threadData.finished = true then _ else _) = _
    rw [e]
    simp only [Bool.false_eq_true, if_false]
    rw [hw]
    rfl
  have hp := hwf.par
  obtain ⟨t1, t2, t3, t4⟩ := takeFraction_inside
    (publish { (initialWork w.ds) with m_sequences := seqs } b.1)
    (by show (initialWork w.ds).m_curFirstSeqIdx < (seqs.length : Int)
        rw [hh.1, hperm2.length_eq]; omega)
    (by show (initialWork w.ds).m_threadData.terminate = false; exact hh.2.2.2)
  have hpar : (initialWork w.ds).m_parallelSequences = w.ds.m_parallelSequences := by
    rw [hinit]
  refine ⟨b, { (initialWork w.ds) with m_sequences := seqs },
    World.mk (takeFraction (publish { (initialWork w.ds) with m_sequences := seqs } b.1)).2
      rg1 b.2, ?_, hperm2, hb, ?_, ?_, ?_, t3, ?_⟩
  · rw [← hst]; rfl
  · rw [hinfo]
    show min (initialWork w.ds).m_parallelSequences ((initialWork w.ds).m_sequences.length : Int) = _
    rw [hpar, hsq]
  · unfold getNextFraction
    rw [hwait]
    simp only [Option.map_some']
    rw [t1]
    rfl
  · have e1 : (publish { (initialWork w.ds) with m_sequences := seqs } b.1).m_curFirstSeqIdx
        = 0 := hh.1
    have e2 : (publish { (initialWork w.ds) with m_sequences := seqs }
        b.1).m_parallelSequences = w.ds.m_parallelSequences := hpar
    rw [e1, e2, zero_add] at t2
    rw [nextTask_congr _ w.ds _ (by
      show seqs.length = w.ds.m_sequences.length
      exact hperm2.length_eq)] at t2
    exact t2
  · rw [← hst]
    exact t4

/-- A call inside an epoch returns the fraction built at the current start index and
leaves the state of the next call. -/
theorem getNextFraction_inEpoch (ext : Externals) (cfg : Configuration) (base : DataSet)
    (seqs : List sequence_t) (j : Nat) (w : World) (hI : InEpoch base seqs j w)
    (hwf : WellFormed base ext cfg) (hperm : seqs.Perm base.m_sequences)
    (hj : (j : Int) * base.m_parallelSequences < (base.m_sequences.length : Int)) :
    ∃ (b : DataSetFraction × NoiseGen) (w1 : World),
      _makeFractionTask w.ds ext cfg w.gen ((j : Int) * base.m_parallelSequences) = some b ∧
      (b.1.m_seqInfo.length : Int) =
        min base.m_parallelSequences
          ((base.m_sequences.length : Int) - (j : Int) * base.m_parallelSequences) ∧
      getNextFraction ext cfg w = some (some b.1, w1) ∧ InEpoch base seqs (j + 1) w1 := by
  obtain ⟨hh, hidx, hst⟩ := hI
  have hlen : w.ds.m_sequences.length = base.m_sequences.length := by
    rw [hidx]; exact hperm.length_eq
  have hpar : w.ds.m_parallelSequences = base.m_parallelSequences := staticPart_parallel hst
  have hwfw : WellFormed w.ds ext cfg :=
    hwf.transfer hst (fun s hs => by rw [hidx] at hs; exact hperm.subset hs)
  have hp := hwf.par
  have hj0 : (0 : Int) ≤ (j : Int) * base.m_parallelSequences :=
    Int.mul_nonneg (Int.ofNat_nonneg j) (by omega)
  have htask : nextTask w.ds ((j : Int) * base.m_parallelSequences) =
      BoundTask.makeFractionTask ((j : Int) * base.m_parallelSequences) := by
    unfold nextTask
    rw [if_pos (by rw [hlen]; exact hj)]
  rw [htask] at hh
  obtain ⟨b, hb, hinfo⟩ := makeFractionTask_returns w.ds ext cfg w.gen _ hwfw hj0
    (by rw [hlen]; exact hj)
  obtain ⟨w1, g1, g2, g3, g4, _, _⟩ := getNextFraction_task ext cfg w _ hh hj0
    (by rw [hlen]; exact hj) b hb
  refine ⟨b, w1, hb, ?_, g1, ?_, ?_, ?_⟩
  · rw [hinfo, hpar, hlen]
  · rw [hpar] at g2
    rw [nextTask_congr w1.ds w.ds _ (by rw [g3])]
    have e : ((j + 1 : Nat) : Int) * base.m_parallelSequences =
        (j : Int) * base.m_parallelSequences + base.m_parallelSequences := by
      push_cast; ring
    rw [e]
    exact g2
  · rw [g3]; exact hidx
  · rw [g4]; exact hst


theorem afterCalls_succ (ext : Externals) (cfg : Configuration) (k : Nat) (w wk w1 : World)
    (frac : Option DataSetFraction) (h : afterCalls ext cfg k w = some wk)
    (h1 : getNextFraction ext cfg wk = some (frac, w1)) :
    afterCalls ext cfg (k + 1) w = some w1 := by
  show (afterCalls ext cfg k w).bind _ = _
  rw [h, Option.some_bind, h1]
  rfl

/-- The calls of the first epoch, one by one: call `j` (counted from 0, `j * p < n`)
returns the fraction built at start index `j * p` on the index `seqs` the first task
left, and leaves the state of call `j + 1`. -/
theorem epoch_calls (ext : Externals) (cfg : Configuration) (w : World)
    (hfresh : Fresh w.ds) (hwf : WellFormed w.ds ext cfg)
    (hn : 1 ≤ w.ds.m_sequences.length) :
    ∃ seqs : List sequence_t, seqs.Perm w.ds.m_sequences ∧
      ∀ j : Nat, (j : Int) * w.ds.m_parallelSequences < (w.ds.m_sequences.length : Int) →
        ∃ (wj wj1 : World) (dsb : DataSet) (gen : NoiseGen) (b : DataSetFraction × NoiseGen),
          afterCalls ext cfg j w = some wj ∧
          getNextFraction ext cfg wj = some (some b.1, wj1) ∧
          staticPart dsb = staticPart w.ds ∧ dsb.m_sequences = seqs ∧
          _makeFractionTask dsb ext cfg gen ((j : Int) * w.ds.m_parallelSequences) = some b ∧
          (b.1.m_seqInfo.length : Int) =
            min w.ds.m_parallelSequences
              ((w.ds.m_sequences.length : Int) - (j : Int) * w.ds.m_parallelSequences) ∧
          InEpoch w.ds seqs (j + 1) wj1 := by
  obtain ⟨b0, dsb0, w1, f1, f2, f3, f4, f5, f6, f7, f8⟩ :=
    getNextFraction_fresh ext cfg w hfresh hwf hn
  have hp := hwf.par
  refine ⟨dsb0.m_sequences, f2, ?_⟩
  intro j
  induction j with
  | zero =>
    intro _
    refine ⟨w, w1, dsb0, w.gen, b0, rfl, f5, f1, rfl, ?_, ?_, ?_, f7, f8⟩
    · simpa using f3
    · simpa using f4
    · have e : ((0 + 1 : Nat) : Int) * w.ds.m_parallelSequences = w.ds.m_parallelSequences := by
        simp
      rw [e, nextTask_congr w1.ds w.ds _ (by rw [f7]; exact f2.length_eq)]
      exact f6
  | succ j ih =>
    intro hj
    have hj' : (j : Int) * w.ds.m_parallelSequences < (w.ds.m_sequences.length : Int) := by
      have e : ((j + 1 : Nat) : Int) * w.ds.m_parallelSequences =
          (j : Int) * w.ds.m_parallelSequences + w.ds.m_parallelSequences := by
        push_cast; ring
      rw [e] at hj
      omega
    obtain ⟨wj, wj1, _, _, bj, g1, g2, _, _, _, _, g7⟩ := ih hj'
    obtain ⟨b, w2, k1, k2, k3, k4⟩ := getNextFraction_inEpoch ext cfg w.ds dsb0.m_sequences
      (j + 1) wj1 g7 hwf f2 hj
    exact ⟨wj1, w2, wj1.ds, wj1.gen, b, afterCalls_succ ext cfg j w wj wj1 _ g1 g2, k3,
      g7.static, g7.index, k1, k2, k4⟩

theorem epochLength_bounds (ds : DataSet) (hp : 1 ≤ ds.m_parallelSequences)
    (hn : 1 ≤ ds.m_sequences.length) :
    1 ≤ epochLength ds ∧
      (((epochLength ds - 1 : Nat) : Int)) * ds.m_parallelSequences
        < (ds.m_sequences.length : Int) ∧
      (ds.m_sequences.length : Int) ≤ (epochLength ds : Int) * ds.m_parallelSequences := by
  unfold epochLength
  have h1 := Int.ediv_add_emod ((ds.m_sequences.length : Int) + ds.m_parallelSequences - 1)
    ds.m_parallelSequences
  have h2 := Int.emod_nonneg ((ds.m_sequences.length : Int) + ds.m_parallelSequences - 1)
    (show ds.m_parallelSequences ≠ 0 by omega)
  have h3 := Int.emod_lt_of_pos ((ds.m_sequences.length : Int) + ds.m_parallelSequences - 1)
    (show 0 < ds.m_parallelSequences by omega)
  generalize ((ds.m_sequences.length : Int) + ds.m_parallelSequences - 1) /
    ds.m_parallelSequences = q at h1
  generalize ((ds.m_sequences.length : Int) + ds.m_parallelSequences - 1) %
    ds.m_parallelSequences = r at h1 h2 h3
  have hq : 1 ≤ q := by
    by_contra hc
    have hq0 : q ≤ 0 := by omega
    have : ds.m_parallelSequences * q ≤ 0 :=
      Int.mul_nonpos_of_nonneg_of_nonpos (by omega) hq0
    omega
  have e1 : ((q.toNat : Nat) : Int) = q := by omega
  have e2 : (((q.toNat - 1 : Nat)) : Int) = q - 1 := by omega
  refine ⟨by omega, ?_, ?_⟩
  · rw [e2]
    have : (q - 1) * ds.m_parallelSequences = ds.m_parallelSequences * q - ds.m_parallelSequences := by
      ring
    omega
  · rw [e1]
    have : q * ds.m_parallelSequences = ds.m_parallelSequences * q := by ring
    omega

theorem sampleExternals_reso :
    ∀ r ∈ resolutionBufOf sampleExternals sampleConfiguration, ∀ m : Int, 0 ≤ m →
      0 ≤ sampleExternals.getResoLength m r := by
  intro r hr m hm
  have hr' : r = 1 ∨ r = 2 := by
    have : r ∈ ([1, 2] : List Int) := hr
    simpa using this
  show 0 ≤ (m + r - 1) / r
  rcases hr' with rfl | rfl
  · exact Int.ediv_nonneg (by omega) (by omega)
  · exact Int.ediv_nonneg (by omega) (by omega)

theorem sampleDataSet_wellFormed :
    WellFormed sampleDataSet sampleExternals sampleConfiguration :=
  { par := by decide, ips := by decide, ops := by decide, exIn := by decide,
    exOut := by decide, aux := by decide, reso := sampleExternals_reso,
    seqs := by decide }

theorem tenDataSet_wellFormed :
    WellFormed tenDataSet sampleExternals sampleConfiguration :=
  { par := by decide, ips := by decide, ops := by decide, exIn := by decide,
    exOut := by decide, aux := by decide, reso := sampleExternals_reso,
    seqs := by decide }

/-! ## Claims about the request protocol -/

/-- C11: on a fresh, well-formed data set with `n` descriptors and parallelism `p`, call
number `j` of `getNextFraction` (counted from 0, `j * p < n`, that is
`j = 0 .. ceil (n / p) - 1`) returns the fraction that `_makeFractionTask` builds at start
index `j * p`, on the index `seqs` the first-fraction task of the epoch left (a
permutation of the original index); the fraction has `min (p, n - j * p)` filled slots. -/
theorem fraction_order (ext : Externals) (cfg : Configuration) (w : World)
    (hfresh : Fresh w.ds) (hwf : WellFormed w.ds ext cfg) :
    ∃ seqs : List sequence_t, seqs.Perm w.ds.m_sequences ∧
      ∀ j : Nat, (j : Int) * w.ds.m_parallelSequences < (w.ds.m_sequences.length : Int) →
        ∃ (wj wj1 : World) (dsb : DataSet) (gen : NoiseGen) (b : DataSetFraction × NoiseGen),
          afterCalls ext cfg j w = some wj ∧
          getNextFraction ext cfg wj = some (some b.1, wj1) ∧
          staticPart dsb = staticPart w.ds ∧ dsb.m_sequences = seqs ∧
          _makeFractionTask dsb ext cfg gen ((j : Int) * w.ds.m_parallelSequences) = some b ∧
          (b.1.m_seqInfo.length : Int) =
            min w.ds.m_parallelSequences
              ((w.ds.m_sequences.length : Int) - (j : Int) * w.ds.m_parallelSequences) := by
  by_cases hn : 1 ≤ w.ds.m_sequences.length
  · obtain ⟨seqs, hperm, h⟩ := epoch_calls ext cfg w hfresh hwf hn
    refine ⟨seqs, hperm, fun j hj => ?_⟩
    obtain ⟨wj, wj1, dsb, gen, b, h1, h2, h3, h4, h5, h6, _⟩ := h j hj
    exact ⟨wj, wj1, dsb, gen, b, h1, h2, h3, h4, h5, h6⟩
  · refine ⟨w.ds.m_sequences, List.Perm.refl _, fun j hj => ?_⟩
    have hp := hwf.par
    have : (0 : Int) ≤ (j : Int) * w.ds.m_parallelSequences :=
      Int.mul_nonneg (Int.ofNat_nonneg j) (by omega)
    omega

/-- Instance of C11: ten descriptors and parallelism 4, the example of the claim. -/
theorem fraction_order_witness :
    Fresh tenDataSet ∧ WellFormed tenDataSet sampleExternals sampleConfiguration ∧
    ∃ seqs : List sequence_t, seqs.Perm tenDataSet.m_sequences ∧
      ∀ j : Nat, (j : Int) * 4 < 10 →
        ∃ (wj wj1 : World) (dsb : DataSet) (gen : NoiseGen) (b : DataSetFraction × NoiseGen),
          afterCalls sampleExternals sampleConfiguration j { ds := tenDataSet } = some wj ∧
          getNextFraction sampleExternals sampleConfiguration wj = some (some b.1, wj1) ∧
          staticPart dsb = staticPart tenDataSet ∧ dsb.m_sequences = seqs ∧
          _makeFractionTask dsb sampleExternals sampleConfiguration gen ((j : Int) * 4)
            = some b ∧
          (b.1.m_seqInfo.length : Int) = min 4 (10 - (j : Int) * 4) :=
  ⟨⟨rfl, rfl, rfl, rfl⟩, tenDataSet_wellFormed,
    fraction_order sampleExternals sampleConfiguration { ds := tenDataSet }
      ⟨rfl, rfl, rfl, rfl⟩ tenDataSet_wellFormed⟩

/-- C12 fails as stated: on the sample data set (three descriptors, parallelism 2) the
two calls of the epoch return fractions, and the very next call returns the null
fraction instead of the first fraction of a new epoch. -/
theorem epoch_wrap_returns_null_first :
    ∃ w2 w3 : World,
      afterCalls sampleExternals sampleConfiguration 2 { ds := sampleDataSet } = some w2 ∧
      (sampleDataSet.m_sequences.length : Int) ≤ w2.ds.m_curFirstSeqIdx ∧
      getNextFraction sampleExternals sampleConfiguration w2 = some (none, w3) :=
  ⟨_, _, rfl, by decide, rfl⟩

/-- C12, amended: on a fresh, well-formed data set with `n ≥ 1` descriptors, once the
`ceil (n / p)` calls of the epoch have returned the index is exhausted; the very next
call returns the null fraction and resets the start index to 0, and the call after it
returns the fraction the first-fraction task built for the new epoch, that is the
fraction at start index 0 after the configured shuffles were applied again. -/
theorem epoch_wrap (ext : Externals) (cfg : Configuration) (w : World)
    (hfresh : Fresh w.ds) (hwf : WellFormed w.ds ext cfg)
    (hn : 1 ≤ w.ds.m_sequences.length) :
    ∃ (wK w1 w2 : World) (b : DataSetFraction × NoiseGen),
      afterCalls ext cfg (epochLength w.ds) w = some wK ∧
      (w.ds.m_sequences.length : Int) ≤ wK.ds.m_curFirstSeqIdx ∧
      (_makeFirstFractionTask wK.ds ext cfg wK.rg wK.gen).1 = some b ∧
      getNextFraction ext cfg wK = some (none, w1) ∧ w1.ds.m_curFirstSeqIdx = 0 ∧
      getNextFraction ext cfg w1 = some (some b.1, w2) := by
  obtain ⟨seqs, hperm, h⟩ := epoch_calls ext cfg w hfresh hwf hn
  obtain ⟨hK1, hK2, hK3⟩ := epochLength_bounds w.ds hwf.par hn
  obtain ⟨wj, wK, _, _, bj, g1, g2, _, _, _, _, hI⟩ := h (epochLength w.ds - 1) hK2
  have eK : epochLength w.ds - 1 + 1 = epochLength w.ds := by omega
  rw [eK] at hI
  have hafter : afterCalls ext cfg (epochLength w.ds) w = some wK := by
    have := afterCalls_succ ext cfg (epochLength w.ds - 1) w wj wK _ g1 g2
    rw [eK] at this
    exact this
  have hlen : wK.ds.m_sequences.length = w.ds.m_sequences.length := by
    rw [hI.index]; exact hperm.length_eq
  have htask : nextTask wK.ds ((epochLength w.ds : Int) * w.ds.m_parallelSequences) =
      BoundTask.makeFirstFractionTask := by
    unfold nextTask
    rw [if_neg (by rw [hlen]; omega)]
  have hh := hI.handed
  rw [htask] at hh
  have hwfK : WellFormed wK.ds ext cfg :=
    hwf.transfer hI.static (fun s hs => by rw [hI.index] at hs; exact hperm.subset hs)
  obtain ⟨b, w1, e1, e2, e3, e4, e5, e6, e7, e8⟩ := getNextFraction_exhausted ext cfg wK _ hh
    (by rw [hlen]; exact hK3) hwfK (by rw [hlen]; exact hn)
  obtain ⟨w2, k1, _⟩ := getNextFraction_published ext cfg w1 0 (le_refl 0)
    (by rw [e7.length_eq, hlen]; omega) e3 e4 e5
  rw [e6] at k1
  exact ⟨wK, w1, w2, b, hafter, by rw [hh.1]; exact hK3, e1, e2, e3, k1⟩

/-- Instance of the amended C12 on the sample data set. -/
theorem epoch_wrap_witness :
    Fresh sampleDataSet ∧ WellFormed sampleDataSet sampleExternals sampleConfiguration ∧
    1 ≤ sampleDataSet.m_sequences.length ∧
    ∃ (wK w1 w2 : World) (b : DataSetFraction × NoiseGen),
      afterCalls sampleExternals sampleConfiguration (epochLength sampleDataSet)
        { ds := sampleDataSet } = some wK ∧
      (sampleDataSet.m_sequences.length : Int) ≤ wK.ds.m_curFirstSeqIdx ∧
      (_makeFirstFractionTask wK.ds sampleExternals sampleConfiguration wK.rg wK.gen).1
        = some b ∧
      getNextFraction sampleExternals sampleConfiguration wK = some (none, w1) ∧
      w1.ds.m_curFirstSeqIdx = 0 ∧
      getNextFraction sampleExternals sampleConfiguration w1 = some (some b.1, w2) :=
  ⟨⟨rfl, rfl, rfl, rfl⟩, sampleDataSet_wellFormed, by decide,
    epoch_wrap sampleExternals sampleConfiguration { ds := sampleDataSet }
      ⟨rfl, rfl, rfl, rfl⟩ sampleDataSet_wellFormed (by decide)⟩

theorem initialWork_inv (n p : Int) (hn : 1 ≤ n) (hp : 1 ≤ p) (c : Bool) (ds : DataSet)
    (h : ProtocolInv n p c ds) : ProtocolInv n p true (initialWork ds) := by
  unfold initialWork
  by_cases hc : ds.m_curFirstSeqIdx = -1
  · rw [if_pos hc]
    exact
      { range := ⟨Or.inr (Or.inl rfl), fun _ => ⟨le_refl 0, by show (0 : Int) ≤ n + p - 1; omega⟩⟩
        size := h.size
        par := h.par
        idle := fun hf => by cases hf }
  · rw [if_neg hc]
    have hcalled : c = true := by
      cases c
      · exact absurd (h.idle rfl).1 hc
      · rfl
    subst hcalled
    exact h

/-- A pass of the worker keeps the invariant: it clears the task and at most permutes
the index. -/
theorem nextFracThreadFn_inv (ext : Externals) (cfg : Configuration) (n p : Int)
    (hp : 1 ≤ p) (c : Bool) (w w1 : World) (h : ProtocolInv n p c w.ds)
    (hw : _nextFracThreadFn ext cfg w = some w1) : ProtocolInv n p c w1.ds := by
  unfold _nextFracThreadFn at hw
  split_ifs at hw with hterm
  · cases hw; exact h
  · split at hw
    · cases hw; exact h
    · simp only [Option.map_eq_some'] at hw
      obtain ⟨b, _, rfl⟩ := hw
      obtain ⟨seqs, hperm, h2, _⟩ := makeFirstFractionTask_spec w.ds ext cfg w.rg w.gen
        (by rw [h.par]; exact hp)
      show ProtocolInv n p c (publish (_makeFirstFractionTask w.ds ext cfg w.rg w.gen).2.1 b.1)
      rw [h2]
      exact
        { range := ⟨Or.inl rfl, h.range.2⟩
          size := by
            show ((seqs.length : Nat) : Int) = n
            rw [hperm.length_eq]; exact h.size
          par := h.par
          idle := fun hf => ⟨(h.idle hf).1, rfl⟩ }
    · simp only [Option.map_eq_some'] at hw
      obtain ⟨b, _, rfl⟩ := hw
      exact
        { range := ⟨Or.inl rfl, h.range.2⟩
          size := h.size
          par := h.par
          idle := fun hf => ⟨(h.idle hf).1, rfl⟩ }

theorem waitFinished_inv (ext : Externals) (cfg : Configuration) (n p : Int)
    (hp : 1 ≤ p) (c : Bool) (w w1 : World) (h : ProtocolInv n p c w.ds)
    (hw : waitFinished ext cfg w = some w1) : ProtocolInv n p c w1.ds := by
  unfold waitFinished at hw
  split_ifs at hw with hfin
  · cases hw; exact h
  · simp only [Option.bind_eq_some] at hw
    obtain ⟨w2, hw2, hw3⟩ := hw
    split_ifs at hw3
    cases hw3
    exact nextFracThreadFn_inv ext cfg n p hp c w w1 h hw2

theorem takeFraction_inside_fields (ds : DataSet)
    (h : ds.m_curFirstSeqIdx < (ds.m_sequences.length : Int)) :
    (takeFraction ds).2.m_curFirstSeqIdx = ds.m_curFirstSeqIdx + ds.m_parallelSequences ∧
      (takeFraction ds).2.m_threadData.taskFn =
        some (nextTask ds (ds.m_curFirstSeqIdx + ds.m_parallelSequences)) ∧
      (takeFraction ds).2.m_sequences = ds.m_sequences ∧
      (takeFraction ds).2.m_parallelSequences = ds.m_parallelSequences := by
  unfold takeFraction
  rw [if_pos h]
  exact ⟨rfl, rfl, rfl, rfl⟩

theorem takeFraction_inv (n p : Int) (hp : 1 ≤ p) (ds : DataSet)
    (h : ProtocolInv n p true ds) : ProtocolInv n p true (takeFraction ds).2 := by
  obtain ⟨h0, h1⟩ := h.range.2 rfl
  have hsize := h.size
  have hpar := h.par
  by_cases hc : ds.m_curFirstSeqIdx < (ds.m_sequences.length : Int)
  · obtain ⟨t1, t2, t3, t4⟩ := takeFraction_inside_fields ds hc
    refine
      { range := ⟨?_, fun _ => ?_⟩
        size := by rw [t3]; exact hsize
        par := by rw [t4]; exact hpar
        idle := fun hf => by cases hf }
    · rw [t2]
      unfold nextTask
      by_cases hc2 : ds.m_curFirstSeqIdx + ds.m_parallelSequences < (ds.m_sequences.length : Int)
      · rw [if_pos hc2]
        exact Or.inr (Or.inr ⟨_, rfl, by omega, by omega⟩)
      · rw [if_neg hc2]
        exact Or.inr (Or.inl rfl)
    · rw [t1]
      constructor <;> omega
  · rw [takeFraction_outside ds (by omega)]
    exact
      { range := ⟨h.range.1, fun _ => ⟨le_refl 0, by show (0 : Int) ≤ n + p - 1; omega⟩⟩
        size := hsize
        par := hpar
        idle := fun hf => by cases hf }

theorem getNextFraction_inv (ext : Externals) (cfg : Configuration) (n p : Int)
    (hn : 1 ≤ n) (hp : 1 ≤ p) (c : Bool) (w w1 : World) (frac : Option DataSetFraction)
    (h : ProtocolInv n p c w.ds) (hw : getNextFraction ext cfg w = some (frac, w1)) :
    ProtocolInv n p true w1.ds := by
  unfold getNextFraction at hw
  simp only [Option.map_eq_some', Prod.mk.injEq] at hw
  obtain ⟨w2, hw2, _, rfl⟩ := hw
  have h1 := initialWork_inv n p hn hp c w.ds h
  have h2 := waitFinished_inv ext cfg n p hp true { w with ds := initialWork w.ds } w2 h1 hw2
  exact takeFraction_inv n p hp w2.ds h2

/-- Every state the protocol reaches from a fresh data set satisfies the invariant. -/
theorem reachable_inv (ext : Externals) (cfg : Configuration) (w0 : World)
    (hfresh : Fresh w0.ds) (hn : 1 ≤ w0.ds.m_sequences.length)
    (hp : 1 ≤ w0.ds.m_parallelSequences) (c : Bool) (w : World)
    (hr : Reachable ext cfg w0 c w) :
    ProtocolInv (w0.ds.m_sequences.length : Int) w0.ds.m_parallelSequences c w.ds := by
  induction hr with
  | start =>
    exact
      { range := ⟨Or.inl hfresh.2.1, fun hf => by cases hf⟩
        size := rfl
        par := rfl
        idle := fun _ => ⟨hfresh.1, hfresh.2.1⟩ }
  | request c w _ ih => exact initialWork_inv _ _ (by omega) hp c w.ds ih
  | worker c w w1 _ hw ih => exact nextFracThreadFn_inv ext cfg _ _ hp c w w1 ih hw
  | call c w w1 frac _ hw ih =>
    exact getNextFraction_inv ext cfg _ _ (by omega) hp c w w1 frac ih hw

/-- C13: for a data set with `n ≥ 1` descriptors and parallelism `p ≥ 1`, in every state
the protocol reaches from the freshly constructed data set (by the initial work of a
call, by a pass of the worker, or by a whole call) the task bound for the worker is
either the first-fraction task or `_makeFractionTask s` with `0 < s < n`, so the worker
is never asked for a start index at or beyond `n`; and once a call has begun
`m_curFirstSeqIdx` lies in `[0, n + p - 1]`. -/
theorem tasks_in_range (ext : Externals) (cfg : Configuration) (w0 : World)
    (hfresh : Fresh w0.ds) (hn : 1 ≤ w0.ds.m_sequences.length)
    (hp : 1 ≤ w0.ds.m_parallelSequences) (called : Bool) (w : World)
    (hr : Reachable ext cfg w0 called w) :
    TasksInRange (w0.ds.m_sequences.length : Int) w0.ds.m_parallelSequences called w.ds :=
  (reachable_inv ext cfg w0 hfresh hn hp called w hr).range

/-- Instance of C13: the sample data set after its first call. -/
theorem tasks_in_range_witness :
    ∃ (frac : Option DataSetFraction) (w1 : World),
      getNextFraction sampleExternals sampleConfiguration { ds := sampleDataSet }
        = some (frac, w1) ∧
      w1.ds.m_threadData.taskFn = some (BoundTask.makeFractionTask 2) ∧
      TasksInRange 3 2 true w1.ds :=
  ⟨_, _, rfl, rfl,
    tasks_in_range sampleExternals sampleConfiguration { ds := sampleDataSet }
      ⟨rfl, rfl, rfl, rfl⟩ (by decide) (by decide) true _
      (Reachable.call false _ _ _ Reachable.start rfl)⟩

/-! ## The cache file is only appended to -/

theorem cacheRead_block (pre block post : List Nat) :
    cacheRead (pre ++ block ++ post) (tellp pre) (block.length : Int) = block := by
  unfold cacheRead tellp
  simp [List.drop_append_of_le_length, List.take_append_of_le_length]

theorem length_flatten_map_const {α : Type} (f : α → List Nat) (k : Nat) (l : List α)
    (h : ∀ x, (f x).length = k) : ((l.map f).flatten).length = k * l.length := by
  induction l with
  | nil => simp
  | cons x l ih =>
    simp only [List.map_cons, List.flatten_cons, List.length_append, List.length_cons, h, ih]
    ring

theorem length_blockOf {α : Type} (bytesOf : α → List Nat) (k : Nat) (data : List α)
    (start count : Int) (h : ∀ x, (bytesOf x).length = k) (h0 : 0 ≤ start)
    (h1 : start + count ≤ (data.length : Int)) :
    (blockOf bytesOf data start count).length = k * count.toNat := by
  unfold blockOf
  rw [length_flatten_map_const bytesOf k _ h, List.length_take, List.length_drop]
  congr 1
  omega

theorem length_readNcPatternArray (arr : Int → real_t) (b n p : Int) :
    (readNcPatternArray arr b n p).length = vecSize (n * p) := by
  simp [readNcPatternArray]

theorem length_readNcArray (arr : Int → Int) (b n : Int) :
    (readNcArray arr b n).length = vecSize n := by
  simp [readNcArray]

theorem length_shiftByFirst (v : List real_t) : (shiftByFirst v).length = v.length := by
  simp [shiftByFirst]

/-- Step 1 appends the bytes of the prepared inputs at the position it records in
`inputsBegin`, and changes nothing else of the state. -/
theorem ingestInputs_ok (lay : Layout) (nc : NcFile) (st st1 : Ingest)
    (seq seq1 : sequence_t) (h : ingestInputs lay nc st seq = Except.ok (seq1, st1)) :
    ∃ inputs : List real_t,
      prepareInputs nc st { seq with inputsBegin := tellp st.cache } =
        Except.ok (inputs, seq1) ∧
      st1 = { st with cache := st.cache ++ blockOf lay.realBytes inputs 0 (inputs.length : Int) } ∧
      inputs.length = vecSize (seq.length * st.ds.m_inputPatternSize) ∧
      seq1.inputsBegin = tellp st.cache ∧ seq1.length = seq.length ∧
      seq1.beginInUtt = seq.beginInUtt := by
  unfold ingestInputs at h
  simp only at h
  split at h
  · cases h
  · rename_i inputs seq2 hprep
    simp only [Except.ok.injEq, Prod.mk.injEq] at h
    obtain ⟨rfl, rfl⟩ := h
    refine ⟨inputs, hprep, rfl, ?_⟩
    unfold prepareInputs at hprep
    simp only at hprep
    split_ifs at hprep
    · simp only [Except.ok.injEq, Prod.mk.injEq] at hprep
      obtain ⟨rfl, rfl⟩ := hprep
      exact ⟨by rw [length_shiftByFirst, length_readNcPatternArray], rfl, rfl, rfl⟩
    · simp only [Except.ok.injEq, Prod.mk.injEq] at hprep
      obtain ⟨rfl, rfl⟩ := hprep
      exact ⟨by rw [length_readNcPatternArray], rfl, rfl, rfl⟩

/-- Step 2 appends the bytes of the targets at the position it records in
`targetsBegin`. -/
theorem ingestTargets_ok (lay : Layout) (nc : NcFile) (st st1 : Ingest)
    (seq seq1 : sequence_t) (hlay : lay.Sized)
    (h : ingestTargets lay nc st seq = Except.ok (seq1, st1)) :
    ∃ block : List Nat,
      st1 = { st with cache := st.cache ++ block } ∧
      (block.length : Int) = targetBytes lay st.ds seq ∧
      seq1.targetsBegin = tellp st.cache ∧ seq1.inputsBegin = seq.inputsBegin ∧
      seq1.length = seq.length ∧ seq1.beginInUtt = seq.beginInUtt := by
  unfold ingestTargets at h
  simp only at h
  by_cases hc : st.ds.m_isClassificationData = true
  · rw [if_pos hc] at h
    split_ifs at h
    simp only [Except.ok.injEq, Prod.mk.injEq] at h
    obtain ⟨rfl, rfl⟩ := h
    refine ⟨_, rfl, ?_, rfl, rfl, rfl, rfl⟩
    unfold targetBytes
    rw [if_pos hc, length_blockOf lay.intBytes lay.sizeofInt _ _ _ hlay.2.1 (le_refl 0)
      (by omega), length_readNcArray]
    push_cast
    rfl
  · rw [if_neg hc] at h
    split at h
    · cases h
    · rename_i targets seq2 hprep
      simp only [Except.ok.injEq, Prod.mk.injEq] at h
      obtain ⟨rfl, rfl⟩ := h
      have hfacts : targets.length = vecSize (seq.length * st.ds.m_outputPatternSize) ∧
          seq2.targetsBegin = tellp st.cache ∧ seq2.inputsBegin = seq.inputsBegin ∧
          seq2.length = seq.length ∧ seq2.beginInUtt = seq.beginInUtt := by
        unfold prepareTargets at hprep
        simp only at hprep
        split_ifs at hprep
        · simp only [Except.ok.injEq, Prod.mk.injEq] at hprep
          obtain ⟨rfl, rfl⟩ := hprep
          exact ⟨by rw [length_shiftByFirst, length_readNcPatternArray], rfl, rfl, rfl, rfl⟩
        · simp only [Except.ok.injEq, Prod.mk.injEq] at hprep
          obtain ⟨rfl, rfl⟩ := hprep
          exact ⟨by rw [length_readNcPatternArray], rfl, rfl, rfl, rfl⟩
      obtain ⟨f1, f2, f3, f4, f5⟩ := hfacts
      refine ⟨_, rfl, ?_, f2, f3, f4, f5⟩
      unfold targetBytes
      rw [if_neg hc, length_blockOf lay.realBytes lay.sizeofReal _ _ _ hlay.1 (le_refl 0)
        (by omega), f1]
      push_cast
      rfl

theorem writeAuxBlock_ok {α : Type} (bytesOf : α → List Nat) (k : Nat) (st st1 : Ingest)
    (temp : List α) (dataShift dataSize : Int) (hk : ∀ x, (bytesOf x).length = k)
    (h : writeAuxBlock bytesOf st temp (temp.length : Int) dataShift dataSize
      = Except.ok st1) :
    ∃ block : List Nat, st1 = { st with cache := st.cache ++ block } ∧
      (0 ≤ dataShift → block.length = k * dataSize.toNat) := by
  unfold writeAuxBlock at h
  split_ifs at h with hshort
  simp only [Except.ok.injEq] at h
  subst h
  exact ⟨_, rfl, fun h0 =>
    length_blockOf bytesOf k temp dataShift dataSize hk h0 (by omega)⟩

theorem readCharData_ok (fs : SideFiles) (path : String) (temp : List Int) (n : Int)
    (h : readCharData fs path = Except.ok (temp, n)) : n = (temp.length : Int) := by
  unfold readCharData at h
  split at h
  · cases h
  · simp only [Except.ok.injEq, Prod.mk.injEq] at h
    obtain ⟨rfl, rfl⟩ := h
    rfl

theorem readIntData_ok (fs : SideFiles) (path : String) (temp : List Int) (n : Int)
    (h : readIntData fs path = Except.ok (temp, n)) : n = (temp.length : Int) := by
  unfold readIntData at h
  split at h
  · cases h
  · simp only [Except.ok.injEq, Prod.mk.injEq] at h
    obtain ⟨rfl, rfl⟩ := h
    rfl

theorem readRealData_ok (fs : SideFiles) (path : String) (startPos endPos : Int)
    (temp : List real_t) (n : Int)
    (h : readRealData fs path startPos endPos = Except.ok (temp, n)) :
    n = (temp.length : Int) := by
  unfold readRealData at h
  split at h
  · cases h
  · simp only at h
    split_ifs at h with hbad
    all_goals simp only [Except.ok.injEq, Prod.mk.injEq] at h
    all_goals obtain ⟨rfl, rfl⟩ := h
    all_goals simp only [List.length_map, List.length_range]
    all_goals omega

/-- Step 3 with an auxiliary directory configured appends one block of
`length * m_auxDataDim` elements at the position it records in `auxDataBegin`; the
element size is the one of the branch taken.  The state changes in the cache and in
`m_auxDataTyp` only. -/
theorem ingestAux_ok (lay : Layout) (ext : Externals) (fs : SideFiles) (st st1 : Ingest)
    (seq seq1 : sequence_t) (hlay : lay.Sized)
    (h : ingestAux lay ext fs st seq = Except.ok (seq1, st1)) :
    ∃ (block : List Nat) (typ : Int),
      st1 = { st with cache := st.cache ++ block,
                      ds := { st.ds with m_auxDataTyp := typ } } ∧
      (st.ds.m_auxDirPath.length > 0 →
        (0 ≤ seq.beginInUtt * st.ds.m_auxDataDim →
          block.length = auxElemSize lay ext st.ds.m_auxDataTyp *
            vecSize (seq.length * st.ds.m_auxDataDim)) ∧
          seq1.auxDataBegin = tellp st.cache ∧ seq1.auxDataDim = st.ds.m_auxDataDim) ∧
      seq1.inputsBegin = seq.inputsBegin ∧ seq1.targetsBegin = seq.targetsBegin ∧
      seq1.length = seq.length := by
  unfold ingestAux at h
  simp only at h
  by_cases hdir : st.ds.m_auxDirPath.length > 0
  · rw [if_pos hdir] at h
    by_cases hchar : st.ds.m_auxDataTyp = ext.AUXDATATYPE_CHAR
    · rw [if_pos hchar] at h
      split at h
      · cases h
      · rename_i temp tempLength hread
        rw [readCharData_ok fs _ temp tempLength hread] at h
        cases hw : writeAuxBlock lay.charBytes st temp (temp.length : Int)
            (seq.beginInUtt * st.ds.m_auxDataDim) (seq.length * st.ds.m_auxDataDim) with
        | error e => rw [hw] at h; cases h
        | ok st2 =>
          rw [hw] at h
          simp only [Except.map, Except.ok.injEq, Prod.mk.injEq] at h
          obtain ⟨rfl, rfl⟩ := h
          obtain ⟨block, hb, hlen⟩ := writeAuxBlock_ok lay.charBytes 1 st st2 temp _ _
            hlay.2.2 hw
          refine ⟨block, st.ds.m_auxDataTyp, by rw [hb], fun _ => ⟨fun hshift => ?_, rfl, rfl⟩,
            rfl, rfl, rfl⟩
          rw [hlen hshift]
          unfold auxElemSize vecSize
          rw [if_pos hchar]
    · rw [if_neg hchar] at h
      by_cases hint : ext.AUXDATATYPE_INT ≠ 0
      · rw [if_pos hint] at h
        split at h
        · cases h
        · rename_i temp tempLength hread
          rw [readIntData_ok fs _ temp tempLength hread] at h
          cases hw : writeAuxBlock lay.intBytes
              { st with ds := { st.ds with m_auxDataTyp := ext.AUXDATATYPE_INT } } temp
              (temp.length : Int)
              (seq.beginInUtt * st.ds.m_auxDataDim) (seq.length * st.ds.m_auxDataDim) with
          | error e => rw [hw] at h; cases h
          | ok st2 =>
            rw [hw] at h
            simp only [Except.map, Except.ok.injEq, Prod.mk.injEq] at h
            obtain ⟨rfl, rfl⟩ := h
            obtain ⟨block, hb, hlen⟩ := writeAuxBlock_ok lay.intBytes lay.sizeofInt _ st2
              temp _ _ hlay.2.1 hw
            refine ⟨block, ext.AUXDATATYPE_INT, by rw [hb],
              fun _ => ⟨fun hshift => ?_, rfl, rfl⟩, rfl, rfl, rfl⟩
            rw [hlen hshift]
            unfold auxElemSize vecSize
            rw [if_neg hchar, if_pos hint]
      · rw [if_neg hint] at h
        by_cases hfloat : ext.AUXDATATYPE_FLOAT ≠ 0
        · rw [if_pos hfloat] at h
          split at h
          · cases h
          · rename_i temp tempLength hread
            rw [readRealData_ok fs _ _ _ temp tempLength hread] at h
            cases hw : writeAuxBlock lay.realBytes
                { st with ds := { st.ds with m_auxDataTyp := ext.AUXDATATYPE_FLOAT } } temp
                (temp.length : Int)
                (seq.beginInUtt * st.ds.m_auxDataDim) (seq.length * st.ds.m_auxDataDim) with
            | error e => rw [hw] at h; cases h
            | ok st2 =>
              rw [hw] at h
              simp only [Except.map, Except.ok.injEq, Prod.mk.injEq] at h
              obtain ⟨rfl, rfl⟩ := h
              obtain ⟨block, hb, hlen⟩ := writeAuxBlock_ok lay.realBytes lay.sizeofReal _ st2
                temp _ _ hlay.1 hw
              refine ⟨block, ext.AUXDATATYPE_FLOAT, by rw [hb],
                fun _ => ⟨fun hshift => ?_, rfl, rfl⟩, rfl, rfl, rfl⟩
              rw [hlen hshift]
              unfold auxElemSize vecSize
              rw [if_neg hchar, if_neg hint]
        · rw [if_neg hfloat] at h
          cases h
  · rw [if_neg hdir] at h
    simp only [Except.ok.injEq, Prod.mk.injEq] at h
    obtain ⟨rfl, rfl⟩ := h
    exact ⟨[], st.ds.m_auxDataTyp, by simp, fun hd => absurd hd hdir, rfl, rfl, rfl⟩

/-- Step 4 appends to the cache and leaves the offsets of the earlier steps alone. -/
theorem ingestExInput_ok (lay : Layout) (ext : Externals) (cfg : Configuration)
    (fs : SideFiles) (st st1 : Ingest) (seq seq1 : sequence_t)
    (h : ingestExInput lay ext cfg fs st seq = Except.ok (seq1, st1)) :
    ∃ block : List Nat, st1 = { st with cache := st.cache ++ block } ∧
      seq1.inputsBegin = seq.inputsBegin ∧ seq1.targetsBegin = seq.targetsBegin ∧
      seq1.auxDataBegin = seq.auxDataBegin ∧ seq1.auxDataDim = seq.auxDataDim ∧
      seq1.length = seq.length := by
  unfold ingestExInput at h
  simp only at h
  by_cases hflag : st.ds.m_exInputFlag = true
  · rw [if_pos hflag] at h
    by_cases hdim : cfg.exInputDim > 0
    · rw [if_pos hdim] at h
      split at h
      · cases h
      · simp only [Except.ok.injEq, Prod.mk.injEq] at h
        obtain ⟨rfl, rfl⟩ := h
        exact ⟨_, rfl, rfl, rfl, rfl, rfl, rfl⟩
    · rw [if_neg hdim] at h
      by_cases hdims : cfg.exInputDims.length > 0
      · rw [if_pos hdims] at h
        split at h
        · cases h
        · simp only [Except.ok.injEq, Prod.mk.injEq] at h
          obtain ⟨rfl, rfl⟩ := h
          exact ⟨_, rfl, rfl, rfl, rfl, rfl, rfl⟩
      · rw [if_neg hdims] at h
        cases h
  · rw [if_neg hflag] at h
    simp only [Except.ok.injEq, Prod.mk.injEq] at h
    obtain ⟨rfl, rfl⟩ := h
    exact ⟨[], by simp, rfl, rfl, rfl, rfl, rfl⟩

/-- Step 5 appends to the cache and leaves the offsets of the earlier steps alone. -/
theorem ingestExOutput_ok (lay : Layout) (ext : Externals) (fs : SideFiles)
    (st st1 : Ingest) (seq seq1 : sequence_t)
    (h : ingestExOutput lay ext fs st seq = Except.ok (seq1, st1)) :
    ∃ block : List Nat, st1 = { st with cache := st.cache ++ block } ∧
      seq1.inputsBegin = seq.inputsBegin ∧ seq1.targetsBegin = seq.targetsBegin ∧
      seq1.auxDataBegin = seq.auxDataBegin ∧ seq1.auxDataDim = seq.auxDataDim ∧
      seq1.length = seq.length := by
  unfold ingestExOutput at h
  simp only at h
  by_cases hflag : st.ds.m_exOutputFlag = true
  · rw [if_pos hflag] at h
    split at h
    · cases h
    · simp only [Except.ok.injEq, Prod.mk.injEq] at h
      obtain ⟨rfl, rfl⟩ := h
      exact ⟨_, rfl, rfl, rfl, rfl, rfl, rfl⟩
  · rw [if_neg hflag] at h
    simp only [Except.ok.injEq, Prod.mk.injEq] at h
    obtain ⟨rfl, rfl⟩ := h
    exact ⟨[], by simp, rfl, rfl, rfl, rfl, rfl⟩

/-- The ingestion of one descriptor appends, in this order, the block of its inputs, the
block of its targets, the block of its auxiliary data and the blocks of its external
data; the descriptor records where the first three start. -/
theorem ingestSequence_ok (lay : Layout) (ext : Externals) (cfg : Configuration)
    (nc : NcFile) (fs : SideFiles) (st st1 : Ingest) (s d : sequence_t) (hlay : lay.Sized)
    (h : ingestSequence lay ext cfg nc fs st s = Except.ok (d, st1)) :
    ∃ (bIn bTg bAux bEx : List Nat),
      st1.cache = st.cache ++ bIn ++ bTg ++ bAux ++ bEx ∧
      ingestKey st1.ds = ingestKey st.ds ∧
      WroteBlocks lay ext nc fs st s bIn bTg bAux ∧
      bIn.length = lay.sizeofReal * vecSize (d.length * st.ds.m_inputPatternSize) ∧
      (bTg.length : Int) = targetBytes lay st.ds d ∧
      (st.ds.m_auxDirPath.length > 0 →
        (0 ≤ s.beginInUtt * st.ds.m_auxDataDim →
          bAux.length = auxElemSize lay ext st.ds.m_auxDataTyp *
            vecSize (d.length * st.ds.m_auxDataDim)) ∧
        d.auxDataBegin = tellp (st.cache ++ bIn ++ bTg) ∧
        d.auxDataDim = st.ds.m_auxDataDim) ∧
      d.inputsBegin = tellp st.cache ∧ d.targetsBegin = tellp (st.cache ++ bIn) ∧
      d.length = s.length := by
  unfold ingestSequence at h
  simp only at h
  split at h
  · cases h
  rename_i seq1 st1' h1
  split at h
  · cases h
  rename_i seq2 st2' h2
  split at h
  · cases h
  rename_i seq3 st3' h3
  split at h
  · cases h
  rename_i seq4 st4' h4
  split at h
  · cases h
  rename_i seq5 st5' h5
  simp only [Except.ok.injEq, Prod.mk.injEq] at h
  obtain ⟨rfl, rfl⟩ := h
  obtain ⟨inputs, _, e1, a2, a3, a4, a5⟩ := ingestInputs_ok lay nc _ _ _ _ h1
  subst e1
  obtain ⟨bTg, e2, b2, b3, b4, b5, b6⟩ := ingestTargets_ok lay nc _ _ _ _ hlay h2
  subst e2
  obtain ⟨bAux, typ, e3, c2, c3, c4, c5⟩ := ingestAux_ok lay ext fs _ _ _ _ hlay h3
  subst e3
  obtain ⟨bEx1, e4, d1, d2, d3, d4, d5⟩ := ingestExInput_ok lay ext cfg fs _ _ _ _ h4
  subst e4
  obtain ⟨bEx2, e5, f1, f2, f3, f4, f5⟩ := ingestExOutput_ok lay ext fs _ _ _ _ h5
  subst e5
  have hlen : seq5.length = s.length := by rw [f5, d5, c5, b5, a4]
  refine ⟨blockOf lay.realBytes inputs 0 (inputs.length : Int), bTg, bAux, bEx1 ++ bEx2,
    by simp, rfl, ⟨_, _, _, _, _, _, h1, rfl, h2, rfl, h3, rfl⟩, ?_, ?_, ?_, ?_, ?_, hlen⟩
  · rw [length_blockOf lay.realBytes lay.sizeofReal _ _ _ hlay.1 (le_refl 0) (by omega), a2,
      hlen]
    simp
  · rw [b2]
    unfold targetBytes
    simp only
    rw [hlen, a4]
  · intro hdir
    obtain ⟨g1, g2, g3⟩ := c2 hdir
    refine ⟨fun hs => ?_, ?_, ?_⟩
    · have := g1 (by rw [b6, a5]; exact hs)
      rw [this, hlen, b5, a4]
    · rw [f3, d3, g2]
    · rw [f4, d4, g3]
  · rw [f1, d1, c3, b4, a3]
  · rw [f2, d2, c4, b3]

/-- The ingestion loop only appends to the cache and keeps the members that fix the block
sizes. -/
theorem ingestSequences_appends (lay : Layout) (ext : Externals) (cfg : Configuration)
    (nc : NcFile) (fs : SideFiles) (hlay : lay.Sized) :
    ∀ (seqs : List sequence_t) (st stN : Ingest) (out : List sequence_t),
      ingestSequences lay ext cfg nc fs st seqs = Except.ok (out, stN) →
      (∃ more, stN.cache = st.cache ++ more) ∧ ingestKey stN.ds = ingestKey st.ds
  | [], st, stN, out, h => by
    simp only [ingestSequences, Except.ok.injEq, Prod.mk.injEq] at h
    obtain ⟨_, rfl⟩ := h
    exact ⟨⟨[], by simp⟩, rfl⟩
  | s :: rest, st, stN, out, h => by
    unfold ingestSequences at h
    split at h
    · cases h
    rename_i d st1 h1
    split at h
    · cases h
    rename_i out1 st2 h2
    simp only [Except.ok.injEq, Prod.mk.injEq] at h
    obtain ⟨_, rfl⟩ := h
    obtain ⟨bIn, bTg, bAux, bEx, e1, k1, _⟩ :=
      ingestSequence_ok lay ext cfg nc fs st st1 s d hlay h1
    obtain ⟨⟨more, e2⟩, k2⟩ := ingestSequences_appends lay ext cfg nc fs hlay rest st1 _ out1 h2
    refine ⟨⟨bIn ++ bTg ++ bAux ++ bEx ++ more, ?_⟩, k2.trans k1⟩
    rw [e2, e1]
    simp

/-- Every descriptor the loop returns was ingested from one of the given descriptors, in
a state whose cache extends the initial one and is extended by the final one. -/
theorem ingestSequences_mem (lay : Layout) (ext : Externals) (cfg : Configuration)
    (nc : NcFile) (fs : SideFiles) (hlay : lay.Sized) :
    ∀ (seqs : List sequence_t) (st stN : Ingest) (out : List sequence_t),
      ingestSequences lay ext cfg nc fs st seqs = Except.ok (out, stN) →
      ∀ d ∈ out, ∃ (s : sequence_t) (st1 st2 : Ingest),
        s ∈ seqs ∧ ingestSequence lay ext cfg nc fs st1 s = Except.ok (d, st2) ∧
        (∃ pre, st1.cache = st.cache ++ pre) ∧ ingestKey st1.ds = ingestKey st.ds ∧
        (∃ more, stN.cache = st2.cache ++ more) ∧ ingestKey stN.ds = ingestKey st1.ds
  | [], st, stN, out, h => by
    simp only [ingestSequences, Except.ok.injEq, Prod.mk.injEq] at h
    obtain ⟨rfl, _⟩ := h
    intro d hd
    cases hd
  | s :: rest, st, stN, out, h => by
    unfold ingestSequences at h
    split at h
    · cases h
    rename_i d0 st1 h1
    split at h
    · cases h
    rename_i out1 st2 h2
    simp only [Except.ok.injEq, Prod.mk.injEq] at h
    obtain ⟨rfl, rfl⟩ := h
    obtain ⟨bIn, bTg, bAux, bEx, e1, k1, _⟩ :=
      ingestSequence_ok lay ext cfg nc fs st st1 s d0 hlay h1
    obtain ⟨hmore, k2⟩ := ingestSequences_appends lay ext cfg nc fs hlay rest st1 _ out1 h2
    intro d hd
    rcases List.mem_cons.mp hd with rfl | hd
    · exact ⟨s, st, st1, List.mem_cons_self _ _, h1, ⟨[], by simp⟩, rfl, hmore, k2.trans k1⟩
    · obtain ⟨s1, sa, sb, m1, m2, ⟨pre, m3⟩, m4, m5, m6⟩ :=
        ingestSequences_mem lay ext cfg nc fs hlay rest st1 _ out1 h2 d hd
      refine ⟨s1, sa, sb, List.mem_cons_of_mem _ m1, m2, ⟨bIn ++ bTg ++ bAux ++ bEx ++ pre, ?_⟩,
        m4.trans k1, m5, m6⟩
      rw [m3, e1]
      simp


theorem sampleLayout_sized : sampleLayout.Sized :=
  ⟨fun _ => rfl, fun _ => rfl, fun _ => rfl⟩

/-! ## Claims about the cache file and the auxiliary type dispatch -/

/-- C19: with the cache file modelled as the sequence of bytes written so far, take any
descriptor `d` of the index a successful run of the ingestion loop returns.  Its
ingestion appended, in this order, a block `bIn` of inputs, a block `bTg` of targets and a
block `bAux` of auxiliary data (then the external data `bEx`), and everything written
later, here and by the ingestion of further files (`later`), comes after them.  Reading
`length * inputPatternSize` values of type `real_t` at `inputsBegin` returns `bIn`,
reading the target block (`length` ints, or `length * outputPatternSize` reals) at
`targetsBegin` returns `bTg`, and with an auxiliary directory configured reading
`length * auxDataDim` auxiliary elements at `auxDataBegin` returns `bAux`. -/
theorem cache_round_trip (lay : Layout) (ext : Externals) (cfg : Configuration)
    (nc : NcFile) (fs : SideFiles) (st0 stN : Ingest) (seqs out : List sequence_t)
    (d : sequence_t) (later : List Nat) (hlay : lay.Sized)
    (hrun : ingestSequences lay ext cfg nc fs st0 seqs = Except.ok (out, stN))
    (hshift : ∀ s ∈ seqs, 0 ≤ s.beginInUtt * st0.ds.m_auxDataDim)
    (hd : d ∈ out) :
    ∃ (s : sequence_t) (st1 : Ingest) (bIn bTg bAux bEx more : List Nat),
      s ∈ seqs ∧ WroteBlocks lay ext nc fs st1 s bIn bTg bAux ∧
      stN.cache = st1.cache ++ bIn ++ bTg ++ bAux ++ bEx ++ more ∧
      cacheRead (stN.cache ++ later) d.inputsBegin
        ((lay.sizeofReal : Int) * (vecSize (d.length * stN.ds.m_inputPatternSize) : Int))
        = bIn ∧
      cacheRead (stN.cache ++ later) d.targetsBegin (targetBytes lay stN.ds d) = bTg ∧
      (stN.ds.m_auxDirPath.length > 0 →
        cacheRead (stN.cache ++ later) d.auxDataBegin
          ((auxElemSize lay ext st1.ds.m_auxDataTyp : Int) *
            (vecSize (d.length * stN.ds.m_auxDataDim) : Int)) = bAux) := by
  obtain ⟨s, st1, st2, hs, hstep, _, hk1, ⟨more, hmore⟩, hk2⟩ :=
    ingestSequences_mem lay ext cfg nc fs hlay seqs st0 stN out hrun d hd
  obtain ⟨bIn, bTg, bAux, bEx, e1, _, hw, l1, l2, l3, o1, o2, _⟩ :=
    ingestSequence_ok lay ext cfg nc fs st1 st2 s d hlay hstep
  simp only [ingestKey, Prod.mk.injEq] at hk1 hk2
  obtain ⟨p1, p2, p3, p4, p5⟩ := hk1
  obtain ⟨q1, q2, q3, q4, q5⟩ := hk2
  have hcache : stN.cache = st1.cache ++ bIn ++ bTg ++ bAux ++ bEx ++ more := by
    rw [hmore, e1]
  refine ⟨s, st1, bIn, bTg, bAux, bEx, more, hs, hw, hcache, ?_, ?_, ?_⟩
  · have e : (lay.sizeofReal : Int) * (vecSize (d.length * stN.ds.m_inputPatternSize) : Int)
        = (bIn.length : Int) := by
      rw [l1, q1]; push_cast; rfl
    rw [e, o1, hcache]
    have := cacheRead_block st1.cache bIn (bTg ++ bAux ++ bEx ++ more ++ later)
    simpa [List.append_assoc] using this
  · have e : targetBytes lay stN.ds d = (bTg.length : Int) := by
      rw [l2]
      unfold targetBytes
      rw [q2, q3]
    rw [e, o2, hcache]
    have := cacheRead_block (st1.cache ++ bIn) bTg (bAux ++ bEx ++ more ++ later)
    simpa [List.append_assoc] using this
  · intro hdir
    rw [q4] at hdir
    obtain ⟨g1, g2, g3⟩ := l3 hdir
    have hlen := g1 (by rw [p5]; exact hshift s hs)
    have e : (auxElemSize lay ext st1.ds.m_auxDataTyp : Int) *
        (vecSize (d.length * stN.ds.m_auxDataDim) : Int) = (bAux.length : Int) := by
      rw [hlen, q5]; push_cast; rfl
    rw [e, g2, hcache]
    have := cacheRead_block (st1.cache ++ bIn ++ bTg) bAux (bEx ++ more ++ later)
    simpa [List.append_assoc] using this

/-- Instance of C19: the second chunk of the sample utterance. -/
theorem cache_round_trip_witness :
    sampleLayout.Sized ∧
    ingestSequences sampleLayout sampleExternals {} sampleNc sampleSideFiles sampleIngest
      sampleChunks = Except.ok sampleIngested ∧
    (∀ s ∈ sampleChunks, 0 ≤ s.beginInUtt * sampleIngest.ds.m_auxDataDim) ∧
    readAt sampleIngested.1 1 ∈ sampleIngested.1 ∧
    ∃ (s : sequence_t) (st1 : Ingest) (bIn bTg bAux bEx more : List Nat),
      s ∈ sampleChunks ∧
      WroteBlocks sampleLayout sampleExternals sampleNc sampleSideFiles st1 s bIn bTg bAux ∧
      sampleIngested.2.cache = st1.cache ++ bIn ++ bTg ++ bAux ++ bEx ++ more ∧
      cacheRead (sampleIngested.2.cache ++ [7, 7]) (readAt sampleIngested.1 1).inputsBegin
        ((sampleLayout.sizeofReal : Int) *
          (vecSize ((readAt sampleIngested.1 1).length *
            sampleIngested.2.ds.m_inputPatternSize) : Int)) = bIn ∧
      cacheRead (sampleIngested.2.cache ++ [7, 7]) (readAt sampleIngested.1 1).targetsBegin
        (targetBytes sampleLayout sampleIngested.2.ds (readAt sampleIngested.1 1)) = bTg ∧
      (sampleIngested.2.ds.m_auxDirPath.length > 0 →
        cacheRead (sampleIngested.2.cache ++ [7, 7]) (readAt sampleIngested.1 1).auxDataBegin
          ((auxElemSize sampleLayout sampleExternals st1.ds.m_auxDataTyp : Int) *
            (vecSize ((readAt sampleIngested.1 1).length *
              sampleIngested.2.ds.m_auxDataDim) : Int)) = bAux) :=
  ⟨sampleLayout_sized, rfl, by decide, by decide,
    cache_round_trip sampleLayout sampleExternals {} sampleNc sampleSideFiles sampleIngest
      sampleIngested.2 sampleChunks sampleIngested.1 (readAt sampleIngested.1 1) [7, 7]
      sampleLayout_sized rfl (by decide) (by decide)⟩

theorem fail_to_open_ne (path : String) : "Fail to open " ++ path ≠ "Invalid auxDataTyp" := by
  intro h
  have := congrArg String.data h
  simp [String.data_append] at this

theorem fail_to_read_ne (path : String) : "Fail to read " ++ path ≠ "Invalid auxDataTyp" := by
  intro h
  have := congrArg String.data h
  simp [String.data_append] at this

theorem writeAuxBlock_ne_invalid {α : Type} (bytesOf : α → List Nat) (st : Ingest)
    (temp : List α) (n a b : Int) :
    writeAuxBlock bytesOf st temp n a b ≠ Except.error "Invalid auxDataTyp" := by
  unfold writeAuxBlock
  split_ifs
  · intro h
    simp only [Except.error.injEq] at h
    exact absurd h (by decide)
  · intro h
    cases h

/-- Step 3 can only end with the error `Invalid auxDataTyp` when both constants
`AUXDATATYPE_INT` and `AUXDATATYPE_FLOAT` are 0: with distinct constants no type tag is
ever rejected. -/
theorem ingestAux_ne_invalid (lay : Layout) (ext : Externals) (fs : SideFiles)
    (st : Ingest) (seq : sequence_t)
    (hdistinct : ext.AUXDATATYPE_INT ≠ ext.AUXDATATYPE_FLOAT) :
    ingestAux lay ext fs st seq ≠ Except.error "Invalid auxDataTyp" := by
  unfold ingestAux
  simp only
  intro h
  by_cases hdir : st.ds.m_auxDirPath.length > 0
  · rw [if_pos hdir] at h
    by_cases hchar : st.ds.m_auxDataTyp = ext.AUXDATATYPE_CHAR
    · rw [if_pos hchar] at h
      unfold readCharData at h
      split at h
      · rename_i e he
        split at he
        · simp only [Except.error.injEq] at he h
          rw [← he] at h
          exact fail_to_open_ne _ h
        · cases he
      · rename_i temp tempLength _
        cases hw : writeAuxBlock lay.charBytes st temp tempLength
            (seq.beginInUtt * st.ds.m_auxDataDim) (seq.length * st.ds.m_auxDataDim) with
        | error e =>
          rw [hw] at h
          simp only [Except.map, Except.error.injEq] at h
          rw [h] at hw
          exact writeAuxBlock_ne_invalid _ _ _ _ _ _ hw
        | ok st2 => rw [hw] at h; cases h
    · rw [if_neg hchar] at h
      by_cases hint : ext.AUXDATATYPE_INT ≠ 0
      · rw [if_pos hint] at h
        unfold readIntData at h
        split at h
        · rename_i e he
          split at he
          · simp only [Except.error.injEq] at he h
            rw [← he] at h
            exact fail_to_open_ne _ h
          · cases he
        · rename_i temp tempLength _
          cases hw : writeAuxBlock lay.intBytes
              { st with ds := { st.ds with m_auxDataTyp := ext.AUXDATATYPE_INT } } temp
              tempLength
              (seq.beginInUtt * st.ds.m_auxDataDim) (seq.length * st.ds.m_auxDataDim) with
          | error e =>
            rw [hw] at h
            simp only [Except.map, Except.error.injEq] at h
            rw [h] at hw
            exact writeAuxBlock_ne_invalid _ _ _ _ _ _ hw
          | ok st2 => rw [hw] at h; cases h
      · rw [if_neg hint] at h
        have hfloat : ext.AUXDATATYPE_FLOAT ≠ 0 := by
          intro hf
          apply hdistinct
          rw [hf]
          exact not_not.mp hint
        rw [if_pos hfloat] at h
        unfold readRealData at h
        split at h
        · rename_i e he
          split at he
          · simp only [Except.error.injEq] at he h
            rw [← he] at h
            exact fail_to_open_ne _ h
          · simp only at he
            split_ifs at he
            all_goals simp only [Except.error.injEq] at he h
            all_goals rw [← he] at h
            all_goals exact fail_to_read_ne _ h
        · rename_i temp tempLength _
          cases hw : writeAuxBlock lay.realBytes
              { st with ds := { st.ds with m_auxDataTyp := ext.AUXDATATYPE_FLOAT } } temp
              tempLength
              (seq.beginInUtt * st.ds.m_auxDataDim) (seq.length * st.ds.m_auxDataDim) with
          | error e =>
            rw [hw] at h
            simp only [Except.map, Except.error.injEq] at h
            rw [h] at hw
            exact writeAuxBlock_ne_invalid _ _ _ _ _ _ hw
          | ok st2 => rw [hw] at h; cases h
  · rw [if_neg hdir] at h
    cases h

/-- C20: the sample run has an auxiliary directory configured, two descriptors to ingest
and the type tag 7, which is none of the three distinct constants
`AUXDATATYPE_CHAR = 0`, `AUXDATATYPE_INT = 1`, `AUXDATATYPE_FLOAT = 2`.  The ingestion
does not fail with `Invalid auxDataTyp`: it returns both descriptors, having read the
auxiliary file as `int` data and overwritten `m_auxDataTyp` with `AUXDATATYPE_INT`. -/
theorem aux_dispatch_accepts_unknown_tag :
    sampleIngest.ds.m_auxDirPath.length > 0 ∧
    sampleIngest.ds.m_auxDataTyp ∉
      [sampleExternals.AUXDATATYPE_CHAR, sampleExternals.AUXDATATYPE_INT,
       sampleExternals.AUXDATATYPE_FLOAT] ∧
    ingestSequences sampleLayout sampleExternals {} sampleNc sampleSideFiles sampleIngest
      sampleChunks = Except.ok sampleIngested ∧
    sampleIngested.1.length = 2 ∧
    sampleIngested.2.ds.m_auxDataTyp = sampleExternals.AUXDATATYPE_INT := by
  refine ⟨by decide, by decide, rfl, by decide, by decide⟩

/-! ## The shape of the chunks of one utterance -/

/-- The loop appends at least one chunk for an utterance of positive length, and exactly
one when the first chunk takes the whole utterance. -/
theorem Chunks.single_iff {T : Int} {tag : String} {L k pos : Int}
    {chunks : List sequence_t} (h : Chunks T tag L k pos chunks) (hL : 0 < L) :
    chunks ≠ [] ∧ (chunks.length = 1 ↔ chunkLength T L = L) := by
  cases h with
  | done _ _ _ h0 => exact absurd hL h0
  | step _ _ _ rest _ hrest =>
    refine ⟨by simp, ?_⟩
    cases hrest with
    | done _ _ _ h0 =>
      have := chunkLength_le T L
      simp only [List.length_cons, List.length_nil, zero_add, true_iff]
      omega
    | step _ _ _ rest2 h0 _ =>
      simp only [List.length_cons]
      constructor
      · intro h1; omega
      · intro h1; omega

/-- The first chunk takes the whole utterance exactly when the guard of the loop does not
ask for a split. -/
theorem chunkLength_eq_self_iff (T L : Int) :
    chunkLength T L = L ↔ ¬ (T > 0 ∧ 2 * L > 3 * T) := by
  unfold chunkLength
  constructor
  · intro h hc
    rw [if_pos hc] at h
    have := min_le_left T L
    omega
  · intro h
    rw [if_neg h]

/-- The members of a single chunk: its length is the length of the utterance. -/
theorem Chunks.single_length {T : Int} {tag : String} {L k pos : Int}
    {chunks : List sequence_t} (h : Chunks T tag L k pos chunks) (hL : 0 < L)
    (h1 : chunks.length = 1) : ∀ c ∈ chunks, c.length = L := by
  have hs := (h.single_iff hL).2.1 h1
  cases h with
  | done _ _ _ h0 => exact absurd hL h0
  | step _ _ _ rest _ hrest =>
    have hr : rest = [] := by
      simp only [List.length_cons] at h1
      exact List.length_eq_zero.mp (by omega)
    subst hr
    intro c hc
    simp only [List.mem_singleton] at hc
    subst hc
    exact hs

/-! ## Claim about the shape of the chunks -/

/-- C28: the chunks the splitting loop produces for an utterance of length `L > 0`.  The
loop ends and appends at least one chunk.  With a truncation length `T > 0` every chunk
except the last has length exactly `T`, the last chunk has a length `r` with `0 < r` and
`2 r ≤ 3 T`, and there is a single chunk exactly when `2 L ≤ 3 T`.  A single chunk has
length `L`, and with `T ≤ 0` there is always a single chunk. -/
theorem chunk_structure (T : Int) (tag : String) (L : Int) (sequences : List sequence_t)
    (hL : 0 < L) :
    ∃ chunks, splitUtterance T tag L sequences = some (sequences ++ chunks) ∧
      chunks ≠ [] ∧
      (0 < T →
        (∀ (j : Nat) (c : sequence_t), j + 1 < chunks.length → chunks[j]? = some c →
          c.length = T) ∧
        (∀ c, chunks.getLast? = some c → 0 < c.length ∧ 2 * c.length ≤ 3 * T) ∧
        (chunks.length = 1 ↔ 2 * L ≤ 3 * T)) ∧
      (chunks.length = 1 → ∀ c ∈ chunks, c.length = L) ∧
      (T ≤ 0 → chunks.length = 1) := by
  obtain ⟨chunks, hrun, hch⟩ := splitUtterance_chunks T tag L sequences
  have hs := hch.single_iff hL
  have he := chunkLength_eq_self_iff T L
  refine ⟨chunks, hrun, hs.1, ?_, hch.single_length hL, ?_⟩
  · intro hT
    refine ⟨(hch.bounded hT).2, ?_, ?_⟩
    · intro c hc
      have hm : c ∈ chunks := List.mem_of_getLast?_eq_some hc
      exact ⟨hch.length_pos c hm, (hch.bounded hT).1 c hm⟩
    · rw [hs.2, he]
      constructor
      · intro h; by_contra h2; exact h ⟨hT, by omega⟩
      · intro h h2; omega
  · intro hT
    rw [hs.2, he]
    intro h2
    omega

theorem chunk_structure_witness :
    (0 : Int) < 12 ∧
      ∃ chunks, splitUtterance 5 "utt" 12 [] = some ([] ++ chunks) ∧
        chunks ≠ [] ∧
        ((0 : Int) < 5 →
          (∀ (j : Nat) (c : sequence_t), j + 1 < chunks.length → chunks[j]? = some c →
            c.length = 5) ∧
          (∀ c, chunks.getLast? = some c → 0 < c.length ∧ 2 * c.length ≤ 3 * 5) ∧
          (chunks.length = 1 ↔ 2 * (12 : Int) ≤ 3 * 5)) ∧
        (chunks.length = 1 → ∀ c ∈ chunks, c.length = 12) ∧
        ((5 : Int) ≤ 0 → chunks.length = 1) :=
  ⟨by decide, chunk_structure 5 "utt" 12 [] (by decide)⟩

/-! ## The index of an external input -/

theorem readAt_readNcPatternArray (arr : Int → real_t) (b n : Int) (k : Int)
    (h0 : 0 ≤ k) (h1 : k < n) :
    readAt (readNcPatternArray arr b n 1) k = arr (b + k) := by
  unfold readAt readNcPatternArray vecSize
  rw [if_pos h0]
  have hk : k.toNat < (n * 1).toNat := by omega
  rw [List.getD_eq_getElem _ _ (by simpa using hk)]
  simp only [List.getElem_map, List.getElem_range]
  congr 1
  omega

theorem readAt_shiftByFirst (v : List real_t) (k : Int) (h0 : 0 ≤ k)
    (h1 : k < (v.length : Int)) :
    readAt (shiftByFirst v) k = readAt v k - readAt v 0 := by
  unfold shiftByFirst
  have hk : k.toNat < v.length := by omega
  have e1 : readAt (v.map (fun x => x - readAt v 0)) k
      = (v.map (fun x => x - readAt v 0)).getD k.toNat default := by
    unfold readAt; rw [if_pos h0]
  have e2 : readAt v k = v.getD k.toNat default := by
    unfold readAt; rw [if_pos h0]
  rw [e1, e2, List.getD_eq_getElem _ _ (by simpa using hk), List.getD_eq_getElem _ _ hk]
  simp

/-! ## Claim about the index of an external input -/

/-- C23 as stated fails: with external input by index and the input values 3, 1, 2 the
copy written to the cache is 0, -2, -1 (every value minus the first), whose least value is
-2 and not zero. -/
theorem index_shift_minimum_not_zero :
    indexIngest.ds.m_exInputType = DATASET_EXINPUT_TYPE_1 ∧
      indexIngest.ds.m_inputPatternSize = 1 ∧
      ∃ seq1 st1,
        ingestInputs sampleLayout indexNc indexIngest { length := 3, seqTag := "utt" }
          = Except.ok (seq1, st1) ∧
        st1.cache = cacheWrite sampleLayout.realBytes [] [0, -2, -1] 0 3 ∧
        List.min? ([0, -2, -1] : List real_t) = some (-2) :=
  ⟨rfl, rfl, _, _, rfl, by decide, by decide⟩

/-- C23, amended: with external input by index (input pattern size 1) and a descriptor of
positive length, the copy of the input block written to the cache is the block with its
first value subtracted from every value, so the first written value is zero, and no
written value is negative when no value of the block is below the first (an index in
increasing order); the captured range is start = first value, end = last value + 1. -/
theorem index_normalisation (lay : Layout) (nc : NcFile) (st : Ingest) (seq : sequence_t)
    (hx : st.ds.m_exInputType = DATASET_EXINPUT_TYPE_1)
    (hp : st.ds.m_inputPatternSize = 1) (hl : 0 < seq.length) :
    ∃ written seq1,
      ingestInputs lay nc st seq = Except.ok (seq1,
        { st with
          cache := cacheWrite lay.realBytes st.cache written 0 (written.length : Int) }) ∧
      (written.length : Int) = seq.length ∧
      (∀ k, 0 ≤ k → k < seq.length →
        readAt written k = nc.inputs (st.inputsBegin + k) - nc.inputs st.inputsBegin) ∧
      readAt written 0 = 0 ∧
      seq1.exInputStartPos = nc.inputs st.inputsBegin ∧
      seq1.exInputEndPos = nc.inputs (st.inputsBegin + (seq.length - 1)) + 1 ∧
      ((∀ k, 0 ≤ k → k < seq.length →
          nc.inputs st.inputsBegin ≤ nc.inputs (st.inputsBegin + k)) →
        ∀ k, 0 ≤ k → k < seq.length → 0 ≤ readAt written k) := by
  have hlen : ((readNcPatternArray nc.inputs st.inputsBegin seq.length 1).length : Int)
      = seq.length := by
    rw [length_readNcPatternArray]; unfold vecSize; omega
  have h0 : readAt (readNcPatternArray nc.inputs st.inputsBegin seq.length 1) 0
      = nc.inputs st.inputsBegin := by
    rw [readAt_readNcPatternArray _ _ _ 0 (le_refl _) hl]; simp
  have hcell : ∀ k, 0 ≤ k → k < seq.length →
      readAt (shiftByFirst (readNcPatternArray nc.inputs st.inputsBegin seq.length 1)) k
        = nc.inputs (st.inputsBegin + k) - nc.inputs st.inputsBegin := by
    intro k hk0 hk1
    rw [readAt_shiftByFirst _ k hk0 (by omega), h0,
      readAt_readNcPatternArray _ _ _ k hk0 hk1]
  refine ⟨shiftByFirst (readNcPatternArray nc.inputs st.inputsBegin seq.length 1),
    { seq with inputsBegin := tellp st.cache
               exInputStartPos := nc.inputs st.inputsBegin
               exInputEndPos := nc.inputs (st.inputsBegin + (seq.length - 1)) + 1 },
    ?_, ?_, hcell, ?_, rfl, rfl, ?_⟩
  · unfold ingestInputs prepareInputs
    simp only [hx, hp, if_true, ne_eq, not_true_eq_false, if_false]
    rw [h0, readAt_readNcPatternArray _ _ _ (seq.length - 1) (by omega) (by omega)]
  · rw [length_shiftByFirst]; exact hlen
  · rw [hcell 0 (le_refl _) hl]; simp
  · intro hmono k hk0 hk1
    rw [hcell k hk0 hk1]
    exact sub_nonneg.mpr (hmono k hk0 hk1)

theorem index_normalisation_witness :
    indexIngest.ds.m_exInputType = DATASET_EXINPUT_TYPE_1 ∧
      indexIngest.ds.m_inputPatternSize = 1 ∧ (0 : Int) < 3 ∧
      ∃ written seq1,
        ingestInputs sampleLayout sampleNc indexIngest { length := 3, seqTag := "utt" }
          = Except.ok (seq1,
            { indexIngest with
              cache := cacheWrite sampleLayout.realBytes indexIngest.cache written 0
                (written.length : Int) }) ∧
        (written.length : Int) = 3 ∧
        (∀ k, 0 ≤ k → k < 3 →
          readAt written k
            = sampleNc.inputs (indexIngest.inputsBegin + k)
              - sampleNc.inputs indexIngest.inputsBegin) ∧
        readAt written 0 = 0 ∧
        seq1.exInputStartPos = sampleNc.inputs indexIngest.inputsBegin ∧
        seq1.exInputEndPos = sampleNc.inputs (indexIngest.inputsBegin + (3 - 1)) + 1 ∧
        ((∀ k, 0 ≤ k → k < 3 →
            sampleNc.inputs indexIngest.inputsBegin
              ≤ sampleNc.inputs (indexIngest.inputsBegin + k)) →
          ∀ k, 0 ≤ k → k < 3 → 0 ≤ readAt written k) :=
  ⟨rfl, rfl, by decide,
    index_normalisation sampleLayout sampleNc indexIngest { length := 3, seqTag := "utt" }
      rfl rfl (by decide)⟩



/-! ## The constructor: the calls it makes -/

/-- The preparation of the external input throws two messages only. -/
theorem prepareExInput_error (ext : Externals) (cfg : Configuration) (ds : DataSet)
    (e : String) (h : prepareExInput ext cfg ds = Except.error e) :
    e = "ExtInput options unequal length" ∨ e = "ExtInputDim(s) is not configured" := by
  unfold prepareExInput at h
  simp only at h
  split_ifs at h
  · left; exact (Except.error.inj h).symm
  · right; exact (Except.error.inj h).symm

/-- The preparation of the external output throws one message only. -/
theorem prepareExOutput_error (ext : Externals) (cfg : Configuration) (ds : DataSet)
    (e : String) (h : prepareExOutput ext cfg ds = Except.error e) :
    e = "ExOutput options unequal length" := by
  unfold prepareExOutput at h
  simp only at h
  split_ifs at h
  exact (Except.error.inj h).symm

/-- An exception of the loop over the files comes after at least one call. -/
theorem readNcFiles_error_events (lay : Layout) (ext : Externals) (cfg : Configuration)
    (disk : Disk) (fraction : ℚ) (T : Int) :
    ∀ (files : List String) (ff : Bool) (c : Construction) (e : String)
      (events : List Event),
      readNcFiles lay ext cfg disk fraction T files ff c = some (Except.error (e, events)) →
      events ≠ []
  | [], ff, c, e, events, h => by
    simp only [readNcFiles, Option.some.injEq] at h
    cases h
  | name :: rest, ff, c, e, events, h => by
    unfold readNcFiles at h
    split at h
    · simp only [Option.some.injEq, Except.error.injEq, Prod.mk.injEq] at h
      rw [← h.2]
      simp
    · split at h
      · cases h
      · simp only [Option.some.injEq, Except.error.injEq, Prod.mk.injEq] at h
        rw [← h.2]
        simp
      · exact readNcFiles_error_events lay ext cfg disk fraction T rest false _ e events h

/-- A run of the loop over the files that returns has made, for every file in turn, the
calls `nc_open`, `m_threadData.reset(new thread_data_t)`, the start of a thread and
`nc_close`. -/
theorem readNcFiles_events (lay : Layout) (ext : Externals) (cfg : Configuration)
    (disk : Disk) (fraction : ℚ) (T : Int) :
    ∀ (files : List String) (ff : Bool) (c c1 : Construction),
      readNcFiles lay ext cfg disk fraction T files ff c = some (Except.ok c1) →
      c1.events = c.events ++ files.flatMap (fun name =>
        [Event.ncOpen name, Event.newThreadData, Event.startThread, Event.ncClose])
  | [], ff, c, c1, h => by
    simp only [readNcFiles, Option.some.injEq, Except.ok.injEq] at h
    subst h
    simp
  | name :: rest, ff, c, c1, h => by
    unfold readNcFiles at h
    split at h
    · cases h
    · split at h
      · cases h
      · cases h
      · have := readNcFiles_events lay ext cfg disk fraction T rest false _ c1 h
        rw [this]
        simp

/-- The calls of a constructor that returns: the cache file is opened, then every file
is handled in turn. -/
theorem constructDataSet_events (lay : Layout) (ext : Externals) (cfg : Configuration)
    (disk : Disk) (ncfiles : List String) (parSeq : Int) (fraction : ℚ) (T : Int)
    (fracShuf seqShuf : Bool) (noiseDev : real_t) (cachePath : String) (c : Construction)
    (h : constructDataSet lay ext cfg disk ncfiles parSeq fraction T fracShuf seqShuf
      noiseDev cachePath = some (Except.ok c)) :
    ∃ tmpFileName, c.events = Event.cacheOpen tmpFileName :: ncfiles.flatMap (fun name =>
      [Event.ncOpen name, Event.newThreadData, Event.startThread, Event.ncClose]) := by
  unfold constructDataSet at h
  simp only at h
  by_cases hbad : fraction ≤ 0 ∨ fraction > 1
  · rw [if_pos hbad] at h
    cases h
  rw [if_neg hbad] at h
  unfold constructChecked at h
  split at h
  · cases h
  split at h
  · cases h
  simp only at h
  by_cases hg : ¬ disk.cacheGood = true
  · rw [if_pos hg] at h
    cases h
  rw [if_neg hg] at h
  split at h
  · cases h
  · cases h
  · rename_i c0 hrun
    simp only [Option.some.injEq, Except.ok.injEq] at h
    subst h
    have := readNcFiles_events lay ext cfg disk fraction T ncfiles true _ c0 hrun
    exact ⟨_, this⟩

theorem count_flatMap_start (files : List String) :
    (files.flatMap (fun name =>
      [Event.ncOpen name, Event.newThreadData, Event.startThread, Event.ncClose])).count
        Event.startThread = files.length ∧
    (files.flatMap (fun name =>
      [Event.ncOpen name, Event.newThreadData, Event.startThread, Event.ncClose])).count
        Event.newThreadData = files.length := by
  induction files with
  | nil => simp
  | cons a rest ih =>
    simp only [List.flatMap_cons, List.count_append, ih.1, ih.2, List.length_cons]
    constructor
    · have : List.count Event.startThread
          [Event.ncOpen a, Event.newThreadData, Event.startThread, Event.ncClose] = 1 := by
        simp [List.count_cons]
      omega
    · have : List.count Event.newThreadData
          [Event.ncOpen a, Event.newThreadData, Event.startThread, Event.ncClose] = 1 := by
        simp [List.count_cons]
      omega

/-! ## Claims about the calls of the constructor -/

/-- C25: the constructor throws `Invalid fraction` without having opened the cache file or
a NetCDF file (no call made) exactly when `fraction <= 0` or `fraction > 1`, with
`fraction` an exact rational; for a fraction in `(0, 1]` it goes on with the rest of the
constructor. -/
theorem fraction_validation (lay : Layout) (ext : Externals) (cfg : Configuration)
    (disk : Disk) (ncfiles : List String) (parSeq : Int) (fraction : ℚ) (T : Int)
    (fracShuf seqShuf : Bool) (noiseDev : real_t) (cachePath : String) :
    (constructDataSet lay ext cfg disk ncfiles parSeq fraction T fracShuf seqShuf noiseDev
        cachePath = some (Except.error ("Invalid fraction", []))
      ↔ (fraction ≤ 0 ∨ fraction > 1)) ∧
    ((0 < fraction ∧ fraction ≤ 1) →
      constructDataSet lay ext cfg disk ncfiles parSeq fraction T fracShuf seqShuf noiseDev
        cachePath =
      constructChecked lay ext cfg disk ncfiles fraction T cachePath
        { m_fractionShuffling := fracShuf
          m_sequenceShuffling := seqShuf
          m_noiseDeviation := noiseDev
          m_parallelSequences := parSeq
          m_totalTimesteps := 0
          m_minSeqLength := INT_MAX
          m_maxSeqLength := INT_MIN
          m_curFirstSeqIdx := -1 }) := by
  constructor
  · constructor
    · intro h
      by_contra hbad
      unfold constructDataSet at h
      simp only at h
      rw [if_neg hbad] at h
      unfold constructChecked at h
      split at h
      · rename_i e he
        simp only [Option.some.injEq, Except.error.injEq, Prod.mk.injEq] at h
        rcases prepareExInput_error _ _ _ _ he with h1 | h1
        · rw [h1] at h; exact absurd h.1 (by decide)
        · rw [h1] at h; exact absurd h.1 (by decide)
      split at h
      · rename_i e he
        simp only [Option.some.injEq, Except.error.injEq, Prod.mk.injEq] at h
        rw [prepareExOutput_error _ _ _ _ he] at h
        exact absurd h.1 (by decide)
      simp only at h
      by_cases hg : ¬ disk.cacheGood = true
      · rw [if_pos hg] at h
        simp at h
      · rw [if_neg hg] at h
        split at h
        · cases h
        · rename_i e hrun
          obtain ⟨msg, events⟩ := e
          simp only [Option.some.injEq, Except.error.injEq, Prod.mk.injEq] at h
          have := readNcFiles_error_events lay ext cfg disk fraction T ncfiles true _ msg
            events hrun
          exact this h.2
        · cases h
    · intro h
      unfold constructDataSet
      simp only
      rw [if_pos h]
  · intro h
    unfold constructDataSet
    simp only
    rw [if_neg (by
      intro hbad
      rcases hbad with h1 | h1
      · exact absurd h.1 (not_lt.mpr h1)
      · exact absurd h.2 (not_le.mpr h1))]

/-- Instances of C25 on the sample files: the fraction 2 is refused before any call, the
fraction 1 is not. -/
theorem fraction_validation_witness :
    constructDataSet sampleLayout sampleExternals {} sampleDisk ["a.nc"] 2 2 3 false false
        0 "" = some (Except.error ("Invalid fraction", [])) ∧
    constructDataSet sampleLayout sampleExternals {} sampleDisk ["a.nc"] 2 1 3 false false
        0 "" ≠ some (Except.error ("Invalid fraction", [])) :=
  ⟨(fraction_validation sampleLayout sampleExternals {} sampleDisk ["a.nc"] 2 2 3 false
      false 0 "").1.2 (Or.inr (by norm_num)),
    fun h => absurd ((fraction_validation sampleLayout sampleExternals {} sampleDisk
      ["a.nc"] 2 1 3 false false 0 "").1.1 h) (by norm_num)⟩

/-- C24: a constructor that returns has started one thread and made one `thread_data_t`
for every file of `ncfiles`, the statement `m_threadData.reset(new thread_data_t)` and the
start of the thread being inside the loop over the files.  With the two sample files
`a.nc` and `b.nc` the constructor returns, and two threads were started and two records
made, not one. -/
theorem thread_per_file :
    (∀ (lay : Layout) (ext : Externals) (cfg : Configuration) (disk : Disk)
        (ncfiles : List String) (parSeq : Int) (fraction : ℚ) (T : Int)
        (fracShuf seqShuf : Bool) (noiseDev : real_t) (cachePath : String)
        (c : Construction),
        constructDataSet lay ext cfg disk ncfiles parSeq fraction T fracShuf seqShuf
          noiseDev cachePath = some (Except.ok c) →
        c.events.count Event.startThread = ncfiles.length ∧
          c.events.count Event.newThreadData = ncfiles.length) ∧
    ∃ c, constructDataSet sampleLayout sampleExternals {} sampleDisk ["a.nc", "b.nc"] 2 1 3
        false false 0 "" = some (Except.ok c) ∧
      c.events.count Event.startThread = 2 ∧ c.events.count Event.newThreadData = 2 := by
  constructor
  · intro lay ext cfg disk ncfiles parSeq fraction T fracShuf seqShuf noiseDev cachePath c h
    obtain ⟨tmp, he⟩ := constructDataSet_events lay ext cfg disk ncfiles parSeq fraction T
      fracShuf seqShuf noiseDev cachePath c h
    rw [he]
    have := count_flatMap_start ncfiles
    simp only [List.count_cons, this.1, this.2]
    simp
  · exact ⟨_, rfl, by decide, by decide⟩

/-! ## The ingestion loop keeps the chunks and the other members of the data set -/

theorem ingestInputs_keeps (lay : Layout) (nc : NcFile) (st st1 : Ingest)
    (seq seq1 : sequence_t) (h : ingestInputs lay nc st seq = Except.ok (seq1, st1)) :
    chunkKey seq1 = chunkKey seq ∧ st1.ds = st.ds := by
  unfold ingestInputs prepareInputs at h
  simp only at h
  split at h
  · cases h
  · rename_i inputs seq2 hprep
    simp only [Except.ok.injEq, Prod.mk.injEq] at h
    obtain ⟨rfl, rfl⟩ := h
    split_ifs at hprep <;>
      (simp only [Except.ok.injEq, Prod.mk.injEq] at hprep
       obtain ⟨_, rfl⟩ := hprep
       exact ⟨rfl, rfl⟩)

theorem ingestTargets_keeps (lay : Layout) (nc : NcFile) (st st1 : Ingest)
    (seq seq1 : sequence_t) (h : ingestTargets lay nc st seq = Except.ok (seq1, st1)) :
    chunkKey seq1 = chunkKey seq ∧ st1.ds = st.ds := by
  unfold ingestTargets prepareTargets at h
  simp only at h
  split_ifs at h
  · simp only [Except.ok.injEq, Prod.mk.injEq] at h
    obtain ⟨rfl, rfl⟩ := h
    exact ⟨rfl, rfl⟩
  · simp only [Except.ok.injEq, Prod.mk.injEq] at h
    obtain ⟨rfl, rfl⟩ := h
    exact ⟨rfl, rfl⟩
  · simp only [Except.ok.injEq, Prod.mk.injEq] at h
    obtain ⟨rfl, rfl⟩ := h
    exact ⟨rfl, rfl⟩

theorem writeAuxBlock_keeps {α : Type} (bytesOf : α → List Nat) (st st1 : Ingest)
    (temp : List α) (n a b : Int) (h : writeAuxBlock bytesOf st temp n a b = Except.ok st1) :
    st1.ds = st.ds := by
  unfold writeAuxBlock at h
  split_ifs at h
  simp only [Except.ok.injEq] at h
  subst h
  rfl

theorem ingestAux_keeps (lay : Layout) (ext : Externals) (fs : SideFiles) (st st1 : Ingest)
    (seq seq1 : sequence_t) (h : ingestAux lay ext fs st seq = Except.ok (seq1, st1)) :
    chunkKey seq1 = chunkKey seq ∧ ingestFrame st1.ds = ingestFrame st.ds := by
  unfold ingestAux at h
  simp only at h
  by_cases hdir : st.ds.m_auxDirPath.length > 0
  · rw [if_pos hdir] at h
    by_cases hc : st.ds.m_auxDataTyp = ext.AUXDATATYPE_CHAR
    · rw [if_pos hc] at h
      split at h
      · cases h
      · rename_i temp n _
        cases hw : writeAuxBlock lay.charBytes st temp n
            (seq.beginInUtt * st.ds.m_auxDataDim) (seq.length * st.ds.m_auxDataDim) with
        | error e => rw [hw] at h; cases h
        | ok st2 =>
          rw [hw] at h
          simp only [Except.map, Except.ok.injEq, Prod.mk.injEq] at h
          obtain ⟨rfl, rfl⟩ := h
          exact ⟨rfl, by rw [writeAuxBlock_keeps _ _ _ _ _ _ _ hw]⟩
    · rw [if_neg hc] at h
      by_cases hi : ext.AUXDATATYPE_INT ≠ 0
      · rw [if_pos hi] at h
        split at h
        · cases h
        · rename_i temp n _
          cases hw : writeAuxBlock lay.intBytes
              { st with ds := { st.ds with m_auxDataTyp := ext.AUXDATATYPE_INT } } temp n
              (seq.beginInUtt * st.ds.m_auxDataDim) (seq.length * st.ds.m_auxDataDim) with
          | error e => rw [hw] at h; cases h
          | ok st2 =>
            rw [hw] at h
            simp only [Except.map, Except.ok.injEq, Prod.mk.injEq] at h
            obtain ⟨rfl, rfl⟩ := h
            exact ⟨rfl, by rw [writeAuxBlock_keeps _ _ _ _ _ _ _ hw]; rfl⟩
      · rw [if_neg hi] at h
        by_cases hf : ext.AUXDATATYPE_FLOAT ≠ 0
        · rw [if_pos hf] at h
          split at h
          · cases h
          · rename_i temp n _
            cases hw : writeAuxBlock lay.realBytes
                { st with ds := { st.ds with m_auxDataTyp := ext.AUXDATATYPE_FLOAT } } temp n
                (seq.beginInUtt * st.ds.m_auxDataDim) (seq.length * st.ds.m_auxDataDim) with
            | error e => rw [hw] at h; cases h
            | ok st2 =>
              rw [hw] at h
              simp only [Except.map, Except.ok.injEq, Prod.mk.injEq] at h
              obtain ⟨rfl, rfl⟩ := h
              exact ⟨rfl, by rw [writeAuxBlock_keeps _ _ _ _ _ _ _ hw]; rfl⟩
        · rw [if_neg hf] at h
          cases h
  · rw [if_neg hdir] at h
    simp only [Except.ok.injEq, Prod.mk.injEq] at h
    obtain ⟨rfl, rfl⟩ := h
    exact ⟨rfl, rfl⟩

theorem ingestExInput_keeps (lay : Layout) (ext : Externals) (cfg : Configuration)
    (fs : SideFiles) (st st1 : Ingest) (seq seq1 : sequence_t)
    (h : ingestExInput lay ext cfg fs st seq = Except.ok (seq1, st1)) :
    chunkKey seq1 = chunkKey seq ∧ st1.ds = st.ds := by
  unfold ingestExInput at h
  simp only at h
  by_cases hflag : st.ds.m_exInputFlag = true
  · rw [if_pos hflag] at h
    by_cases hdim : cfg.exInputDim > 0
    · rw [if_pos hdim] at h
      split at h
      · cases h
      · simp only [Except.ok.injEq, Prod.mk.injEq] at h
        obtain ⟨rfl, rfl⟩ := h
        exact ⟨rfl, rfl⟩
    · rw [if_neg hdim] at h
      by_cases hdims : cfg.exInputDims.length > 0
      · rw [if_pos hdims] at h
        split at h
        · cases h
        · simp only [Except.ok.injEq, Prod.mk.injEq] at h
          obtain ⟨rfl, rfl⟩ := h
          exact ⟨rfl, rfl⟩
      · rw [if_neg hdims] at h
        cases h
  · rw [if_neg hflag] at h
    simp only [Except.ok.injEq, Prod.mk.injEq] at h
    obtain ⟨rfl, rfl⟩ := h
    exact ⟨rfl, rfl⟩

theorem ingestExOutput_keeps (lay : Layout) (ext : Externals) (fs : SideFiles)
    (st st1 : Ingest) (seq seq1 : sequence_t)
    (h : ingestExOutput lay ext fs st seq = Except.ok (seq1, st1)) :
    chunkKey seq1 = chunkKey seq ∧ st1.ds = st.ds := by
  unfold ingestExOutput at h
  simp only at h
  by_cases hflag : st.ds.m_exOutputFlag = true
  · rw [if_pos hflag] at h
    split at h
    · cases h
    · simp only [Except.ok.injEq, Prod.mk.injEq] at h
      obtain ⟨rfl, rfl⟩ := h
      exact ⟨rfl, rfl⟩
  · rw [if_neg hflag] at h
    simp only [Except.ok.injEq, Prod.mk.injEq] at h
    obtain ⟨rfl, rfl⟩ := h
    exact ⟨rfl, rfl⟩

/-- The ingestion of one descriptor keeps what identifies the chunk, and changes no
member of the data set but the running extremes and `m_auxDataTyp`. -/
theorem ingestSequence_keeps (lay : Layout) (ext : Externals) (cfg : Configuration)
    (nc : NcFile) (fs : SideFiles) (st st1 : Ingest) (s d : sequence_t)
    (h : ingestSequence lay ext cfg nc fs st s = Except.ok (d, st1)) :
    chunkKey d = chunkKey s ∧ ingestFrame st1.ds = ingestFrame st.ds := by
  unfold ingestSequence at h
  simp only at h
  split at h
  · cases h
  rename_i seq1 st1' h1
  split at h
  · cases h
  rename_i seq2 st2' h2
  split at h
  · cases h
  rename_i seq3 st3' h3
  split at h
  · cases h
  rename_i seq4 st4' h4
  split at h
  · cases h
  rename_i seq5 st5' h5
  simp only [Except.ok.injEq, Prod.mk.injEq] at h
  obtain ⟨rfl, rfl⟩ := h
  obtain ⟨a1, a2⟩ := ingestInputs_keeps lay nc _ _ _ _ h1
  obtain ⟨b1, b2⟩ := ingestTargets_keeps lay nc _ _ _ _ h2
  obtain ⟨c1, c2⟩ := ingestAux_keeps lay ext fs _ _ _ _ h3
  obtain ⟨d1, d2⟩ := ingestExInput_keeps lay ext cfg fs _ _ _ _ h4
  obtain ⟨e1, e2⟩ := ingestExOutput_keeps lay ext fs _ _ _ _ h5
  refine ⟨by rw [e1, d1, c1, b1, a1], ?_⟩
  show ingestFrame st5'.ds = ingestFrame st.ds
  rw [e2, d2, c2, b2, a2]
  rfl

/-- The ingestion loop returns the descriptors it was given, in their order, with the
offsets filled in, and changes no member of the data set but the running extremes and
`m_auxDataTyp`. -/
theorem ingestSequences_keeps (lay : Layout) (ext : Externals) (cfg : Configuration)
    (nc : NcFile) (fs : SideFiles) :
    ∀ (seqs : List sequence_t) (st stN : Ingest) (out : List sequence_t),
      ingestSequences lay ext cfg nc fs st seqs = Except.ok (out, stN) →
      out.map chunkKey = seqs.map chunkKey ∧ ingestFrame stN.ds = ingestFrame st.ds
  | [], st, stN, out, h => by
    simp only [ingestSequences, Except.ok.injEq, Prod.mk.injEq] at h
    obtain ⟨rfl, rfl⟩ := h
    exact ⟨rfl, rfl⟩
  | s :: rest, st, stN, out, h => by
    unfold ingestSequences at h
    split at h
    · cases h
    rename_i d st1 h1
    split at h
    · cases h
    rename_i out1 st2 h2
    simp only [Except.ok.injEq, Prod.mk.injEq] at h
    obtain ⟨rfl, rfl⟩ := h
    obtain ⟨k1, f1⟩ := ingestSequence_keeps lay ext cfg nc fs st st1 s d h1
    obtain ⟨k2, f2⟩ := ingestSequences_keeps lay ext cfg nc fs rest st1 _ out1 h2
    exact ⟨by simp only [List.map_cons, k1, k2], f2.trans f1⟩

/-! ## The test of the sizes of a later file -/

theorem SizesAgree_congr (a b : DataSet) (nc : NcSource) (h : sizesOf a = sizesOf b)
    (hs : SizesAgree a nc) : SizesAgree b nc := by
  simp only [sizesOf, Prod.mk.injEq] at h
  obtain ⟨h1, h2, h3⟩ := h
  unfold SizesAgree at hs ⊢
  rw [← h1, ← h2, ← h3]
  exact hs

theorem hasNcDimension_eq (nc : NcSource) (d : String) :
    hasNcDimension nc d = (nc.dims d).isSome := by
  unfold hasNcDimension readNcDimension
  cases nc.dims d <;> rfl

/-- The test of a later file passes when the sizes agree, and throws one of the messages
of `sizeMessages` when they do not. -/
theorem checkSizes_spec (nc : NcSource) (ds : DataSet) :
    (SizesAgree ds nc → checkSizes nc ds = Except.ok ()) ∧
      (¬ SizesAgree ds nc → ∃ e ∈ sizeMessages, checkSizes nc ds = Except.error e) := by
  unfold SizesAgree checkSizes checkOutputSize
  rw [hasNcDimension_eq]
  unfold readNcDimension sizeMessages
  by_cases hc : ds.m_isClassificationData = true
  · simp only [hc, if_true]
    cases hl : nc.dims "numLabels" with
    | none =>
      simp
    | some numLabels =>
      by_cases ho : ds.m_outputPatternSize = (if numLabels = 2 then 1 else numLabels)
      · cases hi : nc.dims "inputPattSize" with
        | none => simp [ho]
        | some ips =>
          by_cases hips : ds.m_inputPatternSize = ips
          · simp [ho, hips]
          · have : ¬ ips = ds.m_inputPatternSize := fun h => hips h.symm
            simp [ho, hips, this]
      · simp [ho]
  · simp only [hc, if_false]
    cases ht : nc.dims "targetPattSize" with
    | none => simp
    | some ops =>
      by_cases ho : ds.m_outputPatternSize = ops
      · cases hi : nc.dims "inputPattSize" with
        | none => simp [ho]
        | some ips =>
          by_cases hips : ds.m_inputPatternSize = ips
          · simp [ho, hips]
          · have : ¬ ips = ds.m_inputPatternSize := fun h => hips h.symm
            simp [ho, hips, this]
      · have : ¬ ops = ds.m_outputPatternSize := fun h => ho h.symm
        simp [ho, this]

theorem sizesOf_of_frame (a b : DataSet) (h : ingestFrame a = ingestFrame b) :
    sizesOf a = sizesOf b ∧ a.m_sequences = b.m_sequences := by
  have e1 := congrArg DataSet.m_isClassificationData h
  have e2 := congrArg DataSet.m_inputPatternSize h
  have e3 := congrArg DataSet.m_outputPatternSize h
  have e4 := congrArg DataSet.m_sequences h
  exact ⟨by simp only [sizesOf, Prod.mk.injEq]; exact ⟨e1, e2, e3⟩, e4⟩

/-- What the first file fixes: the kind of the data is whether the file has the
dimension `numLabels`, and the sizes of the data set are the ones of the file. -/
theorem fixSizes_spec (nc : NcSource) (ds ds1 : DataSet)
    (h : fixSizes nc ds = Except.ok ds1) :
    ds1.m_isClassificationData = hasNcDimension nc "numLabels" ∧ SizesAgree ds1 nc ∧
      ds1.m_sequences = ds.m_sequences ∧ ds1.m_totalTimesteps = ds.m_totalTimesteps := by
  unfold fixSizes at h
  simp only at h
  rw [hasNcDimension_eq] at h ⊢
  unfold readNcDimension at h
  unfold SizesAgree
  cases hi : nc.dims "inputPattSize" with
  | none => rw [hi] at h; cases h
  | some ips =>
    rw [hi] at h
    simp only at h
    cases hl : nc.dims "numLabels" with
    | none =>
      rw [hl] at h
      simp only [Option.isSome_none, Bool.false_eq_true, if_false] at h
      cases ht : nc.dims "targetPattSize" with
      | none => rw [ht] at h; cases h
      | some ops =>
        rw [ht] at h
        simp only [Except.ok.injEq] at h
        subst h
        simp
    | some numLabels =>
      rw [hl] at h
      simp only [Option.isSome_some, if_true, Except.ok.injEq] at h
      subst h
      simp

/-- The block that fixes or tests the sizes: afterwards the sizes of the file agree with
the ones of the data set, and a later file leaves the data set as it is. -/
theorem checkInputOutputSize_spec (nc : NcSource) (ff : Bool) (ds ds1 : DataSet)
    (h : checkInputOutputSize nc ff ds = Except.ok ds1) :
    SizesAgree ds1 nc ∧ ds1.m_sequences = ds.m_sequences ∧
      ds1.m_totalTimesteps = ds.m_totalTimesteps ∧
      (ff = true → ds1.m_isClassificationData = hasNcDimension nc "numLabels") ∧
      (ff = false → ds1 = ds) := by
  unfold checkInputOutputSize at h
  by_cases hf : ff = true
  · rw [if_pos hf] at h
    obtain ⟨h1, h2, h3, h4⟩ := fixSizes_spec nc ds ds1 h
    exact ⟨h2, h3, h4, fun _ => h1, fun h0 => by rw [h0] at hf; cases hf⟩
  · rw [if_neg hf] at h
    split at h
    · cases h
    · rename_i u hu
      simp only [Except.ok.injEq] at h
      subst h
      have hs : SizesAgree ds nc := by
        by_contra hn
        obtain ⟨e, _, he⟩ := (checkSizes_spec nc ds).2 hn
        rw [he] at hu
        cases hu
      exact ⟨hs, rfl, rfl, fun h0 => absurd h0 hf, fun _ => rfl⟩

/-- The chunks of a list of utterances in the order of the utterances and, within an
utterance, in the order the splitting loop makes them. -/
theorem readSequences_order (T : Int) :
    ∀ (utts : List (Int × String)) (acc : List sequence_t) (tot : Int),
      ∃ (parts : List (List sequence_t)) (tot1 : Int),
        readSequences T utts (acc, tot) = some (acc ++ parts.flatten, tot1) ∧
        List.Forall₂ (fun u chunks => Chunks T u.2 u.1 0 0 chunks) utts parts
  | [], acc, tot => ⟨[], tot, by simp [readSequences], List.Forall₂.nil⟩
  | (L, tag) :: rest, acc, tot => by
    obtain ⟨chunks, hrun, hch⟩ := splitUtterance_chunks T tag L acc
    obtain ⟨parts, tot1, hrest, hall⟩ := readSequences_order T rest (acc ++ chunks) (tot + L)
    refine ⟨chunks :: parts, tot1, ?_, List.Forall₂.cons hch hall⟩
    simp only [readSequences, hrun]
    rw [hrest]
    simp

/-- The body of the `try` block for one file always ends, with an exception or with the
descriptors of the file. -/
theorem readNcFile_returns (lay : Layout) (ext : Externals) (cfg : Configuration)
    (side : SideFiles) (fraction : ℚ) (T : Int) (nc : NcSource) (ff : Bool) (ds : DataSet)
    (cache : List Nat) :
    ∃ r, readNcFile lay ext cfg side fraction T nc ff ds cache = some r := by
  unfold readNcFile
  split
  · exact ⟨_, rfl⟩
  rename_i ml _
  split
  · exact ⟨_, rfl⟩
  rename_i ds1 _
  split
  · exact ⟨_, rfl⟩
  rename_i numSeqs _
  simp only
  obtain ⟨parts, tot1, hrun, _⟩ := readSequences_order T
    (readUtterances nc (max (scaleNumSeqs numSeqs fraction) 1) ml) [] ds1.m_totalTimesteps
  rw [hrun]
  simp only
  split
  · exact ⟨_, rfl⟩
  · exact ⟨_, rfl⟩

/-- What a run of the body of the `try` block that returns has done. -/
theorem readNcFile_spec (lay : Layout) (ext : Externals) (cfg : Configuration)
    (side : SideFiles) (fraction : ℚ) (T : Int) (nc : NcSource) (ff : Bool)
    (ds ds1 : DataSet) (cache cache1 : List Nat) (seqs1 : List sequence_t)
    (h : readNcFile lay ext cfg side fraction T nc ff ds cache
      = some (Except.ok (seqs1, ds1, cache1))) :
    (∃ (m n : Int) (parts : List (List sequence_t)),
        nc.dims "maxSeqTagLength" = some m ∧ nc.dims "numSeqs" = some n ∧
        List.Forall₂ (fun u chunks => Chunks T u.2 u.1 0 0 chunks)
          (readUtterances nc (max (scaleNumSeqs n fraction) 1) m) parts ∧
        seqs1.map chunkKey = parts.flatten.map chunkKey) ∧
      ds1.m_sequences = ds.m_sequences ∧ SizesAgree ds1 nc ∧
      (ff = true → ds1.m_isClassificationData = hasNcDimension nc "numLabels") ∧
      (ff = false → sizesOf ds1 = sizesOf ds ∧ SizesAgree ds nc) := by
  unfold readNcFile at h
  split at h
  · cases h
  rename_i ml hml
  split at h
  · cases h
  rename_i ds0 hds0
  split at h
  · cases h
  rename_i numSeqs hnum
  simp only at h
  obtain ⟨parts, tot1, hrun, hparts⟩ := readSequences_order T
    (readUtterances nc (max (scaleNumSeqs numSeqs fraction) 1) ml) [] ds0.m_totalTimesteps
  rw [hrun] at h
  simp only at h
  split at h
  · cases h
  rename_i out st hing
  simp only [Option.some.injEq, Except.ok.injEq, Prod.mk.injEq] at h
  obtain ⟨rfl, rfl, rfl⟩ := h
  obtain ⟨hk, hfr⟩ := ingestSequences_keeps lay ext cfg nc.vars side _ _ _ _ hing
  obtain ⟨hsz, hseq⟩ := sizesOf_of_frame _ _ hfr
  obtain ⟨c1, c2, c3, c4, c5⟩ := checkInputOutputSize_spec nc ff ds ds0 hds0
  have hsz0 : sizesOf st.ds = sizesOf ds0 := hsz
  have hml2 : nc.dims "maxSeqTagLength" = some ml := by
    unfold readNcDimension at hml
    cases hd : nc.dims "maxSeqTagLength" with
    | none => rw [hd] at hml; cases hml
    | some x => rw [hd] at hml; cases hml; rfl
  have hnum2 : nc.dims "numSeqs" = some numSeqs := by
    unfold readNcDimension at hnum
    cases hd : nc.dims "numSeqs" with
    | none => rw [hd] at hnum; cases hnum
    | some x => rw [hd] at hnum; cases hnum; rfl
  refine ⟨⟨ml, numSeqs, parts, hml2, hnum2, hparts, ?_⟩, ?_, ?_, ?_, ?_⟩
  · rw [hk]; simp
  · rw [hseq]; exact c2
  · exact SizesAgree_congr ds0 st.ds nc hsz0.symm c1
  · intro hf
    have e := congrArg (fun t => t.1) hsz0
    simp only [sizesOf] at e
    rw [e]
    exact c4 hf
  · intro hf
    have := c5 hf
    subst this
    exact ⟨hsz0, c1⟩

/-- The loop over the files always ends. -/
theorem readNcFiles_returns (lay : Layout) (ext : Externals) (cfg : Configuration)
    (disk : Disk) (fraction : ℚ) (T : Int) :
    ∀ (files : List String) (ff : Bool) (c : Construction),
      ∃ r, readNcFiles lay ext cfg disk fraction T files ff c = some r
  | [], ff, c => ⟨_, rfl⟩
  | name :: rest, ff, c => by
    unfold readNcFiles
    split
    · exact ⟨_, rfl⟩
    · rename_i nc _
      obtain ⟨r, hr⟩ := readNcFile_returns lay ext cfg disk.side fraction T nc ff c.ds c.cache
      rw [hr]
      cases r with
      | error e => exact ⟨_, rfl⟩
      | ok v =>
        obtain ⟨sequences, ds1, cache1⟩ := v
        exact readNcFiles_returns lay ext cfg disk fraction T rest false _

/-- The loop over the files appends the descriptors in ingestion order, and every file it
handles agrees in its sizes with the data set the loop returns. -/
theorem readNcFiles_spec (lay : Layout) (ext : Externals) (cfg : Configuration)
    (disk : Disk) (fraction : ℚ) (T : Int) :
    ∀ (files : List String) (ff : Bool) (c c1 : Construction),
      readNcFiles lay ext cfg disk fraction T files ff c = some (Except.ok c1) →
      (∃ more, c1.ds.m_sequences.map chunkKey = c.ds.m_sequences.map chunkKey ++ more ∧
        InFileOrder disk fraction T files more) ∧
      (∀ name ∈ files, ∃ nc, disk.nc name = some nc ∧ SizesAgree c1.ds nc) ∧
      (ff = false → sizesOf c1.ds = sizesOf c.ds) ∧
      (ff = true → ∀ first rest, files = first :: rest →
        ∃ nc0, disk.nc first = some nc0 ∧
          c1.ds.m_isClassificationData = hasNcDimension nc0 "numLabels")
  | [], ff, c, c1, h => by
    simp only [readNcFiles, Option.some.injEq, Except.ok.injEq] at h
    subst h
    refine ⟨⟨[], by simp, InFileOrder.nil⟩, ?_, fun _ => rfl, ?_⟩
    · intro name hn
      cases hn
    · intro _ first rest hf
      cases hf
  | name :: rest, ff, c, c1, h => by
    unfold readNcFiles at h
    split at h
    · cases h
    rename_i nc hnc
    split at h
    · cases h
    · cases h
    rename_i sequences ds1 cache1 hfile
    obtain ⟨⟨m, n, parts, hm, hn, hparts, hkeys⟩, hseq, hagree, hfirst, hlater⟩ :=
      readNcFile_spec lay ext cfg disk.side fraction T nc ff c.ds ds1 c.cache cache1
        sequences hfile
    obtain ⟨⟨more, hmore, hord⟩, hall, hsz, _⟩ :=
      readNcFiles_spec lay ext cfg disk fraction T rest false _ c1 h
    have hsz1 : sizesOf c1.ds = sizesOf ds1 := hsz rfl
    refine ⟨⟨parts.flatten.map chunkKey ++ more, ?_,
      InFileOrder.cons name rest nc m n parts more hnc hm hn hparts hord⟩, ?_, ?_, ?_⟩
    · rw [hmore]
      simp only [List.map_append, List.append_assoc]
      rw [hseq, hkeys]
    · intro x hx
      rcases List.mem_cons.mp hx with rfl | hx
      · exact ⟨nc, hnc, SizesAgree_congr ds1 c1.ds nc hsz1.symm hagree⟩
      · exact hall x hx
    · intro hf
      rw [hsz1]
      exact (hlater hf).1
    · intro hf first rest1 hfr
      simp only [List.cons.injEq] at hfr
      obtain ⟨rfl, _⟩ := hfr
      refine ⟨nc, hnc, ?_⟩
      have e := congrArg (fun t => t.1) hsz1
      simp only [sizesOf] at e
      rw [e]
      exact hfirst hf

/-- The end of the constructor keeps the kind of the data and the pattern sizes. -/
theorem sizesOf_finishConstruction (cfg : Configuration) (ds : DataSet) :
    sizesOf (finishConstruction cfg ds) = sizesOf ds := by
  unfold finishConstruction
  simp only
  split_ifs <;> rfl

/-- A constructor that returns has run the loop over the files from the prepared data
set, and ended with `finishConstruction`. -/
theorem constructDataSet_ok (lay : Layout) (ext : Externals) (cfg : Configuration)
    (disk : Disk) (ncfiles : List String) (parSeq : Int) (fraction : ℚ) (T : Int)
    (fracShuf seqShuf : Bool) (noiseDev : real_t) (cachePath : String) (c : Construction)
    (h : constructDataSet lay ext cfg disk ncfiles parSeq fraction T fracShuf seqShuf
      noiseDev cachePath = some (Except.ok c)) :
    ∃ (c0 c1 : Construction), c0.ds.m_sequences = [] ∧
      readNcFiles lay ext cfg disk fraction T ncfiles true c0 = some (Except.ok c1) ∧
      c.ds = finishConstruction cfg c1.ds := by
  unfold constructDataSet at h
  simp only at h
  by_cases hbad : fraction ≤ 0 ∨ fraction > 1
  · rw [if_pos hbad] at h
    cases h
  rw [if_neg hbad] at h
  unfold constructChecked at h
  split at h
  · cases h
  rename_i ds1 h1
  split at h
  · cases h
  rename_i ds2 h2
  simp only at h
  by_cases hg : ¬ disk.cacheGood = true
  · rw [if_pos hg] at h
    cases h
  rw [if_neg hg] at h
  split at h
  · cases h
  · cases h
  · rename_i c1 hrun
    simp only [Option.some.injEq, Except.ok.injEq] at h
    subst h
    refine ⟨_, c1, ?_, hrun, rfl⟩
    show ds2.m_sequences = []
    have e2 : ds2.m_sequences = ds1.m_sequences := by
      unfold prepareExOutput at h2
      simp only at h2
      split_ifs at h2 <;>
        (simp only [Except.ok.injEq] at h2
         subst h2
         rfl)
    rw [e2]
    unfold prepareExInput at h1
    simp only at h1
    split_ifs at h1 <;>
      (simp only [Except.ok.injEq] at h1
       subst h1
       rfl)

/-- The constructor always ends, with an exception or with the data set. -/
theorem constructDataSet_returns (lay : Layout) (ext : Externals) (cfg : Configuration)
    (disk : Disk) (ncfiles : List String) (parSeq : Int) (fraction : ℚ) (T : Int)
    (fracShuf seqShuf : Bool) (noiseDev : real_t) (cachePath : String) :
    ∃ r, constructDataSet lay ext cfg disk ncfiles parSeq fraction T fracShuf seqShuf
      noiseDev cachePath = some r := by
  unfold constructDataSet
  simp only
  split_ifs
  · exact ⟨_, rfl⟩
  unfold constructChecked
  split
  · exact ⟨_, rfl⟩
  split
  · exact ⟨_, rfl⟩
  simp only
  rename_i ds2 _
  by_cases hg : ¬ disk.cacheGood = true
  · rw [if_pos hg]
    exact ⟨_, rfl⟩
  rw [if_neg hg]
  obtain ⟨r, hr⟩ := readNcFiles_returns lay ext cfg disk fraction T ncfiles true
    { ds := ds2, cache := [],
      events := [Event.cacheOpen (if cachePath = "" then
        disk.temp_directory_path ++ "/" ++ disk.unique_path
        else cachePath ++ "/" ++ disk.unique_path)] }
  rw [hr]
  cases r with
  | error e => exact ⟨_, rfl⟩
  | ok v => exact ⟨_, rfl⟩

/-! ## The order of the index after the constructor -/

/-- The sort of the constructor leaves the index in ascending order of length. -/
theorem sort_comp_seqs_sorted (v : List sequence_t) :
    (sort comp_seqs v).Pairwise (fun a b => a.length ≤ b.length) := by
  unfold sort
  haveI : IsTotal sequence_t (fun a b => comp_seqs b a = false) :=
    ⟨fun a b => by
      simp only [comp_seqs, decide_eq_false_iff_not, not_lt]
      exact le_total a.length b.length⟩
  haveI : IsTrans sequence_t (fun a b => comp_seqs b a = false) :=
    ⟨fun a b c h1 h2 => by
      simp only [comp_seqs, decide_eq_false_iff_not, not_lt] at h1 h2 ⊢
      exact le_trans h1 h2⟩
  have h := List.sorted_insertionSort (fun a b => comp_seqs b a = false) v
  refine List.Pairwise.imp ?_ h
  intro a b hab
  simpa [comp_seqs] using hab

/-! ## Claims about the sizes of later files and the order of the index -/

/-- C22 as stated fails: the first file `a.nc` has no dimension `numLabels` (regression
data), the second file `c.nc` has one (classification data), and the constructor returns
a data set, of regression data. -/
theorem size_check_accepts_other_task_type :
    hasNcDimension sampleSource "numLabels" = false ∧
      hasNcDimension labelledSource "numLabels" = true ∧
      ∃ c, constructDataSet sampleLayout sampleExternals {} sampleDisk ["a.nc", "c.nc"] 2 1
          3 false false 0 "" = some (Except.ok c) ∧
        c.ds.m_isClassificationData = false ∧ c.ds.m_sequences.length = 4 :=
  ⟨by decide, by decide, _, rfl, by decide, by decide⟩

/-- C22, amended: take a file `name` after the first file of `ncfiles` whose sizes do not
agree with the ones the first file fixes (`SizesAgree`: for classification data the file
lacks `numLabels` or the output size derived from it differs; for regression data the
file lacks `targetPattSize` or it differs; or the file lacks `inputPattSize` or it
differs).  Then the constructor throws, and the test of the file against the sizes the
first file fixes throws one of the messages of `sizeMessages`.  Whether a later file has
the dimension `numLabels` is not tested for regression data. -/
theorem later_files_size_check (lay : Layout) (ext : Externals) (cfg : Configuration)
    (disk : Disk) (first : String) (rest : List String) (parSeq : Int) (fraction : ℚ)
    (T : Int) (fracShuf seqShuf : Bool) (noiseDev : real_t) (cachePath : String)
    (name : String) (nc0 nc : NcSource)
    (hfirst : disk.nc first = some nc0) (hname : name ∈ rest)
    (hnc : disk.nc name = some nc)
    (hdiff : ∀ ds : DataSet, ds.m_isClassificationData = hasNcDimension nc0 "numLabels" →
      SizesAgree ds nc0 → ¬ SizesAgree ds nc) :
    (∃ e, constructDataSet lay ext cfg disk (first :: rest) parSeq fraction T fracShuf
        seqShuf noiseDev cachePath = some (Except.error e)) ∧
      ∀ ds : DataSet, ds.m_isClassificationData = hasNcDimension nc0 "numLabels" →
        SizesAgree ds nc0 → ∃ e ∈ sizeMessages, checkSizes nc ds = Except.error e := by
  constructor
  · obtain ⟨r, hr⟩ := constructDataSet_returns lay ext cfg disk (first :: rest) parSeq
      fraction T fracShuf seqShuf noiseDev cachePath
    cases r with
    | error e => exact ⟨e, hr⟩
    | ok c =>
      exfalso
      obtain ⟨c0, c1, _, hrun, hfin⟩ := constructDataSet_ok lay ext cfg disk (first :: rest)
        parSeq fraction T fracShuf seqShuf noiseDev cachePath c hr
      obtain ⟨_, hall, _, hff⟩ :=
        readNcFiles_spec lay ext cfg disk fraction T (first :: rest) true c0 c1 hrun
      obtain ⟨nc0', h0, hcls⟩ := hff rfl first rest rfl
      rw [hfirst] at h0
      cases h0
      obtain ⟨ncA, hA, hagA⟩ := hall first (List.mem_cons_self _ _)
      rw [hfirst] at hA
      cases hA
      obtain ⟨ncB, hB, hagB⟩ := hall name (List.mem_cons_of_mem _ hname)
      rw [hnc] at hB
      cases hB
      exact hdiff c1.ds hcls hagA hagB
  · intro ds h1 h2
    exact (checkSizes_spec nc ds).2 (hdiff ds h1 h2)

/-- Instance of C22: after `a.nc` with two inputs per time step the file `d.nc` with three
is refused. -/
theorem later_files_size_check_witness :
    sampleDisk.nc "a.nc" = some sampleSource ∧ "d.nc" ∈ ["b.nc", "d.nc"] ∧
      sampleDisk.nc "d.nc" = some wideSource ∧
      (∀ ds : DataSet, ds.m_isClassificationData = hasNcDimension sampleSource "numLabels" →
        SizesAgree ds sampleSource → ¬ SizesAgree ds wideSource) ∧
      (∃ e, constructDataSet sampleLayout sampleExternals {} sampleDisk
          ("a.nc" :: ["b.nc", "d.nc"]) 2 1 3 false false 0 "" = some (Except.error e)) ∧
      ∀ ds : DataSet, ds.m_isClassificationData = hasNcDimension sampleSource "numLabels" →
        SizesAgree ds sampleSource →
        ∃ e ∈ sizeMessages, checkSizes wideSource ds = Except.error e :=
  have hdiff : ∀ ds : DataSet,
      ds.m_isClassificationData = hasNcDimension sampleSource "numLabels" →
      SizesAgree ds sampleSource → ¬ SizesAgree ds wideSource := by
    intro ds _ h1 h2
    have a1 : sampleSource.dims "inputPattSize" = some 2 := by decide
    have a2 : wideSource.dims "inputPattSize" = some 3 := by decide
    have e1 := h1.2
    have e2 := h2.2
    rw [a1] at e1
    rw [a2] at e2
    have := (Option.some.inj e1).trans (Option.some.inj e2).symm
    omega
  ⟨rfl, by decide, rfl, hdiff,
    later_files_size_check sampleLayout sampleExternals {} sampleDisk "a.nc"
      ["b.nc", "d.nc"] 2 1 3 false false 0 "" "d.nc" sampleSource wideSource rfl
      (by decide) rfl hdiff⟩

/-- C26: after a constructor that returns, the index is a rearrangement of the
descriptors in ingestion order (file after file, utterance after utterance, chunk after
chunk).  In training mode it is in ascending order of length: for all `i < j` the length
of entry `i` is at most the length of entry `j`.  Otherwise it is the descriptors in
ingestion order. -/
theorem load_time_order (lay : Layout) (ext : Externals) (cfg : Configuration)
    (disk : Disk) (ncfiles : List String) (parSeq : Int) (fraction : ℚ) (T : Int)
    (fracShuf seqShuf : Bool) (noiseDev : real_t) (cachePath : String) (c : Construction)
    (h : constructDataSet lay ext cfg disk ncfiles parSeq fraction T fracShuf seqShuf
      noiseDev cachePath = some (Except.ok c)) :
    ∃ ingested : List sequence_t,
      InFileOrder disk fraction T ncfiles (ingested.map chunkKey) ∧
      c.ds.m_sequences.Perm ingested ∧
      (cfg.trainingMode = true →
        ∀ (i j : Nat) (a b : sequence_t), i < j → c.ds.m_sequences[i]? = some a →
          c.ds.m_sequences[j]? = some b → a.length ≤ b.length) ∧
      (cfg.trainingMode = false → c.ds.m_sequences = ingested) := by
  obtain ⟨c0, c1, hnil, hrun, hfin⟩ := constructDataSet_ok lay ext cfg disk ncfiles parSeq
    fraction T fracShuf seqShuf noiseDev cachePath c h
  obtain ⟨⟨more, hmore, hord⟩, _, _, _⟩ :=
    readNcFiles_spec lay ext cfg disk fraction T ncfiles true c0 c1 hrun
  rw [hnil] at hmore
  simp only [List.map_nil, List.nil_append] at hmore
  refine ⟨c1.ds.m_sequences, by rw [hmore]; exact hord, ?_, ?_, ?_⟩
  · rw [hfin]
    unfold finishConstruction
    simp only
    split_ifs
    · exact sort_perm _ _
    · exact List.Perm.refl _
  · intro ht i j a b hij ha hb
    rw [hfin] at ha hb
    unfold finishConstruction at ha hb
    simp only [ht, if_true] at ha hb
    have hs := sort_comp_seqs_sorted c1.ds.m_sequences
    have hj : j < (sort comp_seqs c1.ds.m_sequences).length := by
      by_contra hge
      rw [List.getElem?_eq_none (by omega)] at hb
      cases hb
    have hi : i < (sort comp_seqs c1.ds.m_sequences).length := by omega
    rw [List.getElem?_eq_getElem hi] at ha
    rw [List.getElem?_eq_getElem hj] at hb
    cases ha
    cases hb
    exact List.pairwise_iff_getElem.mp hs i j hi hj hij
  · intro ht
    rw [hfin]
    unfold finishConstruction
    simp only [ht]
    rfl

/-- Instance of C26: the sample files in training mode. -/
theorem load_time_order_witness :
    constructDataSet sampleLayout sampleExternals { trainingMode := true } sampleDisk
        ["a.nc", "b.nc"] 2 1 3 false false 0 "" = some (Except.ok sampleConstruction) ∧
    ∃ ingested : List sequence_t,
      InFileOrder sampleDisk 1 3 ["a.nc", "b.nc"] (ingested.map chunkKey) ∧
      sampleConstruction.ds.m_sequences.Perm ingested ∧
      ((true = true) →
        ∀ (i j : Nat) (a b : sequence_t), i < j →
          sampleConstruction.ds.m_sequences[i]? = some a →
          sampleConstruction.ds.m_sequences[j]? = some b → a.length ≤ b.length) ∧
      ((true = false) → sampleConstruction.ds.m_sequences = ingested) :=
  ⟨rfl, load_time_order sampleLayout sampleExternals { trainingMode := true } sampleDisk
    ["a.nc", "b.nc"] 2 1 3 false false 0 "" sampleConstruction rfl⟩

/-! ## Claim about the variant of the auxiliary data -/

/-- C21: the sample configuration asks for the float variant of the auxiliary data
(`auxillaryDataTyp = AUXDATATYPE_FLOAT = 2`, with `AUXDATATYPE_CHAR = 0` and
`AUXDATATYPE_INT = 1`).  The constructor returns, but `m_auxDataTyp` is then
`AUXDATATYPE_INT`: the first descriptor recorded the tag 2 and the later ones the tag 1,
the cache file is the one the int variant writes, and the fraction built at start index 0
has an empty float buffer and six elements in the int buffer. -/
theorem float_variant_handled_as_int :
    auxConfiguration.auxillaryDataTyp = sampleExternals.AUXDATATYPE_FLOAT ∧
    ∃ c, constructDataSet sampleLayout sampleExternals auxConfiguration auxDisk ["a.nc"] 2 1
        3 false false 0 "" = some (Except.ok c) ∧
      c.ds.m_auxDataTyp = sampleExternals.AUXDATATYPE_INT ∧
      c.ds.m_sequences.map (fun s => s.auxDataTyp) = [2, 1, 1] ∧
      (∃ c1, constructDataSet sampleLayout sampleExternals
          { auxConfiguration with auxillaryDataTyp := 1 } auxDisk ["a.nc"] 2 1 3 false
          false 0 "" = some (Except.ok c1) ∧ c1.cache = c.cache) ∧
      ∃ frac gen, _makeFractionTask c.ds sampleExternals auxConfiguration {} 0
          = some (frac, gen) ∧
        frac.m_auxRealData = [] ∧ frac.m_auxIntData.length = 6 :=
  ⟨by decide, _, rfl, by decide, by decide, ⟨_, rfl, by decide⟩, _, _, rfl, by decide,
    by decide⟩

/-! ## The assembly of an external buffer from several files -/

/-- The position the loop of `readRealDataAndFill` writes element `i` to. -/
theorem fillPos_eq (D d off i : Int) (hd : 0 < d) (hi : 0 ≤ i) :
    Int.tdiv i d * D + off + Int.tmod i d = (i / d) * D + (off + i % d) := by
  rw [Int.tdiv_eq_ediv hi (le_of_lt hd), Int.tmod_eq_emod hi (le_of_lt hd)]
  ring

/-- One call of `readRealDataAndFill` with the range `a * d .. b * d` of a file that is
long enough: it returns `(b - a) * d`, keeps the size of the buffer, fills the columns
`off .. off + d - 1` of the rows `0 .. b - a - 1` and leaves the other columns alone. -/
theorem readRealDataAndFill_spec (fs : SideFiles) (path : String) (content : List real_t)
    (buf : List real_t) (a b D d off : Int)
    (hfile : fs.reals path = some content) (ha : 0 ≤ a) (hab : a < b) (hd : 0 < d)
    (hlen : b * d ≤ (content.length : Int)) (hoff : 0 ≤ off) (hoffd : off + d ≤ D)
    (hbuf : (b - a) * D ≤ (buf.length : Int)) :
    ∃ buf1, readRealDataAndFill fs path buf (a * d) (b * d) D d off
        = Except.ok (buf1, (b - a) * d) ∧
      buf1.length = buf.length ∧
      (∀ τ c, 0 ≤ τ → τ < b - a → 0 ≤ c → c < d →
        cellAt buf1 (τ * D + (off + c)) = some (readAt content ((a + τ) * d + c))) ∧
      (∀ τ x, 0 ≤ x → x < D → (x < off ∨ off + d ≤ x) →
        cellAt buf1 (τ * D + x) = cellAt buf (τ * D + x)) := by
  have had : a * d < b * d := Int.mul_lt_mul_of_pos_right hab hd
  have had0 : 0 ≤ a * d := Int.mul_nonneg ha (le_of_lt hd)
  have hn : b * d - a * d = (b - a) * d := by ring
  have hD : 0 < D := by omega
  unfold readRealDataAndFill
  rw [hfile]
  simp only
  have hne : ¬ b * d = -1 := by omega
  rw [if_neg hne]
  have hguard : ¬ (a * d ≥ b * d ∨ a * d < 0 ∨ b * d > (content.length : Int)) := by omega
  rw [if_neg hguard, hn]
  refine ⟨_, rfl, ?_, ?_, ?_⟩
  · exact length_forLoop_writes _ _ _ _
  · intro τ c hτ0 hτ1 hc0 hc1
    have hj0 : 0 ≤ τ * d + c := by
      have := Int.mul_nonneg hτ0 (le_of_lt hd)
      omega
    have hj1 : τ * d + c < (b - a) * d := by
      have h2 : (τ + 1) * d ≤ (b - a) * d :=
        Int.mul_le_mul_of_nonneg_right (by omega) (le_of_lt hd)
      rw [add_mul, one_mul] at h2
      omega
    have hq : (τ * d + c) / d = τ := by
      rw [add_comm, Int.add_mul_ediv_right _ _ (by omega), Int.ediv_eq_zero_of_lt hc0 hc1]
      simp
    have hr : (τ * d + c) % d = c := by
      rw [add_comm, Int.add_mul_emod_self, Int.emod_eq_of_lt hc0 hc1]
    have hcell := forLoop_cell ((b - a) * d)
      (fun i bb => writeAt bb (Int.tdiv i d * D + off + Int.tmod i d)
        (readAt content (a * d + i)))
      (fun bb => cellAt bb (τ * D + (off + c))) (fun _ => True) (τ * d + c)
      (fun cell => cell.map (fun _ => readAt content (a * d + (τ * d + c))))
      buf trivial hj0 hj1 (fun _ _ _ _ _ => trivial)
      (fun j st hj0' hj1' hne' _ => by
        show cellAt (writeAt st _ _) _ = _
        apply cellAt_writeAt_ne
        rw [fillPos_eq D d off j hd hj0']
        intro heq
        have hm0 := Int.emod_nonneg j (show d ≠ 0 by omega)
        have hm1 := Int.emod_lt_of_pos j hd
        obtain ⟨e1, e2⟩ := slice_offset_unique (P := D) (by omega) (by omega) (by omega)
          (by omega) heq
        have := Int.ediv_add_emod j d
        rw [← e1] at this
        have hcomm : d * τ = τ * d := mul_comm _ _
        omega)
      (fun st _ => by
        show cellAt (writeAt st _ _) _ = _
        rw [fillPos_eq D d off _ hd hj0, hq, hr]
        exact cellAt_writeAt_self st _ _)
    have h1 := hcell.1
    dsimp only at h1
    rw [h1]
    have hin := slice_offset_lt (C := b - a) (P := D) (k := τ) (d := off + c) hτ0 hτ1
      (by omega) (by omega)
    obtain ⟨x, hx⟩ := cellAt_lt_length buf (τ * D + (off + c)) hin.1 (by omega)
    rw [hx]
    simp only [Option.map_some']
    congr 2
    ring
  · intro τ x hx0 hx1 hout
    have hfr := forLoop_frame ((b - a) * d)
      (fun i bb => writeAt bb (Int.tdiv i d * D + off + Int.tmod i d)
        (readAt content (a * d + i)))
      (fun bb => cellAt bb (τ * D + x)) (fun _ => True) buf trivial
      (fun _ _ _ _ _ => trivial)
      (fun j st hj0' _ _ => by
        show cellAt (writeAt st _ _) _ = _
        apply cellAt_writeAt_ne
        rw [fillPos_eq D d off j hd hj0']
        intro heq
        have hm0 := Int.emod_nonneg j (show d ≠ 0 by omega)
        have hm1 := Int.emod_lt_of_pos j hd
        obtain ⟨_, e2⟩ := slice_offset_unique (P := D) hx0 hx1 (by omega) (by omega) heq
        omega)
    exact hfr.1

/-- The loop over the streams from the column `dimCnt` on: every stream fills its
columns, what is left of them stays, and the counts add up. -/
theorem fillExternalBuf_spec (fs : SideFiles) (seqTag : String) (a b D : Int)
    (ha : 0 ≤ a) (hab : a < b) :
    ∀ (rest : List (String × String × Int)) (buf : List real_t) (cnt dimCnt : Int),
      (∀ s ∈ rest, 0 < s.2.2 ∧ ∃ content,
        fs.reals (s.1 ++ "/" ++ seqTag ++ s.2.1) = some content ∧
        b * s.2.2 ≤ (content.length : Int)) →
      0 ≤ dimCnt → dimCnt + (rest.map (fun s => s.2.2)).sum ≤ D →
      (b - a) * D ≤ (buf.length : Int) →
      ∃ buf1, fillExternalBuf fs seqTag DATASET_EXINPUT_TYPE_1 a b D rest (buf, cnt, dimCnt)
          = Except.ok (buf1, cnt + (b - a) * (rest.map (fun s => s.2.2)).sum,
              dimCnt + (rest.map (fun s => s.2.2)).sum) ∧
        buf1.length = buf.length ∧
        (∀ τ x, 0 ≤ x → x < dimCnt →
          cellAt buf1 (τ * D + x) = cellAt buf (τ * D + x)) ∧
        ∀ (k : Nat) (s : String × String × Int), rest[k]? = some s →
          ∀ content, fs.reals (s.1 ++ "/" ++ seqTag ++ s.2.1) = some content →
          ∀ τ c, 0 ≤ τ → τ < b - a → 0 ≤ c → c < s.2.2 →
            cellAt buf1 (τ * D + (dimCnt + ((rest.take k).map (fun s => s.2.2)).sum + c))
              = some (readAt content ((a + τ) * s.2.2 + c))
  | [], buf, cnt, dimCnt, _, _, _, _ => by
    refine ⟨buf, by simp [fillExternalBuf], rfl, fun _ _ _ _ => rfl, ?_⟩
    intro k s hk
    simp at hk
  | (dir, fileExt, dim) :: rest, buf, cnt, dimCnt, hall, h0, hsum, hbuf => by
    have hsum1 : dimCnt + (dim + (rest.map (fun s => s.2.2)).sum) ≤ D := by
      simpa using hsum
    obtain ⟨hdim0, content, hfile, hlen0⟩ := hall (dir, fileExt, dim) (List.mem_cons_self _ _)
    have hdim : 0 < dim := hdim0
    have hlen : b * dim ≤ (content.length : Int) := hlen0
    clear hdim0 hlen0
    have hrestall : ∀ s ∈ rest, 0 < s.2.2 ∧ ∃ content,
        fs.reals (s.1 ++ "/" ++ seqTag ++ s.2.1) = some content ∧
        b * s.2.2 ≤ (content.length : Int) :=
      fun s hs => hall s (List.mem_cons_of_mem _ hs)
    have hnn : 0 ≤ (rest.map (fun s => s.2.2)).sum := by
      apply List.sum_nonneg
      intro x hx
      obtain ⟨s, hs, rfl⟩ := List.mem_map.mp hx
      exact le_of_lt (hrestall s hs).1
    obtain ⟨buf1, hcall, hlen1, hcells1, hframe1⟩ :=
      readRealDataAndFill_spec fs (dir ++ "/" ++ seqTag ++ fileExt) content buf a b D dim
        dimCnt hfile ha hab hdim hlen h0 (by omega) hbuf
    obtain ⟨buf2, hrun, hlen2, hframe2, hcells2⟩ :=
      fillExternalBuf_spec fs seqTag a b D ha hab rest buf1 (cnt + (b - a) * dim)
        (dimCnt + dim) hrestall (by omega) (by omega) (by rw [hlen1]; exact hbuf)
    refine ⟨buf2, ?_, by rw [hlen2, hlen1], ?_, ?_⟩
    · unfold fillExternalBuf
      simp only [if_true]
      rw [hcall]
      simp only
      rw [hrun]
      simp only [List.map_cons, List.sum_cons]
      congr 3
      · ring
      · ring
    · intro τ x hx0 hx1
      rw [hframe2 τ x hx0 (by omega)]
      exact hframe1 τ x hx0 (by omega) (Or.inl hx1)
    · intro k s hk content1 hfile1 τ c hτ0 hτ1 hc0 hc1
      cases k with
      | zero =>
        simp only [List.getElem?_cons_zero, Option.some.injEq] at hk
        subst hk
        simp only at hfile1 hc1 ⊢
        rw [hfile] at hfile1
        cases hfile1
        simp only [List.take_zero, List.map_nil, List.sum_nil, add_zero]
        rw [hframe2 τ (dimCnt + c) (by omega) (by omega)]
        exact hcells1 τ c hτ0 hτ1 hc0 hc1
      | succ k =>
        simp only [List.getElem?_cons_succ] at hk
        have := hcells2 k s hk content1 hfile1 τ c hτ0 hτ1 hc0 hc1
        simp only [List.take_succ_cons, List.map_cons, List.sum_cons]
        rw [← this]
        congr 2
        ring

/-- The columns of stream `k` lie inside a row: they start at the sum of the dimensions
of the streams before it. -/
theorem sumDims_take_le :
    ∀ (streams : List (String × String × Int)) (k : Nat) (s : String × String × Int),
      (∀ s ∈ streams, 0 < s.2.2) → streams[k]? = some s →
      0 ≤ sumDims (streams.take k) ∧ sumDims (streams.take k) + s.2.2 ≤ sumDims streams
  | [], k, s, _, hk => by simp at hk
  | t :: rest, 0, s, hpos, hk => by
    simp only [List.getElem?_cons_zero, Option.some.injEq] at hk
    subst hk
    have hnn : 0 ≤ sumDims rest := by
      unfold sumDims
      apply List.sum_nonneg
      intro x hx
      obtain ⟨s, hs, rfl⟩ := List.mem_map.mp hx
      exact le_of_lt (hpos s (List.mem_cons_of_mem _ hs))
    simp only [sumDims, List.take_zero, List.map_nil, List.sum_nil, List.map_cons,
      List.sum_cons] at hnn ⊢
    omega
  | t :: rest, k + 1, s, hpos, hk => by
    simp only [List.getElem?_cons_succ] at hk
    have ih := sumDims_take_le rest k s (fun s hs => hpos s (List.mem_cons_of_mem _ hs)) hk
    have ht := hpos t (List.mem_cons_self _ _)
    simp only [sumDims, List.take_succ_cons, List.map_cons, List.sum_cons] at ih ⊢
    omega

/-! ## Claim about the assembly of an external buffer -/

/-- C27 as stated fails: with the start `a = -1` before the end `b = 1`, one stream of
dimension 1 and a file that holds eight reals (at least `b * d = 1`), the call of
`readRealDataAndFill` throws, so no buffer is assembled and no count returned. -/
theorem external_assembly_negative_start :
    (-1 : Int) < 1 ∧
      (∀ s ∈ [("ex", ".a", (1 : Int))], 0 < s.2.2 ∧ ∃ content,
        exFiles.reals (s.1 ++ "/" ++ "utt" ++ s.2.1) = some content ∧
        1 * s.2.2 ≤ (content.length : Int)) ∧
      fillExternalBuf exFiles "utt" DATASET_EXINPUT_TYPE_1 (-1) 1
          (sumDims [("ex", ".a", 1)]) [("ex", ".a", 1)]
          (List.replicate (vecSize (sumDims [("ex", ".a", 1)] * (1 - (-1)))) 0, 0, 0)
        = Except.error "Fail to read in readReadlDataAndFill ex/utt.a" := by
  refine ⟨by decide, ?_, rfl⟩
  intro s hs
  simp only [List.mem_singleton] at hs
  subst hs
  exact ⟨by decide, [10, 11, 12, 13, 14, 15, 16, 17], rfl, by decide⟩

/-- C27, amended: streams with dimensions `d_s > 0`, `D` their sum, a captured range with
`0 ≤ a < b`, and every file holds at least `b * d_s` reals.  Then the calls of
`readRealDataAndFill`, one per stream, on the buffer of `D * (b - a)` zeros return; the
assembled buffer has `buf[τ * D + (d_0 + ... + d_{s-1}) + c] = file_s[(a + τ) * d_s + c]`
for `τ` in `[0, b - a)` and `c` in `[0, d_s)`; the count returned is `(b - a) * D`; and
every position written lies inside the buffer. -/
theorem external_assembly (fs : SideFiles) (seqTag : String)
    (streams : List (String × String × Int)) (a b : Int) (ha : 0 ≤ a) (hab : a < b)
    (hstreams : ∀ s ∈ streams, 0 < s.2.2 ∧ ∃ content,
      fs.reals (s.1 ++ "/" ++ seqTag ++ s.2.1) = some content ∧
      b * s.2.2 ≤ (content.length : Int)) :
    ∃ buf, fillExternalBuf fs seqTag DATASET_EXINPUT_TYPE_1 a b (sumDims streams) streams
        (List.replicate (vecSize (sumDims streams * (b - a))) 0, 0, 0)
        = Except.ok (buf, (b - a) * sumDims streams, sumDims streams) ∧
      (buf.length : Int) = sumDims streams * (b - a) ∧
      (∀ (k : Nat) (s : String × String × Int), streams[k]? = some s →
        ∀ content, fs.reals (s.1 ++ "/" ++ seqTag ++ s.2.1) = some content →
        ∀ τ c, 0 ≤ τ → τ < b - a → 0 ≤ c → c < s.2.2 →
          cellAt buf (τ * sumDims streams + sumDims (streams.take k) + c)
            = some (readAt content ((a + τ) * s.2.2 + c))) ∧
      ∀ (k : Nat) (s : String × String × Int), streams[k]? = some s →
        ∀ i, 0 ≤ i → i < (b - a) * s.2.2 →
          0 ≤ Int.tdiv i s.2.2 * sumDims streams + sumDims (streams.take k) + Int.tmod i s.2.2 ∧
          Int.tdiv i s.2.2 * sumDims streams + sumDims (streams.take k) + Int.tmod i s.2.2
            < (buf.length : Int) := by
  have hD : 0 ≤ sumDims streams := by
    unfold sumDims
    apply List.sum_nonneg
    intro x hx
    obtain ⟨s, hs, rfl⟩ := List.mem_map.mp hx
    exact le_of_lt (hstreams s hs).1
  have hsize : ((List.replicate (vecSize (sumDims streams * (b - a))) (0 : real_t)).length
      : Int) = sumDims streams * (b - a) := by
    rw [List.length_replicate]
    unfold vecSize
    have : 0 ≤ sumDims streams * (b - a) := Int.mul_nonneg hD (by omega)
    omega
  obtain ⟨buf, hrun, hlen, _, hcells⟩ :=
    fillExternalBuf_spec fs seqTag a b (sumDims streams) ha hab streams
      (List.replicate (vecSize (sumDims streams * (b - a))) 0) 0 0 hstreams (le_refl 0)
      (by unfold sumDims; omega) (by rw [hsize, mul_comm])
  have hlen2 : (buf.length : Int) = sumDims streams * (b - a) := by rw [hlen, hsize]
  refine ⟨buf, ?_, hlen2, ?_, ?_⟩
  · rw [hrun]
    simp [sumDims]
  · intro k s hk content hfile τ c hτ0 hτ1 hc0 hc1
    have := hcells k s hk content hfile τ c hτ0 hτ1 hc0 hc1
    rw [← this]
    congr 1
    simp only [sumDims]
    ring
  · intro k s hk i hi0 hi1
    have hd := (hstreams s (List.getElem?_mem hk)).1
    obtain ⟨hp0, hp1⟩ := sumDims_take_le streams k s (fun s hs => (hstreams s hs).1) hk
    rw [fillPos_eq (sumDims streams) s.2.2 (sumDims (streams.take k)) i hd hi0]
    have hm0 := Int.emod_nonneg i (show s.2.2 ≠ 0 by omega)
    have hm1 := Int.emod_lt_of_pos i hd
    have hq0 : 0 ≤ i / s.2.2 := Int.ediv_nonneg hi0 (le_of_lt hd)
    have hq1 : i / s.2.2 < b - a := Int.ediv_lt_of_lt_mul hd hi1
    have hin := slice_offset_lt (C := b - a) (P := sumDims streams) (k := i / s.2.2)
      (d := sumDims (streams.take k) + i % s.2.2) hq0 hq1 (by omega) (by omega)
    rw [hlen2, mul_comm (sumDims streams)]
    exact hin

/-- Instance of C27: the two sample streams, rows 1 and 2 of their files. -/
theorem external_assembly_witness :
    (0 : Int) ≤ 1 ∧ (1 : Int) < 3 ∧
    (∀ s ∈ exStreams, 0 < s.2.2 ∧ ∃ content,
      exFiles.reals (s.1 ++ "/" ++ "utt" ++ s.2.1) = some content ∧
      3 * s.2.2 ≤ (content.length : Int)) ∧
    ∃ buf, fillExternalBuf exFiles "utt" DATASET_EXINPUT_TYPE_1 1 3 (sumDims exStreams)
        exStreams (List.replicate (vecSize (sumDims exStreams * (3 - 1))) 0, 0, 0)
        = Except.ok (buf, (3 - 1) * sumDims exStreams, sumDims exStreams) ∧
      (buf.length : Int) = sumDims exStreams * (3 - 1) ∧
      (∀ (k : Nat) (s : String × String × Int), exStreams[k]? = some s →
        ∀ content, exFiles.reals (s.1 ++ "/" ++ "utt" ++ s.2.1) = some content →
        ∀ τ c, 0 ≤ τ → τ < 3 - 1 → 0 ≤ c → c < s.2.2 →
          cellAt buf (τ * sumDims exStreams + sumDims (exStreams.take k) + c)
            = some (readAt content ((1 + τ) * s.2.2 + c))) ∧
      ∀ (k : Nat) (s : String × String × Int), exStreams[k]? = some s →
        ∀ i, 0 ≤ i → i < (3 - 1) * s.2.2 →
          0 ≤ Int.tdiv i s.2.2 * sumDims exStreams + sumDims (exStreams.take k)
            + Int.tmod i s.2.2 ∧
          Int.tdiv i s.2.2 * sumDims exStreams + sumDims (exStreams.take k)
            + Int.tmod i s.2.2 < (buf.length : Int) :=
  have hstreams : ∀ s ∈ exStreams, 0 < s.2.2 ∧ ∃ content,
      exFiles.reals (s.1 ++ "/" ++ "utt" ++ s.2.1) = some content ∧
      3 * s.2.2 ≤ (content.length : Int) := by
    intro s hs
    simp only [exStreams, List.mem_cons, List.mem_singleton, List.not_mem_nil, or_false] at hs
    rcases hs with rfl | rfl
    · exact ⟨by decide, [10, 11, 12, 13, 14, 15, 16, 17], rfl, by decide⟩
    · exact ⟨by decide, [20, 21, 22, 23], rfl, by decide⟩
  ⟨by decide, by decide, hstreams,
    external_assembly exFiles "utt" exStreams 1 3 (by decide) (by decide) hstreams⟩

/-! ## The spans the context loop reads and writes -/

/-- The copies of one time step go from `contextSrcStart` to `contextTgtStart`. -/
theorem expandStep_spans (ds : DataSet) (cfg : Configuration) (ips i : Int)
    (seq : sequence_t) (inputs : List real_t) (timestep : Int) (buf : List real_t) :
    expandStep ds cfg ips i seq inputs timestep buf =
      forLoop (cfg.inputRightContext + cfg.inputLeftContext + 1) (fun offset_out buf2 =>
        copy_n inputs (contextSrcStart ds cfg seq timestep offset_out) ds.m_inputPatternSize
          buf2 (contextTgtStart ds ips i timestep offset_out)) buf := rfl

/-- The target offset is the pattern size times the number `C * (t * par + i) + k` of the
slice, `C` being the number of context positions. -/
theorem contextTgtStart_eq (ds : DataSet) (C i t k : Int) :
    contextTgtStart ds (C * ds.m_inputPatternSize) i t k =
      ds.m_inputPatternSize * (C * (t * ds.m_parallelSequences + i) + k) := by
  unfold contextTgtStart
  ring

/-- The number of a slice determines the time step, the slot and the context
position. -/
theorem slice_number_unique {C par t i k t' i' k' : Int} (hi0 : 0 ≤ i) (hi : i < par)
    (hi0' : 0 ≤ i') (hi' : i' < par) (hk0 : 0 ≤ k) (hk : k < C) (hk0' : 0 ≤ k')
    (hk' : k' < C)
    (h : C * (t * par + i) + k = C * (t' * par + i') + k') :
    t = t' ∧ i = i' ∧ k = k' := by
  have h2 : (t * par + i) * C + k = (t' * par + i') * C + k' := by
    rw [mul_comm _ C, mul_comm _ C]; exact h
  obtain ⟨e1, e2⟩ := slice_offset_unique hk0 hk hk0' hk' h2
  obtain ⟨e3, e4⟩ := cell_index_unique hi0 hi hi0' hi' e1
  exact ⟨e3, e4, e2⟩

/-- Two spans of `P` elements that start at `P * m` and `P * m'` with `m ≠ m'` do not
overlap. -/
theorem spans_disjoint {P m m' : Int} (hP : 0 < P) (h : m ≠ m') :
    P * m + P ≤ P * m' ∨ P * m' + P ≤ P * m := by
  rcases lt_or_gt_of_ne h with hlt | hgt
  · left
    have : P * (m + 1) ≤ P * m' := Int.mul_le_mul_of_nonneg_left (by omega) (le_of_lt hP)
    rw [mul_add, mul_one] at this
    exact this
  · right
    have : P * (m' + 1) ≤ P * m := Int.mul_le_mul_of_nonneg_left (by omega) (le_of_lt hP)
    rw [mul_add, mul_one] at this
    exact this

/-! ## Claim about the spans of the context loop -/

/-- C30: index safety of the context expansion in a built fraction, with a base pattern
size `P ≥ 1` and exact integers.  For a live slot `i`, a time step `0 ≤ t < length` and
a context position `0 ≤ k ≤ left + right`: the source span `[srcStart, srcStart + P)`
lies inside the slot's cached input block of `length * P` elements; the target span
`[tgtStart, tgtStart + P)` lies inside the input buffer of
`maxSeqLength * par * ((left + right + 1) * P)` elements; and the target span of every
other triple (time step, live slot, context position) does not overlap it. -/
theorem context_index_safety (ds : DataSet) (ext : Externals) (cfg : Configuration)
    (gen : NoiseGen) (first : Int) (res : DataSetFraction × NoiseGen) (i t k : Int)
    (hbuilt : _makeFractionTask ds ext cfg gen first = some res)
    (hP : 1 ≤ ds.m_inputPatternSize)
    (hi : Live ds first i)
    (ht0 : 0 ≤ t) (ht : t < (readAt ds.m_sequences (first + i)).length)
    (hk0 : 0 ≤ k) (hk : k ≤ cfg.inputLeftContext + cfg.inputRightContext) :
    (((_loadInputsFromCache ds (readAt ds.m_sequences (first + i))).length : Int) =
        (readAt ds.m_sequences (first + i)).length * ds.m_inputPatternSize ∧
      0 ≤ contextSrcStart ds cfg (readAt ds.m_sequences (first + i)) t k ∧
      contextSrcStart ds cfg (readAt ds.m_sequences (first + i)) t k + ds.m_inputPatternSize
        ≤ ((_loadInputsFromCache ds (readAt ds.m_sequences (first + i))).length : Int)) ∧
    ((res.1.m_inputs.length : Int) =
        res.1.m_maxSeqLength * ds.m_parallelSequences *
          ((cfg.inputLeftContext + cfg.inputRightContext + 1) * ds.m_inputPatternSize) ∧
      0 ≤ contextTgtStart ds res.1.m_inputPatternSize i t k ∧
      contextTgtStart ds res.1.m_inputPatternSize i t k + ds.m_inputPatternSize
        ≤ (res.1.m_inputs.length : Int)) ∧
    ∀ i' t' k', Live ds first i' → 0 ≤ t' →
      t' < (readAt ds.m_sequences (first + i')).length → 0 ≤ k' →
      k' ≤ cfg.inputLeftContext + cfg.inputRightContext → (t', i', k') ≠ (t, i, k) →
      contextTgtStart ds res.1.m_inputPatternSize i t k + ds.m_inputPatternSize
          ≤ contextTgtStart ds res.1.m_inputPatternSize i' t' k' ∨
        contextTgtStart ds res.1.m_inputPatternSize i' t' k' + ds.m_inputPatternSize
          ≤ contextTgtStart ds res.1.m_inputPatternSize i t k := by
  obtain ⟨fr0, hal, rfl⟩ := makeFractionTask_some ds ext cfg gen first res hbuilt
  obtain ⟨k1, _, k3, _⟩ := slotLoop_keeps ds ext cfg first fr0 gen
  obtain ⟨l1, _, _, _⟩ := slotLoop_lengths ds ext cfg first fr0 gen
  have hips : fr0.m_inputPatternSize =
      (cfg.inputLeftContext + cfg.inputRightContext + 1) * ds.m_inputPatternSize := by
    rw [hal.ips]; ring
  rw [k1, k3, l1, hips]
  generalize hseq : readAt ds.m_sequences (first + i) = seq at ht ⊢
  generalize hC : cfg.inputLeftContext + cfg.inputRightContext + 1 = C at hips ⊢
  have hk1 : k < C := by omega
  have hP0 : 0 < ds.m_inputPatternSize := by omega
  have hn : 1 ≤ seq.length := by omega
  have hle := (hal.live_le i hi).1
  rw [hseq] at hle
  refine ⟨?_, ?_, ?_⟩
  · have hlen : ((_loadInputsFromCache ds seq).length : Int)
        = seq.length * ds.m_inputPatternSize := by
      unfold _loadInputsFromCache vecSize
      rw [List.length_map, List.length_range]
      have := Int.mul_nonneg (show 0 ≤ seq.length by omega) (le_of_lt hP0)
      omega
    rw [hlen, contextSrcStart_eq ds cfg seq t k hP0 hn]
    have hcl := clamp_bounds (t + k - cfg.inputLeftContext) 0 (seq.length - 1) (by omega)
    have h1 := Int.mul_nonneg (le_of_lt hP0) hcl.1
    have h2 : ds.m_inputPatternSize *
        (clamp (t + k - cfg.inputLeftContext) 0 (seq.length - 1) + 1)
          ≤ ds.m_inputPatternSize * seq.length :=
      Int.mul_le_mul_of_nonneg_left (by omega) (le_of_lt hP0)
    rw [mul_add, mul_one, mul_comm ds.m_inputPatternSize seq.length] at h2
    exact ⟨rfl, h1, h2⟩
  · have hsize : (fr0.m_inputs.length : Int) =
        fr0.m_maxSeqLength * ds.m_parallelSequences * (C * ds.m_inputPatternSize) := by
      rw [hal.inputs, List.length_replicate, Int.toNat_of_nonneg hal.inputs_size, hips]
    rw [hsize, contextTgtStart_eq]
    have hc := slice_offset_lt (C := fr0.m_maxSeqLength) (P := ds.m_parallelSequences)
      ht0 (by omega) hi.1 hi.2.1
    have hm := slice_offset_lt (C := fr0.m_maxSeqLength * ds.m_parallelSequences) (P := C)
      hc.1 hc.2 hk0 hk1
    rw [mul_comm _ C] at hm
    have h1 := Int.mul_nonneg (le_of_lt hP0) hm.1
    have h2 : ds.m_inputPatternSize *
        (C * (t * ds.m_parallelSequences + i) + k + 1)
          ≤ ds.m_inputPatternSize * (fr0.m_maxSeqLength * ds.m_parallelSequences * C) :=
      Int.mul_le_mul_of_nonneg_left (by omega) (le_of_lt hP0)
    refine ⟨rfl, h1, ?_⟩
    have e : fr0.m_maxSeqLength * ds.m_parallelSequences * (C * ds.m_inputPatternSize)
        = ds.m_inputPatternSize * (fr0.m_maxSeqLength * ds.m_parallelSequences * C) := by
      ring
    rw [e]
    rw [mul_add, mul_one] at h2
    exact h2
  · intro i' t' k' hi' ht0' _ hk0' hk' hne
    rw [contextTgtStart_eq, contextTgtStart_eq]
    apply spans_disjoint hP0
    intro heq
    obtain ⟨e1, e2, e3⟩ := slice_number_unique hi.1 hi.2.1 hi'.1 hi'.2.1 hk0 hk1 hk0'
      (by omega) heq
    apply hne
    rw [e1, e2, e3]

/-- Instance of C30 on the sample data: slot 0, time step 1, context position 0. -/
theorem context_index_safety_witness :
    ∃ res, _makeFractionTask sampleDataSet sampleExternals sampleConfiguration {} 0 =
        some res ∧
      (1 ≤ sampleDataSet.m_inputPatternSize ∧ Live sampleDataSet 0 0 ∧ (0 : Int) ≤ 1 ∧
        1 < (readAt sampleDataSet.m_sequences (0 + 0)).length ∧ (0 : Int) ≤ 0 ∧
        0 ≤ sampleConfiguration.inputLeftContext + sampleConfiguration.inputRightContext) ∧
      (contextSrcStart sampleDataSet sampleConfiguration
          (readAt sampleDataSet.m_sequences (0 + 0)) 1 0 + sampleDataSet.m_inputPatternSize
        ≤ ((_loadInputsFromCache sampleDataSet
            (readAt sampleDataSet.m_sequences (0 + 0))).length : Int)) ∧
      (contextTgtStart sampleDataSet res.1.m_inputPatternSize 0 1 0
          + sampleDataSet.m_inputPatternSize ≤ (res.1.m_inputs.length : Int)) :=
  ⟨_, rfl, ⟨by decide, ⟨by decide, by decide, by decide⟩, by decide, by decide, by decide,
      by decide⟩,
    (context_index_safety sampleDataSet sampleExternals sampleConfiguration {} 0 _ 0 1 0 rfl
      (by decide) ⟨by decide, by decide, by decide⟩ (by decide) (by decide) (by decide)
      (by decide)).1.2.2,
    (context_index_safety sampleDataSet sampleExternals sampleConfiguration {} 0 _ 0 1 0 rfl
      (by decide) ⟨by decide, by decide, by decide⟩ (by decide) (by decide) (by decide)
      (by decide)).2.1.2.2⟩

/-! ## The periods of the request protocol -/

/-- The call past the end of the index, with what it leaves bound: nothing. -/
theorem getNextFraction_exhausted_idle (ext : Externals) (cfg : Configuration) (w : World)
    (c : Int) (hh : Handed w.ds c BoundTask.makeFirstFractionTask)
    (hc : (w.ds.m_sequences.length : Int) ≤ c) (hwf : WellFormed w.ds ext cfg)
    (hn : 1 ≤ w.ds.m_sequences.length) :
    ∃ (b : DataSetFraction × NoiseGen) (w1 : World),
      (_makeFirstFractionTask w.ds ext cfg w.rg w.gen).1 = some b ∧
      getNextFraction ext cfg w = some (none, w1) ∧
      Rewound w1.ds ∧ w1.ds.m_threadData.frac = some b.1 ∧
      w1.ds.m_sequences.Perm w.ds.m_sequences ∧ staticPart w1.ds = staticPart w.ds := by
  obtain ⟨b, seqs, rg1, hr, hperm, hb, hinfo, hw⟩ := nextFracThreadFn_first ext cfg w c hh hwf hn
  obtain ⟨hcur, ht, hfin, hterm⟩ := hh
  have hinit : initialWork w.ds = w.ds := initialWork_of_started w.ds (by omega)
  have hwait : waitFinished ext cfg { w with ds := initialWork w.ds } =
      some { ds := publish { w.ds with m_sequences := seqs } b.1, rg := rg1, gen := b.2 } := by
    rw [hinit]
    unfold waitFinished
    show (if w.ds.m_threadData.finished = true then _ else _) = _
    rw [hfin]
    simp only [Bool.false_eq_true, if_false]
    show (_nextFracThreadFn ext cfg w).bind _ = _
    rw [hw]
    rfl
  have hout := takeFraction_outside (publish { w.ds with m_sequences := seqs } b.1)
    (by show (seqs.length : Int) ≤ w.ds.m_curFirstSeqIdx
        rw [hperm.length_eq, hcur]; exact hc)
  refine ⟨b, World.mk (takeFraction (publish { w.ds with m_sequences := seqs } b.1)).2 rg1 b.2,
    by rw [hr], ?_, ?_, ?_, ?_, ?_⟩
  · unfold getNextFraction
    rw [hwait]
    simp only [Option.map_some']
    rw [hout]
  · rw [hout]
    exact ⟨rfl, rfl, rfl, hterm, b.1, rfl⟩
  · rw [hout]; rfl
  · rw [hout]; exact hperm
  · rw [hout]; rfl

theorem Phase.wellFormed {w0 w : World} {j : Nat} {ext : Externals} {cfg : Configuration}
    (h : Phase w0 j w) (hwf : WellFormed w0.ds ext cfg) : WellFormed w.ds ext cfg :=
  hwf.transfer h.static (fun _ hs => h.perm.subset hs)

theorem Phase.length {w0 w : World} {j : Nat} (h : Phase w0 j w) :
    w.ds.m_sequences.length = w0.ds.m_sequences.length := h.perm.length_eq

theorem Phase.parallel {w0 w : World} {j : Nat} (h : Phase w0 j w) :
    w.ds.m_parallelSequences = w0.ds.m_parallelSequences := staticPart_parallel h.static

/-- A call inside an epoch, `j` calls in with `j * p < n`: it returns a fraction and binds
the next task. -/
theorem Phase.step_present (ext : Externals) (cfg : Configuration) (w0 w : World) (j : Nat)
    (h : Phase w0 j w) (hwf : WellFormed w0.ds ext cfg)
    (hn : 1 ≤ w0.ds.m_sequences.length)
    (hj : (j : Int) * w0.ds.m_parallelSequences < (w0.ds.m_sequences.length : Int)) :
    ∃ (fr : DataSetFraction) (w1 : World),
      getNextFraction ext cfg w = some (some fr, w1) ∧ Phase w0 (j + 1) w1 := by
  have hwfw := h.wellFormed hwf
  have hlen := h.length
  have hpar := h.parallel
  have hp := hwf.par
  have e1 : ((j + 1 : Nat) : Int) * w0.ds.m_parallelSequences =
      (j : Int) * w0.ds.m_parallelSequences + w0.ds.m_parallelSequences := by
    push_cast; ring
  by_cases hj0 : j = 0
  · subst hj0
    rcases h.start rfl with hfresh | hrew
    · obtain ⟨b, dsb, w1, f1, f2, _, _, f5, f6, f7, f8⟩ :=
        getNextFraction_fresh ext cfg w hfresh hwfw (by rw [hlen]; exact hn)
      refine ⟨b.1, w1, f5, ?_⟩
      exact
        { static := f8.trans h.static
          perm := by rw [f7]; exact f2.trans h.perm
          start := fun h0 => by omega
          handed := fun _ => by
            rw [e1]
            simp only [Nat.cast_zero, zero_mul, zero_add]
            rw [nextTask_congr w1.ds w.ds _ (by rw [f7]; exact f2.length_eq), ← hpar]
            exact f6 }
    · obtain ⟨r1, r2, r3, r4, fr, r5⟩ := hrew
      obtain ⟨w1, k1, k2, k3, k4, _, _⟩ := getNextFraction_published ext cfg w 0 (le_refl 0)
        (by rw [hlen]; omega) r1 r3 r4
      rw [r5] at k1
      refine ⟨fr, w1, k1, ?_⟩
      exact
        { static := k4.trans h.static
          perm := by rw [k3]; exact h.perm
          start := fun h0 => by omega
          handed := fun _ => by
            rw [e1]
            simp only [Nat.cast_zero, zero_mul, zero_add]
            rw [nextTask_congr w1.ds w.ds _ (by rw [k3]), ← hpar]
            rw [zero_add] at k2
            exact k2 }
  · have hh := h.handed (by omega)
    have hI : InEpoch w0.ds w.ds.m_sequences j w :=
      { handed := hh, index := rfl, static := h.static }
    obtain ⟨b, w1, _, _, g3, g4⟩ := getNextFraction_inEpoch ext cfg w0.ds w.ds.m_sequences j w
      hI hwf h.perm hj
    refine ⟨b.1, w1, g3, ?_⟩
    exact
      { static := g4.static
        perm := by rw [g4.index]; exact h.perm
        start := fun h0 => by omega
        handed := fun _ => g4.handed }

/-- The call at the end of an epoch, `j` calls in with `n ≤ j * p`: it returns the null
fraction and leaves the data set rewound, with the first fraction of the next epoch
published. -/
theorem Phase.step_null (ext : Externals) (cfg : Configuration) (w0 w : World) (j : Nat)
    (h : Phase w0 j w) (hwf : WellFormed w0.ds ext cfg)
    (hn : 1 ≤ w0.ds.m_sequences.length) (hj1 : 1 ≤ j)
    (hj : (w0.ds.m_sequences.length : Int) ≤ (j : Int) * w0.ds.m_parallelSequences) :
    ∃ (b : DataSetFraction × NoiseGen) (w1 : World),
      (_makeFirstFractionTask w.ds ext cfg w.rg w.gen).1 = some b ∧
      getNextFraction ext cfg w = some (none, w1) ∧
      Rewound w1.ds ∧ w1.ds.m_threadData.frac = some b.1 ∧ Phase w0 0 w1 := by
  have hwfw := h.wellFormed hwf
  have hlen := h.length
  have hh := h.handed hj1
  have htask : nextTask w.ds ((j : Int) * w0.ds.m_parallelSequences) =
      BoundTask.makeFirstFractionTask := by
    unfold nextTask
    rw [if_neg (by rw [hlen]; omega)]
  rw [htask] at hh
  obtain ⟨b, w1, e1, e2, e3, e4, e5, e6⟩ := getNextFraction_exhausted_idle ext cfg w _ hh
    (by rw [hlen]; exact hj) hwfw (by rw [hlen]; exact hn)
  refine ⟨b, w1, e1, e2, e3, e4, ?_⟩
  exact
    { static := e6.trans h.static
      perm := e5.trans h.perm
      start := fun _ => Or.inr e3
      handed := fun h1 => by omega }

/-- Inside an epoch the start index is below the size of the index. -/
theorem epoch_inside (ds : DataSet) (hp : 1 ≤ ds.m_parallelSequences)
    (hn : 1 ≤ ds.m_sequences.length) (j : Nat) (hj : j < epochLength ds) :
    (j : Int) * ds.m_parallelSequences < (ds.m_sequences.length : Int) := by
  obtain ⟨_, h2, _⟩ := epochLength_bounds ds hp hn
  have h3 : (j : Int) * ds.m_parallelSequences
      ≤ ((epochLength ds - 1 : Nat) : Int) * ds.m_parallelSequences :=
    Int.mul_le_mul_of_nonneg_right (by omega) (by omega)
  omega

/-- The state after `e` whole periods and `j` further calls. -/
theorem phase_after (ext : Externals) (cfg : Configuration) (w : World)
    (hfresh : Fresh w.ds) (hwf : WellFormed w.ds ext cfg)
    (hn : 1 ≤ w.ds.m_sequences.length) :
    ∀ (e j : Nat), j ≤ epochLength w.ds →
      ∃ wm, afterCalls ext cfg (e * (epochLength w.ds + 1) + j) w = some wm ∧
        Phase w j wm := by
  obtain ⟨hK1, _, hK3⟩ := epochLength_bounds w.ds hwf.par hn
  have inner : ∀ (e : Nat),
      (∃ wm, afterCalls ext cfg (e * (epochLength w.ds + 1) + 0) w = some wm ∧
        Phase w 0 wm) →
      ∀ j : Nat, j ≤ epochLength w.ds →
        ∃ wm, afterCalls ext cfg (e * (epochLength w.ds + 1) + j) w = some wm ∧
          Phase w j wm := by
    intro e h0 j
    induction j with
    | zero => intro _; exact h0
    | succ j ih =>
      intro hj
      obtain ⟨wm, ha, hph⟩ := ih (by omega)
      obtain ⟨fr, w1, hcall, hph1⟩ := Phase.step_present ext cfg w wm j hph hwf hn
        (epoch_inside w.ds hwf.par hn j (by omega))
      exact ⟨w1, afterCalls_succ ext cfg _ w wm w1 _ ha hcall, hph1⟩
  intro e
  induction e with
  | zero =>
    apply inner 0
    refine ⟨w, by simp [afterCalls], ?_⟩
    exact
      { static := rfl
        perm := List.Perm.refl _
        start := fun _ => Or.inl hfresh
        handed := fun h1 => by omega }
  | succ e ih =>
    apply inner (e + 1)
    obtain ⟨wm, ha, hph⟩ := ih (epochLength w.ds) (le_refl _)
    obtain ⟨b, w1, _, hcall, _, _, hph1⟩ := Phase.step_null ext cfg w wm (epochLength w.ds)
      hph hwf hn hK1 hK3
    refine ⟨w1, ?_, hph1⟩
    have := afterCalls_succ ext cfg _ w wm w1 _ ha hcall
    have e1 : (e + 1) * (epochLength w.ds + 1) + 0
        = e * (epochLength w.ds + 1) + epochLength w.ds + 1 := by ring
    rw [e1]
    exact this

/-! ## Claim about the periods of the request protocol -/

/-- C29: for a fresh, well-formed data set with `n ≥ 1` descriptors and parallelism
`p ≥ 1`, with `K = ceil (n / p)`.  Call number `e * (K + 1) + j` (from 0, `j ≤ K`) returns:
for `j < K` a fraction, and a task is bound afterwards; for `j = K` the null fraction,
`m_curFirstSeqIdx` is then 0 and no task is bound, the fraction the first-fraction task
has built is published, and the next call returns that fraction. -/
theorem null_signal_period (ext : Externals) (cfg : Configuration) (w : World)
    (hfresh : Fresh w.ds) (hwf : WellFormed w.ds ext cfg)
    (hn : 1 ≤ w.ds.m_sequences.length) :
    ∀ (e j : Nat), j ≤ epochLength w.ds →
      ∃ (wm wm1 : World) (r : Option DataSetFraction),
        afterCalls ext cfg (e * (epochLength w.ds + 1) + j) w = some wm ∧
        getNextFraction ext cfg wm = some (r, wm1) ∧
        (j < epochLength w.ds →
          (∃ fr, r = some fr) ∧ ∃ task, wm1.ds.m_threadData.taskFn = some task) ∧
        (j = epochLength w.ds →
          r = none ∧ wm1.ds.m_curFirstSeqIdx = 0 ∧ wm1.ds.m_threadData.taskFn = none ∧
          ∃ (b : DataSetFraction × NoiseGen) (w2 : World),
            (_makeFirstFractionTask wm.ds ext cfg wm.rg wm.gen).1 = some b ∧
            wm1.ds.m_threadData.frac = some b.1 ∧
            getNextFraction ext cfg wm1 = some (some b.1, w2)) := by
  intro e j hj
  obtain ⟨hK1, _, hK3⟩ := epochLength_bounds w.ds hwf.par hn
  obtain ⟨wm, ha, hph⟩ := phase_after ext cfg w hfresh hwf hn e j hj
  by_cases hlt : j < epochLength w.ds
  · obtain ⟨fr, w1, hcall, hph1⟩ := Phase.step_present ext cfg w wm j hph hwf hn
      (epoch_inside w.ds hwf.par hn j hlt)
    refine ⟨wm, w1, some fr, ha, hcall, fun _ => ⟨⟨fr, rfl⟩, _, (hph1.handed (by omega)).2.1⟩,
      fun h => by omega⟩
  · have hjK : j = epochLength w.ds := by omega
    subst hjK
    obtain ⟨b, w1, hb, hcall, hrew, hfrac, hph1⟩ :=
      Phase.step_null ext cfg w wm (epochLength w.ds) hph hwf hn hK1 hK3
    obtain ⟨fr, w2, hnext, _⟩ := Phase.step_present ext cfg w w1 0 hph1 hwf hn (by
      simp only [Nat.cast_zero, zero_mul]
      omega)
    have hnext2 : getNextFraction ext cfg w1 = some (some b.1, w2) := by
      obtain ⟨r1, _, r3, r4, _⟩ := hrew
      obtain ⟨w3, k1, _⟩ := getNextFraction_published ext cfg w1 0 (le_refl 0)
        (by rw [hph1.length]; omega) r1 r3 r4
      rw [hfrac] at k1
      rw [k1] at hnext
      rw [k1]
      simp only [Option.some.injEq, Prod.mk.injEq] at hnext
      rw [hnext.2]
    exact ⟨wm, w1, none, ha, hcall, fun h => by omega,
      fun _ => ⟨rfl, hrew.1, hrew.2.1, b, w2, hb, hfrac, hnext2⟩⟩

/-- Instance of C29 on the sample data set: three descriptors, parallelism 2, so every
third call returns the null fraction. -/
theorem null_signal_period_witness :
    Fresh sampleDataSet ∧ WellFormed sampleDataSet sampleExternals sampleConfiguration ∧
    1 ≤ sampleDataSet.m_sequences.length ∧ epochLength sampleDataSet = 2 ∧
    ∀ (e j : Nat), j ≤ epochLength sampleDataSet →
      ∃ (wm wm1 : World) (r : Option DataSetFraction),
        afterCalls sampleExternals sampleConfiguration
          (e * (epochLength sampleDataSet + 1) + j) { ds := sampleDataSet } = some wm ∧
        getNextFraction sampleExternals sampleConfiguration wm = some (r, wm1) ∧
        (j < epochLength sampleDataSet →
          (∃ fr, r = some fr) ∧ ∃ task, wm1.ds.m_threadData.taskFn = some task) ∧
        (j = epochLength sampleDataSet →
          r = none ∧ wm1.ds.m_curFirstSeqIdx = 0 ∧ wm1.ds.m_threadData.taskFn = none ∧
          ∃ (b : DataSetFraction × NoiseGen) (w2 : World),
            (_makeFirstFractionTask wm.ds sampleExternals sampleConfiguration wm.rg
              wm.gen).1 = some b ∧
            wm1.ds.m_threadData.frac = some b.1 ∧
            getNextFraction sampleExternals sampleConfiguration wm1
              = some (some b.1, w2)) :=
  ⟨⟨rfl, rfl, rfl, rfl⟩, sampleDataSet_wellFormed, by decide, by decide,
    null_signal_period sampleExternals sampleConfiguration { ds := sampleDataSet }
      ⟨rfl, rfl, rfl, rfl⟩ sampleDataSet_wellFormed (by decide)⟩

/-! ## The number of utterances taken from a file -/

theorem scaled_product_eq (n : Int) (q : ℚ) :
    (n : ℚ) * q = ((n * q.num : Int) : ℚ) / ((q.den : Nat) : ℚ) := by
  have h := Rat.num_div_den q
  have hd : ((q.den : Nat) : ℚ) ≠ 0 := by exact_mod_cast q.den_nz
  rw [eq_div_iff hd]
  push_cast
  have : q * (q.den : ℚ) = q.num := by
    nth_rewrite 1 [← h]
    field_simp
  rw [mul_assoc, this]

/-- The conversion cuts the exact product off towards zero: it is the floor of a product
that is not negative and the ceiling of a negative one. -/
theorem scaleNumSeqs_eq (nSeq : Int) (fraction : ℚ) :
    scaleNumSeqs nSeq fraction =
      if 0 ≤ (nSeq : ℚ) * fraction then ⌊(nSeq : ℚ) * fraction⌋
      else ⌈(nSeq : ℚ) * fraction⌉ := by
  unfold scaleNumSeqs
  rw [scaled_product_eq]
  have hd : (0 : ℚ) < ((fraction.den : Nat) : ℚ) := by exact_mod_cast fraction.den_pos
  have hdz : (0 : Int) < (fraction.den : Int) := by exact_mod_cast fraction.den_pos
  generalize nSeq * fraction.num = x
  by_cases hx : 0 ≤ x
  · have h1 : 0 ≤ ((x : Int) : ℚ) / ((fraction.den : Nat) : ℚ) :=
      div_nonneg (by exact_mod_cast hx) (le_of_lt hd)
    rw [if_pos h1, Rat.floor_intCast_div_natCast, Int.tdiv_eq_ediv hx (le_of_lt hdz)]
  · have h1 : ¬ 0 ≤ ((x : Int) : ℚ) / ((fraction.den : Nat) : ℚ) := by
      rw [not_le]
      exact div_neg_of_neg_of_pos (by exact_mod_cast (not_le.mp hx)) hd
    rw [if_neg h1]
    have e : ⌈((x : Int) : ℚ) / ((fraction.den : Nat) : ℚ)⌉
        = -⌊(((-x : Int)) : ℚ) / ((fraction.den : Nat) : ℚ)⌋ := by
      rw [← Int.ceil_neg]
      congr 1
      push_cast
      ring
    rw [e, Rat.floor_intCast_div_natCast]
    have hx' : 0 ≤ -x := by omega
    rw [← Int.tdiv_eq_ediv hx' (le_of_lt hdz), Int.neg_tdiv, neg_neg]

end Currennt
